import Mathlib

/-!
# Weaving engine of the Go auto-instrumentation tool

A shallow embedding of `tool/instrument` (trampoline-jump insertion in
`inst_func.go`, the optimisation pass in `optimize.go`, the generation of the
call-context methods and trampoline types in `trampoline.go`) together with
the syntax-tree primitives of `tool/ast` they rely on.

The Go code mutates a `dst` syntax tree in place.  Here the tree is an
inductive value, every mutating function returns the updated node, and a
Go panic (`util.Assert`, a failed type assertion, an index out of range,
`ex.Fatalf`) is the `Failure.fatal` outcome while an `error` return value is
`Failure.error`.
-/

set_option autoImplicit false

/-- Outcome of a call that does not complete normally. -/
inductive Failure where
  | fatal (msg : String)
  | error (msg : String)
deriving DecidableEq, Repr

/-- Result of a call: a value, a returned `error`, or a panic. -/
abbrev Res (α : Type) := Except Failure α

/-- A panic or `ex.Fatalf`. -/
def fatal {α : Type} (msg : String) : Res α := Except.error (Failure.fatal msg)

/-- A returned `error` value. -/
def failWith {α : Type} (msg : String) : Res α := Except.error (Failure.error msg)

/-- The check `util.Assert(cond, msg)`. -/
def util.Assert (cond : Bool) (msg : String) : Res Unit :=
  if cond then pure () else fatal ("Assertion failed: " ++ msg)

namespace dst

/-- Lexical tokens of `go/token` that the weaving engine produces or inspects. -/
inductive Token where
  | ILLEGAL | INT | STRING | AND | ASSIGN | DEFINE | NEQ | VAR | TYPE | IMPORT
  | other (text : String)
deriving DecidableEq, Repr

/-- Spacing decoration of a node. -/
inductive SpaceType where
  | None | NewLine | EmptyLine
deriving DecidableEq, Repr

/-- Comment decorations of a node (`Start`, `End`) and the spacing after it. -/
structure NodeDecs where
  Start : List String
  End : List String
  After : SpaceType
deriving DecidableEq, Repr

/-- Decorations of an if-statement: the node decorations and the `If` slot. -/
structure IfStmtDecorations where
  Node : NodeDecs
  If : List String
deriving DecidableEq, Repr

/-- An identifier. -/
structure Ident where
  Name : String
deriving DecidableEq, Repr

/-- A literal of basic type. -/
structure BasicLit where
  Kind : Token
  Value : String
deriving DecidableEq, Repr

mutual
/-- Expressions and type expressions. -/
inductive Expr where
  | Ident (id : Ident)
  | Ellipsis (elt : Option Expr)
  | BasicLit (lit : BasicLit)
  | FuncLit (typ : FuncType) (body : BlockStmt)
  | CompositeLit (typ : Option Expr) (elts : List Expr)
  | ParenExpr (x : Expr)
  | SelectorExpr (x : Expr) (sel : Ident)
  | IndexExpr (x : Expr) (index : Expr)
  | IndexListExpr (x : Expr) (indices : List Expr)
  | SliceExpr (x : Expr) (low : Option Expr) (high : Option Expr) (max : Option Expr)
  | TypeAssertExpr (x : Expr) (typ : Option Expr)
  | CallExpr (call : CallExpr)
  | StarExpr (x : Expr)
  | UnaryExpr (op : Token) (x : Expr)
  | BinaryExpr (x : Expr) (op : Token) (y : Expr)
  | KeyValueExpr (key : Expr) (value : Expr)
  | ArrayType (len : Option Expr) (elt : Expr)
  | StructType (fields : FieldList)
  | FuncType (ft : FuncType)
  | InterfaceType (methods : FieldList)
  | MapType (key : Expr) (value : Expr)
  | ChanType (dir : Nat) (value : Expr)
/-- A call `Fun(Args...)`. -/
inductive CallExpr where
  | mk (fn : Expr) (args : List Expr) (ellipsis : Bool)
/-- A field of a parameter, result or struct field list. -/
inductive Field where
  | mk (names : List Ident) (typ : Option Expr) (tag : Option BasicLit)
/-- A list of fields. -/
inductive FieldList where
  | mk (opening : Bool) (list : List Field) (closing : Bool)
/-- A function type; `Params` is never nil in a parsed tree. -/
inductive FuncType where
  | mk (func : Bool) (typeParams : Option FieldList) (params : FieldList)
      (results : Option FieldList)
/-- A braced statement list. -/
inductive BlockStmt where
  | mk (list : List Stmt) (decs : NodeDecs)
/-- An if-statement with optional init statement and optional else part. -/
inductive IfStmt where
  | mk (init : Option Stmt) (cond : Expr) (body : BlockStmt) (els : Option Stmt)
      (decs : IfStmtDecorations)
/-- Statements. -/
inductive Stmt where
  | DeclStmt (decl : GenDecl)
  | EmptyStmt (decs : NodeDecs)
  | LabeledStmt (label : Ident) (stmt : Stmt)
  | ExprStmt (x : Expr) (decs : NodeDecs)
  | SendStmt (chan : Expr) (value : Expr)
  | IncDecStmt (x : Expr) (tok : Token)
  | AssignStmt (lhs : List Expr) (tok : Token) (rhs : List Expr)
  | GoStmt (call : CallExpr)
  | DeferStmt (call : CallExpr) (decs : NodeDecs)
  | ReturnStmt (results : List Expr) (decs : NodeDecs)
  | BranchStmt (tok : Token) (label : Option Ident)
  | BlockStmt (block : BlockStmt)
  | IfStmt (stmt : IfStmt)
  | CaseClause (list : List Expr) (body : List Stmt)
  | SwitchStmt (init : Option Stmt) (tag : Option Expr) (body : BlockStmt)
  | TypeSwitchStmt (init : Option Stmt) (assign : Stmt) (body : BlockStmt)
  | CommClause (comm : Option Stmt) (body : List Stmt)
  | SelectStmt (body : BlockStmt)
  | ForStmt (init : Option Stmt) (cond : Option Expr) (post : Option Stmt)
      (body : BlockStmt)
  | RangeStmt (key : Option Expr) (value : Option Expr) (tok : Token) (x : Expr)
      (body : BlockStmt)
/-- A general declaration (`var`, `type`, `import`, `const`). -/
inductive GenDecl where
  | mk (tok : Token) (specs : List Spec)
/-- A single import, value or type specification. -/
inductive Spec where
  | ImportSpec (name : Option Ident) (path : BasicLit)
  | ValueSpec (names : List Ident) (typ : Option Expr) (values : List Expr)
  | TypeSpec (name : Ident) (typeParams : Option FieldList) (typ : Expr)
end

/-- A function declaration; `Recv` and `Body` may be nil. -/
structure FuncDecl where
  Recv : Option FieldList
  Name : Ident
  Typ : FuncType
  Body : Option BlockStmt

/-- The node kinds a visitor of `dst.Inspect` can be handed. -/
inductive Node where
  | expr (e : Expr)
  | stmt (s : Stmt)
  | field (f : Field)
  | fieldList (l : FieldList)
  | spec (s : Spec)
  | genDecl (d : GenDecl)
  | funcDecl (d : FuncDecl)

/-- Decorations of a freshly built node: no comments, no spacing. -/
def noDecs : NodeDecs := { Start := [], End := [], After := SpaceType.None }

/-- Decorations of a freshly built if-statement. -/
def noIfDecs : IfStmtDecorations := { Node := noDecs, If := [] }

/-- Names of a field. -/
def Field.Names : Field → List Ident
  | .mk names _ _ => names

/-- Type of a field. -/
def Field.Typ : Field → Option Expr
  | .mk _ t _ => t

/-- Fields of a field list. -/
def FieldList.List : FieldList → List Field
  | .mk _ l _ => l

/-- Type parameters of a function type, or nil. -/
def FuncType.TypeParams : FuncType → Option FieldList
  | .mk _ tp _ _ => tp

/-- Parameters of a function type. -/
def FuncType.Params : FuncType → FieldList
  | .mk _ _ p _ => p

/-- Results of a function type, or nil. -/
def FuncType.Results : FuncType → Option FieldList
  | .mk _ _ _ r => r

/-- Statements of a block. -/
def BlockStmt.List : BlockStmt → List Stmt
  | .mk l _ => l

/-- Decorations of a block. -/
def BlockStmt.Decs : BlockStmt → NodeDecs
  | .mk _ d => d

/-- Callee of a call. -/
def CallExpr.Fun : CallExpr → Expr
  | .mk f _ _ => f

/-- Arguments of a call. -/
def CallExpr.Args : CallExpr → List Expr
  | .mk _ a _ => a

/-- Init statement of an if-statement, or nil. -/
def IfStmt.Init : IfStmt → Option Stmt
  | .mk i _ _ _ _ => i

/-- Condition of an if-statement. -/
def IfStmt.Cond : IfStmt → Expr
  | .mk _ c _ _ _ => c

/-- Then-branch of an if-statement. -/
def IfStmt.Body : IfStmt → BlockStmt
  | .mk _ _ b _ _ => b

/-- Else part of an if-statement, or nil. -/
def IfStmt.Else : IfStmt → Option Stmt
  | .mk _ _ _ e _ => e

/-- Decorations of an if-statement. -/
def IfStmt.Decs : IfStmt → IfStmtDecorations
  | .mk _ _ _ _ d => d

/-- A top-level declaration. -/
inductive Decl where
  | GenDecl (d : GenDecl)
  | FuncDecl (d : FuncDecl)

/-- A source file: package name and declarations. -/
structure File where
  Name : Ident
  Decls : List Decl

/-- Visitor handed to `dst.Inspect`: it is called with a node, or with nil once
the children of a node it descended into have been walked, and answers whether
to descend.  The captured variables of the Go closure are the state. -/
abbrev Visitor (σ : Type) := Option Node → σ → Bool × σ

/-- Walk of a node without children. -/
def walkLeaf {σ : Type} (f : Visitor σ) (n : Node) (s : σ) : σ :=
  let r := f (some n) s
  if r.1 then (f none r.2).2 else r.2

/-- Walk of an identifier list (`walkIdentList`). -/
def walkIdentList {σ : Type} (f : Visitor σ) : List Ident → σ → σ
  | [], s => s
  | id :: ids, s => walkIdentList f ids (walkLeaf f (Node.expr (Expr.Ident id)) s)

/-- Walk of an optional identifier. -/
def walkIdentOpt {σ : Type} (f : Visitor σ) : Option Ident → σ → σ
  | none, s => s
  | some id, s => walkLeaf f (Node.expr (Expr.Ident id)) s

/-- Walk of an optional literal. -/
def walkLitOpt {σ : Type} (f : Visitor σ) : Option BasicLit → σ → σ
  | none, s => s
  | some b, s => walkLeaf f (Node.expr (Expr.BasicLit b)) s

/-- One visit: call the visitor on the node; if it asks to descend, walk the
children and call the visitor with nil. -/
def visit {σ : Type} (f : Visitor σ) (n : Node) (children : σ → σ) (s : σ) : σ :=
  let r := f (some n) s
  if r.1 then (f none (children r.2)).2 else r.2

set_option maxHeartbeats 1600000 in
mutual
/-- Depth-first walk of an expression (`dst.Walk`), children in field order. -/
def walkExpr {σ : Type} (f : Visitor σ) : Expr → σ → σ
  | .Ident i => visit f (Node.expr (.Ident i)) id
  | .Ellipsis elt => visit f (Node.expr (.Ellipsis elt)) (walkExprOpt f elt)
  | .BasicLit b => visit f (Node.expr (.BasicLit b)) id
  | .FuncLit t b => visit f (Node.expr (.FuncLit t b))
      (fun s => walkBlock f b (walkFuncType f t s))
  | .CompositeLit t elts => visit f (Node.expr (.CompositeLit t elts))
      (fun s => walkExprList f elts (walkExprOpt f t s))
  | .ParenExpr x => visit f (Node.expr (.ParenExpr x)) (walkExpr f x)
  | .SelectorExpr x sel => visit f (Node.expr (.SelectorExpr x sel))
      (fun s => walkLeaf f (Node.expr (Expr.Ident sel)) (walkExpr f x s))
  | .IndexExpr x i => visit f (Node.expr (.IndexExpr x i))
      (fun s => walkExpr f i (walkExpr f x s))
  | .IndexListExpr x is => visit f (Node.expr (.IndexListExpr x is))
      (fun s => walkExprList f is (walkExpr f x s))
  | .SliceExpr x lo hi mx => visit f (Node.expr (.SliceExpr x lo hi mx))
      (fun s => walkExprOpt f mx (walkExprOpt f hi (walkExprOpt f lo (walkExpr f x s))))
  | .TypeAssertExpr x t => visit f (Node.expr (.TypeAssertExpr x t))
      (fun s => walkExprOpt f t (walkExpr f x s))
  | .CallExpr c => walkCall f c
  | .StarExpr x => visit f (Node.expr (.StarExpr x)) (walkExpr f x)
  | .UnaryExpr op x => visit f (Node.expr (.UnaryExpr op x)) (walkExpr f x)
  | .BinaryExpr x op y => visit f (Node.expr (.BinaryExpr x op y))
      (fun s => walkExpr f y (walkExpr f x s))
  | .KeyValueExpr k v => visit f (Node.expr (.KeyValueExpr k v))
      (fun s => walkExpr f v (walkExpr f k s))
  | .ArrayType len elt => visit f (Node.expr (.ArrayType len elt))
      (fun s => walkExpr f elt (walkExprOpt f len s))
  | .StructType fields => visit f (Node.expr (.StructType fields)) (walkFieldList f fields)
  | .FuncType ft => walkFuncType f ft
  | .InterfaceType ms => visit f (Node.expr (.InterfaceType ms)) (walkFieldList f ms)
  | .MapType k v => visit f (Node.expr (.MapType k v))
      (fun s => walkExpr f v (walkExpr f k s))
  | .ChanType d v => visit f (Node.expr (.ChanType d v)) (walkExpr f v)
/-- Walk of an expression list (`walkExprList`). -/
def walkExprList {σ : Type} (f : Visitor σ) : List Expr → σ → σ
  | [], s => s
  | e :: es, s => walkExprList f es (walkExpr f e s)
/-- Walk of an expression that may be nil. -/
def walkExprOpt {σ : Type} (f : Visitor σ) : Option Expr → σ → σ
  | none, s => s
  | some e, s => walkExpr f e s
/-- Walk of a call expression node: callee, then arguments. -/
def walkCall {σ : Type} (f : Visitor σ) : CallExpr → σ → σ
  | .mk fn args ell => visit f (Node.expr (Expr.CallExpr (.mk fn args ell)))
      (fun s => walkExprList f args (walkExpr f fn s))
/-- Walk of a field: names, type, tag. -/
def walkField {σ : Type} (f : Visitor σ) : Field → σ → σ
  | .mk names t tag => visit f (Node.field (.mk names t tag))
      (fun s => walkLitOpt f tag (walkExprOpt f t (walkIdentList f names s)))
/-- Walk of the fields of a field list. -/
def walkFields {σ : Type} (f : Visitor σ) : List Field → σ → σ
  | [], s => s
  | x :: xs, s => walkFields f xs (walkField f x s)
/-- Walk of a field list node. -/
def walkFieldList {σ : Type} (f : Visitor σ) : FieldList → σ → σ
  | .mk o list c => visit f (Node.fieldList (.mk o list c)) (walkFields f list)
/-- Walk of a field list that may be nil. -/
def walkFieldListOpt {σ : Type} (f : Visitor σ) : Option FieldList → σ → σ
  | none, s => s
  | some l, s => walkFieldList f l s
/-- Walk of a function type node: type parameters, parameters, results. -/
def walkFuncType {σ : Type} (f : Visitor σ) : FuncType → σ → σ
  | .mk fn tp ps rs => visit f (Node.expr (Expr.FuncType (.mk fn tp ps rs)))
      (fun s => walkFieldListOpt f rs (walkFieldList f ps (walkFieldListOpt f tp s)))
/-- Walk of a block node: its statements. -/
def walkBlock {σ : Type} (f : Visitor σ) : BlockStmt → σ → σ
  | .mk list d => visit f (Node.stmt (Stmt.BlockStmt (.mk list d))) (walkStmtList f list)
/-- Walk of an if-statement node: init, condition, then-branch, else part. -/
def walkIf {σ : Type} (f : Visitor σ) : IfStmt → σ → σ
  | .mk init cond body els d => visit f (Node.stmt (Stmt.IfStmt (.mk init cond body els d)))
      (fun s => walkStmtOpt f els (walkBlock f body (walkExpr f cond (walkStmtOpt f init s))))
/-- Walk of a statement (`dst.Walk`), children in field order. -/
def walkStmt {σ : Type} (f : Visitor σ) : Stmt → σ → σ
  | .DeclStmt d => visit f (Node.stmt (.DeclStmt d)) (walkGenDecl f d)
  | .EmptyStmt d => visit f (Node.stmt (.EmptyStmt d)) id
  | .LabeledStmt l x => visit f (Node.stmt (.LabeledStmt l x))
      (fun s => walkStmt f x (walkLeaf f (Node.expr (Expr.Ident l)) s))
  | .ExprStmt x d => visit f (Node.stmt (.ExprStmt x d)) (walkExpr f x)
  | .SendStmt c v => visit f (Node.stmt (.SendStmt c v))
      (fun s => walkExpr f v (walkExpr f c s))
  | .IncDecStmt x t => visit f (Node.stmt (.IncDecStmt x t)) (walkExpr f x)
  | .AssignStmt lhs t rhs => visit f (Node.stmt (.AssignStmt lhs t rhs))
      (fun s => walkExprList f rhs (walkExprList f lhs s))
  | .GoStmt c => visit f (Node.stmt (.GoStmt c)) (walkCall f c)
  | .DeferStmt c d => visit f (Node.stmt (.DeferStmt c d)) (walkCall f c)
  | .ReturnStmt rs d => visit f (Node.stmt (.ReturnStmt rs d)) (walkExprList f rs)
  | .BranchStmt t l => visit f (Node.stmt (.BranchStmt t l)) (walkIdentOpt f l)
  | .BlockStmt b => walkBlock f b
  | .IfStmt i => walkIf f i
  | .CaseClause l b => visit f (Node.stmt (.CaseClause l b))
      (fun s => walkStmtList f b (walkExprList f l s))
  | .SwitchStmt i t b => visit f (Node.stmt (.SwitchStmt i t b))
      (fun s => walkBlock f b (walkExprOpt f t (walkStmtOpt f i s)))
  | .TypeSwitchStmt i a b => visit f (Node.stmt (.TypeSwitchStmt i a b))
      (fun s => walkBlock f b (walkStmt f a (walkStmtOpt f i s)))
  | .CommClause c b => visit f (Node.stmt (.CommClause c b))
      (fun s => walkStmtList f b (walkStmtOpt f c s))
  | .SelectStmt b => visit f (Node.stmt (.SelectStmt b)) (walkBlock f b)
  | .ForStmt i c p b => visit f (Node.stmt (.ForStmt i c p b))
      (fun s => walkBlock f b (walkStmtOpt f p (walkExprOpt f c (walkStmtOpt f i s))))
  | .RangeStmt k v t x b => visit f (Node.stmt (.RangeStmt k v t x b))
      (fun s => walkBlock f b (walkExpr f x (walkExprOpt f v (walkExprOpt f k s))))
/-- Walk of a statement list (`walkStmtList`). -/
def walkStmtList {σ : Type} (f : Visitor σ) : List Stmt → σ → σ
  | [], s => s
  | x :: xs, s => walkStmtList f xs (walkStmt f x s)
/-- Walk of a statement that may be nil. -/
def walkStmtOpt {σ : Type} (f : Visitor σ) : Option Stmt → σ → σ
  | none, s => s
  | some x, s => walkStmt f x s
/-- Walk of a general declaration node. -/
def walkGenDecl {σ : Type} (f : Visitor σ) : GenDecl → σ → σ
  | .mk t specs => visit f (Node.genDecl (.mk t specs)) (walkSpecs f specs)
/-- Walk of a specification list. -/
def walkSpecs {σ : Type} (f : Visitor σ) : List Spec → σ → σ
  | [], s => s
  | x :: xs, s => walkSpecs f xs (walkSpec f x s)
/-- Walk of a specification. -/
def walkSpec {σ : Type} (f : Visitor σ) : Spec → σ → σ
  | .ImportSpec n p => visit f (Node.spec (.ImportSpec n p))
      (fun s => walkLeaf f (Node.expr (Expr.BasicLit p)) (walkIdentOpt f n s))
  | .ValueSpec ns t vs => visit f (Node.spec (.ValueSpec ns t vs))
      (fun s => walkExprList f vs (walkExprOpt f t (walkIdentList f ns s)))
  | .TypeSpec n tp t => visit f (Node.spec (.TypeSpec n tp t))
      (fun s => walkExpr f t (walkFieldListOpt f tp (walkLeaf f (Node.expr (Expr.Ident n)) s)))
end

/-- Walk of a block that may be nil. -/
def walkBlockOpt {σ : Type} (f : Visitor σ) : Option BlockStmt → σ → σ
  | none, s => s
  | some b, s => walkBlock f b s

/-- Walk of a function declaration: receiver, name, type, body. -/
def walkFuncDecl {σ : Type} (f : Visitor σ) (d : FuncDecl) (s : σ) : σ :=
  visit f (Node.funcDecl d) (fun s1 => walkBlockOpt f d.Body (walkFuncType f d.Typ
    (walkLeaf f (Node.expr (Expr.Ident d.Name)) (walkFieldListOpt f d.Recv s1)))) s

end dst

/-! ## Syntax-tree primitives (`tool/ast/primitives.go`, `tool/ast/shared.go`)

`dst.Clone` yields an equal tree, so it is the identity on values. -/

namespace ast

/-- The blank identifier. -/
def IdentIgnore : String := "_"

/-- Text of the literal `false`. -/
def IdentFalse : String := "false"

/-- Text of the identifier `nil`. -/
def IdentNil : String := "nil"

/-- Node `Ident(name)`. -/
def Ident (name : String) : dst.Ident := { Name := name }

/-- Expression `&name`. -/
def AddressOf (name : String) : dst.Expr :=
  dst.Expr.UnaryExpr dst.Token.AND (dst.Expr.Ident (Ident name))

/-- Expression `nil`. -/
def Nil : dst.Expr := dst.Expr.Ident (Ident IdentNil)

/-- Names of all fields of a type-argument list, in order. -/
def typeArgIndices : List dst.Field → List dst.Expr
  | [] => []
  | f :: fs => f.Names.map (fun i => dst.Expr.Ident (Ident i.Name)) ++ typeArgIndices fs

/-- Call `name(args...)`, or `name[T1, ...](args...)` when type arguments are given. -/
def CallTo (name : String) (typeArgs : Option dst.FieldList) (args : List dst.Expr) :
    dst.CallExpr :=
  match typeArgs with
  | none => dst.CallExpr.mk (dst.Expr.Ident { Name := name }) args false
  | some l =>
    if l.List.length = 0 then dst.CallExpr.mk (dst.Expr.Ident { Name := name }) args false
    else
      match typeArgIndices l.List with
      | [i] => dst.CallExpr.mk (dst.Expr.IndexExpr (dst.Expr.Ident (Ident name)) i) args false
      | is => dst.CallExpr.mk (dst.Expr.IndexListExpr (dst.Expr.Ident (Ident name)) is) args false

/-- Block holding one statement. -/
def Block (stmt : dst.Stmt) : dst.BlockStmt := dst.BlockStmt.mk [stmt] dst.noDecs

/-- Block holding the given statements. -/
def BlockStmts (stmts : List dst.Stmt) : dst.BlockStmt := dst.BlockStmt.mk stmts dst.noDecs

/-- The expression list itself. -/
def Exprs (exprs : List dst.Expr) : List dst.Expr := exprs

/-- If-statement with init, condition, then-branch and else block. -/
def IfStmt (init : dst.Stmt) (cond : dst.Expr) (body elseBody : dst.BlockStmt) : dst.IfStmt :=
  dst.IfStmt.mk (some init) cond body (some (dst.Stmt.BlockStmt elseBody)) dst.noIfDecs

/-- The empty statement. -/
def EmptyStmt : dst.Stmt := dst.Stmt.EmptyStmt dst.noDecs

/-- Expression statement. -/
def ExprStmt (expr : dst.Expr) : dst.Stmt := dst.Stmt.ExprStmt expr dst.noDecs

/-- Statement `defer call`. -/
def DeferStmt (call : dst.CallExpr) : dst.Stmt := dst.Stmt.DeferStmt call dst.noDecs

/-- Statement `return results`. -/
def ReturnStmt (results : List dst.Expr) : dst.Stmt := dst.Stmt.ReturnStmt results dst.noDecs

/-- Short variable declaration `lhs := rhs`. -/
def DefineStmts (lhs rhs : List dst.Expr) : dst.Stmt :=
  dst.Stmt.AssignStmt lhs dst.Token.DEFINE rhs

/-- Literal `false` (a basic literal whose kind is left at its zero value). -/
def BoolFalse : dst.Expr :=
  dst.Expr.BasicLit { Kind := dst.Token.ILLEGAL, Value := IdentFalse }

/-- Type `interface{}`. -/
def InterfaceType : dst.Expr := dst.Expr.InterfaceType (dst.FieldList.mk true [] true)

/-- Type `[]elem`. -/
def ArrayType (elem : dst.Expr) : dst.Expr := dst.Expr.ArrayType none elem

/-- Element `key: value` of a composite literal. -/
def KeyValueExpr (key : String) (value : dst.Expr) : dst.Expr :=
  dst.Expr.KeyValueExpr (dst.Expr.Ident (Ident key)) value

/-- Composite literal `t{elts...}`. -/
def CompositeLit (t : dst.Expr) (elts : List dst.Expr) : dst.Expr :=
  dst.Expr.CompositeLit (some t) elts

/-- Expression `&typeName{fields...}`. -/
def StructLit (typeName : String) (fields : List dst.Expr) : dst.Expr :=
  dst.Expr.UnaryExpr dst.Token.AND (CompositeLit (dst.Expr.Ident (Ident typeName)) fields)

/-- Rename an identifier to the blank identifier. -/
def MakeUnusedIdent (_ident : dst.Ident) : dst.Ident := { Name := IdentIgnore }

/-- Whether the declaration has a receiver. -/
def HasReceiver (fn : dst.FuncDecl) : Bool :=
  match fn.Recv with
  | none => false
  | some l => decide (l.List.length > 0)

end ast

namespace util

/-- Modelled from the spec: the helper `util.AddressOf` of the older helper
package takes an expression; it is not among the sources and is taken to build
the address-of node that `ast.AddressOf` builds. -/
def AddressOf (e : dst.Expr) : dst.Expr := dst.Expr.UnaryExpr dst.Token.AND e

/-- Modelled from the spec: the two-argument `util.CallTo` of the older helper
package is not among the sources; it is the call without type arguments that
`ast.CallTo` builds. -/
def CallTo (name : String) (args : List dst.Expr) : dst.CallExpr := ast.CallTo name none args

/-- Modelled from the spec: `util.Ident` of the older helper package, taken to
be the identifier expression that `ast.Ident` builds. -/
def Ident (name : String) : dst.Expr := dst.Expr.Ident (ast.Ident name)

end util

/-! ## Rules and processor state -/

/-- Modelled from the spec: the rule type `InstFuncRule` is declared outside the
sources; its fields are those of the rule data model (import path, function
name, receiver pattern, hook names, raw-injection flag, order, rule path). -/
structure InstFuncRule where
  ImportPath : String
  Function : String
  ReceiverType : String
  OnEnter : String
  OnExit : String
  UseRaw : Bool
  Order : Int
  Path : String
deriving DecidableEq, Repr

/-- A trampoline-jump-if optimisation candidate.  The Go fields are pointers
into the tree; here they are the values at the time of registration. -/
structure TJump where
  target : dst.FuncDecl
  ifStmt : dst.IfStmt
  rule : InstFuncRule

/-- The part of the rule processor that function weaving reads and writes. -/
structure RuleProcessor where
  target : dst.File
  trampolineJumps : List TJump
  rule2Suffix : List (InstFuncRule × String)

/-- Anchor label of a trampoline-jump-if. -/
def TrampolineJumpIfDesc : String := "/* TRAMPOLINE_JUMP_IF */"

/-- Marker after which the line break is removed. -/
def TrampolineNoNewlinePlaceholder : String := "/* NO_NEWWLINE_PLACEHOLDER */"

/-- Marker replaced by a semicolon. -/
def TrampolineSemicolonPlaceholder : String := "/* SEMICOLON_PLACEHOLDER */"

/-- Name of the anchor label in the optimisation pass. -/
def TJumpLabel : String := TrampolineJumpIfDesc

/-- Substring whose presence in a hook disables flattening. -/
def trampolineSetSkipCallName : String := "SetSkipCall"

/-- Base name of the skip variable. -/
def trampolineSkipName : String := "skip"

/-- Base name of the call-context variable. -/
def trampolineCallContextName : String := "callContext"

/-- Base name of the generated call-context type. -/
def trampolineCallContextImplType : String := "CallContextImpl"

/-- Base name of the entry trampoline. -/
def trampolineOnEnterName : String := "OtelOnEnterTrampoline"

/-- Base name of the exit trampoline. -/
def trampolineOnExitName : String := "OtelOnExitTrampoline"

/-- Field of the call context holding the parameter slots. -/
def trampolineParamsIdentifier : String := "Params"

/-- Field of the call context holding the return-value slots. -/
def trampolineReturnValsIdentifier : String := "ReturnVals"

/-- Suffix recorded for a rule (`rp.rule2Suffix[r]`); the empty string if absent. -/
def RuleProcessor.suffixOf (rp : RuleProcessor) (r : InstFuncRule) : String :=
  match rp.rule2Suffix.find? (fun p => decide (p.1 = r)) with
  | some p => p.2
  | none => ""

/-- Name of the entry or exit trampoline of a rule:
`fmt.Sprintf("%s_%s%s", base, r.Function, rp.rule2Suffix[r])`. -/
def RuleProcessor.makeName (rp : RuleProcessor) (r : InstFuncRule) (onEnter : Bool) : String :=
  (if onEnter then trampolineOnEnterName else trampolineOnExitName)
    ++ "_" ++ r.Function ++ rp.suffixOf r

/-! ## Trampoline-jump insertion (`tool/instrument/inst_func.go`) -/

/-- Append a comment to the `Start` decorations. -/
def appendStart (c : String) (d : dst.NodeDecs) : dst.NodeDecs :=
  { d with Start := d.Start ++ [c] }

/-- Append a comment to the `End` decorations. -/
def appendEnd (c : String) (d : dst.NodeDecs) : dst.NodeDecs :=
  { d with End := d.End ++ [c] }

/-- Update the decorations of a statement (`stmt.Decorations()`), for the
statement kinds whose decorations are part of the tree model. -/
def decorate (g : dst.NodeDecs → dst.NodeDecs) : dst.Stmt → dst.Stmt
  | .EmptyStmt d => .EmptyStmt (g d)
  | .ExprStmt x d => .ExprStmt x (g d)
  | .DeferStmt c d => .DeferStmt c (g d)
  | .ReturnStmt r d => .ReturnStmt r (g d)
  | .BlockStmt (.mk l d) => .BlockStmt (.mk l (g d))
  | .IfStmt (.mk i c b e d) => .IfStmt (.mk i c b e { d with Node := g d.Node })
  | s => s

/-- The test `len(Decs.If) == 1 && Decs.If[0] == TrampolineJumpIfDesc`. -/
def hasAnchor (d : dst.IfStmtDecorations) : Bool :=
  decide (d.If.length = 1) && decide (d.If.head? = some TrampolineJumpIfDesc)

/-- Whether the if-statement carries exactly the anchor label. -/
def isAnchored (jumpIf : dst.IfStmt) : Bool := hasAnchor jumpIf.Decs

mutual
/-- The function `findJumpPoint`.  The Go function returns a pointer to the else
block into which the new trampoline-jump goes, or nil; the caller then mutates
that block.  Here the caller's mutation `upd` is applied to the block found and
the rebuilt if-statement is returned, `none` standing for nil. -/
def findJumpPoint (upd : dst.BlockStmt → dst.BlockStmt) : dst.IfStmt → Res (Option dst.IfStmt)
  | .mk init cond body els decs =>
    if hasAnchor decs then
      match els with
      | some (.BlockStmt (.mk list bdecs)) =>
        if list.length > 1 then
          match findJumpPointLast upd list with
          | .error e => .error e
          | .ok none => .ok none
          | .ok (some list') =>
            .ok (some (.mk init cond body (some (.BlockStmt (.mk list' bdecs))) decs))
        else
          .ok (some (.mk init cond body (some (.BlockStmt (upd (.mk list bdecs)))) decs))
      | _ => fatal "interface conversion: not a block statement"
    else .ok none
/-- The recursive call of `findJumpPoint` on the last statement of an else
block, which must be an if-statement. -/
def findJumpPointLast (upd : dst.BlockStmt → dst.BlockStmt) :
    List dst.Stmt → Res (Option (List dst.Stmt))
  | [] => fatal "index out of range"
  | s :: rest =>
    if rest.isEmpty then
      match s with
      | .IfStmt ifStmt =>
        match findJumpPoint upd ifStmt with
        | .error e => .error e
        | .ok none => .ok none
        | .ok (some ifStmt') => .ok (some [dst.Stmt.IfStmt ifStmt'])
      | _ => fatal "Assertion failed: unexpected statement in trampoline-jump-if"
    else
      match findJumpPointLast upd rest with
      | .error e => .error e
      | .ok none => .ok none
      | .ok (some l) => .ok (some (s :: l))
end

/-- The loop of `insertTJump` over the result fields: named results are
collected, an unnamed field is first given the name `retVal` followed by a
random string.  `rand k` is what the k-th call of `util.RandomString(5)` in
this invocation returns; the number of calls made so far is threaded. -/
def collectRetVals (rand : Nat → String) :
    List dst.Field → Nat → List dst.Field × List dst.Expr × Nat
  | [], k => ([], [], k)
  | (.mk names t tag) :: rest, k =>
    if names.isEmpty then
      let retValIdent : dst.Ident := { Name := "retVal" ++ rand k }
      let r := collectRetVals rand rest (k + 1)
      ((.mk [retValIdent] t tag) :: r.1, dst.Expr.Ident retValIdent :: r.2.1, r.2.2)
    else
      let r := collectRetVals rand rest k
      ((.mk names t tag) :: r.1, names.map (fun n => dst.Expr.Ident { Name := n.Name }) ++ r.2.1,
        r.2.2)

/-- Addresses of all declared parameter names, in declaration order. -/
def paramArgs : List dst.Field → List dst.Expr
  | [] => []
  | f :: fs => f.Names.map (fun n => util.AddressOf (util.Ident n.Name)) ++ paramArgs fs

/-- Receiver argument of the entry trampoline, if the target has a receiver:
`recv[0].Names[0].Name`, which panics when the receiver is unnamed. -/
def recvArgs (funcDecl : dst.FuncDecl) : Res (List dst.Expr) :=
  if ast.HasReceiver funcDecl then
    match funcDecl.Recv with
    | some (.mk _ (f0 :: _) _) =>
      match f0.Names with
      | n0 :: _ => pure [util.AddressOf (util.Ident n0.Name)]
      | [] => fatal "index out of range [0] with length 0"
    | _ => fatal "unimplemented"
  else pure []

/-- What `insertTJump` leaves behind when it returns: the rewritten target
declaration, the processor state and the returned error, if any. -/
structure InsertResult where
  funcDecl : dst.FuncDecl
  rp : RuleProcessor
  err : Option String

/-- The first part of `insertTJump`: the result list with every unnamed field
named, the return values, and the number of random strings drawn. -/
def nameReturnVals (rand : Nat → String) (funcDecl : dst.FuncDecl) :
    Option dst.FieldList × List dst.Expr × Nat :=
  match funcDecl.Typ.Results with
  | none => (none, [], 0)
  | some (.mk o l c) =>
    let r := collectRetVals rand l 0
    (some (.mk o r.1 c), r.2.1, r.2.2)

/-- The trampoline-jump-if that `insertTJump` generates, with the placeholder
decorations and the anchor label it attaches. -/
def buildTJump (enterName exitName varSuffix : String) (args retVals : List dst.Expr) :
    dst.IfStmt :=
  let onEnterCall := util.CallTo enterName args
  let onExitCall := util.CallTo exitName
    (util.Ident (trampolineCallContextName ++ varSuffix) :: retVals.map util.AddressOf)
  let tjumpInit := ast.DefineStmts
    (ast.Exprs [util.Ident (trampolineCallContextName ++ varSuffix),
                util.Ident (trampolineSkipName ++ varSuffix)])
    (ast.Exprs [dst.Expr.CallExpr onEnterCall])
  let tjumpCond := util.Ident (trampolineSkipName ++ varSuffix)
  let tjumpBody := ast.BlockStmts
    [decorate (fun d => appendEnd TrampolineSemicolonPlaceholder
        (appendStart TrampolineNoNewlinePlaceholder d))
        (ast.ExprStmt (dst.Expr.CallExpr onExitCall)),
     decorate (appendEnd TrampolineNoNewlinePlaceholder) (ast.ReturnStmt retVals)]
  let deferStmt := decorate (fun d => appendEnd TrampolineSemicolonPlaceholder
        (appendStart TrampolineNoNewlinePlaceholder d)) (ast.DeferStmt onExitCall)
  let tjumpElse : dst.BlockStmt :=
    dst.BlockStmt.mk [deferStmt] (appendEnd TrampolineNoNewlinePlaceholder dst.noDecs)
  dst.IfStmt.mk (some tjumpInit) tjumpCond tjumpBody (some (dst.Stmt.BlockStmt tjumpElse))
    { Node := dst.noDecs, If := [TrampolineJumpIfDesc] }

/-- The search of `insertTJump` for an existing trampoline-jump-if: when the
body starts with an if-statement in which `findJumpPoint` finds a jump point,
an empty statement and the new trampoline-jump are appended there and the new
body is returned; otherwise `none`. -/
def nestTJump (tjump : dst.IfStmt) : List dst.Stmt → Res (Option (List dst.Stmt))
  | dst.Stmt.IfStmt ifStmt :: rest =>
    match findJumpPoint
        (fun b => dst.BlockStmt.mk (b.List ++ [ast.EmptyStmt] ++ [dst.Stmt.IfStmt tjump]) b.Decs)
        ifStmt with
    | .error e => .error e
    | .ok none => pure none
    | .ok (some ifStmt') => pure (some (dst.Stmt.IfStmt ifStmt' :: rest))
  | _ => pure none

/-- The assignment `tjump.Decorations().After = dst.EmptyLine`. -/
def setAfterEmptyLine : dst.IfStmt → dst.IfStmt
  | .mk i c b e d => .mk i c b e { d with Node := { d.Node with After := dst.SpaceType.EmptyLine } }

/-- The function `insertTJump`.  `rand` supplies the random strings, and
`generateTrampoline`, which is not among the sources, is a parameter: it
updates the processor state and may return an error. -/
def insertTJump (rand : Nat → String)
    (generateTrampoline : InstFuncRule → dst.FuncDecl → RuleProcessor →
      RuleProcessor × Option String)
    (rp : RuleProcessor) (t : InstFuncRule) (funcDecl : dst.FuncDecl) : Res InsertResult := do
  util.Assert (t.OnEnter != "" || t.OnExit != "") "sanity check"
  -- Name the return values and collect them
  let named := nameReturnVals rand funcDecl
  let retVals := named.2.1
  let funcType : dst.FuncType :=
    match funcDecl.Typ with
    | .mk fn tp ps _ => .mk fn tp ps named.1
  -- Arguments for onEnter trampoline: receiver, then parameters
  let recv ← recvArgs funcDecl
  let args := recv ++ paramArgs funcDecl.Typ.Params.List
  let varSuffix := rand named.2.2
  let rp1 : RuleProcessor := { rp with rule2Suffix := (t, varSuffix) :: rp.rule2Suffix }
  -- Generate the trampoline-jump-if
  let tjump := buildTJump (rp1.makeName t true) (rp1.makeName t false) varSuffix args retVals
  -- Find if there is already a trampoline-jump-if, insert new tjump if so,
  -- otherwise prepend to block body
  let body ← match funcDecl.Body with
    | some b => pure b
    | none => fatal "invalid memory address or nil pointer dereference"
  let nested ← nestTJump tjump body.List
  let placed : dst.IfStmt × List dst.Stmt :=
    match nested with
    | some list => (tjump, list)
    | none => (setAfterEmptyLine tjump, dst.Stmt.IfStmt (setAfterEmptyLine tjump) :: body.List)
  let funcDecl' : dst.FuncDecl :=
    { funcDecl with Typ := funcType, Body := some (dst.BlockStmt.mk placed.2 body.Decs) }
  let rp2 : RuleProcessor :=
    { rp1 with trampolineJumps := rp1.trampolineJumps ++
        [{ target := funcDecl', ifStmt := placed.1, rule := t }] }
  -- Generate corresponding trampoline code
  let g := generateTrampoline t funcDecl' rp2
  pure { funcDecl := funcDecl', rp := g.1, err := g.2 }

/-- The assignment `decl.Body.List = append(snippet, decl.Body.List...)`. -/
def prependToBody (snippet : List dst.Stmt) (decl : dst.FuncDecl) : Res dst.FuncDecl :=
  match decl.Body with
  | some b => pure { decl with Body := some (dst.BlockStmt.mk (snippet ++ b.List) b.Decs) }
  | none => fatal "invalid memory address or nil pointer dereference"

/-- The function `insertRaw`.  The snippet parser `util.ParseAstFromSnippet` is
outside the sources and is a parameter. -/
def insertRaw (ParseAstFromSnippet : String → Res (List dst.Stmt))
    (r : InstFuncRule) (decl : dst.FuncDecl) : Res dst.FuncDecl := do
  util.Assert (r.OnEnter != "" || r.OnExit != "") "sanity check"
  let decl1 ← if r.OnEnter != "" then do
      let onEnterSnippet ← ParseAstFromSnippet r.OnEnter
      prependToBody onEnterSnippet decl
    else pure decl
  if r.OnExit != "" then do
    let onExitSnippet ← ParseAstFromSnippet ("defer func()\x7b " ++ r.OnExit ++ " \x7d()")
    prependToBody onExitSnippet decl1
  else pure decl1

/-- The function `sort.SliceStable` of the Go standard library, by its
insertion-sort core: each element in turn moves left past the elements it is
strictly less than.  `sorted` is the already sorted part in reverse order. -/
def insertStable {α : Type} (less : α → α → Bool) (x : α) : List α → List α
  | [] => [x]
  | y :: ys => if less x y then y :: insertStable less x ys else x :: y :: ys

/-- Stable sort of a list by a strict order `less` (`sort.SliceStable`). -/
def SliceStable {α : Type} (less : α → α → Bool) (l : List α) : List α :=
  (l.foldl (fun sorted x => insertStable less x sorted) []).reverse

/-- The function `sortFuncRules`. -/
def sortFuncRules (fnRules : List InstFuncRule) : List InstFuncRule :=
  SliceStable (fun a b => decide (a.Order < b.Order)) fnRules

/-! ## Optimisation pass (`tool/instrument/optimize.go`) -/

/-- The function `strings.Contains` on the characters of the strings. -/
def containsChars (sub : List Char) : List Char → Bool
  | [] => sub.isEmpty
  | c :: cs => sub.isPrefixOf (c :: cs) || containsChars sub cs

/-- The function `strings.Contains`. -/
def strings.Contains (s substr : String) : Bool := containsChars substr.data s.data

/-- The check `mustTJump`. -/
def mustTJump (ifStmt : dst.IfStmt) : Res Unit := do
  util.Assert (decide (ifStmt.Decs.If.length = 1)) "must be a trampoline-jump-if"
  match ifStmt.Decs.If with
  | desc :: _ => util.Assert (decide (desc = TJumpLabel)) "must be a trampoline-jump-if"
  | [] => fatal "index out of range [0] with length 0"

/-- The loop of `removeOnExitTrampolineCall` over the else block: the first
defer statement becomes an empty statement; if-statements before it are passed
over; any other statement met first is a fatal error. -/
def removeFirstDefer : List dst.Stmt → Res (List dst.Stmt)
  | [] => pure []
  | .DeferStmt _ _ :: rest => pure (ast.EmptyStmt :: rest)
  | .IfStmt i :: rest =>
    match removeFirstDefer rest with
    | .ok r => pure (.IfStmt i :: r)
    | .error e => .error e
  | _ :: _ => fatal "Should not reach here!"

/-- The function `removeOnExitTrampolineCall`, on the if-statement of the
trampoline-jump. -/
def removeOnExitTrampolineCall (tjump : TJump) : Res TJump :=
  match tjump.ifStmt with
  | .mk init cond body (some (.BlockStmt (.mk list bdecs))) decs =>
    match removeFirstDefer list with
    | .ok list' =>
      pure { tjump with ifStmt := .mk init cond body (some (.BlockStmt (.mk list' bdecs))) decs }
    | .error e => .error e
  | _ => fatal "interface conversion: not a block statement"

/-- The function `getNames`. -/
def getNames (list : dst.FieldList) : List String :=
  list.List.flatMap (fun field => field.Names.map (fun name => name.Name))

/-- Bits of one byte folded into a running CRC-32 (reflected polynomial
`0xEDB88320`). -/
def crc32Byte (crc : Nat) (b : Nat) : Nat :=
  (List.range 8).foldl
    (fun c _ => if c % 2 = 1 then Nat.xor (c / 2) 0xEDB88320 else c / 2)
    (Nat.xor crc b)

/-- The function `crc32.ChecksumIEEE` of the Go standard library. -/
def ChecksumIEEE (bytes : List Nat) : Nat :=
  Nat.xor (bytes.foldl crc32Byte 0xFFFFFFFF) 0xFFFFFFFF

/-- The function `util.Crc32`: the IEEE checksum of the bytes of the string,
in decimal. -/
def util.Crc32 (s : String) : String :=
  toString (ChecksumIEEE (s.data.flatMap (fun c => (String.utf8EncodeChar c).map UInt8.toNat)))

/-- Helpers of the optimisation pass that lie outside the sources and are taken
as parameters: the string form of a rule, `createHookArgs`, the three-argument
`makeName`, and the hook lookup `getHookFunc`, which reads the rule's files. -/
structure Helpers where
  ruleString : InstFuncRule → String
  createHookArgs : List String → List dst.Expr
  makeName : InstFuncRule → dst.FuncDecl → Bool → String
  getHookFunc : InstFuncRule → Bool → Res dst.FuncDecl

/-- The function `newCallContextImpl`. -/
def newCallContextImpl (h : Helpers) (tjump : TJump) : dst.Expr :=
  let targetFunc := tjump.target
  let structName := trampolineCallContextImplType ++ util.Crc32 (h.ruleString tjump.rule)
  let paramNames := getNames targetFunc.Typ.Params
  let paramExprs := h.createHookArgs paramNames
  let paramsSlice := ast.CompositeLit (ast.ArrayType ast.InterfaceType) paramExprs
  let returnExprs : List dst.Expr :=
    match targetFunc.Typ.Results with
    | some results => h.createHookArgs (getNames results)
    | none => []
  let returnValsSlice := ast.CompositeLit (ast.ArrayType ast.InterfaceType) returnExprs
  ast.StructLit structName
    [ast.KeyValueExpr trampolineParamsIdentifier paramsSlice,
     ast.KeyValueExpr trampolineReturnValsIdentifier returnValsSlice]

/-- The loop of `removeOnEnterTrampolineCall` over the else block: the first
argument of the first defer statement is replaced by the context literal.
`none` is returned when there is no defer statement. -/
def replaceCallContext (callContextExpr : dst.Expr) :
    List dst.Stmt → Res (Option (List dst.Stmt))
  | [] => pure none
  | .DeferStmt (.mk fn args ell) d :: rest =>
    match args with
    | _ :: args' => pure (some (.DeferStmt (.mk fn (callContextExpr :: args') ell) d :: rest))
    | [] => fatal "Assertion failed: must have at least one argument"
  | s :: rest =>
    match replaceCallContext callContextExpr rest with
    | .ok (some r) => pure (some (s :: r))
    | .ok none => pure none
    | .error e => .error e

/-- Modelled from the spec: `removeDeclWhen` is not among the sources; it
removes the first declaration of the target file that satisfies the predicate
and returns it, or returns nil when no declaration does. -/
def removeDeclWhen (pred : dst.Decl → Bool) : List dst.Decl → Option (dst.Decl × List dst.Decl)
  | [] => none
  | d :: ds =>
    if pred d then some (d, ds)
    else match removeDeclWhen pred ds with
      | some (r, ds') => some (r, d :: ds')
      | none => none

/-- The predicate `removeOnEnterTrampolineCall` hands to `removeDeclWhen`: a
function declaration with the given name. -/
def isFuncDeclNamed (name : String) : dst.Decl → Bool
  | .FuncDecl funcDecl => funcDecl.Name.Name == name
  | _ => false

/-- The function `removeOnEnterTrampolineCall`. -/
def removeOnEnterTrampolineCall (h : Helpers) (rp : RuleProcessor) (tjump : TJump) :
    Res (RuleProcessor × TJump) :=
  let callContextExpr := newCallContextImpl h tjump
  match tjump.ifStmt with
  | .mk _ _ _ (some (.BlockStmt (.mk list bdecs))) decs =>
    match replaceCallContext callContextExpr list with
    | .error e => .error e
    | .ok none => fatal "Assertion failed: defer statement not found"
    | .ok (some list') =>
      let ifStmt := dst.IfStmt.mk none ast.BoolFalse (ast.Block ast.EmptyStmt)
        (some (.BlockStmt (.mk list' bdecs))) decs
      match removeDeclWhen (isFuncDeclNamed (h.makeName tjump.rule tjump.target true))
          rp.target.Decls with
      | none => failWith "onEnter trampoline not found"
      | some (_, decls) =>
        pure ({ rp with target := { rp.target with Decls := decls } },
              { tjump with ifStmt := ifStmt })
  | _ => fatal "interface conversion: not a block statement"

/-- First visitor of `canFlattenTJump`; the state is the variable `found`. -/
def skipCallVisitor : dst.Visitor Bool
  | some (.expr (.Ident ident)), found =>
    if strings.Contains ident.Name trampolineSetSkipCallName then (false, true)
    else if found then (false, found) else (true, found)
  | _, found => if found then (false, found) else (true, found)

/-- Second visitor of `canFlattenTJump`; the state is the variable `escape`. -/
def escapeVisitor (hookContextParam : String) : dst.Visitor Bool
  | n, escape =>
    if escape then (false, escape)
    else match n with
      | some (.expr (.SelectorExpr (.Ident id) _)) =>
        if id.Name == hookContextParam then (false, escape) else (true, escape)
      | some (.expr (.Ident n)) =>
        if n.Name == hookContextParam then (false, true) else (true, escape)
      | _ => (true, escape)

/-- The expression `hookFunc.Type.Params.List[0].Names[0].Name`. -/
def firstParamName (hookFunc : dst.FuncDecl) : Res String :=
  match hookFunc.Typ.Params.List with
  | [] => fatal "index out of range [0] with length 0"
  | f :: _ =>
    match f.Names with
    | [] => fatal "index out of range [0] with length 0"
    | n :: _ => pure n.Name

/-- The function `canFlattenTJump`. -/
def canFlattenTJump (hookFunc : dst.FuncDecl) : Res Bool :=
  let found := dst.walkFuncDecl skipCallVisitor hookFunc false
  if found then pure false
  else
    match firstParamName hookFunc with
    | .error e => .error e
    | .ok hookContextParam =>
      if hookContextParam == ast.IdentIgnore then pure true
      else
        match hookFunc.Body with
        | none => fatal "invalid memory address or nil pointer dereference"
        | some body =>
          let escape := dst.walkBlock (escapeVisitor hookContextParam) body false
          pure (!escape)

/-- The function `flattenTJump`. -/
def flattenTJump (tjump : TJump) (removedOnExit : Bool) : Res TJump :=
  match tjump.ifStmt with
  | .mk (some (.AssignStmt lhs tok rhs)) _ _ els decs =>
    match lhs with
    | [l0, l1] =>
      if removedOnExit then
        match rhs with
        | r0 :: _ =>
          let ifStmt := dst.IfStmt.mk (some (ast.ExprStmt r0)) ast.BoolFalse
            (ast.Block ast.EmptyStmt) els decs
          pure { tjump with ifStmt := ifStmt }
        | [] => fatal "index out of range [0] with length 0"
      else
        match l1 with
        | .Ident skipCallIdent =>
          let ifStmt := dst.IfStmt.mk
            (some (.AssignStmt [l0, .Ident (ast.MakeUnusedIdent skipCallIdent)] tok rhs))
            ast.BoolFalse (ast.Block ast.EmptyStmt) els decs
          pure { tjump with ifStmt := ifStmt }
        | _ => fatal "Type assertion failed"
    | _ => fatal "Assertion failed: must have two lhs"
  | _ => fatal "Type assertion failed"

/-- The function `stripTJumpLabel`. -/
def stripTJumpLabel (tjump : TJump) : TJump :=
  match tjump.ifStmt with
  | .mk init cond body els decs =>
    { tjump with ifStmt := .mk init cond body els { decs with If := [] } }

/-- One iteration of the loop of `optimizeTJumps`, for one trampoline-jump. -/
def optimizeTJump (h : Helpers) (rp : RuleProcessor) (tjump : TJump) :
    Res (RuleProcessor × TJump) := do
  mustTJump tjump.ifStmt
  let tjump := stripTJumpLabel tjump
  let rule := tjump.rule
  -- No onExit hook present? Simply remove defer call to onExit trampoline.
  let (tjump, removedOnExit) ←
    if rule.OnExit == "" then do
      let t ← removeOnExitTrampolineCall tjump
      pure (t, true)
    else pure (tjump, false)
  -- No onEnter hook present?
  let (rp, tjump) ←
    if rule.OnEnter == "" then removeOnEnterTrampolineCall h rp tjump
    else pure (rp, tjump)
  -- No SkipCall used in onEnter hook?
  if rule.OnEnter != "" then do
    let hookFunc ← h.getHookFunc tjump.rule true
    if ← canFlattenTJump hookFunc then
      let t ← flattenTJump tjump removedOnExit
      pure (rp, t)
    else pure (rp, tjump)
  else pure (rp, tjump)

/-! ## Sub-nodes of a tree

`reach prune x` lists, in walk order, the nodes of the tree `x` that can be
reached from its root without passing below a node that satisfies `prune`.
With `prune` constantly false it lists every node of the tree.  These lists
state what a walk may meet; they do not mention visitors or their state. -/

namespace dst

/-- A node followed by its reachable descendants, unless the node is pruned. -/
def reachNode (prune : Node → Bool) (n : Node) (children : List Node) : List Node :=
  n :: (if prune n then [] else children)

/-- Reachable nodes of an identifier list. -/
def reachIdentList (prune : Node → Bool) : List Ident → List Node
  | [] => []
  | i :: is => reachNode prune (Node.expr (Expr.Ident i)) [] ++ reachIdentList prune is

/-- Reachable nodes of an optional identifier. -/
def reachIdentOpt (prune : Node → Bool) : Option Ident → List Node
  | none => []
  | some i => reachNode prune (Node.expr (Expr.Ident i)) []

/-- Reachable nodes of an optional literal. -/
def reachLitOpt (prune : Node → Bool) : Option BasicLit → List Node
  | none => []
  | some b => reachNode prune (Node.expr (Expr.BasicLit b)) []

mutual
/-- Reachable nodes of an expression. -/
def reachExpr (prune : Node → Bool) : Expr → List Node
  | .Ident i => reachNode prune (Node.expr (.Ident i)) []
  | .Ellipsis elt => reachNode prune (Node.expr (.Ellipsis elt)) (reachExprOpt prune elt)
  | .BasicLit b => reachNode prune (Node.expr (.BasicLit b)) []
  | .FuncLit t b => reachNode prune (Node.expr (.FuncLit t b))
      (reachFuncType prune t ++ reachBlock prune b)
  | .CompositeLit t elts => reachNode prune (Node.expr (.CompositeLit t elts))
      (reachExprOpt prune t ++ reachExprList prune elts)
  | .ParenExpr x => reachNode prune (Node.expr (.ParenExpr x)) (reachExpr prune x)
  | .SelectorExpr x sel => reachNode prune (Node.expr (.SelectorExpr x sel))
      (reachExpr prune x ++ reachNode prune (Node.expr (Expr.Ident sel)) [])
  | .IndexExpr x i => reachNode prune (Node.expr (.IndexExpr x i))
      (reachExpr prune x ++ reachExpr prune i)
  | .IndexListExpr x is => reachNode prune (Node.expr (.IndexListExpr x is))
      (reachExpr prune x ++ reachExprList prune is)
  | .SliceExpr x lo hi mx => reachNode prune (Node.expr (.SliceExpr x lo hi mx))
      (reachExpr prune x ++ reachExprOpt prune lo ++ reachExprOpt prune hi
        ++ reachExprOpt prune mx)
  | .TypeAssertExpr x t => reachNode prune (Node.expr (.TypeAssertExpr x t))
      (reachExpr prune x ++ reachExprOpt prune t)
  | .CallExpr c => reachCall prune c
  | .StarExpr x => reachNode prune (Node.expr (.StarExpr x)) (reachExpr prune x)
  | .UnaryExpr op x => reachNode prune (Node.expr (.UnaryExpr op x)) (reachExpr prune x)
  | .BinaryExpr x op y => reachNode prune (Node.expr (.BinaryExpr x op y))
      (reachExpr prune x ++ reachExpr prune y)
  | .KeyValueExpr k v => reachNode prune (Node.expr (.KeyValueExpr k v))
      (reachExpr prune k ++ reachExpr prune v)
  | .ArrayType len elt => reachNode prune (Node.expr (.ArrayType len elt))
      (reachExprOpt prune len ++ reachExpr prune elt)
  | .StructType fields => reachNode prune (Node.expr (.StructType fields))
      (reachFieldList prune fields)
  | .FuncType ft => reachFuncType prune ft
  | .InterfaceType ms => reachNode prune (Node.expr (.InterfaceType ms))
      (reachFieldList prune ms)
  | .MapType k v => reachNode prune (Node.expr (.MapType k v))
      (reachExpr prune k ++ reachExpr prune v)
  | .ChanType d v => reachNode prune (Node.expr (.ChanType d v)) (reachExpr prune v)
/-- Reachable nodes of an expression list. -/
def reachExprList (prune : Node → Bool) : List Expr → List Node
  | [] => []
  | e :: es => reachExpr prune e ++ reachExprList prune es
/-- Reachable nodes of an optional expression. -/
def reachExprOpt (prune : Node → Bool) : Option Expr → List Node
  | none => []
  | some e => reachExpr prune e
/-- Reachable nodes of a call. -/
def reachCall (prune : Node → Bool) : CallExpr → List Node
  | .mk fn args ell => reachNode prune (Node.expr (Expr.CallExpr (.mk fn args ell)))
      (reachExpr prune fn ++ reachExprList prune args)
/-- Reachable nodes of a field. -/
def reachField (prune : Node → Bool) : Field → List Node
  | .mk names t tag => reachNode prune (Node.field (.mk names t tag))
      (reachIdentList prune names ++ reachExprOpt prune t ++ reachLitOpt prune tag)
/-- Reachable nodes of the fields of a field list. -/
def reachFields (prune : Node → Bool) : List Field → List Node
  | [] => []
  | x :: xs => reachField prune x ++ reachFields prune xs
/-- Reachable nodes of a field list. -/
def reachFieldList (prune : Node → Bool) : FieldList → List Node
  | .mk o list c => reachNode prune (Node.fieldList (.mk o list c)) (reachFields prune list)
/-- Reachable nodes of an optional field list. -/
def reachFieldListOpt (prune : Node → Bool) : Option FieldList → List Node
  | none => []
  | some l => reachFieldList prune l
/-- Reachable nodes of a function type. -/
def reachFuncType (prune : Node → Bool) : FuncType → List Node
  | .mk fn tp ps rs => reachNode prune (Node.expr (Expr.FuncType (.mk fn tp ps rs)))
      (reachFieldListOpt prune tp ++ reachFieldList prune ps ++ reachFieldListOpt prune rs)
/-- Reachable nodes of a block. -/
def reachBlock (prune : Node → Bool) : BlockStmt → List Node
  | .mk list d => reachNode prune (Node.stmt (Stmt.BlockStmt (.mk list d)))
      (reachStmtList prune list)
/-- Reachable nodes of an if-statement. -/
def reachIf (prune : Node → Bool) : IfStmt → List Node
  | .mk init cond body els d => reachNode prune (Node.stmt (Stmt.IfStmt (.mk init cond body els d)))
      (reachStmtOpt prune init ++ reachExpr prune cond ++ reachBlock prune body
        ++ reachStmtOpt prune els)
/-- Reachable nodes of a statement. -/
def reachStmt (prune : Node → Bool) : Stmt → List Node
  | .DeclStmt d => reachNode prune (Node.stmt (.DeclStmt d)) (reachGenDecl prune d)
  | .EmptyStmt d => reachNode prune (Node.stmt (.EmptyStmt d)) []
  | .LabeledStmt l x => reachNode prune (Node.stmt (.LabeledStmt l x))
      (reachNode prune (Node.expr (Expr.Ident l)) [] ++ reachStmt prune x)
  | .ExprStmt x d => reachNode prune (Node.stmt (.ExprStmt x d)) (reachExpr prune x)
  | .SendStmt c v => reachNode prune (Node.stmt (.SendStmt c v))
      (reachExpr prune c ++ reachExpr prune v)
  | .IncDecStmt x t => reachNode prune (Node.stmt (.IncDecStmt x t)) (reachExpr prune x)
  | .AssignStmt lhs t rhs => reachNode prune (Node.stmt (.AssignStmt lhs t rhs))
      (reachExprList prune lhs ++ reachExprList prune rhs)
  | .GoStmt c => reachNode prune (Node.stmt (.GoStmt c)) (reachCall prune c)
  | .DeferStmt c d => reachNode prune (Node.stmt (.DeferStmt c d)) (reachCall prune c)
  | .ReturnStmt rs d => reachNode prune (Node.stmt (.ReturnStmt rs d)) (reachExprList prune rs)
  | .BranchStmt t l => reachNode prune (Node.stmt (.BranchStmt t l)) (reachIdentOpt prune l)
  | .BlockStmt b => reachBlock prune b
  | .IfStmt i => reachIf prune i
  | .CaseClause l b => reachNode prune (Node.stmt (.CaseClause l b))
      (reachExprList prune l ++ reachStmtList prune b)
  | .SwitchStmt i t b => reachNode prune (Node.stmt (.SwitchStmt i t b))
      (reachStmtOpt prune i ++ reachExprOpt prune t ++ reachBlock prune b)
  | .TypeSwitchStmt i a b => reachNode prune (Node.stmt (.TypeSwitchStmt i a b))
      (reachStmtOpt prune i ++ reachStmt prune a ++ reachBlock prune b)
  | .CommClause c b => reachNode prune (Node.stmt (.CommClause c b))
      (reachStmtOpt prune c ++ reachStmtList prune b)
  | .SelectStmt b => reachNode prune (Node.stmt (.SelectStmt b)) (reachBlock prune b)
  | .ForStmt i c p b => reachNode prune (Node.stmt (.ForStmt i c p b))
      (reachStmtOpt prune i ++ reachExprOpt prune c ++ reachStmtOpt prune p
        ++ reachBlock prune b)
  | .RangeStmt k v t x b => reachNode prune (Node.stmt (.RangeStmt k v t x b))
      (reachExprOpt prune k ++ reachExprOpt prune v ++ reachExpr prune x
        ++ reachBlock prune b)
/-- Reachable nodes of a statement list. -/
def reachStmtList (prune : Node → Bool) : List Stmt → List Node
  | [] => []
  | x :: xs => reachStmt prune x ++ reachStmtList prune xs
/-- Reachable nodes of an optional statement. -/
def reachStmtOpt (prune : Node → Bool) : Option Stmt → List Node
  | none => []
  | some x => reachStmt prune x
/-- Reachable nodes of a general declaration. -/
def reachGenDecl (prune : Node → Bool) : GenDecl → List Node
  | .mk t specs => reachNode prune (Node.genDecl (.mk t specs)) (reachSpecs prune specs)
/-- Reachable nodes of a specification list. -/
def reachSpecs (prune : Node → Bool) : List Spec → List Node
  | [] => []
  | x :: xs => reachSpec prune x ++ reachSpecs prune xs
/-- Reachable nodes of a specification. -/
def reachSpec (prune : Node → Bool) : Spec → List Node
  | .ImportSpec n p => reachNode prune (Node.spec (.ImportSpec n p))
      (reachIdentOpt prune n ++ reachNode prune (Node.expr (Expr.BasicLit p)) [])
  | .ValueSpec ns t vs => reachNode prune (Node.spec (.ValueSpec ns t vs))
      (reachIdentList prune ns ++ reachExprOpt prune t ++ reachExprList prune vs)
  | .TypeSpec n tp t => reachNode prune (Node.spec (.TypeSpec n tp t))
      (reachNode prune (Node.expr (Expr.Ident n)) [] ++ reachFieldListOpt prune tp
        ++ reachExpr prune t)
end

/-- Reachable nodes of an optional block. -/
def reachBlockOpt (prune : Node → Bool) : Option BlockStmt → List Node
  | none => []
  | some b => reachBlock prune b

/-- Reachable nodes of a function declaration: the declaration itself, its
receiver, name, type and body. -/
def reachFuncDecl (prune : Node → Bool) (d : FuncDecl) : List Node :=
  reachNode prune (Node.funcDecl d)
    (reachFieldListOpt prune d.Recv ++ reachNode prune (Node.expr (Expr.Ident d.Name)) []
      ++ reachFuncType prune d.Typ ++ reachBlockOpt prune d.Body)

/-- Every node of a function declaration. -/
def allNodes (d : FuncDecl) : List Node := reachFuncDecl (fun _ => false) d

/-- Whether a node is an identifier with the given name. -/
def Node.isIdentNamed (name : String) : Node → Bool
  | .expr (.Ident i) => i.Name == name
  | _ => false

/-- Whether a node is an identifier whose name satisfies the test. -/
def Node.isIdentWith (p : String → Bool) : Node → Bool
  | .expr (.Ident i) => p i.Name
  | _ => false

/-- Whether a node is a selector expression `name.Sel` on the given identifier. -/
def Node.isSelectorOn (name : String) : Node → Bool
  | .expr (.SelectorExpr (.Ident i) _) => i.Name == name
  | _ => false

end dst

/-- The loop of `applyFuncRules` over the sorted rules of one matched function:
each rule is woven by `insertRaw` or `insertTJump`, and the first returned
error ends the loop (weaving of the file is then abandoned; after a failed
`insertRaw` the declaration is reported as it was before that call).
`rands i` supplies the random strings of the i-th iteration. -/
def applyRulesLoop (rands : Nat → Nat → String)
    (generateTrampoline : InstFuncRule → dst.FuncDecl → RuleProcessor →
      RuleProcessor × Option String)
    (ParseAstFromSnippet : String → Res (List dst.Stmt)) :
    List InstFuncRule → Nat → RuleProcessor → dst.FuncDecl → Res InsertResult
  | [], _, rp, fnDecl => pure { funcDecl := fnDecl, rp := rp, err := none }
  | rule :: rest, i, rp, fnDecl =>
    if rule.UseRaw then
      match insertRaw ParseAstFromSnippet rule fnDecl with
      | .ok d => applyRulesLoop rands generateTrampoline ParseAstFromSnippet rest (i + 1) rp d
      | .error (Failure.error msg) => pure { funcDecl := fnDecl, rp := rp, err := some msg }
      | .error (Failure.fatal msg) => fatal msg
    else
      match insertTJump (rands i) generateTrampoline rp rule fnDecl with
      | .ok r =>
        if r.err.isSome then pure r
        else applyRulesLoop rands generateTrampoline ParseAstFromSnippet rest (i + 1)
          r.rp r.funcDecl
      | .error e => .error e

/-! ## Operational model of the generated statements

A small evaluator for the statement forms the weaver generates: if with init,
call, defer, return, empty statement and block.  It records what a run can
observe of them: the calls made, the deferred calls registered, the return
reached and, as single events, the statements outside these forms.  Variables
bound by an if-statement's init are visible in its condition and branches
only.  `skip c` is the skip flag the call `c` of an entry trampoline returns. -/

/-- Values of the evaluator. -/
inductive Value where
  | ctx (enter : dst.CallExpr)
  | bool (b : Bool)
  | sym (e : dst.Expr)

/-- Observable events. -/
inductive Event where
  | call (fn : dst.Expr) (args : List Value)
  | deferred (fn : dst.Expr) (args : List Value)
  | ret (results : List Value)
  | stmt (s : dst.Stmt)

/-- Execution state: variable bindings, events so far, whether a return was
reached. -/
structure Exec where
  env : List (String × Value)
  trace : List Event
  returned : Bool

/-- Value of a variable, if bound. -/
def lookupVar (name : String) : List (String × Value) → Option Value
  | [] => none
  | (n, v) :: rest => if n == name then some v else lookupVar name rest

/-- Value of an expression: a bound variable, a boolean literal, or the
expression itself. -/
def evalExpr (env : List (String × Value)) : dst.Expr → Value
  | .Ident i =>
    match lookupVar i.Name env with
    | some v => v
    | none => Value.sym (.Ident i)
  | .BasicLit b =>
    if b.Value == "true" then Value.bool true
    else if b.Value == "false" then Value.bool false
    else Value.sym (.BasicLit b)
  | e => Value.sym e

/-- Bind a variable unless it is the blank identifier. -/
def bindVar (name : String) (v : Value) (env : List (String × Value)) :
    List (String × Value) :=
  if name == ast.IdentIgnore then env else (name, v) :: env

/-- Record an event. -/
def Exec.emit (st : Exec) (e : Event) : Exec := { st with trace := st.trace ++ [e] }

mutual
/-- Execution of one statement. -/
def execStmt (skip : dst.CallExpr → Bool) : dst.Stmt → Exec → Exec
  | .EmptyStmt _, st => st
  | .ExprStmt (.CallExpr (.mk fn args _)) _, st =>
    st.emit (Event.call fn (args.map (evalExpr st.env)))
  | .AssignStmt [.Ident a, .Ident b] .DEFINE [.CallExpr (.mk fn args ell)], st =>
    let st1 := st.emit (Event.call fn (args.map (evalExpr st.env)))
    let env1 := bindVar a.Name (Value.ctx (.mk fn args ell)) st1.env
    let env2 := bindVar b.Name (Value.bool (skip (.mk fn args ell))) env1
    { st1 with env := env2 }
  | .DeferStmt (.mk fn args _) _, st =>
    st.emit (Event.deferred fn (args.map (evalExpr st.env)))
  | .ReturnStmt rs _, st =>
    { st.emit (Event.ret (rs.map (evalExpr st.env))) with returned := true }
  | .BlockStmt b, st => execBlock skip b st
  | .IfStmt i, st => execIf skip i st
  | s, st => st.emit (Event.stmt s)
/-- Execution of a statement list; it stops at a return. -/
def execList (skip : dst.CallExpr → Bool) : List dst.Stmt → Exec → Exec
  | [], st => st
  | s :: rest, st =>
    if (execStmt skip s st).returned then execStmt skip s st
    else execList skip rest (execStmt skip s st)
/-- Execution of a block in its own scope. -/
def execBlock (skip : dst.CallExpr → Bool) : dst.BlockStmt → Exec → Exec
  | .mk list _, st => { execList skip list st with env := st.env }
/-- Execution of an optional statement. -/
def execStmtOpt (skip : dst.CallExpr → Bool) : Option dst.Stmt → Exec → Exec
  | none, st => st
  | some s, st => execStmt skip s st
/-- Execution of an if-statement: init, then the branch the condition selects;
an if-statement whose condition has no boolean value is a single event. -/
def execIf (skip : dst.CallExpr → Bool) : dst.IfStmt → Exec → Exec
  | .mk init cond body els d, st =>
    match evalExpr (execStmtOpt skip init st).env cond with
    | Value.bool true =>
      { execBlock skip body (execStmtOpt skip init st) with env := st.env }
    | Value.bool false =>
      { execStmtOpt skip els (execStmtOpt skip init st) with env := st.env }
    | _ => st.emit (Event.stmt (.IfStmt (.mk init cond body els d)))
end

/-! ## The conditions of the docstring of `canFlattenTJump`, read literally

These definitions follow the words of the docstring ("SetSkipCall is never
called", "the HookContext parameter is only used as a receiver for method
calls"); they are compared with what the function computes. -/

/-- Whether a node is a call whose callee is `SetSkipCall` or `x.SetSkipCall`. -/
def dst.Node.isSetSkipCallCall : dst.Node → Bool
  | .expr (.CallExpr (.mk (.SelectorExpr _ sel) _ _)) => sel.Name == trampolineSetSkipCallName
  | .expr (.CallExpr (.mk (.Ident i) _ _)) => i.Name == trampolineSetSkipCallName
  | _ => false

/-- Whether a node is a method call `name.M(...)` on the given variable. -/
def dst.Node.isMethodCallOn (name : String) : dst.Node → Bool
  | .expr (.CallExpr (.mk (.SelectorExpr (.Ident i) _) _ _)) => i.Name == name
  | _ => false

/-- No node of the hook function is a call of `SetSkipCall`. -/
def neverCallsSetSkipCall (hookFunc : dst.FuncDecl) : Bool :=
  (dst.allNodes hookFunc).all (fun n => !n.isSetSkipCallCall)

/-- Every identifier of the body with the parameter's name is the operand of a
selector expression, and every such selector expression is the callee of a
call: the three kinds of node are equally many. -/
def usedOnlyAsMethodReceiver (param : String) (body : dst.BlockStmt) : Bool :=
  let nodes := dst.reachBlock (fun _ => false) body
  decide (nodes.countP (dst.Node.isIdentNamed param) = nodes.countP (dst.Node.isSelectorOn param))
    && decide (nodes.countP (dst.Node.isSelectorOn param)
        = nodes.countP (dst.Node.isMethodCallOn param))

/-! ## The standard form of a trampoline-jump-if

Written after the comment that opens `optimize.go`:

    if ctx, skip := otel_trampoline_onenter(&arg); skip {
        otel_trampoline_onexit(ctx, &retval)
        return ...
    } else {
        defer otel_trampoline_onexit(ctx, &retval)
        ...
    }
-/

/-- The call `Enter(args...)` of the standard form. -/
def standardEnterCall (enterName : String) (args : List dst.Expr) : dst.CallExpr :=
  dst.CallExpr.mk (dst.Expr.Ident { Name := enterName }) args false

/-- The call `Exit(ctx, &r1, ..., &rm)` of the standard form. -/
def standardExitCall (exitName ctx : String) (retVals : List dst.Expr) : dst.CallExpr :=
  dst.CallExpr.mk (dst.Expr.Ident { Name := exitName })
    (dst.Expr.Ident { Name := ctx }
      :: retVals.map (fun r => dst.Expr.UnaryExpr dst.Token.AND r)) false

/-- The standard trampoline-jump-if with its decorations: init
`ctx, skip := Enter(args...)`, condition `skip`, then-branch
`Exit(ctx, &r...); return r...`, else-branch `defer Exit(ctx, &r...)` followed
by `nested`, and the anchor label. -/
def standardTJump (enterName exitName ctx skip : String) (args retVals : List dst.Expr)
    (nested : List dst.Stmt) (after : dst.SpaceType) : dst.IfStmt :=
  dst.IfStmt.mk
    (some (dst.Stmt.AssignStmt
      [dst.Expr.Ident { Name := ctx }, dst.Expr.Ident { Name := skip }] dst.Token.DEFINE
      [dst.Expr.CallExpr (standardEnterCall enterName args)]))
    (dst.Expr.Ident { Name := skip })
    (dst.BlockStmt.mk
      [dst.Stmt.ExprStmt (dst.Expr.CallExpr (standardExitCall exitName ctx retVals))
         { Start := ["/* NO_NEWWLINE_PLACEHOLDER */"], End := ["/* SEMICOLON_PLACEHOLDER */"],
           After := dst.SpaceType.None },
       dst.Stmt.ReturnStmt retVals
         { Start := [], End := ["/* NO_NEWWLINE_PLACEHOLDER */"], After := dst.SpaceType.None }]
      { Start := [], End := [], After := dst.SpaceType.None })
    (some (dst.Stmt.BlockStmt (dst.BlockStmt.mk
      (dst.Stmt.DeferStmt (standardExitCall exitName ctx retVals)
         { Start := ["/* NO_NEWWLINE_PLACEHOLDER */"], End := ["/* SEMICOLON_PLACEHOLDER */"],
           After := dst.SpaceType.None } :: nested)
      { Start := [], End := ["/* NO_NEWWLINE_PLACEHOLDER */"], After := dst.SpaceType.None })))
    { Node := { Start := [], End := [], After := after }, If := ["/* TRAMPOLINE_JUMP_IF */"] }

/-- Names of all return values in order, an unnamed result standing for the
name it is given: `retVal` followed by the next random string. -/
def resultNames (rand : Nat → String) : List dst.Field → Nat → List String
  | [], _ => []
  | f :: rest, k =>
    if f.Names.isEmpty then ("retVal" ++ rand k) :: resultNames rand rest (k + 1)
    else f.Names.map (fun n => n.Name) ++ resultNames rand rest k

/-- Number of unnamed result fields. -/
def unnamedCount : List dst.Field → Nat
  | [] => 0
  | f :: rest => (if f.Names.isEmpty then 1 else 0) + unnamedCount rest

/-- The result fields with every unnamed field given its name. -/
def namedResults (rand : Nat → String) : List dst.Field → Nat → List dst.Field
  | [], _ => []
  | (.mk names t tag) :: rest, k =>
    if names.isEmpty then (.mk [{ Name := "retVal" ++ rand k }] t tag) :: namedResults rand rest (k + 1)
    else (.mk names t tag) :: namedResults rand rest k

/-- Result fields of a declaration, or none. -/
def resultFields (funcDecl : dst.FuncDecl) : List dst.Field :=
  match funcDecl.Typ.Results with
  | none => []
  | some l => l.List

/-- Names of the receiver, if any, then of all declared parameters, in order. -/
def receiverAndParamNames (funcDecl : dst.FuncDecl) : List String :=
  (match funcDecl.Recv with
    | some (.mk _ (f0 :: _) _) => (f0.Names.take 1).map (fun n => n.Name)
    | _ => [])
  ++ funcDecl.Typ.Params.List.flatMap (fun f => f.Names.map (fun n => n.Name))

/-- Whether the receiver, if there is one, is declared with a name. -/
def receiverNamed (funcDecl : dst.FuncDecl) : Bool :=
  match funcDecl.Recv with
  | some (.mk _ (f0 :: _) _) => !f0.Names.isEmpty
  | _ => true

/-- Whether the statements begin with an anchored trampoline-jump-if. -/
def startsWithAnchoredTJump : List dst.Stmt → Bool
  | dst.Stmt.IfStmt ifStmt :: _ => isAnchored ifStmt
  | _ => false

/-- Record several events. -/
def Exec.emitAll (st : Exec) (es : List Event) : Exec := { st with trace := st.trace ++ es }

/-- What a run of the standard trampoline-jump can observe when the entry
trampoline does not ask to skip the call: one call of the entry trampoline
with its arguments, then one deferred call of the exit trampoline registered
with the call context that call returned and the addresses of the return
values. -/
def standardEvents (enterName exitName : String) (args retVals : List dst.Expr)
    (env : List (String × Value)) : List Event :=
  [Event.call (dst.Expr.Ident { Name := enterName }) (args.map (evalExpr env)),
   Event.deferred (dst.Expr.Ident { Name := exitName })
     (Value.ctx (standardEnterCall enterName args)
       :: retVals.map (fun r => Value.sym (dst.Expr.UnaryExpr dst.Token.AND r)))]

/-! ## Nesting of trampoline-jumps -/

/-- The four generated names of one trampoline-jump: entry trampoline, exit
trampoline, call-context variable, skip variable. -/
structure JumpNames where
  enter : String
  exit : String
  ctx : String
  skip : String

/-- The names `insertTJump` generates for a rule and a random suffix. -/
def jumpNames (t : InstFuncRule) (varSuffix : String) : JumpNames :=
  { enter := "OtelOnEnterTrampoline_" ++ t.Function ++ varSuffix,
    exit := "OtelOnExitTrampoline_" ++ t.Function ++ varSuffix,
    ctx := "callContext" ++ varSuffix,
    skip := "skip" ++ varSuffix }

/-- The standard trampoline-jump with the given names. -/
def standardTJumpOf (n : JumpNames) (args retVals : List dst.Expr) (nested : List dst.Stmt)
    (after : dst.SpaceType) : dst.IfStmt :=
  standardTJump n.enter n.exit n.ctx n.skip args retVals nested after

/-- Trampoline-jumps nested in the order given: the else-branch of each holds
its deferred exit call, an empty statement and the next trampoline-jump; the
else-branch of the last holds its deferred exit call only. -/
def nestJumps (args retVals : List dst.Expr) :
    JumpNames → List JumpNames → dst.SpaceType → dst.IfStmt
  | n, [], after => standardTJumpOf n args retVals [] after
  | n, m :: ms, after =>
    standardTJumpOf n args retVals
      [ast.EmptyStmt, dst.Stmt.IfStmt (nestJumps args retVals m ms dst.SpaceType.None)] after

/-- The if-statement found `depth` levels below an if-statement, one level
down being the last statement of the else-branch. -/
def nestedAt : Nat → dst.IfStmt → Option dst.IfStmt
  | 0, i => some i
  | depth + 1, i =>
    match i.Else with
    | some (.BlockStmt b) =>
      match b.List.getLast? with
      | some (.IfStmt j) => nestedAt depth j
      | _ => none
    | _ => none

/-- The random suffix drawn for the k-th rule applied to a declaration: the
first application names the unnamed results first, later ones find all results
named. -/
def suffixAt (rands : Nat → Nat → String) (funcDecl : dst.FuncDecl) (k : Nat) : String :=
  rands k (if k = 0 then unnamedCount (resultFields funcDecl) else 0)

/-- The arguments `insertTJump` passes to the entry trampoline. -/
def enterArgs (funcDecl : dst.FuncDecl) : List dst.Expr :=
  (receiverAndParamNames funcDecl).map
    (fun n => dst.Expr.UnaryExpr dst.Token.AND (dst.Expr.Ident { Name := n }))

/-- The return values `insertTJump` collects. -/
def exitRetVals (rand : Nat → String) (funcDecl : dst.FuncDecl) : List dst.Expr :=
  (resultNames rand (resultFields funcDecl) 0).map (fun n => dst.Expr.Ident { Name := n })

/-! ## Visitors that raise a flag -/

/-- A visitor whose state is a flag: once the flag is up it stays up and the
walk does not descend; while it is down, a node satisfying `hit` raises it, a
node satisfying `prune` is not descended into, and the call with nil changes
nothing. -/
structure FlagVisitor (f : dst.Visitor Bool) (hit prune : dst.Node → Bool) : Prop where
  nil_state : ∀ s, (f none s).2 = s
  raised : ∀ n, f (some n) true = (false, true)
  lowered : ∀ n, f (some n) false =
    if hit n then (false, true) else if prune n then (false, false) else (true, false)

/-- Names of the trampoline-jumps of the rules applied from iteration `i` on,
once all results are named. -/
def laterNames (rands : Nat → Nat → String) : List InstFuncRule → Nat → List JumpNames
  | [], _ => []
  | r :: rs, i => jumpNames r (rands i 0) :: laterNames rands rs (i + 1)

/-! ## Sample inputs -/

/-- A method with an unnamed receiver: `func (*Svc) Do(x int) (int, error)`
with body `return x, nil`. -/
def unnamedReceiverMethod : dst.FuncDecl :=
  { Recv := some (dst.FieldList.mk true
      [dst.Field.mk [] (some (dst.Expr.StarExpr (dst.Expr.Ident { Name := "Svc" }))) none] true),
    Name := { Name := "Do" },
    Typ := dst.FuncType.mk true none
      (dst.FieldList.mk true
        [dst.Field.mk [{ Name := "x" }] (some (dst.Expr.Ident { Name := "int" })) none] true)
      (some (dst.FieldList.mk true
        [dst.Field.mk [] (some (dst.Expr.Ident { Name := "int" })) none,
         dst.Field.mk [] (some (dst.Expr.Ident { Name := "error" })) none] true)),
    Body := some (dst.BlockStmt.mk
      [dst.Stmt.ReturnStmt [dst.Expr.Ident { Name := "x" }, dst.Expr.Ident { Name := "nil" }]
        dst.noDecs]
      dst.noDecs) }

/-- The same method with the receiver named: `func (s *Svc) Do(x int) (int, error)`. -/
def namedReceiverMethod : dst.FuncDecl :=
  { unnamedReceiverMethod with
    Recv := some (dst.FieldList.mk true
      [dst.Field.mk [{ Name := "s" }]
        (some (dst.Expr.StarExpr (dst.Expr.Ident { Name := "Svc" }))) none] true) }

/-- A rule with both hooks. -/
def ruleA : InstFuncRule :=
  { ImportPath := "example.com/svc", Function := "Do", ReceiverType := "\\*Svc",
    OnEnter := "onEnterDoA", OnExit := "onExitDoA", UseRaw := false, Order := 0,
    Path := "rules/a" }

/-- A second rule with both hooks, applied after the first. -/
def ruleB : InstFuncRule :=
  { ImportPath := "example.com/svc", Function := "Do", ReceiverType := "\\*Svc",
    OnEnter := "onEnterDoB", OnExit := "onExitDoB", UseRaw := false, Order := 1,
    Path := "rules/b" }

/-- A rule with an exit hook only. -/
def ruleExitOnly : InstFuncRule := { ruleA with OnEnter := "" }

/-- A rule that names no hook. -/
def ruleWithoutHooks : InstFuncRule := { ruleA with OnEnter := "", OnExit := "" }

/-- A source of random strings for the examples: `k + 1` letters. -/
def sampleRand (k : Nat) : String := String.mk (List.replicate (k + 1) 'x')

/-- Random strings per loop iteration for the examples. -/
def sampleRands (i k : Nat) : String := String.mk (List.replicate (i + 1) 'r') ++ sampleRand k

/-- A trampoline generator that succeeds and leaves the state as it is. -/
def sampleGenerate (_t : InstFuncRule) (_d : dst.FuncDecl) (rp : RuleProcessor) :
    RuleProcessor × Option String := (rp, none)

/-- A snippet parser that accepts nothing. -/
def sampleParse (_s : String) : Res (List dst.Stmt) := failWith "no snippet"

/-- An entry hook whose name contains "SetSkipCall" and whose body is empty:
`func onEnterSetSkipCallDemo(ictx HookContext)`. -/
def hookNamedAfterSetSkipCall : dst.FuncDecl :=
  { Recv := none,
    Name := { Name := "onEnterSetSkipCallDemo" },
    Typ := dst.FuncType.mk true none
      (dst.FieldList.mk true
        [dst.Field.mk [{ Name := "ictx" }] (some (dst.Expr.Ident { Name := "HookContext" }))
          none] true)
      none,
    Body := some (dst.BlockStmt.mk [] dst.noDecs) }

/-- Body `ictx.GetParam(0)` of an entry hook that only calls a method of its
call context. -/
def receiverOnlyBody : dst.BlockStmt :=
  dst.BlockStmt.mk
    [dst.Stmt.ExprStmt (dst.Expr.CallExpr (dst.CallExpr.mk
      (dst.Expr.SelectorExpr (dst.Expr.Ident { Name := "ictx" }) { Name := "GetParam" })
      [dst.Expr.BasicLit { Kind := dst.Token.INT, Value := "0" }] false)) dst.noDecs]
    dst.noDecs

/-- Entry hook `func onEnterDoA(ictx HookContext)` with body `ictx.GetParam(0)`. -/
def hookUsingReceiverOnly : dst.FuncDecl :=
  { hookNamedAfterSetSkipCall with Name := { Name := "onEnterDoA" }, Body := some receiverOnlyBody }

/-- Body `passTo(ictx)` of an entry hook that hands its call context on. -/
def escapingBody : dst.BlockStmt :=
  dst.BlockStmt.mk
    [dst.Stmt.ExprStmt (dst.Expr.CallExpr (dst.CallExpr.mk
      (dst.Expr.Ident { Name := "passTo" }) [dst.Expr.Ident { Name := "ictx" }] false))
      dst.noDecs]
    dst.noDecs

/-- Entry hook `func onEnterDoA(ictx HookContext)` with body `passTo(ictx)`. -/
def hookPassingContext : dst.FuncDecl :=
  { hookNamedAfterSetSkipCall with Name := { Name := "onEnterDoA" }, Body := some escapingBody }

/-- Helpers for the examples: parameters and results are passed by address,
trampolines are named after the rule's function, and the hook lookup finds
the given hook. -/
def sampleHelpers (hook : dst.FuncDecl) : Helpers :=
  { ruleString := fun r => r.ImportPath ++ "." ++ r.Function,
    createHookArgs := fun names => names.map ast.AddressOf,
    makeName := fun r _ onEnter =>
      (if onEnter then trampolineOnEnterName else trampolineOnExitName) ++ "_" ++ r.Function,
    getHookFunc := fun _ _ => .ok hook }

/-- The standard trampoline-jump of the named-receiver method for a rule, as
registered for the optimisation pass. -/
def sampleTJump (rule : InstFuncRule) : TJump :=
  { target := namedReceiverMethod,
    ifStmt := standardTJumpOf (jumpNames rule "x") (enterArgs namedReceiverMethod)
      [dst.Expr.Ident { Name := "retVal0" }, dst.Expr.Ident { Name := "retVal1" }] []
      dst.SpaceType.EmptyLine,
    rule := rule }

/-- A processor whose target file holds the entry trampoline of the sample
rule. -/
def sampleProcessor : RuleProcessor :=
  { target := { Name := { Name := "svc" },
                Decls := [dst.Decl.FuncDecl
                  { Recv := none, Name := { Name := "OtelOnEnterTrampoline_Do" },
                    Typ := dst.FuncType.mk true none (dst.FieldList.mk true [] true) none,
                    Body := some (dst.BlockStmt.mk [] dst.noDecs) }] },
    trampolineJumps := [], rule2Suffix := [] }

/-- A processor state with an empty target file and nothing registered. -/
def emptyProcessor : RuleProcessor :=
  { target := { Name := { Name := "svc" }, Decls := [] }, trampolineJumps := [],
    rule2Suffix := [] }

/-- A run that has not started: no bindings, no events. -/
def freshRun : Exec := { env := [], trace := [], returned := false }

/-! ## Further syntax-tree primitives (`tool/ast/primitives.go`, `tool/ast/shared.go`) -/

namespace ast

/-- Integer literal, `fmt.Sprintf("%d", value)`. -/
def IntLit (value : Nat) : dst.Expr :=
  dst.Expr.BasicLit { Kind := dst.Token.INT, Value := toString value }

/-- The statement list itself. -/
def Stmts (stmts : List dst.Stmt) : List dst.Stmt := stmts

/-- Expression `x.sel`. -/
def SelectorExpr (x : dst.Expr) (sel : String) : dst.Expr := dst.Expr.SelectorExpr x (Ident sel)

/-- Type `...elt`. -/
def Ellipsis (elt : Option dst.Expr) : dst.Expr := dst.Expr.Ellipsis elt

/-- Expression `x[index]`. -/
def IndexExpr (x index : dst.Expr) : dst.Expr := dst.Expr.IndexExpr x index

/-- Expression `x.(typ)`. -/
def TypeAssertExpr (x typ : dst.Expr) : dst.Expr := dst.Expr.TypeAssertExpr x (some typ)

/-- Expression `(x)`. -/
def ParenExpr (x : dst.Expr) : dst.Expr := dst.Expr.ParenExpr x

/-- Field `name typ`. -/
def NewField (name : String) (typ : dst.Expr) : dst.Field :=
  dst.Field.mk [{ Name := name }] (some typ) none

/-- Assignment `lhs = rhs`. -/
def AssignStmt (lhs rhs : dst.Expr) : dst.Stmt :=
  dst.Stmt.AssignStmt [lhs] dst.Token.ASSIGN [rhs]

/-- Clause `case list: stmts` of a switch. -/
def SwitchCase (list : List dst.Expr) (stmts : List dst.Stmt) : dst.Stmt :=
  dst.Stmt.CaseClause list stmts

/-- Expression `*expr`, also the pointer type `*expr`. -/
def DereferenceOf (expr : dst.Expr) : dst.Expr := dst.Expr.StarExpr expr

/-- Whether the type expression is an interface type literal. -/
def IsInterfaceType : dst.Expr → Bool
  | .InterfaceType _ => true
  | _ => false

/-- Whether the type expression is a variadic type `...T`. -/
def IsEllipsis : dst.Expr → Bool
  | .Ellipsis _ => true
  | _ => false

/-- The fields that `SplitMultiNameFields` makes of one field: one per name, or
one without name for an unnamed field.  `dst.Clone` of the field type fails on a
field without type. -/
def splitField : dst.Field → Res (List dst.Field)
  | .mk names typ _ =>
    match typ with
    | none => fatal "clone of a nil node"
    | some t =>
      if names.isEmpty then pure [dst.Field.mk [] (some t) none]
      else pure (names.map (fun name => dst.Field.mk [name] (some t) none))

/-- The loop of `SplitMultiNameFields` over the fields. -/
def splitFields : List dst.Field → Res (List dst.Field)
  | [] => pure []
  | field :: rest =>
    match splitField field with
    | .error e => .error e
    | .ok fs =>
      match splitFields rest with
      | .error e => .error e
      | .ok r => pure (fs ++ r)

/-- The function `SplitMultiNameFields`: `a, b int` becomes `a int, b int`; nil
stays nil. -/
def SplitMultiNameFields (fieldList : Option dst.FieldList) : Res (Option dst.FieldList) :=
  match fieldList with
  | none => pure none
  | some l =>
    match splitFields l.List with
    | .error e => .error e
    | .ok fs => pure (some (dst.FieldList.mk false fs false))

/-- The function `CloneTypeParams`. -/
def CloneTypeParams (typeParams : Option dst.FieldList) : Option dst.FieldList := typeParams

/-- The function `stripGenericTypes`: the receiver type name the rule matcher
compares, or the empty string for a receiver type of another form. -/
def stripGenericTypes : dst.Expr → String
  | .StarExpr (.Ident x) => "*" ++ x.Name
  | .StarExpr (.IndexExpr (.Ident baseIdent) _) => "*" ++ baseIdent.Name
  | .StarExpr (.IndexListExpr (.Ident baseIdent) _) => "*" ++ baseIdent.Name
  | .Ident expr => expr.Name
  | .IndexExpr (.Ident baseIdent) _ => baseIdent.Name
  | .IndexListExpr (.Ident baseIdent) _ => baseIdent.Name
  | _ => ""

end ast

/-! ## Call-context generation and trampoline types (`tool/instrument/trampoline.go`) -/

/-- Name of the method `SetParam`. -/
def trampolineSetParamName : String := "SetParam"

/-- Name of the method `GetParam`. -/
def trampolineGetParamName : String := "GetParam"

/-- Name of the method `SetReturnVal`. -/
def trampolineSetReturnValName : String := "SetReturnVal"

/-- Name of the method `GetReturnVal`. -/
def trampolineGetReturnValName : String := "GetReturnVal"

/-- Name of the value parameter of the setters. -/
def trampolineValIdentifier : String := "val"

/-- Name of the receiver of the call-context methods. -/
def trampolineCtxIdentifier : String := "c"

/-- Name of the call-context interface type. -/
def trampolineCallContextType : String := "CallContext"

/-- The function `strconv.Quote` on text without quotes, backslashes or
control characters. -/
def strconv.Quote (s : String) : String := "\"" ++ s ++ "\""

/-- The function `setValue`: the clause `case idx: *(c.field[idx].(*typ)) = val.(typ)`,
or `case idx: c.field[idx] = val` for an interface type literal. -/
def setValue (field : String) (idx : Nat) (typ : dst.Expr) : dst.Stmt :=
  let se := ast.SelectorExpr (dst.Expr.Ident (ast.Ident trampolineCtxIdentifier)) field
  let ie := ast.IndexExpr se (ast.IntLit idx)
  let te := ast.TypeAssertExpr ie (ast.DereferenceOf typ)
  let pe := ast.ParenExpr te
  let de := ast.DereferenceOf pe
  let val := dst.Expr.Ident (ast.Ident trampolineValIdentifier)
  let assign :=
    if ast.IsInterfaceType typ then ast.AssignStmt ie val
    else ast.AssignStmt de (ast.TypeAssertExpr val typ)
  ast.SwitchCase (ast.Exprs [ast.IntLit idx]) (ast.Stmts [assign])

/-- The function `getValue`: the clause `case idx: return *(c.field[idx].(*typ))`,
or `case idx: return c.field[idx]` for an interface type literal. -/
def getValue (field : String) (idx : Nat) (typ : dst.Expr) : dst.Stmt :=
  let se := ast.SelectorExpr (dst.Expr.Ident (ast.Ident trampolineCtxIdentifier)) field
  let ie := ast.IndexExpr se (ast.IntLit idx)
  let te := ast.TypeAssertExpr ie (ast.DereferenceOf typ)
  let pe := ast.ParenExpr te
  let de := ast.DereferenceOf pe
  let ret :=
    if ast.IsInterfaceType typ then ast.ReturnStmt (ast.Exprs [ie])
    else ast.ReturnStmt (ast.Exprs [de])
  ast.SwitchCase (ast.Exprs [ast.IntLit idx]) (ast.Stmts [ret])

/-- The function `getParamClause`. -/
def getParamClause (idx : Nat) (typ : dst.Expr) : dst.Stmt :=
  getValue trampolineParamsIdentifier idx typ

/-- The function `setParamClause`. -/
def setParamClause (idx : Nat) (typ : dst.Expr) : dst.Stmt :=
  setValue trampolineParamsIdentifier idx typ

/-- The function `getReturnValClause`. -/
def getReturnValClause (idx : Nat) (typ : dst.Expr) : dst.Stmt :=
  getValue trampolineReturnValsIdentifier idx typ

/-- The function `setReturnValClause`. -/
def setReturnValClause (idx : Nat) (typ : dst.Expr) : dst.Stmt :=
  setValue trampolineReturnValsIdentifier idx typ

/-- The type-parameter field `ident any` that `extractReceiverTypeParams` makes
of a type argument. -/
def receiverTypeParam (ident : dst.Ident) : dst.Field :=
  dst.Field.mk [ident] (some (dst.Expr.Ident (ast.Ident "any"))) none

/-- The identifiers among the type arguments of a receiver, as type-parameter
fields. -/
def receiverTypeParamFields : List dst.Expr → List dst.Field
  | [] => []
  | .Ident ident :: rest => receiverTypeParam ident :: receiverTypeParamFields rest
  | _ :: rest => receiverTypeParamFields rest

/-- The function `extractReceiverTypeParams`: the type parameters named by a
receiver type `*G[T]` or `G[T, U]`, or nil. -/
def extractReceiverTypeParams : dst.Expr → Option dst.FieldList
  | .StarExpr x => extractReceiverTypeParams x
  | .IndexExpr _ (.Ident ident) => some (dst.FieldList.mk false [receiverTypeParam ident] false)
  | .IndexListExpr _ indices =>
    if (receiverTypeParamFields indices).length > 0 then
      some (dst.FieldList.mk false (receiverTypeParamFields indices) false)
    else none
  | _ => none

/-- The function `combineTypeParams`: type parameters of the receiver, then
those of the function; nil when there are neither. -/
def combineTypeParams (targetFunc : dst.FuncDecl) : Option dst.FieldList :=
  let trampolineTypeParams : Option dst.FieldList :=
    if ast.HasReceiver targetFunc then
      match targetFunc.Recv with
      | some (.mk _ (f0 :: _) _) =>
        match f0.Typ with
        | some t => extractReceiverTypeParams t
        | none => none
      | _ => none
    else none
  match targetFunc.Typ.TypeParams with
  | some typeParams =>
    match trampolineTypeParams with
    | none => some typeParams
    | some recvParams => some (dst.FieldList.mk false (recvParams.List ++ typeParams.List) false)
  | none => trampolineTypeParams

/-- The function `desugarType`: `...T` becomes `[]T`, any other type is
returned as it is.  The model stops on a field without type and on a variadic
type without element type; a parsed parameter has neither. -/
def desugarType (param : dst.Field) : Res dst.Expr :=
  match param.Typ with
  | some (.Ellipsis (some elt)) => pure (ast.ArrayType elt)
  | some (.Ellipsis none) => fatal "variadic type without element type"
  | some t => pure t
  | none => fatal "invalid memory address or nil pointer dereference"

/-- The function `isTypeParameter`. -/
def isTypeParameter (t : dst.Expr) (typeParams : Option dst.FieldList) : Bool :=
  match typeParams with
  | none => false
  | some tp =>
    match t with
    | .Ident ident =>
      tp.List.any (fun field => field.Names.any (fun name => name.Name == ident.Name))
    | _ => false

mutual
/-- The function `replaceTypeParamsWithAny`.  The test `isTypeParameter` can
hold of an identifier only, so it is made in that case. -/
def replaceTypeParamsWithAny : dst.Expr → Option dst.FieldList → dst.Expr
  | .Ident i, typeParams =>
    if isTypeParameter (.Ident i) typeParams then ast.InterfaceType else .Ident i
  | .StarExpr x, typeParams => ast.DereferenceOf (replaceTypeParamsWithAny x typeParams)
  | .ArrayType _ elt, typeParams => ast.ArrayType (replaceTypeParamsWithAny elt typeParams)
  | .MapType key value, typeParams =>
    .MapType (replaceTypeParamsWithAny key typeParams) (replaceTypeParamsWithAny value typeParams)
  | .ChanType dir value, typeParams => .ChanType dir (replaceTypeParamsWithAny value typeParams)
  | .IndexExpr _ _, _ => ast.InterfaceType
  | .IndexListExpr _ _, _ => ast.InterfaceType
  | .Ellipsis elt, typeParams => ast.Ellipsis (replaceTypeParamsWithAnyOpt elt typeParams)
  | t, _ => t
/-- The same on an element type that may be nil. -/
def replaceTypeParamsWithAnyOpt : Option dst.Expr → Option dst.FieldList → Option dst.Expr
  | none, _ => none
  | some t, typeParams => some (replaceTypeParamsWithAny t typeParams)
end

/-- The statement `block.List = append(block.List, clause)`; the block may be
a nil pointer. -/
def appendClause (block : Option dst.BlockStmt) (clause : dst.Stmt) : Res (Option dst.BlockStmt) :=
  match block with
  | some (.mk list decs) => pure (some (.mk (list ++ [clause]) decs))
  | none => fatal "invalid memory address or nil pointer dereference"

/-- One step of `rewriteHookContextParams` for a slot of the given type: a
setter clause unless the target is generic, and a getter clause. -/
def addParamClauses (isGeneric : Bool) (idx : Nat) (typ : dst.Expr)
    (methodSetParamBody : Option dst.BlockStmt) (methodGetParamBody : dst.BlockStmt) :
    Res (Option dst.BlockStmt × dst.BlockStmt) := do
  let setBody ←
    if !isGeneric then appendClause methodSetParamBody (setParamClause idx typ)
    else pure methodSetParamBody
  pure (setBody,
    dst.BlockStmt.mk (methodGetParamBody.List ++ [getParamClause idx typ]) methodGetParamBody.Decs)

/-- The loop of `rewriteHookContextParams` over the split parameters. -/
def rewriteParamsLoop (combinedTypeParams : Option dst.FieldList) :
    List dst.Field → Nat → Option dst.BlockStmt → dst.BlockStmt →
      Res (Option dst.BlockStmt × dst.BlockStmt)
  | [], _, methodSetParamBody, methodGetParamBody => pure (methodSetParamBody, methodGetParamBody)
  | param :: rest, idx, methodSetParamBody, methodGetParamBody =>
    match desugarType param with
    | .error e => .error e
    | .ok t =>
      match addParamClauses combinedTypeParams.isSome idx
          (replaceTypeParamsWithAny t combinedTypeParams) methodSetParamBody
          methodGetParamBody with
      | .error e => .error e
      | .ok r => rewriteParamsLoop combinedTypeParams rest (idx + 1) r.1 r.2

/-- The expression `ast.SplitMultiNameFields(fieldList).List`; the list pointer
returned for a nil field list is nil. -/
def splitNames (fieldList : Option dst.FieldList) : Res (List dst.Field) :=
  match ast.SplitMultiNameFields fieldList with
  | .error e => .error e
  | .ok (some fl) => pure fl.List
  | .ok none => fatal "invalid memory address or nil pointer dereference"

/-- The function `rewriteHookContextParams`: the updated bodies of the switch
statements of `SetParam` (nil for a generic target) and `GetParam`. -/
def rewriteHookContextParams (targetFunc : dst.FuncDecl)
    (methodSetParamBody : Option dst.BlockStmt) (methodGetParamBody : dst.BlockStmt)
    (combinedTypeParams : Option dst.FieldList) :
    Res (Option dst.BlockStmt × dst.BlockStmt) := do
  let isGeneric := combinedTypeParams.isSome
  let start ←
    if ast.HasReceiver targetFunc then do
      let splitRecv ← splitNames targetFunc.Recv
      match splitRecv with
      | [] => fatal "index out of range [0] with length 0"
      | recv0 :: _ =>
        match recv0.Typ with
        | none => fatal "invalid memory address or nil pointer dereference"
        | some t =>
          let recvType := replaceTypeParamsWithAny t combinedTypeParams
          let r ← addParamClauses isGeneric 0 recvType methodSetParamBody methodGetParamBody
          pure (1, r)
    else pure (0, (methodSetParamBody, methodGetParamBody))
  let splitParams ← splitNames (some targetFunc.Typ.Params)
  rewriteParamsLoop combinedTypeParams splitParams start.1 start.2.1 start.2.2

/-- The loop of `rewriteHookContextResults` over the split results. -/
def rewriteResultsLoop (combinedTypeParams : Option dst.FieldList) :
    List dst.Field → Nat → Option dst.BlockStmt → dst.BlockStmt →
      Res (Option dst.BlockStmt × dst.BlockStmt)
  | [], _, methodSetRetValBody, methodGetRetValBody =>
    pure (methodSetRetValBody, methodGetRetValBody)
  | retval :: rest, idx, methodSetRetValBody, methodGetRetValBody =>
    match desugarType retval with
    | .error e => .error e
    | .ok t =>
      let retType := replaceTypeParamsWithAny t combinedTypeParams
      let getBody := dst.BlockStmt.mk
        (methodGetRetValBody.List ++ [getReturnValClause idx retType]) methodGetRetValBody.Decs
      match (if !combinedTypeParams.isSome then
          appendClause methodSetRetValBody (setReturnValClause idx retType)
        else pure methodSetRetValBody) with
      | .error e => .error e
      | .ok setBody => rewriteResultsLoop combinedTypeParams rest (idx + 1) setBody getBody

/-- The function `rewriteHookContextResults`. -/
def rewriteHookContextResults (targetFunc : dst.FuncDecl)
    (methodSetRetValBody : Option dst.BlockStmt) (methodGetRetValBody : dst.BlockStmt)
    (combinedTypeParams : Option dst.FieldList) :
    Res (Option dst.BlockStmt × dst.BlockStmt) :=
  match targetFunc.Typ.Results with
  | some results => do
    let splitResults ← splitNames (some results)
    rewriteResultsLoop combinedTypeParams splitResults 0 methodSetRetValBody methodGetRetValBody
  | none => pure (methodSetRetValBody, methodGetRetValBody)

/-- The statement `panic("message")` that `makeMethodPanic` builds. -/
def panicStmt (message : String) : dst.Stmt :=
  ast.ExprStmt (dst.Expr.CallExpr (ast.CallTo "panic" none
    [dst.Expr.BasicLit { Kind := dst.Token.STRING, Value := strconv.Quote message }]))

/-- The function `makeMethodPanic`: the body of the method becomes the single
statement `panic("message")`.  The method pointer and its body may be nil. -/
def makeMethodPanic (method : Option dst.FuncDecl) (message : String) : Res dst.FuncDecl :=
  match method with
  | none => fatal "invalid memory address or nil pointer dereference"
  | some m =>
    match m.Body with
    | none => fatal "invalid memory address or nil pointer dereference"
    | some (.mk _ decs) => pure { m with Body := some (.mk [panicStmt message] decs) }

/-- The closure `findSwitchBlock` of `rewriteCallContext`: the body of the
switch statement `fn.Body.List[idx]`, with its clauses dropped. -/
def findSwitchBlock (fn : Option dst.FuncDecl) (idx : Nat) : Res dst.BlockStmt :=
  match fn with
  | none => fatal "invalid memory address or nil pointer dereference"
  | some f =>
    match f.Body with
    | none => fatal "invalid memory address or nil pointer dereference"
    | some body =>
      match body.List[idx]? with
      | none => fatal "index out of range"
      | some (.SwitchStmt _ _ (.mk _ decs)) => pure (.mk [] decs)
      | some _ => fatal "Type assertion failed"

/-- Replace the body of the switch statement at position `idx`. -/
def setSwitchBody (block : dst.BlockStmt) : List dst.Stmt → Nat → List dst.Stmt
  | [], _ => []
  | .SwitchStmt init tag _ :: rest, 0 => .SwitchStmt init tag block :: rest
  | s :: rest, 0 => s :: rest
  | s :: rest, idx + 1 => s :: setSwitchBody block rest idx

/-- The method after the block that `findSwitchBlock` handed out has been
filled: the switch statement at position `idx` of its body has that block as
body. -/
def withSwitchBlock (fn : dst.FuncDecl) (idx : Nat) (block : dst.BlockStmt) : dst.FuncDecl :=
  match fn.Body with
  | some (.mk list decs) => { fn with Body := some (.mk (setSwitchBody block list idx) decs) }
  | none => fn

/-- The last method with the given name, as the loop of `rewriteCallContext`
over `rp.callCtxMethods` finds it; nil when there is none. -/
def findMethod (name : String) (callCtxMethods : List dst.FuncDecl) : Option dst.FuncDecl :=
  (callCtxMethods.filter (fun decl => decl.Name.Name == name)).getLast?

/-- The four call-context methods as `rewriteCallContext` leaves them. -/
structure CallContextMethods where
  methodSetParam : dst.FuncDecl
  methodGetParam : dst.FuncDecl
  methodGetRetVal : dst.FuncDecl
  methodSetRetVal : dst.FuncDecl

/-- The function `rewriteCallContext`, for the target declaration
`rp.targetFunc` and the template methods `rp.callCtxMethods`.  It rewrites the
four methods in place; they are returned. -/
def rewriteCallContext (targetFunc : dst.FuncDecl) (callCtxMethods : List dst.FuncDecl) :
    Res CallContextMethods := do
  util.Assert (decide (callCtxMethods.length > 4)) "sanity check"
  let methodSetParam := findMethod trampolineSetParamName callCtxMethods
  let methodGetParam := findMethod trampolineGetParamName callCtxMethods
  let methodGetRetVal := findMethod trampolineGetReturnValName callCtxMethods
  let methodSetRetVal := findMethod trampolineSetReturnValName callCtxMethods
  let combinedTypeParams := combineTypeParams targetFunc
  if combinedTypeParams.isSome then do
    let setParam ← makeMethodPanic methodSetParam "SetParam is unsupported for generic functions"
    let setRetVal ← makeMethodPanic methodSetRetVal
      "SetReturnVal is unsupported for generic functions"
    let methodGetParamBody ← findSwitchBlock methodGetParam 0
    let methodGetRetValBody ← findSwitchBlock methodGetRetVal 0
    let ps ← rewriteHookContextParams targetFunc none methodGetParamBody combinedTypeParams
    let rs ← rewriteHookContextResults targetFunc none methodGetRetValBody combinedTypeParams
    match methodGetParam, methodGetRetVal with
    | some getParam, some getRetVal =>
      pure { methodSetParam := setParam,
             methodGetParam := withSwitchBlock getParam 0 ps.2,
             methodGetRetVal := withSwitchBlock getRetVal 0 rs.2,
             methodSetRetVal := setRetVal }
    | _, _ => fatal "invalid memory address or nil pointer dereference"
  else do
    let methodSetParamBody ← findSwitchBlock methodSetParam 1
    let methodGetParamBody ← findSwitchBlock methodGetParam 0
    let methodSetRetValBody ← findSwitchBlock methodSetRetVal 1
    let methodGetRetValBody ← findSwitchBlock methodGetRetVal 0
    let ps ← rewriteHookContextParams targetFunc (some methodSetParamBody) methodGetParamBody
      combinedTypeParams
    let rs ← rewriteHookContextResults targetFunc (some methodSetRetValBody) methodGetRetValBody
      combinedTypeParams
    match methodSetParam, methodGetParam, methodGetRetVal, methodSetRetVal, ps.1, rs.1 with
    | some setParam, some getParam, some getRetVal, some setRetVal, some setBody,
        some setRetBody =>
      pure { methodSetParam := withSwitchBlock setParam 1 setBody,
             methodGetParam := withSwitchBlock getParam 0 ps.2,
             methodGetRetVal := withSwitchBlock getRetVal 0 rs.2,
             methodSetRetVal := withSwitchBlock setRetVal 1 setRetBody }
    | _, _, _, _, _, _ => fatal "invalid memory address or nil pointer dereference"

/-- The closure `renameField` of `buildTrampolineType`: every name of the field
becomes the given stem followed by the running index. -/
def renameField (field : dst.Field) (stem : String) (idx : Nat) : dst.Field × Nat :=
  match field with
  | .mk names typ tag =>
    (.mk ((List.range names.length).map (fun k => { Name := stem ++ toString (idx + k) })) typ tag,
      idx + names.length)

/-- The loops of `buildTrampolineType` over split fields: each field is renamed
and appended. -/
def renameFields (stem : String) : List dst.Field → Nat → List dst.Field × Nat
  | [], idx => ([], idx)
  | field :: rest, idx =>
    let r := renameField field stem idx
    let rs := renameFields stem rest r.2
    (r.1 :: rs.1, rs.2)

/-- The function `buildTrampolineType`: the parameter list of the entry
trampoline (receiver, then parameters) or of the exit trampoline (results),
and the type parameters. -/
def buildTrampolineType (targetFunc : dst.FuncDecl) (onEnter : Bool) :
    Res (dst.FieldList × Option dst.FieldList) := do
  let paramTypes ←
    if onEnter then do
      let recvFields ←
        if ast.HasReceiver targetFunc then do
          let splitRecv ← splitNames targetFunc.Recv
          match splitRecv with
          | [] => fatal "index out of range [0] with length 0"
          | recv0 :: _ => pure (renameFields "recv" [recv0] 0)
        else pure ([], 0)
      let splitParams ← splitNames (some targetFunc.Typ.Params)
      pure (recvFields.1 ++ (renameFields "param" splitParams recvFields.2).1)
    else
      match targetFunc.Typ.Results with
      | some results => do
        let splitResults ← splitNames (some results)
        pure (renameFields "arg" splitResults 0).1
      | none => pure []
  let genericTypes := combineTypeParams targetFunc
  pure (dst.FieldList.mk false paramTypes false, ast.CloneTypeParams genericTypes)

/-- The function `addCallContext`: the parameter `callContext CallContext` is
put in front. -/
def addCallContext (list : dst.FieldList) : dst.FieldList :=
  match list with
  | .mk o l c =>
    .mk o (ast.NewField trampolineCallContextName
      (dst.Expr.Ident { Name := trampolineCallContextType }) :: l) c

/-- The inner loop of `buildTrampolineTypes`: every parameter type `T` becomes
`*T`, a variadic `...T` becomes `*[]T`. -/
def pointerParams : List dst.Field → Res (List dst.Field)
  | [] => pure []
  | (.mk names typ tag) :: rest =>
    match desugarType (.mk names typ tag) with
    | .error e => .error e
    | .ok t =>
      match pointerParams rest with
      | .error e => .error e
      | .ok r => pure (.mk names (some (ast.DereferenceOf t)) tag :: r)

/-- The two trampoline declarations of the template, `rp.onEnterHookFunc` and
`rp.onExitHookFunc`. -/
structure Trampolines where
  onEnterHookFunc : dst.FuncDecl
  onExitHookFunc : dst.FuncDecl

/-- Set the parameters and type parameters of a declaration. -/
def withParams (d : dst.FuncDecl) (params : dst.FieldList) (typeParams : Option dst.FieldList) :
    dst.FuncDecl :=
  match d.Typ with
  | .mk fn _ _ results => { d with Typ := .mk fn typeParams params results }

/-- The function `buildTrampolineTypes`, for the target declaration
`rp.targetFunc`. -/
def buildTrampolineTypes (targetFunc : dst.FuncDecl) (t : Trampolines) : Res Trampolines := do
  let enter ← buildTrampolineType targetFunc true
  let exit ← buildTrampolineType targetFunc false
  let enterParams ← pointerParams enter.1.List
  let exitParams ← pointerParams exit.1.List
  pure { onEnterHookFunc := withParams t.onEnterHookFunc
           (dst.FieldList.mk false enterParams false) enter.2,
         onExitHookFunc := withParams t.onExitHookFunc
           (addCallContext (dst.FieldList.mk false exitParams false)) exit.2 }

/-! ## Slots of a target declaration

Written after the contract of the call-context generator: the receiver, if
present, is slot 0 of the parameters, every declared name is a slot of its own,
an unnamed field is one slot, and a variadic slot `...T` has the type `[]T`. -/

/-- Declared type of a slot as the call context sees it: `...T` stands for
`[]T`, every other type for itself. -/
def slotType : dst.Expr → dst.Expr
  | .Ellipsis (some elt) => dst.Expr.ArrayType none elt
  | t => t

/-- Declared types of a field list, in declaration order: one entry per name,
one entry for an unnamed field. -/
def declaredTypes : List dst.Field → List dst.Expr
  | [] => []
  | (.mk names (some t) _) :: rest =>
    List.replicate (if names.isEmpty then 1 else names.length) t ++ declaredTypes rest
  | (.mk _ none _) :: rest => declaredTypes rest

/-- Slot types of a field list. -/
def fieldSlots (l : List dst.Field) : List dst.Expr := (declaredTypes l).map slotType

/-- Type of the receiver, if the declaration has one. -/
def receiverSlot (targetFunc : dst.FuncDecl) : List dst.Expr :=
  if ast.HasReceiver targetFunc then
    match targetFunc.Recv with
    | some l => (declaredTypes l.List).take 1
    | none => []
  else []

/-- Parameter slots: the receiver, if any, then the parameters. -/
def paramSlots (targetFunc : dst.FuncDecl) : List dst.Expr :=
  receiverSlot targetFunc ++ fieldSlots targetFunc.Typ.Params.List

/-- Result slots. -/
def resultSlots (targetFunc : dst.FuncDecl) : List dst.Expr :=
  match targetFunc.Typ.Results with
  | some results => fieldSlots results.List
  | none => []

/-- Clauses numbered from `idx` on, one per slot type. -/
def numberedClauses (clause : Nat → dst.Expr → dst.Stmt) : List dst.Expr → Nat → List dst.Stmt
  | [], _ => []
  | t :: rest, idx => clause idx t :: numberedClauses clause rest (idx + 1)

/-- Case expressions of a clause of a switch. -/
def caseExprs : dst.Stmt → List dst.Expr
  | .CaseClause list _ => list
  | _ => []

/-- Whether a statement is a clause of a switch. -/
def isCaseClause : dst.Stmt → Bool
  | .CaseClause _ _ => true
  | _ => false

/-- Clauses of the switch statement at position `idx` of a method body, if
there is one. -/
def switchCases (fn : dst.FuncDecl) (idx : Nat) : Option (List dst.Stmt) :=
  match fn.Body with
  | some body =>
    match body.List[idx]? with
    | some (.SwitchStmt _ _ block) => some block.List
    | _ => none
  | none => none

/-- Statements of a method body. -/
def bodyList (fn : dst.FuncDecl) : List dst.Stmt :=
  match fn.Body with
  | some body => body.List
  | none => []

/-- The field has a type, and if the type is variadic it has an element type,
as every field of a parsed declaration. -/
def typedField (f : dst.Field) : Bool :=
  match f.Typ with
  | some (.Ellipsis none) => false
  | some _ => true
  | none => false

/-- Every field of the list is typed. -/
def typedFields (l : List dst.Field) : Bool := l.all typedField

/-- The fields of the receiver, parameters and results of a declaration are
typed. -/
def typedSignature (targetFunc : dst.FuncDecl) : Bool :=
  (match targetFunc.Recv with
    | some l => typedFields l.List
    | none => true)
  && typedFields targetFunc.Typ.Params.List
  && (match targetFunc.Typ.Results with
    | some l => typedFields l.List
    | none => true)

/-- Type arguments of a receiver type `G[A]`, `G[A, B]`, `*G[A]`, `*G[A, B]`;
none for `T` and `*T`. -/
def receiverTypeArgs : dst.Expr → List dst.Expr
  | .StarExpr (.IndexExpr _ index) => [index]
  | .StarExpr (.IndexListExpr _ indices) => indices
  | .IndexExpr _ index => [index]
  | .IndexListExpr _ indices => indices
  | _ => []

/-- Whether an expression is an identifier. -/
def isIdentExpr : dst.Expr → Bool
  | .Ident _ => true
  | _ => false

/-- Go's forms of a receiver type: `T`, `*T`, `G[A, ...]`, `*G[A, ...]`, where
`T`, `G` and the type arguments are identifiers. -/
def receiverForm : dst.Expr → Bool
  | .StarExpr (.Ident _) => true
  | .StarExpr (.IndexExpr (.Ident _) (.Ident _)) => true
  | .StarExpr (.IndexListExpr (.Ident _) indices) => indices.all isIdentExpr
  | .Ident _ => true
  | .IndexExpr (.Ident _) (.Ident _) => true
  | .IndexListExpr (.Ident _) indices => indices.all isIdentExpr
  | _ => false

/-- Type of the receiver field, if any. -/
def receiverType (targetFunc : dst.FuncDecl) : Option dst.Expr :=
  match targetFunc.Recv with
  | some (.mk _ (f0 :: _) _) => f0.Typ
  | _ => none

/-- The declaration has no receiver, or a receiver type of one of Go's forms. -/
def receiverWellFormed (targetFunc : dst.FuncDecl) : Bool :=
  if ast.HasReceiver targetFunc then
    match receiverType targetFunc with
    | some t => receiverForm t
    | none => false
  else true

/-- The declaration has type parameters of its own, or a receiver type with
type arguments. -/
def isGenericTarget (targetFunc : dst.FuncDecl) : Bool :=
  targetFunc.Typ.TypeParams.isSome ||
    (ast.HasReceiver targetFunc &&
      match receiverType targetFunc with
      | some t => !(receiverTypeArgs t).isEmpty
      | none => false)

/-- The type a get clause asserts its slot to have, if it asserts one. -/
def assertedType : dst.Stmt → Option dst.Expr
  | .CaseClause _ [.ReturnStmt [.StarExpr (.ParenExpr (.TypeAssertExpr _ t))] _] => t
  | .CaseClause _ [.AssignStmt [.StarExpr (.ParenExpr (.TypeAssertExpr _ t))] _ _] => t
  | _ => none

/-- Names of the type parameters of a list. -/
def typeParamNames (typeParams : Option dst.FieldList) : List String :=
  match typeParams with
  | some tp => tp.List.flatMap (fun field => field.Names.map (fun name => name.Name))
  | none => []

/-- Whether a node is a qualified identifier `pkg.Name`. -/
def dst.Node.isQualified : dst.Node → Bool
  | .expr (.SelectorExpr _ _) => true
  | _ => false

/-- Whether a type expression contains an identifier that names one of the
type parameters, qualified identifiers `pkg.Name` not being looked into. -/
def mentionsTypeParam (typeParams : Option dst.FieldList) (t : dst.Expr) : Bool :=
  (dst.reachExpr dst.Node.isQualified t).any
    (dst.Node.isIdentWith (fun name => (typeParamNames typeParams).contains name))

mutual
/-- The type forms `replaceTypeParamsWithAny` treats: identifiers, qualified
identifiers, pointer, array and slice, map, channel and variadic types over
such forms, instantiated generic types, and the empty interface. -/
def treatedType : dst.Expr → Bool
  | .Ident _ => true
  | .SelectorExpr _ _ => true
  | .StarExpr x => treatedType x
  | .ArrayType _ elt => treatedType elt
  | .MapType key value => treatedType key && treatedType value
  | .ChanType _ value => treatedType value
  | .IndexExpr _ _ => true
  | .IndexListExpr _ _ => true
  | .Ellipsis elt => treatedTypeOpt elt
  | .InterfaceType (.mk _ list _) => list.isEmpty
  | _ => false
/-- The same for an element type that may be absent. -/
def treatedTypeOpt : Option dst.Expr → Bool
  | none => true
  | some t => treatedType t
end

/-- The type forms for which the switch of `replaceTypeParamsWithAny` builds a
new node: pointer, array and slice, map, channel, instantiated generic and
variadic types.  Every other form reaches `return t`. -/
def rebuiltType : dst.Expr → Bool
  | .StarExpr _ => true
  | .ArrayType _ _ => true
  | .MapType _ _ => true
  | .ChanType _ _ => true
  | .IndexExpr _ _ => true
  | .IndexListExpr _ _ => true
  | .Ellipsis _ => true
  | _ => false

/-! ## Operational model of the generated call-context clauses

An evaluator for the statements `setValue`, `getValue` and `makeMethodPanic`
generate.  A slot of the call context holds a value of type `interface{}`; the
trampoline fills it with the address of a variable of the target function. -/

/-- Run-time values held in an `interface{}`. -/
inductive GoValue where
  | nil
  | pointer (addr : Nat) (elem : dst.Expr)
  | data (typ : dst.Expr) (repr : Nat)

/-- Outcome of running generated code: a result, a run-time panic, or a form
the evaluator does not treat. -/
inductive Run (α : Type) where
  | ok (a : α)
  | panic (msg : String)
  | untreated

/-- Sequencing of runs. -/
def Run.andThen {α β : Type} (r : Run α) (f : α → Run β) : Run β :=
  match r with
  | .ok a => f a
  | .panic msg => .panic msg
  | .untreated => .untreated

/-- The variables of the target function, by address, and the slots of the
call context. -/
structure CallContextImpl where
  vars : List GoValue
  Params : List GoValue
  ReturnVals : List GoValue

mutual
/-- Identity of two type expressions: the same identifier or qualified
identifier, or the same pointer, array, slice, map, channel or empty interface
type over identical types. -/
def sameType : dst.Expr → dst.Expr → Bool
  | .Ident a, t => match t with
    | .Ident b => a.Name == b.Name
    | _ => false
  | .SelectorExpr x a, t => match t with
    | .SelectorExpr y b => sameType x y && a.Name == b.Name
    | _ => false
  | .StarExpr x, t => match t with
    | .StarExpr y => sameType x y
    | _ => false
  | .ArrayType len x, t => match t with
    | .ArrayType len2 y => sameTypeOpt len len2 && sameType x y
    | _ => false
  | .BasicLit a, t => match t with
    | .BasicLit b => a.Value == b.Value
    | _ => false
  | .MapType k v, t => match t with
    | .MapType k2 v2 => sameType k k2 && sameType v v2
    | _ => false
  | .ChanType d v, t => match t with
    | .ChanType d2 v2 => d == d2 && sameType v v2
    | _ => false
  | .InterfaceType (.mk _ list _), t => match t with
    | .InterfaceType (.mk _ list2 _) => list.isEmpty && list2.isEmpty
    | _ => false
  | _, _ => false
/-- Identity of two array lengths: both absent, or the same literal. -/
def sameTypeOpt : Option dst.Expr → Option dst.Expr → Bool
  | none, t => t.isNone
  | some a, t => match t with
    | some b => sameType a b
    | none => false
end

/-- Dynamic type of a non-nil value. -/
def GoValue.dynamicType : GoValue → Option dst.Expr
  | .nil => none
  | .pointer _ elem => some (dst.Expr.StarExpr elem)
  | .data typ _ => some typ

/-- Whether a type expression can denote an interface type: a named type or an
interface type literal. -/
def mayBeInterface : dst.Expr → Bool
  | .Ident _ => true
  | .SelectorExpr _ _ => true
  | .InterfaceType _ => true
  | _ => false

/-- The type assertion `v.(t)`: it panics on the nil interface value, and
otherwise holds when the dynamic type of `v` is `t`, or when `t` is an
interface type that the dynamic type satisfies; `satisfies` is the method-set
relation of the program, which the syntax tree does not determine. -/
def typeAssert (satisfies : dst.Expr → dst.Expr → Bool) (v : GoValue) (t : dst.Expr) :
    Run GoValue :=
  match v.dynamicType with
  | none => .panic "interface conversion: interface is nil"
  | some d =>
    if sameType d t || (mayBeInterface t && satisfies d t) then .ok v
    else .panic "interface conversion: interface holds another type"

/-- Value of a decimal literal such as `ast.IntLit` writes. -/
def parseDecimal (s : String) : Option Nat :=
  if s.data.isEmpty then none
  else s.data.foldl
    (fun acc ch => acc.bind (fun n =>
      if ch.isDigit then some (10 * n + (ch.toNat - 48)) else none))
    (some 0)

/-- The slots named by a field of the call context. -/
def CallContextImpl.slots (c : CallContextImpl) (field : String) : Option (List GoValue) :=
  if field == trampolineParamsIdentifier then some c.Params
  else if field == trampolineReturnValsIdentifier then some c.ReturnVals
  else none

/-- Assign to the slots named by a field of the call context. -/
def CallContextImpl.setSlots (c : CallContextImpl) (field : String) (l : List GoValue) :
    CallContextImpl :=
  if field == trampolineParamsIdentifier then { c with Params := l }
  else if field == trampolineReturnValsIdentifier then { c with ReturnVals := l }
  else c

/-- Value of an expression of a generated clause: `val`, a slot
`c.field[idx]`, a type assertion, a parenthesised expression, or the variable
a pointer points to. -/
def evalClauseExpr (satisfies : dst.Expr → dst.Expr → Bool) (c : CallContextImpl)
    (val : GoValue) : dst.Expr → Run GoValue
  | .Ident i => if i.Name == trampolineValIdentifier then .ok val else .untreated
  | .IndexExpr (.SelectorExpr (.Ident recv) field) (.BasicLit idx) =>
    if recv.Name == trampolineCtxIdentifier then
      match c.slots field.Name, parseDecimal idx.Value with
      | some l, some i =>
        match l[i]? with
        | some v => .ok v
        | none => .panic "index out of range"
      | _, _ => .untreated
    else .untreated
  | .TypeAssertExpr x (some t) =>
    (evalClauseExpr satisfies c val x).andThen (fun v => typeAssert satisfies v t)
  | .ParenExpr x => evalClauseExpr satisfies c val x
  | .StarExpr x =>
    (evalClauseExpr satisfies c val x).andThen (fun p =>
      match p with
      | .pointer addr _ =>
        match c.vars[addr]? with
        | some v => .ok v
        | none => .panic "invalid memory address or nil pointer dereference"
      | _ => .untreated)
  | _ => .untreated

/-- Execution of a statement of a generated clause or of a method body made
by `makeMethodPanic`: an assignment through a pointer, an assignment to a
slot, a return, or a call of `panic`.  The result is the state and the value
returned, if the statement returns. -/
def execClauseStmt (satisfies : dst.Expr → dst.Expr → Bool) (c : CallContextImpl)
    (val : GoValue) : dst.Stmt → Run (CallContextImpl × Option GoValue)
  | .AssignStmt [.StarExpr p] .ASSIGN [rhs] =>
    (evalClauseExpr satisfies c val p).andThen (fun ptr =>
      (evalClauseExpr satisfies c val rhs).andThen (fun v =>
        match ptr with
        | .pointer addr _ =>
          if addr < c.vars.length then .ok ({ c with vars := c.vars.set addr v }, none)
          else .panic "invalid memory address or nil pointer dereference"
        | _ => .untreated))
  | .AssignStmt [.IndexExpr (.SelectorExpr (.Ident recv) field) (.BasicLit idx)] .ASSIGN [rhs] =>
    (evalClauseExpr satisfies c val rhs).andThen (fun v =>
      if recv.Name == trampolineCtxIdentifier then
        match c.slots field.Name, parseDecimal idx.Value with
        | some l, some i =>
          if i < l.length then .ok (c.setSlots field.Name (l.set i v), none)
          else .panic "index out of range"
        | _, _ => .untreated
      else .untreated)
  | .ReturnStmt [e] _ => (evalClauseExpr satisfies c val e).andThen (fun v => .ok (c, some v))
  | .ExprStmt (.CallExpr (.mk (.Ident fn) [.BasicLit msg] _)) _ =>
    if fn.Name == "panic" then .panic msg.Value else .untreated
  | _ => .untreated

/-- Execution of a statement list up to the first return. -/
def execClauseList (satisfies : dst.Expr → dst.Expr → Bool) (val : GoValue) :
    List dst.Stmt → CallContextImpl → Run (CallContextImpl × Option GoValue)
  | [], c => .ok (c, none)
  | s :: rest, c =>
    (execClauseStmt satisfies c val s).andThen (fun r =>
      match r.2 with
      | some v => .ok (r.1, some v)
      | none => execClauseList satisfies val rest r.1)

/-- Execution of the body of a clause of a switch. -/
def execClause (satisfies : dst.Expr → dst.Expr → Bool) (val : GoValue)
    (clause : dst.Stmt) (c : CallContextImpl) : Run (CallContextImpl × Option GoValue) :=
  match clause with
  | .CaseClause _ body => execClauseList satisfies val body c
  | _ => .untreated

/-! ## Sample inputs for the call-context generator -/

/-- The type `int`. -/
def intType : dst.Expr := dst.Expr.Ident { Name := "int" }

/-- The array type `[4]int`. -/
def int4Type : dst.Expr :=
  dst.Expr.ArrayType (some (dst.Expr.BasicLit { Kind := dst.Token.INT, Value := "4" })) intType

/-- The slice type `[]int`. -/
def intSliceType : dst.Expr := dst.Expr.ArrayType none intType

/-- A function with an array parameter: `func Sum(n int, a [4]int) int` with
body `return n`. -/
def arrayParamFunc : dst.FuncDecl :=
  { Recv := none,
    Name := { Name := "Sum" },
    Typ := dst.FuncType.mk true none
      (dst.FieldList.mk true
        [dst.Field.mk [{ Name := "n" }] (some intType) none,
         dst.Field.mk [{ Name := "a" }] (some int4Type) none] true)
      (some (dst.FieldList.mk true [dst.Field.mk [] (some intType) none] true)),
    Body := some (dst.BlockStmt.mk
      [dst.Stmt.ReturnStmt [dst.Expr.Ident { Name := "n" }] dst.noDecs] dst.noDecs) }

/-- A function with an unnamed parameter: `func Close(int) error` with body
`return nil`. -/
def unnamedParamFunc : dst.FuncDecl :=
  { Recv := none,
    Name := { Name := "Close" },
    Typ := dst.FuncType.mk true none
      (dst.FieldList.mk true [dst.Field.mk [] (some intType) none] true)
      (some (dst.FieldList.mk true
        [dst.Field.mk [] (some (dst.Expr.Ident { Name := "error" })) none] true)),
    Body := some (dst.BlockStmt.mk
      [dst.Stmt.ReturnStmt [dst.Expr.Ident { Name := "nil" }] dst.noDecs] dst.noDecs) }

/-- A generic method: `func (b *Box[T]) Put(x T)` with an empty body. -/
def genericMethod : dst.FuncDecl :=
  { Recv := some (dst.FieldList.mk true
      [dst.Field.mk [{ Name := "b" }]
        (some (dst.Expr.StarExpr (dst.Expr.IndexExpr (dst.Expr.Ident { Name := "Box" })
          (dst.Expr.Ident { Name := "T" })))) none] true),
    Name := { Name := "Put" },
    Typ := dst.FuncType.mk true none
      (dst.FieldList.mk true
        [dst.Field.mk [{ Name := "x" }] (some (dst.Expr.Ident { Name := "T" })) none] true)
      none,
    Body := some (dst.BlockStmt.mk [] dst.noDecs) }

/-- The receiver `c *CallContextImpl` of the template methods. -/
def sampleMethodRecv : Option dst.FieldList :=
  some (dst.FieldList.mk true
    [dst.Field.mk [{ Name := "c" }]
      (some (dst.Expr.StarExpr (dst.Expr.Ident { Name := "CallContextImpl" }))) none] true)

/-- A switch `switch idx` with one clause left over from the template. -/
def sampleSwitch : dst.Stmt :=
  dst.Stmt.SwitchStmt none (some (dst.Expr.Ident { Name := "idx" }))
    (dst.BlockStmt.mk [dst.Stmt.CaseClause [ast.IntLit 0] []] dst.noDecs)

/-- A getter of the shape `rewriteCallContext` expects: the switch, then
`return nil`. -/
def sampleGetter (name : String) : dst.FuncDecl :=
  { Recv := sampleMethodRecv,
    Name := { Name := name },
    Typ := dst.FuncType.mk true none
      (dst.FieldList.mk true [dst.Field.mk [{ Name := "idx" }] (some intType) none] true)
      (some (dst.FieldList.mk true [dst.Field.mk [] (some ast.InterfaceType) none] true)),
    Body := some (dst.BlockStmt.mk
      [sampleSwitch, dst.Stmt.ReturnStmt [dst.Expr.Ident { Name := "nil" }] dst.noDecs]
      dst.noDecs) }

/-- A setter of the shape `rewriteCallContext` expects: a first statement, then
the switch. -/
def sampleSetter (name : String) : dst.FuncDecl :=
  { Recv := sampleMethodRecv,
    Name := { Name := name },
    Typ := dst.FuncType.mk true none
      (dst.FieldList.mk true
        [dst.Field.mk [{ Name := "idx" }] (some intType) none,
         dst.Field.mk [{ Name := "val" }] (some ast.InterfaceType) none] true)
      none,
    Body := some (dst.BlockStmt.mk [ast.EmptyStmt, sampleSwitch] dst.noDecs) }

/-- Five template methods: the two setters, the two getters and one more. -/
def sampleMethods : List dst.FuncDecl :=
  [sampleSetter "SetParam", sampleGetter "GetParam", sampleGetter "GetReturnVal",
   sampleSetter "SetReturnVal", sampleGetter "GetFuncName"]

/-- The two trampolines of a template, before their types are built. -/
def sampleTrampolines : Trampolines :=
  { onEnterHookFunc :=
      { Recv := none, Name := { Name := "OtelOnEnterTrampoline" },
        Typ := dst.FuncType.mk true none (dst.FieldList.mk true [] true) none,
        Body := some (dst.BlockStmt.mk [] dst.noDecs) },
    onExitHookFunc :=
      { Recv := none, Name := { Name := "OtelOnExitTrampoline" },
        Typ := dst.FuncType.mk true none (dst.FieldList.mk true [] true) none,
        Body := some (dst.BlockStmt.mk [] dst.noDecs) } }

/-- A call context for `arrayParamFunc` as the entry trampoline fills it: slot
0 holds the address of `n`, slot 1 the address of `a`. -/
def sampleContext : CallContextImpl :=
  { vars := [GoValue.data intType 1, GoValue.data int4Type 2],
    Params := [GoValue.pointer 0 intType, GoValue.pointer 1 int4Type],
    ReturnVals := [] }

/-- The type list `[T any]`. -/
def sampleTypeParams : Option dst.FieldList :=
  some (dst.FieldList.mk true
    [dst.Field.mk [{ Name := "T" }] (some (dst.Expr.Ident { Name := "any" })) none] true)

/-- The function type `func(T) T`. -/
def funcOfT : dst.Expr :=
  dst.Expr.FuncType (dst.FuncType.mk true none
    (dst.FieldList.mk true [dst.Field.mk [] (some (dst.Expr.Ident { Name := "T" })) none] true)
    (some (dst.FieldList.mk true
      [dst.Field.mk [] (some (dst.Expr.Ident { Name := "T" })) none] true)))

/-! ## Reading a trampoline-jump and a context literal -/

/-- Arguments of the call of the entry trampoline in the init statement of a
trampoline-jump. -/
def enterCallArgs : dst.IfStmt → Option (List dst.Expr)
  | .mk (some (.AssignStmt _ _ [.CallExpr (.mk _ args _)])) _ _ _ _ => some args
  | _ => none

/-- Arguments of the deferred call of the exit trampoline that opens the
else-branch of a trampoline-jump. -/
def exitCallArgs : dst.IfStmt → Option (List dst.Expr)
  | .mk _ _ _ (some (.BlockStmt (.mk (.DeferStmt (.mk _ args _) _ :: _) _))) _ => some args
  | _ => none

/-- The slot expressions that a context literal
`&T{Params: []interface{}{...}, ReturnVals: []interface{}{...}}` gives the
named field. -/
def contextSlots (field : String) : dst.Expr → Option (List dst.Expr)
  | .UnaryExpr _ (.CompositeLit _ elts) =>
    elts.findSome? (fun e =>
      match e with
      | .KeyValueExpr (.Ident key) (.CompositeLit _ slots) =>
        if key.Name == field then some slots else none
      | _ => none)
  | _ => none

/-- Statements of the else-branch of an if-statement. -/
def elseList : dst.IfStmt → List dst.Stmt
  | .mk _ _ _ (some (.BlockStmt b)) _ => b.List
  | _ => []

/-- Number of slots of a field list: one per name, one for an unnamed field. -/
def slotCount : List dst.Field → Nat
  | [] => 0
  | f :: rest => (if f.Names.isEmpty then 1 else f.Names.length) + slotCount rest

/-- The block with further clauses appended. -/
def withClauses (block : dst.BlockStmt) (clauses : List dst.Stmt) : dst.BlockStmt :=
  dst.BlockStmt.mk (block.List ++ clauses) block.Decs

/-- Number of receivers of a declaration: 0 or 1. -/
def receiverCount (targetFunc : dst.FuncDecl) : Nat :=
  if ast.HasReceiver targetFunc then 1 else 0

/-- Number of result slots of a declaration. -/
def resultCount (targetFunc : dst.FuncDecl) : Nat :=
  match targetFunc.Typ.Results with
  | some results => slotCount results.List
  | none => 0

/-- The map type `map[string][]*T`. -/
def mapOfT : dst.Expr :=
  dst.Expr.MapType (dst.Expr.Ident { Name := "string" })
    (dst.Expr.ArrayType none (dst.Expr.StarExpr (dst.Expr.Ident { Name := "T" })))

/-- The first statement of the body of a declaration, if it is an
if-statement. -/
def firstIfStmt (d : dst.FuncDecl) : Option dst.IfStmt :=
  match d.Body with
  | some (.mk (.IfStmt i :: _) _) => some i
  | _ => none

/-- The sample method after the rule with both hooks has been woven into it,
with the processor state. -/
def wovenOnce : InsertResult :=
  match insertTJump (sampleRands 0) sampleGenerate emptyProcessor ruleA namedReceiverMethod with
  | .ok r => r
  | .error _ => { funcDecl := namedReceiverMethod, rp := emptyProcessor, err := none }

/-! ## The optimisation pass over the trampoline-jumps of a file

`rp.trampolineJumps` holds pointers: to the target declaration and to the
if-statement inside its body.  The pass rewrites the if-statements in place,
and a trampoline-jump nested in the else-branch of another is part of that
other's tree.  Here the function declarations of the file are objects
addressed by their position in a store, the declaration list of the file holds
pointers to them, and the pointer to an if-statement is its place in the body
of its target: the position of the outermost trampoline-jump among the
statements of the body and the nesting depth below it, one level down being
the last statement of the else-branch. -/

/-- The list with the element at a position rewritten; a position outside the
list changes nothing. -/
def modifyAt {α : Type} (g : α → α) : Nat → List α → List α
  | _, [] => []
  | 0, a :: l => g a :: l
  | n + 1, a :: l => a :: modifyAt g n l

/-- A rewrite applied to a statement if it is an if-statement. -/
def mapIf (g : dst.IfStmt → dst.IfStmt) : dst.Stmt → dst.Stmt
  | .IfStmt j => .IfStmt (g j)
  | s => s

/-- A rewrite applied to the last statement of a list if it is an
if-statement. -/
def mapLast (g : dst.IfStmt → dst.IfStmt) : List dst.Stmt → List dst.Stmt
  | [] => []
  | s :: rest => if rest.isEmpty then [mapIf g s] else s :: mapLast g rest

/-- A rewrite applied to the last statement of an else-branch that is a
block. -/
def mapElse (g : dst.IfStmt → dst.IfStmt) : Option dst.Stmt → Option dst.Stmt
  | some (.BlockStmt (.mk list bdecs)) => some (.BlockStmt (.mk (mapLast g list) bdecs))
  | els => els

/-- A rewrite applied to the if-statement one level below. -/
def mapChild (g : dst.IfStmt → dst.IfStmt) : dst.IfStmt → dst.IfStmt
  | .mk init cond body els decs => .mk init cond body (mapElse g els) decs

/-- The if-statement with the if-statement `depth` levels below replaced. -/
def setNested (new : dst.IfStmt) : Nat → dst.IfStmt → dst.IfStmt
  | 0, _ => new
  | depth + 1, i => mapChild (setNested new depth) i

/-- A declaration with the statements of its body rewritten. -/
def withStmts (g : List dst.Stmt → List dst.Stmt) (d : dst.FuncDecl) : dst.FuncDecl :=
  match d.Body with
  | some (.mk list decs) => { d with Body := some (.mk (g list) decs) }
  | none => d

/-- A slot of the declaration list of the file: a general declaration, or a
pointer to a function declaration. -/
inductive DeclPtr where
  | GenDecl (d : dst.GenDecl)
  | FuncDecl (addr : Nat)

/-- The syntax tree of the target file during the pass: the function
declarations by address, and the declaration list `rp.target.Decls`. -/
structure FileStore where
  Name : dst.Ident
  funcs : List dst.FuncDecl
  Decls : List DeclPtr

/-- A registered trampoline-jump: the address of the target declaration, the
place of the if-statement in its body, and the rule. -/
structure TJumpPtr where
  target : Nat
  stmt : Nat
  depth : Nat
  rule : InstFuncRule

/-- The declaration a slot of the declaration list stands for. -/
def FileStore.decl (st : FileStore) : DeclPtr → Option dst.Decl
  | .GenDecl d => some (dst.Decl.GenDecl d)
  | .FuncDecl addr =>
    match st.funcs[addr]? with
    | some d => some (dst.Decl.FuncDecl d)
    | none => none

/-- The syntax tree of the file: the declaration list with every pointer
followed. -/
def FileStore.file (st : FileStore) : dst.File :=
  { Name := st.Name, Decls := st.Decls.filterMap st.decl }

/-- The rule processor whose target file is the file of the store. -/
def FileStore.processor (st : FileStore) : RuleProcessor :=
  { target := st.file, trampolineJumps := [], rule2Suffix := [] }

/-- The if-statement that is statement `stmt` of the body of the declaration
at address `target`. -/
def FileStore.rootAt (st : FileStore) (target stmt : Nat) : Option dst.IfStmt :=
  match st.funcs[target]? with
  | some d =>
    match d.Body with
    | some body =>
      match body.List[stmt]? with
      | some (.IfStmt root) => some root
      | _ => none
    | none => none
  | none => none

/-- The store with that if-statement rewritten. -/
def FileStore.mapRoot (st : FileStore) (target stmt : Nat) (g : dst.IfStmt → dst.IfStmt) :
    FileStore :=
  { st with funcs := modifyAt (withStmts (modifyAt (mapIf g) stmt)) target st.funcs }

/-- The trampoline-jump a registered pair of pointers stands for, with the
target declaration and the if-statement as they are now. -/
def FileStore.load (st : FileStore) (p : TJumpPtr) : Option TJump :=
  match st.funcs[p.target]?, st.rootAt p.target p.stmt with
  | some target, some root =>
    match nestedAt p.depth root with
    | some ifStmt => some { target := target, ifStmt := ifStmt, rule := p.rule }
    | none => none
  | _, _ => none

/-- The store after the assignments through the pointer to the if-statement. -/
def FileStore.store (st : FileStore) (p : TJumpPtr) (new : dst.IfStmt) : FileStore :=
  st.mapRoot p.target p.stmt (setNested new p.depth)

/-- Whether a slot of the declaration list points to a function declaration
with the given name. -/
def ptrNamed (funcs : List dst.FuncDecl) (name : String) : DeclPtr → Bool
  | .FuncDecl addr =>
    match funcs[addr]? with
    | some d => d.Name.Name == name
    | none => false
  | .GenDecl _ => false

/-- The store with the first pointer to a function declaration of the given
name taken out of the declaration list, as `removeDeclWhen` does. -/
def FileStore.removeDecl (st : FileStore) (name : String) : FileStore :=
  { st with Decls := st.Decls.eraseP (ptrNamed st.funcs name) }

/-- The body of the loop of `optimizeTJumps` for one registered
trampoline-jump: the trampoline-jump is read through its pointers,
`optimizeTJump` runs on it, the rewritten if-statement is written back, and
for a rule without entry hook the pointer to the entry trampoline, which
`removeDeclWhen` took out of the declaration list, is taken out. -/
def optimizeTJumpAt (h : Helpers) (st : FileStore) (p : TJumpPtr) : Res FileStore :=
  match st.load p with
  | none => fatal "invalid memory address or nil pointer dereference"
  | some tjump =>
    match optimizeTJump h st.processor tjump with
    | .error e => .error e
    | .ok r =>
      if p.rule.OnEnter == "" then
        pure ((st.store p r.2.ifStmt).removeDecl (h.makeName p.rule tjump.target true))
      else pure (st.store p r.2.ifStmt)

/-- The function `optimizeTJumps`: the loop over the registered
trampoline-jumps, ended by the first failure. -/
def optimizeTJumps (h : Helpers) : List TJumpPtr → FileStore → Res FileStore
  | [], st => pure st
  | p :: rest, st =>
    match optimizeTJumpAt h st p with
    | .ok st1 => optimizeTJumps h rest st1
    | .error e => .error e

/-- The receiver, name and type of a declaration. -/
def signature (d : dst.FuncDecl) : Option dst.FieldList × dst.Ident × dst.FuncType :=
  (d.Recv, d.Name, d.Typ)

/-! ## Sample inputs for the optimisation pass -/

/-- The sample method after the exit-only rule and then the second rule have
been woven into it: the trampoline-jump of the second rule is nested in the
else-branch of the trampoline-jump of the first. -/
def wovenTwice : InsertResult :=
  match insertTJump (sampleRands 0) sampleGenerate emptyProcessor ruleExitOnly
      namedReceiverMethod with
  | .ok r1 =>
    match insertTJump (sampleRands 1) sampleGenerate r1.rp ruleB r1.funcDecl with
    | .ok r2 => r2
    | .error _ => r1
  | .error _ => { funcDecl := namedReceiverMethod, rp := emptyProcessor, err := none }

/-- The target file of the sample: the woven method at address 0 and the entry
trampoline of the exit-only rule at address 1, both in the declaration list. -/
def sampleStore : FileStore :=
  { Name := { Name := "svc" },
    funcs := [wovenTwice.funcDecl,
      { Recv := none, Name := { Name := "OtelOnEnterTrampoline_Do" },
        Typ := dst.FuncType.mk true none (dst.FieldList.mk true [] true) none,
        Body := some (dst.BlockStmt.mk [] dst.noDecs) }],
    Decls := [DeclPtr.FuncDecl 0, DeclPtr.FuncDecl 1] }

/-- The two trampoline-jumps registered for the sample method, outer first. -/
def sampleJumps : List TJumpPtr :=
  [{ target := 0, stmt := 0, depth := 0, rule := ruleExitOnly },
   { target := 0, stmt := 0, depth := 1, rule := ruleB }]

/-- The same trampoline-jumps, nested first. -/
def sampleJumpsReversed : List TJumpPtr :=
  [{ target := 0, stmt := 0, depth := 1, rule := ruleB },
   { target := 0, stmt := 0, depth := 0, rule := ruleExitOnly }]

/-! ## Hook discovery (`tool/instrument/trampoline.go`, `tool/ast/shared.go`) -/

namespace ast

/-- The function `ListFuncDecls`: the function declarations of a file, in
order. -/
def ListFuncDecls (root : dst.File) : List dst.FuncDecl :=
  root.Decls.filterMap (fun decl =>
    match decl with
    | .FuncDecl funcDecl => some funcDecl
    | _ => none)

/-- The function `findFuncDecls`. -/
def findFuncDecls (root : dst.File) (lambda : dst.FuncDecl → Bool) : List dst.FuncDecl :=
  (ListFuncDecls root).filter lambda

/-- The function `FindFuncDeclWithoutRecv`: the first function declaration
with the given name and no receiver, or nil. -/
def FindFuncDeclWithoutRecv (root : dst.File) (funcName : String) : Option dst.FuncDecl :=
  (findFuncDecls root
    (fun funcDecl => funcDecl.Name.Name == funcName && !HasReceiver funcDecl)).head?

end ast

/-- The function `isHookDefined`. -/
def isHookDefined (root : dst.File) (rule : InstFuncRule) : Res Bool := do
  util.Assert (rule.OnEnter != "" || rule.OnExit != "") "hook must be set"
  if rule.OnEnter != "" && (ast.FindFuncDeclWithoutRecv root rule.OnEnter).isNone then
    pure false
  else if rule.OnExit != "" && (ast.FindFuncDeclWithoutRecv root rule.OnExit).isNone then
    pure false
  else pure true

/-- The loop of `findHookFile` over the files of the rule: the first Go file
in which `isHookDefined` holds; a file that does not parse ends the loop with
the error of the parser.  `util.IsGoFile` and `ast.ParseFileFast` are outside
the sources and are parameters. -/
def findHookLoop (IsGoFile : String → Bool) (ParseFileFast : String → Res dst.File)
    (rule : InstFuncRule) : List String → Res (Option String)
  | [] => pure none
  | file :: rest =>
    if !IsGoFile file then findHookLoop IsGoFile ParseFileFast rule rest
    else
      match ParseFileFast file with
      | .error e => .error e
      | .ok root =>
        match isHookDefined root rule with
        | .error e => .error e
        | .ok true => pure (some file)
        | .ok false => findHookLoop IsGoFile ParseFileFast rule rest

/-- The text `%v` gives for a list of strings. -/
def formatStrings (l : List String) : String := "[" ++ " ".intercalate l ++ "]"

/-- The function `findHookFile`.  `listRuleFiles` lists the files below the
path of the rule; the file system is outside the model and the listing is a
parameter. -/
def findHookFile (listRuleFiles : InstFuncRule → Res (List String))
    (IsGoFile : String → Bool) (ParseFileFast : String → Res dst.File)
    (rule : InstFuncRule) : Res String :=
  match listRuleFiles rule with
  | .error e => .error e
  | .ok files =>
    match findHookLoop IsGoFile ParseFileFast rule files with
    | .error e => .error e
    | .ok (some file) => pure file
    | .ok none =>
      failWith ("no hook " ++ rule.OnEnter ++ "/" ++ rule.OnExit ++ " found for "
        ++ rule.Function ++ " from " ++ formatStrings files)

/-- Whether a file declares a function of the given name without receiver. -/
def declaresHook (root : dst.File) (name : String) : Bool :=
  root.Decls.any (fun decl =>
    match decl with
    | .FuncDecl funcDecl => funcDecl.Name.Name == name && !ast.HasReceiver funcDecl
    | _ => false)

/-- Whether a file declares every hook the rule names. -/
def declaresHooks (root : dst.File) (rule : InstFuncRule) : Bool :=
  (rule.OnEnter == "" || declaresHook root rule.OnEnter) &&
    (rule.OnExit == "" || declaresHook root rule.OnExit)

/-! ## Naming of the generated call-context type -/

/-- The statement `method.Recv.List[0].Type.(*dst.StarExpr).X.(*dst.Ident).Name += suffix`
of `implementCallContext`. -/
def renameMethodReceiver (suffix : String) (method : dst.FuncDecl) : Res dst.FuncDecl :=
  match method.Recv with
  | none => fatal "invalid memory address or nil pointer dereference"
  | some (.mk _ [] _) => fatal "index out of range [0] with length 0"
  | some (.mk o (.mk names (some (.StarExpr (.Ident x))) tag :: rest) c) =>
    pure { method with
      Recv := some (.mk o (.mk names (some (.StarExpr (.Ident { Name := x.Name ++ suffix }))) tag
        :: rest) c) }
  | some _ => fatal "interface conversion: unexpected receiver type"

/-- The loop of `implementCallContext` over the methods. -/
def renameMethodReceivers (suffix : String) : List dst.FuncDecl → Res (List dst.FuncDecl)
  | [] => pure []
  | method :: rest =>
    match renameMethodReceiver suffix method with
    | .error e => .error e
    | .ok m =>
      match renameMethodReceivers suffix rest with
      | .error e => .error e
      | .ok r => pure (m :: r)

/-- The function `implementCallContext`, as far as it names the generated
type: the type declaration `rp.callCtxDecl` and the receivers of the methods
`rp.callCtxMethods` get the suffix `util.Crc32(t.String())`.  The renaming of
the same identifier inside the two trampolines is left out. -/
def implementCallContext (h : Helpers) (callCtxDecl : dst.GenDecl)
    (callCtxMethods : List dst.FuncDecl) (t : InstFuncRule) :
    Res (dst.GenDecl × List dst.FuncDecl) :=
  let suffix := util.Crc32 (h.ruleString t)
  match callCtxDecl with
  | .mk _ [] => fatal "index out of range [0] with length 0"
  | .mk tok (.TypeSpec name typeParams typ :: specs) =>
    match util.Assert (name.Name == trampolineCallContextImplType) "sanity check" with
    | .error e => .error e
    | .ok _ =>
      match renameMethodReceivers suffix callCtxMethods with
      | .error e => .error e
      | .ok methods =>
        pure (.mk tok (.TypeSpec { Name := name.Name ++ suffix } typeParams typ :: specs),
          methods)
  | .mk _ (_ :: _) => fatal "interface conversion: not a type specification"

/-- Name of the type a declaration declares first. -/
def declaredTypeName : dst.GenDecl → Option String
  | .mk _ (.TypeSpec name _ _ :: _) => some name.Name
  | _ => none

/-- Name of the type of a literal `&T\x7b...\x7d`. -/
def literalTypeName : dst.Expr → Option String
  | .UnaryExpr _ (.CompositeLit (some (.Ident t)) _) => some t.Name
  | _ => none

/-- The name of the call-context type generated for a rule. -/
def callContextTypeName (h : Helpers) (t : InstFuncRule) : String :=
  trampolineCallContextImplType ++ util.Crc32 (h.ruleString t)

/-! ## Inlining of the trampoline-jump (`inliningTJump`) -/

/-- Regular expression of the no-newline placeholder followed by a line break. -/
def TrampolineNoNewlinePlaceholderRegexp : String := "/\\* NO_NEWWLINE_PLACEHOLDER \\*/\n"

/-- Regular expression of the semicolon placeholder followed by a line break. -/
def TrampolineSemicolonPlaceholderRegexp : String := "/\\* SEMICOLON_PLACEHOLDER \\*/\n"

/-- Regular expression of the anchor label. -/
def TrampolineJumpIfDescRegexp : String := "/\\* TRAMPOLINE_JUMP_IF \\*/"

/-- The text matched by a regular expression that consists of literal
characters and of characters escaped by a backslash. -/
def regexp.literal : List Char → List Char
  | [] => []
  | c :: rest =>
    if c = '\\' then
      match rest with
      | [] => []
      | e :: rest2 => e :: regexp.literal rest2
    else c :: regexp.literal rest

/-- Replacement of the matches of a literal text `old`, found from left to
right without overlap, by `new`; `skip` counts the characters of the current
match that are still to be passed over. -/
def replaceAllChars (old new : List Char) : List Char → Nat → List Char
  | [], _ => []
  | _ :: cs, skip + 1 => replaceAllChars old new cs skip
  | c :: cs, 0 =>
    if old.isPrefixOf (c :: cs) then new ++ replaceAllChars old new cs (old.length - 1)
    else c :: replaceAllChars old new cs 0

/-- The method `ReplaceAllString` of a regular expression that matches one
literal text, with a replacement text free of `$`. -/
def regexp.ReplaceAllString (pattern src repl : String) : String :=
  String.mk (replaceAllChars (regexp.literal pattern.data) repl.data src.data 0)

/-- The function `inliningTJump`: the text it hands to `util.WriteFile`.
Reading and writing the file are outside the model; `ReadFile` is a
parameter. -/
def inliningTJump (ReadFile : String → Res String) (filePath : String) : Res String := do
  let text ← ReadFile filePath
  -- Remove trailing newline
  let text := regexp.ReplaceAllString TrampolineNoNewlinePlaceholderRegexp text " "
  -- Replace with semicolon
  let text := regexp.ReplaceAllString TrampolineSemicolonPlaceholderRegexp text ";"
  -- Remove trampoline jump if identifiers
  let text := regexp.ReplaceAllString TrampolineJumpIfDescRegexp text ""
  pure text

/-! ## Listing of files (`util.ListFiles`) -/

/-- A directory tree: a file, or a directory with its entries in the order in
which `filepath.Walk` reads them, sorted by name. -/
inductive FsNode where
  | file (name : String)
  | dir (name : String) (entries : List FsNode)

/-- Name of a node. -/
def FsNode.name : FsNode → String
  | .file name => name
  | .dir name _ => name

/-- Whether a node is a directory. -/
def FsNode.isDir : FsNode → Bool
  | .file _ => false
  | .dir _ _ => true

/-- What a walk function can answer besides nil. -/
inductive WalkError where
  | SkipDir
  | SkipAll
  | failed (msg : String)
deriving DecidableEq

/-- The function `filepath.Join` for a path and a name. -/
def filepath.Join (path name : String) : String := path ++ "/" ++ name

mutual
/-- The function `walk` of the Go package `path/filepath` on a tree without
unreadable entries: the walk function is called on the node; for a directory
on which it answers nil the entries are walked in order. -/
def filepath.walk {σ : Type} (walkFn : String → String → Bool → σ → Option WalkError × σ) :
    String → FsNode → σ → Option WalkError × σ
  | path, .file name, s => walkFn path name false s
  | path, .dir name entries, s =>
    match walkFn path name true s with
    | (some e, s1) => (some e, s1)
    | (none, s1) => filepath.walkEntries walkFn path entries s1
/-- The loop of `walk` over the entries of a directory: an error ends it,
except `SkipDir` answered for an entry that is a directory. -/
def filepath.walkEntries {σ : Type}
    (walkFn : String → String → Bool → σ → Option WalkError × σ) :
    String → List FsNode → σ → Option WalkError × σ
  | _, [], s => (none, s)
  | path, entry :: rest, s =>
    match filepath.walk walkFn (filepath.Join path entry.name) entry s with
    | (none, s1) => filepath.walkEntries walkFn path rest s1
    | (some e, s1) =>
      if entry.isDir && decide (e = WalkError.SkipDir) then
        filepath.walkEntries walkFn path rest s1
      else (some e, s1)
end

/-- The function `filepath.Walk`: `SkipDir` and `SkipAll` at the top end the
walk without error. -/
def filepath.Walk {σ : Type} (root : String) (tree : FsNode)
    (walkFn : String → String → Bool → σ → Option WalkError × σ) (s : σ) :
    Option String × σ :=
  match filepath.walk walkFn root tree s with
  | (some (.failed msg), s1) => (some msg, s1)
  | (_, s1) => (none, s1)

/-- The function `strings.HasPrefix`. -/
def strings.HasPrefix (s pre : String) : Bool := pre.data.isPrefixOf s.data

/-- The walk function of `ListFiles`; the state is the variable `files`. -/
def listFilesWalkFn (path name : String) (isDir : Bool) (files : List String) :
    Option WalkError × List String :=
  -- Don't list files under hidden directories
  if strings.HasPrefix name "." then (some WalkError.SkipDir, files)
  else if !isDir then (none, files ++ [path])
  else (none, files)

/-- The function `ListFiles` on the tree found at `dir`. -/
def ListFiles (dir : String) (tree : FsNode) : Res (List String) :=
  match filepath.Walk dir tree listFilesWalkFn [] with
  | (some msg, _) => failWith msg
  | (none, files) => pure files

mutual
/-- Paths of the non-directory files of a tree that do not lie under a hidden
directory below the root of the listing. -/
def visibleFiles : String → FsNode → List String
  | path, .file _ => [path]
  | path, .dir _ entries => visibleFilesIn path entries
/-- The same for the entries of a directory: a hidden directory is left out. -/
def visibleFilesIn : String → List FsNode → List String
  | _, [] => []
  | path, entry :: rest =>
    (if entry.isDir && strings.HasPrefix entry.name "." then []
      else visibleFiles (filepath.Join path entry.name) entry)
    ++ visibleFilesIn path rest
end

/-! ## Scope of the variables of a trampoline-jump -/

/-- Name of an expression that is an identifier. -/
def identName : dst.Expr → Option String
  | .Ident i => some i.Name
  | _ => none

/-- The variables the init statement of an if-statement declares. -/
def declaredNames (i : dst.IfStmt) : List String :=
  match i.Init with
  | some (.AssignStmt lhs .DEFINE _) => lhs.filterMap identName
  | _ => []

/-- Nodes of the deferred calls that are statements of a list. -/
def deferredCallNodes : List dst.Stmt → List dst.Node
  | [] => []
  | .DeferStmt call _ :: rest => dst.reachCall (fun _ => false) call ++ deferredCallNodes rest
  | _ :: rest => deferredCallNodes rest

/-- Nodes of the condition, of the then-branch and of the deferred exit call
of an if-statement. -/
def scopeNodes (i : dst.IfStmt) : List dst.Node :=
  dst.reachExpr (fun _ => false) i.Cond ++ dst.reachBlock (fun _ => false) i.Body
    ++ deferredCallNodes (elseList i)

/-- Whether a variable is referenced in the condition, the then-branch or the
deferred exit call of an if-statement. -/
def references (v : String) (i : dst.IfStmt) : Bool :=
  (scopeNodes i).any (dst.Node.isIdentNamed v)

/-- Whether an expression mentions an identifier. -/
def mentions (v : String) (e : dst.Expr) : Bool :=
  (dst.reachExpr (fun _ => false) e).any (dst.Node.isIdentNamed v)

/-- The if-statement of a trampoline-jump is well scoped: the call-context
variable and the skip variable are referenced only if the init statement
declares them, and every variable it declares under a name other than `_` is
referenced. -/
def wellScoped (ctx skip : String) (i : dst.IfStmt) : Prop :=
  (references ctx i = true → ctx ∈ declaredNames i) ∧
  (references skip i = true → skip ∈ declaredNames i) ∧
  ∀ v ∈ declaredNames i, v ≠ "_" → references v i = true

/-! ## Further sample inputs -/

/-- Entry hook `func onEnterDoA(_ HookContext)` with body `passTo(ictx)`. -/
def hookIgnoringContext : dst.FuncDecl :=
  { Recv := none,
    Name := { Name := "onEnterDoA" },
    Typ := dst.FuncType.mk true none
      (dst.FieldList.mk true
        [dst.Field.mk [{ Name := "_" }] (some (dst.Expr.Ident { Name := "HookContext" }))
          none] true)
      none,
    Body := some escapingBody }

/-- Entry hook `func onEnterDoA(HookContext)`, its parameter declared without
a name, with an empty body. -/
def hookUnnamedParam : dst.FuncDecl :=
  { Recv := none,
    Name := { Name := "onEnterDoA" },
    Typ := dst.FuncType.mk true none
      (dst.FieldList.mk true
        [dst.Field.mk [] (some (dst.Expr.Ident { Name := "HookContext" })) none] true)
      none,
    Body := some (dst.BlockStmt.mk [] dst.noDecs) }

/-- A hook file that declares the function of the given name only. -/
def hookFile (name : String) : dst.File :=
  { Name := { Name := "rules" },
    Decls := [dst.Decl.FuncDecl { hookUsingReceiverOnly with Name := { Name := name } }] }

/-- A parser for a rule directory with two files: `enter.go` declares the
entry hook of the sample rule, `exit.go` its exit hook. -/
def sampleParseFile (file : String) : Res dst.File :=
  if file == "enter.go" then pure (hookFile "onEnterDoA")
  else if file == "exit.go" then pure (hookFile "onExitDoA")
  else failWith "no such file"

/-- Two rules whose string forms differ in the function name only. -/
def rulePlumless : InstFuncRule := { ruleA with Function := "plumless" }

/-- The second of the two rules. -/
def ruleBuckeroo : InstFuncRule := { ruleA with Function := "buckeroo" }

/-- The type declaration `type CallContextImpl struct\x7b\x7d` of the template. -/
def sampleCallCtxDecl : dst.GenDecl :=
  dst.GenDecl.mk dst.Token.TYPE
    [dst.Spec.TypeSpec { Name := "CallContextImpl" } none
      (dst.Expr.StructType (dst.FieldList.mk true [] true))]

/-- A rule directory `rules` that holds the hidden file `.gitignore` and the
hook file `hook.go`. -/
def sampleRuleDir : FsNode :=
  FsNode.dir "rules" [FsNode.file ".gitignore", FsNode.file "hook.go"]

/-- A rule directory with a hidden directory and a hook file after it. -/
def sampleRuleDirHidden : FsNode :=
  FsNode.dir "rules" [FsNode.dir ".git" [FsNode.file "config"], FsNode.file "hook.go"]

/-- A snippet parser for the examples: the entry snippet `println(1)` and the
exit snippet `println(2)` wrapped in a deferred anonymous function call. -/
def sampleSnippetParse (s : String) : Res (List dst.Stmt) :=
  if s == "println(1)" then
    pure [ast.ExprStmt (dst.Expr.CallExpr (util.CallTo "println"
      [dst.Expr.BasicLit { Kind := dst.Token.INT, Value := "1" }]))]
  else if s == "defer func()\x7b println(2) \x7d()" then
    pure [ast.DeferStmt (dst.CallExpr.mk
      (dst.Expr.FuncLit (dst.FuncType.mk true none (dst.FieldList.mk true [] true) none)
        (dst.BlockStmt.mk [ast.ExprStmt (dst.Expr.CallExpr (util.CallTo "println"
          [dst.Expr.BasicLit { Kind := dst.Token.INT, Value := "2" }]))] dst.noDecs)) [] false)]
  else failWith "no snippet"

/-- A raw-injection rule with both snippets. -/
def ruleRaw : InstFuncRule :=
  { ruleA with OnEnter := "println(1)", OnExit := "println(2)", UseRaw := true }

/-- The sample file after the iteration of the optimisation pass for its outer
trampoline-jump. -/
def sampleStoreOptimized : FileStore :=
  match optimizeTJumpAt (sampleHelpers hookUsingReceiverOnly) sampleStore
      { target := 0, stmt := 0, depth := 0, rule := ruleExitOnly } with
  | .ok st => st
  | .error _ => sampleStore

/-- Name `X` of the receiver type of a method with receiver type `*X`. -/
def receiverTypeName (method : dst.FuncDecl) : Option String :=
  match method.Recv with
  | some (.mk _ (.mk _ (some (.StarExpr (.Ident x))) _ :: _) _) => some x.Name
  | _ => none

/-- A method `func (c *CallContextImpl) GetData()` of the template. -/
def sampleCallCtxMethod : dst.FuncDecl :=
  { Recv := some (dst.FieldList.mk true
      [dst.Field.mk [{ Name := "c" }]
        (some (dst.Expr.StarExpr (dst.Expr.Ident { Name := "CallContextImpl" }))) none] true),
    Name := { Name := "GetData" },
    Typ := dst.FuncType.mk true none (dst.FieldList.mk true [] true) none,
    Body := some (dst.BlockStmt.mk [] dst.noDecs) }

/-! ## Replace-all substitution, as the specification words it -/

/-- Position of the first occurrence of a text in a list of characters. -/
def firstMatch (old : List Char) : List Char → Option Nat
  | [] => none
  | c :: cs =>
    if old.isPrefixOf (c :: cs) then some 0 else (firstMatch old cs).map (fun k => k + 1)

/-- Replace-all substitution of a text: the text before the first occurrence,
the replacement, and the substitution applied to the text after that
occurrence; `fuel` bounds the number of occurrences. -/
def replaceEachMatch (old new : List Char) : Nat → List Char → List Char
  | 0, s => s
  | fuel + 1, s =>
    match firstMatch old s with
    | none => s
    | some k => s.take k ++ new ++ replaceEachMatch old new fuel (s.drop (k + old.length))

/-- Replace-all substitution of the text `old` by `new` in `s`. -/
def replaceAllLiteral (s old new : String) : String :=
  String.mk (replaceEachMatch old.data new.data (s.data.length + 1) s.data)

/-- A file reader for the examples: one woven line with the three markers. -/
def sampleReadFile (_filePath : String) : Res String :=
  pure ("if a, b := f(); b /* TRAMPOLINE_JUMP_IF */ \x7b\ng() /* SEMICOLON_PLACEHOLDER */\n"
    ++ "/* NO_NEWWLINE_PLACEHOLDER */\nreturn\x7d /* SEMICOLON_PLACEHOLDER */")

/-- The trampoline-jump `insertTJump` registers for a rule and a target
function, as the optimisation pass finds it later: in the else-branch the
statements `nested` follow the deferred exit call. -/
def registeredTJump (rand : Nat → String) (t : InstFuncRule) (funcDecl target : dst.FuncDecl)
    (nested : List dst.Stmt) (after : dst.SpaceType) : TJump :=
  { target := target,
    ifStmt := standardTJumpOf (jumpNames t (rand (unnamedCount (resultFields funcDecl))))
      (enterArgs funcDecl) (exitRetVals rand funcDecl) nested after,
    rule := t }

/-! ## Lemmas: a flag-raising walk and the reachable nodes -/

open dst

theorem visit_flag {f : Visitor Bool} {hit prune : Node → Bool}
    (hf : FlagVisitor f hit prune) (n : Node) (children : Bool → Bool) (cs : List Node)
    (hc : ∀ s, children s = (s || cs.any hit)) (s : Bool) :
    visit f n children s = (s || (reachNode prune n cs).any hit) := by
  cases s with
  | true => simp [visit, hf.raised]
  | false =>
    by_cases h1 : hit n
    · simp [visit, hf.lowered, h1, reachNode]
    · by_cases h2 : prune n
      · simp [visit, hf.lowered, h1, h2, reachNode]
      · simp [visit, hf.lowered, h1, h2, reachNode, hf.nil_state, hc]

theorem walkLeaf_flag {f : Visitor Bool} {hit prune : Node → Bool}
    (hf : FlagVisitor f hit prune) (n : Node) (s : Bool) :
    walkLeaf f n s = (s || (reachNode prune n []).any hit) := by
  cases s with
  | true => simp [walkLeaf, hf.raised]
  | false =>
    by_cases h1 : hit n
    · simp [walkLeaf, hf.lowered, h1, reachNode]
    · by_cases h2 : prune n
      · simp [walkLeaf, hf.lowered, h1, h2, reachNode]
      · simp [walkLeaf, hf.lowered, h1, h2, reachNode, hf.nil_state]

theorem walkIdentList_flag {f : Visitor Bool} {hit prune : Node → Bool}
    (hf : FlagVisitor f hit prune) : ∀ (l : List Ident) (s : Bool),
    walkIdentList f l s = (s || (reachIdentList prune l).any hit)
  | [], s => by simp [walkIdentList, reachIdentList]
  | i :: is, s => by
    simp [walkIdentList, reachIdentList, walkIdentList_flag hf is, walkLeaf_flag hf,
      Bool.or_assoc]

theorem walkIdentOpt_flag {f : Visitor Bool} {hit prune : Node → Bool}
    (hf : FlagVisitor f hit prune) : ∀ (l : Option Ident) (s : Bool),
    walkIdentOpt f l s = (s || (reachIdentOpt prune l).any hit)
  | none, s => by simp [walkIdentOpt, reachIdentOpt]
  | some i, s => by simp [walkIdentOpt, reachIdentOpt, walkLeaf_flag hf]

theorem walkLitOpt_flag {f : Visitor Bool} {hit prune : Node → Bool}
    (hf : FlagVisitor f hit prune) : ∀ (l : Option BasicLit) (s : Bool),
    walkLitOpt f l s = (s || (reachLitOpt prune l).any hit)
  | none, s => by simp [walkLitOpt, reachLitOpt]
  | some i, s => by simp [walkLitOpt, reachLitOpt, walkLeaf_flag hf]

set_option maxHeartbeats 4000000 in
mutual
theorem walkExpr_flag {f : Visitor Bool} {hit prune : Node → Bool}
    (hf : FlagVisitor f hit prune) : ∀ (x : Expr) (s : Bool),
    walkExpr f x s = (s || (reachExpr prune x).any hit)
  | .Ident i, s => by
    rw [walkExpr, reachExpr]; exact visit_flag hf _ _ [] (by simp) s
  | .Ellipsis elt, s => by
    rw [walkExpr, reachExpr]
    exact visit_flag hf _ _ _ (fun s => by simp [walkExprOpt_flag hf elt, Bool.or_assoc]) s
  | .BasicLit b, s => by
    rw [walkExpr, reachExpr]; exact visit_flag hf _ _ [] (by simp) s
  | .FuncLit t b, s => by
    rw [walkExpr, reachExpr]
    exact visit_flag hf _ _ _ (fun s => by simp [walkFuncType_flag hf t, walkBlock_flag hf b, Bool.or_assoc]) s
  | .CompositeLit t elts, s => by
    rw [walkExpr, reachExpr]
    exact visit_flag hf _ _ _ (fun s => by simp [walkExprOpt_flag hf t, walkExprList_flag hf elts, Bool.or_assoc]) s
  | .ParenExpr x, s => by
    rw [walkExpr, reachExpr]
    exact visit_flag hf _ _ _ (fun s => by simp [walkExpr_flag hf x, Bool.or_assoc]) s
  | .SelectorExpr x sel, s => by
    rw [walkExpr, reachExpr]
    exact visit_flag hf _ _ _ (fun s => by simp [walkExpr_flag hf x, walkLeaf_flag hf, Bool.or_assoc]) s
  | .IndexExpr x i, s => by
    rw [walkExpr, reachExpr]
    exact visit_flag hf _ _ _ (fun s => by simp [walkExpr_flag hf x, walkExpr_flag hf i, Bool.or_assoc]) s
  | .IndexListExpr x is, s => by
    rw [walkExpr, reachExpr]
    exact visit_flag hf _ _ _ (fun s => by simp [walkExpr_flag hf x, walkExprList_flag hf is, Bool.or_assoc]) s
  | .SliceExpr x lo hi mx, s => by
    rw [walkExpr, reachExpr]
    exact visit_flag hf _ _ _ (fun s => by simp [walkExpr_flag hf x, walkExprOpt_flag hf lo, walkExprOpt_flag hf hi, walkExprOpt_flag hf mx, Bool.or_assoc]) s
  | .TypeAssertExpr x t, s => by
    rw [walkExpr, reachExpr]
    exact visit_flag hf _ _ _ (fun s => by simp [walkExpr_flag hf x, walkExprOpt_flag hf t, Bool.or_assoc]) s
  | .CallExpr c, s => by
    rw [walkExpr, reachExpr]; exact walkCall_flag hf c s
  | .StarExpr x, s => by
    rw [walkExpr, reachExpr]
    exact visit_flag hf _ _ _ (fun s => by simp [walkExpr_flag hf x, Bool.or_assoc]) s
  | .UnaryExpr op x, s => by
    rw [walkExpr, reachExpr]
    exact visit_flag hf _ _ _ (fun s => by simp [walkExpr_flag hf x, Bool.or_assoc]) s
  | .BinaryExpr x op y, s => by
    rw [walkExpr, reachExpr]
    exact visit_flag hf _ _ _ (fun s => by simp [walkExpr_flag hf x, walkExpr_flag hf y, Bool.or_assoc]) s
  | .KeyValueExpr k v, s => by
    rw [walkExpr, reachExpr]
    exact visit_flag hf _ _ _ (fun s => by simp [walkExpr_flag hf k, walkExpr_flag hf v, Bool.or_assoc]) s
  | .ArrayType len elt, s => by
    rw [walkExpr, reachExpr]
    exact visit_flag hf _ _ _ (fun s => by simp [walkExprOpt_flag hf len, walkExpr_flag hf elt, Bool.or_assoc]) s
  | .StructType fields, s => by
    rw [walkExpr, reachExpr]
    exact visit_flag hf _ _ _ (fun s => by simp [walkFieldList_flag hf fields, Bool.or_assoc]) s
  | .FuncType ft, s => by
    rw [walkExpr, reachExpr]; exact walkFuncType_flag hf ft s
  | .InterfaceType ms, s => by
    rw [walkExpr, reachExpr]
    exact visit_flag hf _ _ _ (fun s => by simp [walkFieldList_flag hf ms, Bool.or_assoc]) s
  | .MapType k v, s => by
    rw [walkExpr, reachExpr]
    exact visit_flag hf _ _ _ (fun s => by simp [walkExpr_flag hf k, walkExpr_flag hf v, Bool.or_assoc]) s
  | .ChanType d v, s => by
    rw [walkExpr, reachExpr]
    exact visit_flag hf _ _ _ (fun s => by simp [walkExpr_flag hf v, Bool.or_assoc]) s
theorem walkExprList_flag {f : Visitor Bool} {hit prune : Node → Bool}
    (hf : FlagVisitor f hit prune) : ∀ (x : List Expr) (s : Bool),
    walkExprList f x s = (s || (reachExprList prune x).any hit)
  | [], s => by
    simp [walkExprList, reachExprList]
  | y :: ys, s => by
    rw [walkExprList, reachExprList, walkExprList_flag hf ys, walkExpr_flag hf y]
    simp [Bool.or_assoc]
theorem walkExprOpt_flag {f : Visitor Bool} {hit prune : Node → Bool}
    (hf : FlagVisitor f hit prune) : ∀ (x : Option Expr) (s : Bool),
    walkExprOpt f x s = (s || (reachExprOpt prune x).any hit)
  | none, s => by
    simp [walkExprOpt, reachExprOpt]
  | some y, s => by
    rw [walkExprOpt, reachExprOpt]; exact walkExpr_flag hf y s
theorem walkCall_flag {f : Visitor Bool} {hit prune : Node → Bool}
    (hf : FlagVisitor f hit prune) : ∀ (x : CallExpr) (s : Bool),
    walkCall f x s = (s || (reachCall prune x).any hit)
  | .mk fn args ell, s => by
    rw [walkCall, reachCall]
    exact visit_flag hf _ _ _ (fun s => by simp [walkExpr_flag hf fn, walkExprList_flag hf args, Bool.or_assoc]) s
theorem walkField_flag {f : Visitor Bool} {hit prune : Node → Bool}
    (hf : FlagVisitor f hit prune) : ∀ (x : Field) (s : Bool),
    walkField f x s = (s || (reachField prune x).any hit)
  | .mk names t tag, s => by
    rw [walkField, reachField]
    exact visit_flag hf _ _ _ (fun s => by simp [walkIdentList_flag hf, walkExprOpt_flag hf t, walkLitOpt_flag hf, Bool.or_assoc]) s
theorem walkFields_flag {f : Visitor Bool} {hit prune : Node → Bool}
    (hf : FlagVisitor f hit prune) : ∀ (x : List Field) (s : Bool),
    walkFields f x s = (s || (reachFields prune x).any hit)
  | [], s => by
    simp [walkFields, reachFields]
  | y :: ys, s => by
    rw [walkFields, reachFields, walkFields_flag hf ys, walkField_flag hf y]
    simp [Bool.or_assoc]
theorem walkFieldList_flag {f : Visitor Bool} {hit prune : Node → Bool}
    (hf : FlagVisitor f hit prune) : ∀ (x : FieldList) (s : Bool),
    walkFieldList f x s = (s || (reachFieldList prune x).any hit)
  | .mk o list c, s => by
    rw [walkFieldList, reachFieldList]
    exact visit_flag hf _ _ _ (fun s => by simp [walkFields_flag hf list, Bool.or_assoc]) s
theorem walkFieldListOpt_flag {f : Visitor Bool} {hit prune : Node → Bool}
    (hf : FlagVisitor f hit prune) : ∀ (x : Option FieldList) (s : Bool),
    walkFieldListOpt f x s = (s || (reachFieldListOpt prune x).any hit)
  | none, s => by
    simp [walkFieldListOpt, reachFieldListOpt]
  | some y, s => by
    rw [walkFieldListOpt, reachFieldListOpt]; exact walkFieldList_flag hf y s
theorem walkFuncType_flag {f : Visitor Bool} {hit prune : Node → Bool}
    (hf : FlagVisitor f hit prune) : ∀ (x : FuncType) (s : Bool),
    walkFuncType f x s = (s || (reachFuncType prune x).any hit)
  | .mk fn tp ps rs, s => by
    rw [walkFuncType, reachFuncType]
    exact visit_flag hf _ _ _ (fun s => by simp [walkFieldListOpt_flag hf tp, walkFieldList_flag hf ps, walkFieldListOpt_flag hf rs, Bool.or_assoc]) s
theorem walkBlock_flag {f : Visitor Bool} {hit prune : Node → Bool}
    (hf : FlagVisitor f hit prune) : ∀ (x : BlockStmt) (s : Bool),
    walkBlock f x s = (s || (reachBlock prune x).any hit)
  | .mk list d, s => by
    rw [walkBlock, reachBlock]
    exact visit_flag hf _ _ _ (fun s => by simp [walkStmtList_flag hf list, Bool.or_assoc]) s
theorem walkIf_flag {f : Visitor Bool} {hit prune : Node → Bool}
    (hf : FlagVisitor f hit prune) : ∀ (x : IfStmt) (s : Bool),
    walkIf f x s = (s || (reachIf prune x).any hit)
  | .mk init cond body els d, s => by
    rw [walkIf, reachIf]
    exact visit_flag hf _ _ _ (fun s => by simp [walkStmtOpt_flag hf init, walkExpr_flag hf cond, walkBlock_flag hf body, walkStmtOpt_flag hf els, Bool.or_assoc]) s
theorem walkStmt_flag {f : Visitor Bool} {hit prune : Node → Bool}
    (hf : FlagVisitor f hit prune) : ∀ (x : Stmt) (s : Bool),
    walkStmt f x s = (s || (reachStmt prune x).any hit)
  | .DeclStmt d, s => by
    rw [walkStmt, reachStmt]
    exact visit_flag hf _ _ _ (fun s => by simp [walkGenDecl_flag hf d, Bool.or_assoc]) s
  | .EmptyStmt d, s => by
    rw [walkStmt, reachStmt]; exact visit_flag hf _ _ [] (by simp) s
  | .LabeledStmt l x, s => by
    rw [walkStmt, reachStmt]
    exact visit_flag hf _ _ _ (fun s => by simp [walkLeaf_flag hf, walkStmt_flag hf x, Bool.or_assoc]) s
  | .ExprStmt x d, s => by
    rw [walkStmt, reachStmt]
    exact visit_flag hf _ _ _ (fun s => by simp [walkExpr_flag hf x, Bool.or_assoc]) s
  | .SendStmt c v, s => by
    rw [walkStmt, reachStmt]
    exact visit_flag hf _ _ _ (fun s => by simp [walkExpr_flag hf c, walkExpr_flag hf v, Bool.or_assoc]) s
  | .IncDecStmt x t, s => by
    rw [walkStmt, reachStmt]
    exact visit_flag hf _ _ _ (fun s => by simp [walkExpr_flag hf x, Bool.or_assoc]) s
  | .AssignStmt lhs t rhs, s => by
    rw [walkStmt, reachStmt]
    exact visit_flag hf _ _ _ (fun s => by simp [walkExprList_flag hf lhs, walkExprList_flag hf rhs, Bool.or_assoc]) s
  | .GoStmt c, s => by
    rw [walkStmt, reachStmt]
    exact visit_flag hf _ _ _ (fun s => by simp [walkCall_flag hf c, Bool.or_assoc]) s
  | .DeferStmt c d, s => by
    rw [walkStmt, reachStmt]
    exact visit_flag hf _ _ _ (fun s => by simp [walkCall_flag hf c, Bool.or_assoc]) s
  | .ReturnStmt rs d, s => by
    rw [walkStmt, reachStmt]
    exact visit_flag hf _ _ _ (fun s => by simp [walkExprList_flag hf rs, Bool.or_assoc]) s
  | .BranchStmt t l, s => by
    rw [walkStmt, reachStmt]
    exact visit_flag hf _ _ _ (fun s => by simp [walkIdentOpt_flag hf, Bool.or_assoc]) s
  | .BlockStmt b, s => by
    rw [walkStmt, reachStmt]; exact walkBlock_flag hf b s
  | .IfStmt i, s => by
    rw [walkStmt, reachStmt]; exact walkIf_flag hf i s
  | .CaseClause l b, s => by
    rw [walkStmt, reachStmt]
    exact visit_flag hf _ _ _ (fun s => by simp [walkExprList_flag hf l, walkStmtList_flag hf b, Bool.or_assoc]) s
  | .SwitchStmt i t b, s => by
    rw [walkStmt, reachStmt]
    exact visit_flag hf _ _ _ (fun s => by simp [walkStmtOpt_flag hf i, walkExprOpt_flag hf t, walkBlock_flag hf b, Bool.or_assoc]) s
  | .TypeSwitchStmt i a b, s => by
    rw [walkStmt, reachStmt]
    exact visit_flag hf _ _ _ (fun s => by simp [walkStmtOpt_flag hf i, walkStmt_flag hf a, walkBlock_flag hf b, Bool.or_assoc]) s
  | .CommClause c b, s => by
    rw [walkStmt, reachStmt]
    exact visit_flag hf _ _ _ (fun s => by simp [walkStmtOpt_flag hf c, walkStmtList_flag hf b, Bool.or_assoc]) s
  | .SelectStmt b, s => by
    rw [walkStmt, reachStmt]
    exact visit_flag hf _ _ _ (fun s => by simp [walkBlock_flag hf b, Bool.or_assoc]) s
  | .ForStmt i c p b, s => by
    rw [walkStmt, reachStmt]
    exact visit_flag hf _ _ _ (fun s => by simp [walkStmtOpt_flag hf i, walkExprOpt_flag hf c, walkStmtOpt_flag hf p, walkBlock_flag hf b, Bool.or_assoc]) s
  | .RangeStmt k v t x b, s => by
    rw [walkStmt, reachStmt]
    exact visit_flag hf _ _ _ (fun s => by simp [walkExprOpt_flag hf k, walkExprOpt_flag hf v, walkExpr_flag hf x, walkBlock_flag hf b, Bool.or_assoc]) s
theorem walkStmtList_flag {f : Visitor Bool} {hit prune : Node → Bool}
    (hf : FlagVisitor f hit prune) : ∀ (x : List Stmt) (s : Bool),
    walkStmtList f x s = (s || (reachStmtList prune x).any hit)
  | [], s => by
    simp [walkStmtList, reachStmtList]
  | y :: ys, s => by
    rw [walkStmtList, reachStmtList, walkStmtList_flag hf ys, walkStmt_flag hf y]
    simp [Bool.or_assoc]
theorem walkStmtOpt_flag {f : Visitor Bool} {hit prune : Node → Bool}
    (hf : FlagVisitor f hit prune) : ∀ (x : Option Stmt) (s : Bool),
    walkStmtOpt f x s = (s || (reachStmtOpt prune x).any hit)
  | none, s => by
    simp [walkStmtOpt, reachStmtOpt]
  | some y, s => by
    rw [walkStmtOpt, reachStmtOpt]; exact walkStmt_flag hf y s
theorem walkGenDecl_flag {f : Visitor Bool} {hit prune : Node → Bool}
    (hf : FlagVisitor f hit prune) : ∀ (x : GenDecl) (s : Bool),
    walkGenDecl f x s = (s || (reachGenDecl prune x).any hit)
  | .mk t specs, s => by
    rw [walkGenDecl, reachGenDecl]
    exact visit_flag hf _ _ _ (fun s => by simp [walkSpecs_flag hf specs, Bool.or_assoc]) s
theorem walkSpecs_flag {f : Visitor Bool} {hit prune : Node → Bool}
    (hf : FlagVisitor f hit prune) : ∀ (x : List Spec) (s : Bool),
    walkSpecs f x s = (s || (reachSpecs prune x).any hit)
  | [], s => by
    simp [walkSpecs, reachSpecs]
  | y :: ys, s => by
    rw [walkSpecs, reachSpecs, walkSpecs_flag hf ys, walkSpec_flag hf y]
    simp [Bool.or_assoc]
theorem walkSpec_flag {f : Visitor Bool} {hit prune : Node → Bool}
    (hf : FlagVisitor f hit prune) : ∀ (x : Spec) (s : Bool),
    walkSpec f x s = (s || (reachSpec prune x).any hit)
  | .ImportSpec n p, s => by
    rw [walkSpec, reachSpec]
    exact visit_flag hf _ _ _ (fun s => by simp [walkIdentOpt_flag hf, walkLeaf_flag hf, Bool.or_assoc]) s
  | .ValueSpec ns t vs, s => by
    rw [walkSpec, reachSpec]
    exact visit_flag hf _ _ _ (fun s => by simp [walkIdentList_flag hf, walkExprOpt_flag hf t, walkExprList_flag hf vs, Bool.or_assoc]) s
  | .TypeSpec n tp t, s => by
    rw [walkSpec, reachSpec]
    exact visit_flag hf _ _ _ (fun s => by simp [walkLeaf_flag hf, walkFieldListOpt_flag hf tp, walkExpr_flag hf t, Bool.or_assoc]) s
end

theorem walkBlockOpt_flag {f : Visitor Bool} {hit prune : Node → Bool}
    (hf : FlagVisitor f hit prune) : ∀ (x : Option BlockStmt) (s : Bool),
    walkBlockOpt f x s = (s || (reachBlockOpt prune x).any hit)
  | none, s => by simp [walkBlockOpt, reachBlockOpt]
  | some b, s => by rw [walkBlockOpt, reachBlockOpt]; exact walkBlock_flag hf b s

theorem walkFuncDecl_flag {f : Visitor Bool} {hit prune : Node → Bool}
    (hf : FlagVisitor f hit prune) (d : FuncDecl) (s : Bool) :
    walkFuncDecl f d s = (s || (reachFuncDecl prune d).any hit) := by
  rw [walkFuncDecl, reachFuncDecl]
  exact visit_flag hf _ _ _ (fun s => by
    simp [walkFieldListOpt_flag hf, walkLeaf_flag hf, walkFuncType_flag hf,
      walkBlockOpt_flag hf, Bool.or_assoc]) s

/-! ## The escape analysis `canFlattenTJump` -/

theorem skipCallVisitor_flag :
    FlagVisitor skipCallVisitor
      (Node.isIdentWith (fun name => strings.Contains name trampolineSetSkipCallName))
      (fun _ => false) where
  nil_state := by intro s; cases s <;> rfl
  raised := by
    intro n
    cases n with
    | expr e => cases e <;> simp [skipCallVisitor]
    | _ => rfl
  lowered := by
    intro n
    cases n with
    | expr e => cases e <;> simp [skipCallVisitor, Node.isIdentWith]
    | _ => rfl

theorem escapeVisitor_flag (p : String) :
    FlagVisitor (escapeVisitor p) (Node.isIdentNamed p) (Node.isSelectorOn p) where
  nil_state := by intro s; cases s <;> rfl
  raised := by intro n; rfl
  lowered := by
    intro n
    cases n with
    | expr e =>
      cases e with
      | SelectorExpr x sel => cases x <;> simp [escapeVisitor, Node.isIdentNamed, Node.isSelectorOn]
      | Ident i => by_cases h : i.Name = p <;> simp [escapeVisitor, Node.isIdentNamed, Node.isSelectorOn, h]
      | _ => rfl
    | _ => rfl

/-- What `canFlattenTJump` computes, in terms of the nodes of the hook. -/
theorem canFlattenTJump_eq (hookFunc : FuncDecl) :
    canFlattenTJump hookFunc =
      if (allNodes hookFunc).any
          (Node.isIdentWith (fun name => strings.Contains name trampolineSetSkipCallName)) then
        .ok false
      else
        match firstParamName hookFunc with
        | .error e => .error e
        | .ok hookContextParam =>
          if hookContextParam == ast.IdentIgnore then .ok true
          else
            match hookFunc.Body with
            | none => fatal "invalid memory address or nil pointer dereference"
            | some body =>
              .ok (!(reachBlock (Node.isSelectorOn hookContextParam) body).any
                (Node.isIdentNamed hookContextParam)) := by
  unfold canFlattenTJump
  simp only [walkFuncDecl_flag skipCallVisitor_flag, Bool.false_or, allNodes]
  split
  · rfl
  · cases firstParamName hookFunc with
    | error e => rfl
    | ok p =>
      simp only
      split
      · rfl
      · cases hookFunc.Body with
        | none => rfl
        | some body =>
          simp only [walkBlock_flag (escapeVisitor_flag p), Bool.false_or]
          rfl

theorem removeOnExitTrampolineCall_cond (t t' : TJump)
    (h : removeOnExitTrampolineCall t = .ok t') :
    t'.ifStmt.Cond = t.ifStmt.Cond ∧ t'.ifStmt.Init = t.ifStmt.Init
      ∧ t'.ifStmt.Body = t.ifStmt.Body ∧ t'.rule = t.rule ∧ t'.target = t.target := by
  unfold removeOnExitTrampolineCall at h
  split at h
  · next init cond body list bdecs decs heq =>
    split at h
    · simp only [pure, Except.pure, Except.ok.injEq] at h
      subst h
      simp [heq, IfStmt.Cond, IfStmt.Init, IfStmt.Body]
    · exact absurd h (by simp)
  · exact absurd h (by simp [fatal])

theorem stripTJumpLabel_cond (t : TJump) :
    (stripTJumpLabel t).ifStmt.Cond = t.ifStmt.Cond ∧ (stripTJumpLabel t).rule = t.rule := by
  unfold stripTJumpLabel
  cases h : t.ifStmt with
  | mk init cond body els decs => simp [IfStmt.Cond]

/-- Claim C6: `canFlattenTJump` answers false for an entry hook in which some
identifier has a name containing "SetSkipCall", and for an entry hook whose
call-context parameter occurs in the body as an identifier outside a selector
expression on it; and for a rule with an entry hook for which the answer is
false, one pass of `optimizeTJumps` over the trampoline-jump leaves its
condition as it was. -/
theorem canFlattenTJump_refuses (hookFunc : FuncDecl) :
    ((∃ ident : Ident, Node.expr (Expr.Ident ident) ∈ allNodes hookFunc ∧
        strings.Contains ident.Name "SetSkipCall" = true) →
      canFlattenTJump hookFunc = .ok false) ∧
    (∀ (param : String) (body : BlockStmt),
      firstParamName hookFunc = .ok param → param ≠ "_" → hookFunc.Body = some body →
      Node.expr (Expr.Ident { Name := param }) ∈ reachBlock (Node.isSelectorOn param) body →
      canFlattenTJump hookFunc = .ok false) ∧
    (∀ (h : Helpers) (rp : RuleProcessor) (tjump : TJump) (r : RuleProcessor × TJump),
      tjump.rule.OnEnter ≠ "" → h.getHookFunc tjump.rule true = .ok hookFunc →
      canFlattenTJump hookFunc = .ok false →
      optimizeTJump h rp tjump = .ok r → r.2.ifStmt.Cond = tjump.ifStmt.Cond) := by
  refine ⟨?_, ?_, ?_⟩
  · rintro ⟨ident, hmem, hc⟩
    rw [canFlattenTJump_eq, if_pos]
    rw [List.any_eq_true]
    exact ⟨_, hmem, by simpa [Node.isIdentWith, trampolineSetSkipCallName] using hc⟩
  · intro param body hp hne hb hmem
    rw [canFlattenTJump_eq]
    split
    · rfl
    · rw [hp]
      simp only [hb]
      rw [if_neg (by simpa [ast.IdentIgnore] using hne)]
      have : (reachBlock (Node.isSelectorOn param) body).any (Node.isIdentNamed param) = true := by
        rw [List.any_eq_true]
        exact ⟨_, hmem, by simp [Node.isIdentNamed]⟩
      rw [this]; rfl
  · intro h rp tjump r hEnter hHook hCan hOpt
    unfold optimizeTJump at hOpt
    cases hm : mustTJump tjump.ifStmt with
    | error e => simp [hm, bind, Except.bind] at hOpt
    | ok u =>
      have hrule := (stripTJumpLabel_cond tjump).2
      have hcond := (stripTJumpLabel_cond tjump).1
      simp only [hm, bind, Except.bind, hrule] at hOpt
      by_cases hExit : tjump.rule.OnExit = ""
      · simp only [hExit, beq_self_eq_true, if_true] at hOpt
        cases hr : removeOnExitTrampolineCall (stripTJumpLabel tjump) with
        | error e => simp [hr] at hOpt
        | ok t1 =>
          have h1 := removeOnExitTrampolineCall_cond _ _ hr
          simp only [hr, pure, Except.pure] at hOpt
          have hE : (tjump.rule.OnEnter == "") = false := by simpa using hEnter
          have hE' : (tjump.rule.OnEnter != "") = true := by simpa using hEnter
          simp only [hE, hE', h1.2.2.2.1, hrule, hHook, hCan, if_true] at hOpt
          simp at hOpt
          subst hOpt
          simp [h1.1, hcond]
      · have hX : (tjump.rule.OnExit == "") = false := by simpa using hExit
        have hE : (tjump.rule.OnEnter == "") = false := by simpa using hEnter
        have hE' : (tjump.rule.OnEnter != "") = true := by simpa using hEnter
        simp only [hX, hE, hE', pure, Except.pure, hrule, hHook, hCan] at hOpt
        simp at hOpt
        subst hOpt
        simp [hcond]

/-- Witness for C6: a hook named after "SetSkipCall" and a hook that passes its
call context on are both refused, and the pass leaves the condition `skipx` of
the sample trampoline-jump in place. -/
theorem canFlattenTJump_refuses_witness :
    canFlattenTJump hookNamedAfterSetSkipCall = .ok false ∧
    canFlattenTJump hookPassingContext = .ok false ∧
    (∃ r, optimizeTJump (sampleHelpers hookPassingContext) sampleProcessor (sampleTJump ruleA)
        = .ok r ∧ r.2.ifStmt.Cond = Expr.Ident { Name := "skipx" }) :=
  ⟨(canFlattenTJump_refuses hookNamedAfterSetSkipCall).1
      ⟨{ Name := "onEnterSetSkipCallDemo" }, by simp [allNodes, reachFuncDecl, reachNode,
        hookNamedAfterSetSkipCall, reachFieldListOpt], by rfl⟩,
   (canFlattenTJump_refuses hookPassingContext).2.1 "ictx" escapingBody rfl (by decide) rfl
      (by simp [escapingBody, reachBlock, reachStmtList, reachStmt, reachExpr, reachCall,
        reachExprList, reachNode, Node.isSelectorOn]),
   ⟨_, rfl, (canFlattenTJump_refuses hookPassingContext).2.2 (sampleHelpers hookPassingContext)
      sampleProcessor (sampleTJump ruleA) _ (by decide) rfl rfl rfl⟩⟩

/-- Counterexample for C7: the hook `onEnterSetSkipCallDemo` with an empty body
never calls `SetSkipCall` and never uses its call-context parameter, yet
`canFlattenTJump` answers false, because the hook's own name contains
"SetSkipCall". -/
theorem canFlattenTJump_not_iff_docstring :
    canFlattenTJump hookNamedAfterSetSkipCall = .ok false ∧
    neverCallsSetSkipCall hookNamedAfterSetSkipCall = true ∧
    usedOnlyAsMethodReceiver "ictx" (BlockStmt.mk [] noDecs) = true ∧
    ¬ (canFlattenTJump hookNamedAfterSetSkipCall = .ok true ↔
        (neverCallsSetSkipCall hookNamedAfterSetSkipCall = true ∧
          usedOnlyAsMethodReceiver "ictx" (BlockStmt.mk [] noDecs) = true)) := by
  have h1 : canFlattenTJump hookNamedAfterSetSkipCall = .ok false := by rfl
  have h2 : neverCallsSetSkipCall hookNamedAfterSetSkipCall = true := by rfl
  have h3 : usedOnlyAsMethodReceiver "ictx" (BlockStmt.mk [] noDecs) = true := by rfl
  refine ⟨h1, h2, h3, ?_⟩
  rw [h1]
  intro h
  have := h.mpr ⟨h2, h3⟩
  simp at this

/-- Claim C7, amended: for a hook whose first parameter is named and whose body
is present, `canFlattenTJump` returns a boolean, and it returns true exactly
when (1) no identifier of the hook declaration has a name containing
"SetSkipCall" and (2) the parameter is `_`, or no identifier with the
parameter's name is reachable in the body without passing below a selector
expression on that name. -/
theorem canFlattenTJump_iff (hookFunc : FuncDecl) (param : String) (body : BlockStmt)
    (hp : firstParamName hookFunc = .ok param) (hb : hookFunc.Body = some body) :
    (∃ b, canFlattenTJump hookFunc = .ok b) ∧
    (canFlattenTJump hookFunc = .ok true ↔
      ((∀ ident : Ident, Node.expr (Expr.Ident ident) ∈ allNodes hookFunc →
          strings.Contains ident.Name "SetSkipCall" = false) ∧
       (param = "_" ∨
          Node.expr (Expr.Ident { Name := param }) ∉ reachBlock (Node.isSelectorOn param) body))) := by
  have hany : (allNodes hookFunc).any
      (Node.isIdentWith (fun name => strings.Contains name trampolineSetSkipCallName)) = true ↔
      ∃ ident : Ident, Node.expr (Expr.Ident ident) ∈ allNodes hookFunc ∧
        strings.Contains ident.Name "SetSkipCall" = true := by
    rw [List.any_eq_true]
    constructor
    · rintro ⟨n, hn, hh⟩
      cases n with
      | expr e =>
        cases e with
        | Ident i => exact ⟨i, hn, by simpa [Node.isIdentWith, trampolineSetSkipCallName] using hh⟩
        | _ => simp [Node.isIdentWith] at hh
      | _ => simp [Node.isIdentWith] at hh
    · rintro ⟨i, hn, hh⟩
      exact ⟨_, hn, by simpa [Node.isIdentWith, trampolineSetSkipCallName] using hh⟩
  have hesc : (reachBlock (Node.isSelectorOn param) body).any (Node.isIdentNamed param) = true ↔
      Node.expr (Expr.Ident { Name := param }) ∈ reachBlock (Node.isSelectorOn param) body := by
    rw [List.any_eq_true]
    constructor
    · rintro ⟨n, hn, hh⟩
      cases n with
      | expr e =>
        cases e with
        | Ident i =>
          have : i = { Name := param } := by
            cases i; simpa [Node.isIdentNamed] using hh
          rw [← this]; exact hn
        | _ => simp [Node.isIdentNamed] at hh
      | _ => simp [Node.isIdentNamed] at hh
    · intro hn
      exact ⟨_, hn, by simp [Node.isIdentNamed]⟩
  rw [canFlattenTJump_eq, hp]
  simp only [hb]
  by_cases hfound : (allNodes hookFunc).any
      (Node.isIdentWith (fun name => strings.Contains name trampolineSetSkipCallName)) = true
  · rw [if_pos hfound]
    refine ⟨⟨false, rfl⟩, ?_⟩
    obtain ⟨i, hi, hc⟩ := hany.mp hfound
    constructor
    · intro h; simp at h
    · rintro ⟨hall, _⟩
      have := hall i hi
      rw [hc] at this; simp at this
  · rw [if_neg hfound]
    have hall : ∀ ident : Ident, Node.expr (Expr.Ident ident) ∈ allNodes hookFunc →
          strings.Contains ident.Name "SetSkipCall" = false := by
      intro i hi
      by_contra hc
      exact hfound (hany.mpr ⟨i, hi, by simpa using hc⟩)
    by_cases hblank : param = "_"
    · rw [if_pos (by simp [hblank, ast.IdentIgnore])]
      exact ⟨⟨true, rfl⟩, fun _ => ⟨hall, Or.inl hblank⟩, fun _ => rfl⟩
    · rw [if_neg (by simpa [ast.IdentIgnore] using hblank)]
      refine ⟨⟨_, rfl⟩, ?_⟩
      constructor
      · intro h
        refine ⟨hall, Or.inr ?_⟩
        intro hmem
        rw [hesc.mpr hmem] at h
        simp at h
      · rintro ⟨_, hor⟩
        rcases hor with hbl | hnot
        · exact absurd hbl hblank
        · have : (reachBlock (Node.isSelectorOn param) body).any (Node.isIdentNamed param)
              = false := by
            by_contra hc
            exact hnot (hesc.mp (by simpa using hc))
          rw [this]; rfl

/-- Witness for the amended C7: the hook with body `ictx.GetParam(0)` meets both
conditions and can be flattened. -/
theorem canFlattenTJump_iff_witness :
    firstParamName hookUsingReceiverOnly = .ok "ictx" ∧
    hookUsingReceiverOnly.Body = some receiverOnlyBody ∧
    canFlattenTJump hookUsingReceiverOnly = .ok true :=
  ⟨rfl, rfl, (canFlattenTJump_iff hookUsingReceiverOnly "ictx" receiverOnlyBody rfl rfl).2.mpr
    ⟨by
      intro ident h
      simp [allNodes, reachFuncDecl, reachNode, hookUsingReceiverOnly, hookNamedAfterSetSkipCall,
        reachFieldListOpt, reachFuncType, reachFieldList, reachFields, reachField,
        reachIdentList, reachExprOpt, reachExpr, reachLitOpt, reachBlockOpt, receiverOnlyBody,
        reachBlock, reachStmtList, reachStmt, reachCall, reachExprList] at h
      rcases h with h | h | h | h | h <;> subst h <;> rfl,
     Or.inr (by
      simp [receiverOnlyBody, reachBlock, reachStmtList, reachStmt, reachExpr, reachCall,
        reachExprList, reachNode, Node.isSelectorOn])⟩⟩


/-! ## Ordering of rules -/

theorem insertStable_perm {α : Type} (less : α → α → Bool) (x : α) :
    ∀ l : List α, (insertStable less x l).Perm (x :: l)
  | [] => by simp [insertStable]
  | y :: ys => by
    unfold insertStable
    split
    · exact ((insertStable_perm less x ys).cons y).trans (List.Perm.swap x y ys)
    · exact List.Perm.refl _

theorem foldl_insertStable_perm {α : Type} (less : α → α → Bool) :
    ∀ (l acc : List α), (l.foldl (fun sorted x => insertStable less x sorted) acc).Perm (l ++ acc)
  | [], acc => by simp
  | x :: xs, acc => by
    simp only [List.foldl_cons]
    refine (foldl_insertStable_perm less xs _).trans ?_
    refine ((insertStable_perm less x acc).append_left xs).trans ?_
    simp [List.perm_middle]

theorem insertStable_filter {α : Type} (less : α → α → Bool) (p : α → Bool) (x : α)
    (h : ∀ y, p x = true → p y = true → less x y = false) :
    ∀ l : List α, (insertStable less x l).filter p = (if p x then [x] else []) ++ l.filter p
  | [] => by simp [insertStable, List.filter_cons]
  | y :: ys => by
    unfold insertStable
    by_cases hl : less x y = true
    · rw [if_pos hl, List.filter_cons, insertStable_filter less p x h ys, List.filter_cons]
      by_cases hx : p x = true
      · have hy : p y ≠ true := fun hy => by simp [h y hx hy] at hl
        simp [hx, hy]
      · simp [hx]
    · rw [if_neg hl]
      by_cases hx : p x = true <;> simp [List.filter_cons, hx]

theorem foldl_insertStable_filter {α : Type} (less : α → α → Bool) (p : α → Bool)
    (h : ∀ x y, p x = true → p y = true → less x y = false) :
    ∀ (l acc : List α), (l.foldl (fun sorted x => insertStable less x sorted) acc).filter p
      = (l.filter p).reverse ++ acc.filter p
  | [], acc => by simp
  | x :: xs, acc => by
    simp only [List.foldl_cons]
    rw [foldl_insertStable_filter less p h xs, insertStable_filter less p x (h x)]
    by_cases hx : p x = true <;> simp [List.filter_cons, hx]

theorem insertStable_desc (x : InstFuncRule) :
    ∀ l : List InstFuncRule, l.Pairwise (fun a b => b.Order ≤ a.Order) →
      (insertStable (fun a b => decide (a.Order < b.Order)) x l).Pairwise
        (fun a b => b.Order ≤ a.Order)
  | [], _ => by simp [insertStable]
  | y :: ys, hl => by
    unfold insertStable
    rw [List.pairwise_cons] at hl
    by_cases hxy : x.Order < y.Order
    · simp only [hxy, decide_True, if_true]
      rw [List.pairwise_cons]
      refine ⟨?_, insertStable_desc x ys hl.2⟩
      intro z hz
      rcases List.mem_cons.mp ((insertStable_perm _ x ys).mem_iff.mp hz) with hz | hz
      · subst hz; exact le_of_lt hxy
      · exact hl.1 z hz
    · simp only [hxy, decide_False, Bool.false_eq_true, if_false]
      rw [List.pairwise_cons, List.pairwise_cons]
      refine ⟨?_, hl⟩
      intro z hz
      rcases List.mem_cons.mp hz with hz | hz
      · subst hz; exact not_lt.mp hxy
      · exact le_trans (hl.1 z hz) (not_lt.mp hxy)

theorem foldl_insertStable_desc :
    ∀ (l acc : List InstFuncRule), acc.Pairwise (fun a b => b.Order ≤ a.Order) →
      (l.foldl (fun sorted x => insertStable (fun a b => decide (a.Order < b.Order)) x sorted)
        acc).Pairwise (fun a b => b.Order ≤ a.Order)
  | [], _, h => by simpa using h
  | x :: xs, acc, h => by
    simp only [List.foldl_cons]
    exact foldl_insertStable_desc xs _ (insertStable_desc x acc h)

/-- Claim C3: `sortFuncRules` returns a permutation of its input that is sorted by
non-decreasing `Order`, and rules of equal `Order` keep their input order. -/
theorem sortFuncRules_sorted_stable (fnRules : List InstFuncRule) :
    (sortFuncRules fnRules).Perm fnRules ∧
    (sortFuncRules fnRules).Pairwise (fun a b => a.Order ≤ b.Order) ∧
    ∀ k : Int, (sortFuncRules fnRules).filter (fun r => decide (r.Order = k))
      = fnRules.filter (fun r => decide (r.Order = k)) := by
  refine ⟨?_, ?_, ?_⟩
  · unfold sortFuncRules SliceStable
    refine (List.reverse_perm _).trans ?_
    simpa using foldl_insertStable_perm _ fnRules []
  · unfold sortFuncRules SliceStable
    rw [List.pairwise_reverse]
    exact foldl_insertStable_desc fnRules [] List.Pairwise.nil
  · intro k
    unfold sortFuncRules SliceStable
    rw [List.filter_reverse, foldl_insertStable_filter]
    · simp
    · intro x y hx hy
      simp only [decide_eq_true_eq] at hx hy
      simp [hx, hy]

/-! ## Sanity check on hooks -/

/-- Claim C4: a rule with neither hook is rejected by the sanity check of
`insertTJump` and of `insertRaw`, whatever the target declaration: both end in
the invariant violation and neither returns a result. -/
theorem insert_rejects_rule_without_hooks (rand : Nat → String)
    (generateTrampoline : InstFuncRule → dst.FuncDecl → RuleProcessor →
      RuleProcessor × Option String)
    (ParseAstFromSnippet : String → Res (List dst.Stmt))
    (rp : RuleProcessor) (t : InstFuncRule) (funcDecl : dst.FuncDecl)
    (hEnter : t.OnEnter = "") (hExit : t.OnExit = "") :
    insertTJump rand generateTrampoline rp t funcDecl
      = .error (Failure.fatal "Assertion failed: sanity check") ∧
    insertRaw ParseAstFromSnippet t funcDecl
      = .error (Failure.fatal "Assertion failed: sanity check") ∧
    (∀ r, insertTJump rand generateTrampoline rp t funcDecl ≠ .ok r) ∧
    (∀ d, insertRaw ParseAstFromSnippet t funcDecl ≠ .ok d) := by
  have h1 : insertTJump rand generateTrampoline rp t funcDecl
      = .error (Failure.fatal "Assertion failed: sanity check") := by
    simp [insertTJump, util.Assert, hEnter, hExit, fatal, bind, Except.bind]
  have h2 : insertRaw ParseAstFromSnippet t funcDecl
      = .error (Failure.fatal "Assertion failed: sanity check") := by
    simp [insertRaw, util.Assert, hEnter, hExit, fatal, bind, Except.bind]
  refine ⟨h1, h2, ?_, ?_⟩
  · intro r; rw [h1]; simp
  · intro d; rw [h2]; simp

/-- Witness for C4: the rule without hooks on the sample method. -/
theorem insert_rejects_rule_without_hooks_witness :
    ruleWithoutHooks.OnEnter = "" ∧ ruleWithoutHooks.OnExit = "" ∧
    insertTJump sampleRand sampleGenerate emptyProcessor ruleWithoutHooks namedReceiverMethod
      = .error (Failure.fatal "Assertion failed: sanity check") ∧
    insertRaw sampleParse ruleWithoutHooks namedReceiverMethod
      = .error (Failure.fatal "Assertion failed: sanity check") :=
  ⟨rfl, rfl,
   (insert_rejects_rule_without_hooks sampleRand sampleGenerate sampleParse emptyProcessor
      ruleWithoutHooks namedReceiverMethod rfl rfl).1,
   (insert_rejects_rule_without_hooks sampleRand sampleGenerate sampleParse emptyProcessor
      ruleWithoutHooks namedReceiverMethod rfl rfl).2.1⟩

/-! ## The rewrites of the optimisation pass -/

/-- Claim C5: on a trampoline-jump whose init is `ctx, skip := Enter(args)`,
`flattenTJump` sets the condition to the literal `false`, makes the then-branch
a block holding one empty statement, keeps the else part and the enter call,
and either renames the second binding to `_` (exit call kept) or replaces the
declaration by the bare call (exit call removed). -/
theorem flattenTJump_shape (target : FuncDecl) (rule : InstFuncRule)
    (ctx skip : Ident) (enter : CallExpr) (tok : Token) (cond : Expr) (body : BlockStmt)
    (els : Option Stmt) (decs : IfStmtDecorations) :
    flattenTJump
        { target := target, rule := rule,
          ifStmt := IfStmt.mk (some (Stmt.AssignStmt [Expr.Ident ctx, Expr.Ident skip] tok
            [Expr.CallExpr enter])) cond body els decs } false
      = .ok { target := target, rule := rule,
              ifStmt := IfStmt.mk (some (Stmt.AssignStmt
                  [Expr.Ident ctx, Expr.Ident { Name := "_" }] tok [Expr.CallExpr enter]))
                (Expr.BasicLit { Kind := Token.ILLEGAL, Value := "false" })
                (BlockStmt.mk [Stmt.EmptyStmt noDecs] noDecs) els decs } ∧
    flattenTJump
        { target := target, rule := rule,
          ifStmt := IfStmt.mk (some (Stmt.AssignStmt [Expr.Ident ctx, Expr.Ident skip] tok
            [Expr.CallExpr enter])) cond body els decs } true
      = .ok { target := target, rule := rule,
              ifStmt := IfStmt.mk (some (Stmt.ExprStmt (Expr.CallExpr enter) noDecs))
                (Expr.BasicLit { Kind := Token.ILLEGAL, Value := "false" })
                (BlockStmt.mk [Stmt.EmptyStmt noDecs] noDecs) els decs } := by
  constructor <;> rfl

/-- Claim C9: when the else block begins with the deferred exit call,
`removeOnExitTrampolineCall` replaces that defer statement by an empty
statement and changes nothing else: the other statements of the else block, its
length, the init, the condition and the then-branch are as before. -/
theorem removeOnExitTrampolineCall_frame (target : FuncDecl) (rule : InstFuncRule)
    (init : Option Stmt) (cond : Expr) (body : BlockStmt) (exit : CallExpr)
    (d bdecs : NodeDecs) (rest : List Stmt) (decs : IfStmtDecorations) :
    removeOnExitTrampolineCall
        { target := target, rule := rule,
          ifStmt := IfStmt.mk init cond body
            (some (Stmt.BlockStmt (BlockStmt.mk (Stmt.DeferStmt exit d :: rest) bdecs))) decs }
      = .ok { target := target, rule := rule,
              ifStmt := IfStmt.mk init cond body
                (some (Stmt.BlockStmt (BlockStmt.mk (Stmt.EmptyStmt noDecs :: rest) bdecs)))
                decs } ∧
    (Stmt.EmptyStmt noDecs :: rest).length = (Stmt.DeferStmt exit d :: rest).length := by
  constructor
  · rfl
  · simp

/-- Claim C10: on a trampoline-jump whose else block begins with the deferred
exit call, `removeOnEnterTrampolineCall`, when it finds the entry trampoline
declaration to remove, leaves an if-statement without init statement, with
condition `false`, with a then-branch holding one empty statement, and with
the same else block except that the first argument of the deferred exit call
is the context literal of `newCallContextImpl`; the remaining arguments and the
statements after the defer are unchanged. -/
theorem removeOnEnterTrampolineCall_shape (h : Helpers) (rp : RuleProcessor)
    (target : FuncDecl) (rule : InstFuncRule)
    (init : Option Stmt) (cond : Expr) (body : BlockStmt)
    (exitFn ctxArg : Expr) (exitArgs : List Expr) (ell : Bool)
    (d bdecs : NodeDecs) (rest : List Stmt) (decs : IfStmtDecorations)
    (removed : Decl) (decls : List Decl)
    (hfound : removeDeclWhen (isFuncDeclNamed (h.makeName rule target true)) rp.target.Decls
      = some (removed, decls)) :
    let tjump : TJump :=
      { target := target, rule := rule,
        ifStmt := IfStmt.mk init cond body
          (some (Stmt.BlockStmt (BlockStmt.mk
            (Stmt.DeferStmt (CallExpr.mk exitFn (ctxArg :: exitArgs) ell) d :: rest) bdecs)))
          decs }
    removeOnEnterTrampolineCall h rp tjump
      = .ok ({ rp with target := { rp.target with Decls := decls } },
             { target := target, rule := rule,
               ifStmt := IfStmt.mk none
                 (Expr.BasicLit { Kind := Token.ILLEGAL, Value := "false" })
                 (BlockStmt.mk [Stmt.EmptyStmt noDecs] noDecs)
                 (some (Stmt.BlockStmt (BlockStmt.mk
                   (Stmt.DeferStmt (CallExpr.mk exitFn
                      (newCallContextImpl h tjump :: exitArgs) ell) d :: rest) bdecs)))
                 decs }) := by
  intro tjump
  simp only [tjump, removeOnEnterTrampolineCall, replaceCallContext, pure, Except.pure]
  rw [hfound]
  rfl

/-- Witness for C10: the sample trampoline-jump of an exit-only rule, with the
entry trampoline declared in the target file. -/
theorem removeOnEnterTrampolineCall_shape_witness :
    removeDeclWhen (isFuncDeclNamed ((sampleHelpers hookUsingReceiverOnly).makeName ruleExitOnly
        namedReceiverMethod true)) sampleProcessor.target.Decls
      = some (dst.Decl.FuncDecl
          { Recv := none, Name := { Name := "OtelOnEnterTrampoline_Do" },
            Typ := dst.FuncType.mk true none (dst.FieldList.mk true [] true) none,
            Body := some (dst.BlockStmt.mk [] dst.noDecs) }, []) ∧
    (∃ r, removeOnEnterTrampolineCall (sampleHelpers hookUsingReceiverOnly) sampleProcessor
        (sampleTJump ruleExitOnly) = .ok r ∧ r.2.ifStmt.Init = none ∧
        r.2.ifStmt.Cond = Expr.BasicLit { Kind := Token.ILLEGAL, Value := "false" }) :=
  ⟨rfl, _, removeOnEnterTrampolineCall_shape (sampleHelpers hookUsingReceiverOnly)
      sampleProcessor namedReceiverMethod ruleExitOnly _ _ _ _ _ _ _ _ _ _ _ _ [] rfl,
    rfl, rfl⟩


/-! ## Trampoline-jump insertion -/

theorem collectRetVals_eq (rand : Nat → String) :
    ∀ (l : List dst.Field) (k : Nat),
      collectRetVals rand l k =
        (namedResults rand l k,
         (resultNames rand l k).map (fun n => Expr.Ident { Name := n }),
         k + unnamedCount l)
  | [], k => by simp [collectRetVals, namedResults, resultNames, unnamedCount]
  | (.mk names t tag) :: rest, k => by
    by_cases h : names.isEmpty = true
    · simp [collectRetVals, namedResults, resultNames, unnamedCount, h, dst.Field.Names,
        collectRetVals_eq rand rest (k + 1)]
      omega
    · simp [collectRetVals, namedResults, resultNames, unnamedCount, h, dst.Field.Names,
        collectRetVals_eq rand rest k, Function.comp_def]

theorem paramArgs_eq : ∀ l : List dst.Field,
    paramArgs l = (l.flatMap (fun (f : dst.Field) => f.Names.map (fun (n : Ident) => n.Name))).map
      (fun n => Expr.UnaryExpr Token.AND (Expr.Ident { Name := n }))
  | [] => by simp [paramArgs]
  | f :: fs => by
    simp [paramArgs, paramArgs_eq fs, util.AddressOf, util.Ident, ast.Ident, Function.comp_def]

theorem recvArgs_eq (funcDecl : FuncDecl) (h : receiverNamed funcDecl = true) :
    recvArgs funcDecl = .ok
      ((match funcDecl.Recv with
        | some (.mk _ (f0 :: _) _) => (f0.Names.take 1).map (fun (n : Ident) => n.Name)
        | _ => []).map (fun n => Expr.UnaryExpr Token.AND (Expr.Ident { Name := n }))) := by
  unfold recvArgs ast.HasReceiver
  unfold receiverNamed at h
  cases hr : funcDecl.Recv with
  | none => simp [pure, Except.pure]
  | some l =>
    cases l with
    | mk o list c =>
      cases list with
      | nil => simp [FieldList.List, pure, Except.pure]
      | cons f0 fs =>
        rw [hr] at h
        simp only [Bool.not_eq_true', List.isEmpty_eq_false] at h
        cases hn : f0.Names with
        | nil => simp [hn] at h
        | cons n ns =>
          simp [FieldList.List, hn, pure, Except.pure, util.AddressOf, util.Ident, ast.Ident]

theorem findJumpPoint_unanchored (upd : BlockStmt → BlockStmt) :
    ∀ (i : IfStmt), isAnchored i = false → findJumpPoint upd i = .ok none
  | .mk init cond body els decs, h => by
    have h' : hasAnchor decs = false := h
    rw [findJumpPoint.eq_def]
    simp [h']

theorem suffixOf_cons (rp : RuleProcessor) (t : InstFuncRule) (s : String) :
    RuleProcessor.suffixOf { rp with rule2Suffix := (t, s) :: rp.rule2Suffix } t = s := by
  simp [RuleProcessor.suffixOf, List.find?]

theorem makeName_cons (rp : RuleProcessor) (t : InstFuncRule) (s : String) :
    RuleProcessor.makeName { rp with rule2Suffix := (t, s) :: rp.rule2Suffix } t true
      = "OtelOnEnterTrampoline_" ++ t.Function ++ s ∧
    RuleProcessor.makeName { rp with rule2Suffix := (t, s) :: rp.rule2Suffix } t false
      = "OtelOnExitTrampoline_" ++ t.Function ++ s := by
  have h1 : trampolineOnEnterName ++ "_" = "OtelOnEnterTrampoline_" := by decide
  have h2 : trampolineOnExitName ++ "_" = "OtelOnExitTrampoline_" := by decide
  simp [RuleProcessor.makeName, suffixOf_cons, h1, h2]

theorem nameReturnVals_eq (rand : Nat → String) (funcDecl : FuncDecl) :
    (nameReturnVals rand funcDecl).2.1
        = (resultNames rand (resultFields funcDecl) 0).map (fun n => Expr.Ident { Name := n }) ∧
    (nameReturnVals rand funcDecl).2.2 = unnamedCount (resultFields funcDecl) := by
  unfold nameReturnVals resultFields
  cases funcDecl.Typ.Results with
  | none => simp [resultNames, unnamedCount]
  | some l =>
    cases l with
    | mk o l c => simp [collectRetVals_eq, FieldList.List]


theorem hasAnchor_label (d : NodeDecs) :
    hasAnchor { Node := d, If := ["/* TRAMPOLINE_JUMP_IF */"] } = true := by
  simp [hasAnchor, TrampolineJumpIfDesc]

theorem buildTJump_eq_of (t : InstFuncRule) (sfx : String) (args retVals : List Expr) :
    buildTJump ("OtelOnEnterTrampoline_" ++ t.Function ++ sfx)
        ("OtelOnExitTrampoline_" ++ t.Function ++ sfx) sfx args retVals
      = standardTJumpOf (jumpNames t sfx) args retVals [] SpaceType.None ∧
    setAfterEmptyLine (buildTJump ("OtelOnEnterTrampoline_" ++ t.Function ++ sfx)
        ("OtelOnExitTrampoline_" ++ t.Function ++ sfx) sfx args retVals)
      = standardTJumpOf (jumpNames t sfx) args retVals [] SpaceType.EmptyLine := by
  constructor <;> rfl

/-- The result of `insertTJump` when its checks pass. -/
theorem insertTJump_ok (rand : Nat → String)
    (generateTrampoline : InstFuncRule → dst.FuncDecl → RuleProcessor →
      RuleProcessor × Option String)
    (rp : RuleProcessor) (t : InstFuncRule) (funcDecl : dst.FuncDecl)
    (stmts : List Stmt) (bdecs : NodeDecs) (nested : Option (List Stmt))
    (hHook : t.OnEnter ≠ "" ∨ t.OnExit ≠ "")
    (hRecv : receiverNamed funcDecl = true)
    (hBody : funcDecl.Body = some (BlockStmt.mk stmts bdecs))
    (hNest : nestTJump (standardTJumpOf
        (jumpNames t (rand (unnamedCount (resultFields funcDecl))))
        (enterArgs funcDecl) (exitRetVals rand funcDecl) [] SpaceType.None) stmts = .ok nested) :
    ∃ r, insertTJump rand generateTrampoline rp t funcDecl = .ok r ∧
      r.funcDecl.Recv = funcDecl.Recv ∧
      r.funcDecl.Typ.Params = funcDecl.Typ.Params ∧
      resultFields r.funcDecl = namedResults rand (resultFields funcDecl) 0 ∧
      r.funcDecl.Body = some (BlockStmt.mk
        (match nested with
          | some list => list
          | none => Stmt.IfStmt (standardTJumpOf
              (jumpNames t (rand (unnamedCount (resultFields funcDecl))))
              (enterArgs funcDecl) (exitRetVals rand funcDecl) [] SpaceType.EmptyLine) :: stmts)
        bdecs) := by
  have hA : (t.OnEnter != "" || t.OnExit != "") = true := by
    rcases hHook with h | h <;> simp [h]
  have hargs : List.map (fun n => Expr.UnaryExpr Token.AND (Expr.Ident { Name := n }))
        (match funcDecl.Recv with
          | some (.mk _ (f0 :: _) _) => (f0.Names.take 1).map (fun (n : Ident) => n.Name)
          | _ => []) ++ paramArgs funcDecl.Typ.Params.List = enterArgs funcDecl := by
    simp only [paramArgs_eq, enterArgs, receiverAndParamNames, List.map_append]
  unfold insertTJump
  simp only [util.Assert, hA, if_true, bind, Except.bind, pure, Except.pure,
    recvArgs_eq funcDecl hRecv, hBody, BlockStmt.List,
    (makeName_cons rp t _).1, (makeName_cons rp t _).2,
    (nameReturnVals_eq rand funcDecl).1, (nameReturnVals_eq rand funcDecl).2, hargs,
    (buildTJump_eq_of _ _ _ _).1, (buildTJump_eq_of _ _ _ _).2]
  have hNest' := hNest
  simp only [exitRetVals] at hNest'
  rw [hNest']
  refine ⟨_, rfl, rfl, ?_, ?_, ?_⟩
  · cases funcDecl with
    | mk recv name typ body => cases typ; rfl
  · simp only [resultFields, nameReturnVals]
    cases funcDecl with
    | mk recv name typ body =>
      cases typ with
      | mk fn tp ps rs =>
        cases rs with
        | none => simp [FuncType.Results, namedResults]
        | some l =>
          cases l with
          | mk o l c => simp [FuncType.Results, collectRetVals_eq, FieldList.List]
  · cases nested
    · simp only [BlockStmt.Decs, exitRetVals]; rfl
    · simp [BlockStmt.Decs]

theorem findJumpPoint_nest (args retVals : List Expr) (new : JumpNames) :
    ∀ (ms : List JumpNames) (n : JumpNames) (after : SpaceType),
      findJumpPoint
          (fun b => BlockStmt.mk (b.List ++ [ast.EmptyStmt] ++ [Stmt.IfStmt
            (standardTJumpOf new args retVals [] SpaceType.None)]) b.Decs)
          (nestJumps args retVals n ms after)
        = .ok (some (nestJumps args retVals n (ms ++ [new]) after))
  | [], n, after => by
    simp only [nestJumps, standardTJumpOf, standardTJump, List.nil_append]
    rw [findJumpPoint.eq_def]
    simp [hasAnchor_label, BlockStmt.List, BlockStmt.Decs]
  | m :: ms, n, after => by
    have ih := findJumpPoint_nest args retVals new ms m SpaceType.None
    simp only [nestJumps, standardTJumpOf, standardTJump, List.cons_append]
    rw [findJumpPoint.eq_def]
    simp only [hasAnchor_label, if_true]
    rw [findJumpPointLast.eq_def]
    simp only [List.isEmpty_cons, Bool.false_eq_true, if_false]
    rw [findJumpPointLast.eq_def]
    simp only [List.isEmpty_cons, Bool.false_eq_true, if_false]
    rw [findJumpPointLast.eq_def]
    simp only [List.isEmpty_nil, if_true]
    simp only [standardTJumpOf, standardTJump] at ih
    rw [ih]
    simp

theorem namedResults_props (rand : Nat → String) :
    ∀ (l : List dst.Field) (k : Nat),
      unnamedCount (namedResults rand l k) = 0 ∧
      (∀ (rand' : Nat → String) (k' : Nat),
        resultNames rand' (namedResults rand l k) k' = resultNames rand l k)
  | [], k => by simp [namedResults, unnamedCount, resultNames]
  | (.mk names t tag) :: rest, k => by
    by_cases h : names.isEmpty = true
    · have ih := namedResults_props rand rest (k + 1)
      simp [namedResults, unnamedCount, resultNames, h, dst.Field.Names, ih.1, ih.2]
    · have ih := namedResults_props rand rest k
      simp [namedResults, unnamedCount, resultNames, h, dst.Field.Names, ih.1, ih.2]

theorem insertTJump_ok_inv (rand : Nat → String)
    (generateTrampoline : InstFuncRule → dst.FuncDecl → RuleProcessor →
      RuleProcessor × Option String)
    (rp : RuleProcessor) (t : InstFuncRule) (funcDecl : dst.FuncDecl) (r : InsertResult)
    (h : insertTJump rand generateTrampoline rp t funcDecl = .ok r) :
    (t.OnEnter ≠ "" ∨ t.OnExit ≠ "") ∧ receiverNamed funcDecl = true := by
  constructor
  · by_contra hc
    push_neg at hc
    simp [insertTJump, util.Assert, hc.1, hc.2, fatal, bind, Except.bind] at h
  · by_contra hc
    have hA : ¬ (t.OnEnter = "" ∧ t.OnExit = "") := by
      intro hc2
      simp [insertTJump, util.Assert, hc2.1, hc2.2, fatal, bind, Except.bind] at h
    have hA' : (t.OnEnter != "" || t.OnExit != "") = true := by
      by_cases h1 : t.OnEnter = ""
      · have : t.OnExit ≠ "" := fun h2 => hA ⟨h1, h2⟩
        simp [this]
      · simp [h1]
    have hrecv : recvArgs funcDecl = fatal "index out of range [0] with length 0" := by
      unfold receiverNamed at hc
      unfold recvArgs ast.HasReceiver
      cases hr : funcDecl.Recv with
      | none => simp [hr] at hc
      | some l =>
        cases l with
        | mk o list c =>
          cases list with
          | nil => simp [hr] at hc
          | cons f0 fs =>
            rw [hr] at hc
            simp only [Bool.not_eq_true', Bool.not_eq_false, List.isEmpty_iff] at hc
            simp [FieldList.List, hc]
    unfold insertTJump at h
    simp [util.Assert, hA', bind, Except.bind, hrecv, fatal, pure, Except.pure] at h

theorem nestTJump_nest (args retVals : List Expr) (new : JumpNames) (n : JumpNames)
    (ms : List JumpNames) (after : SpaceType) (stmts : List Stmt) :
    nestTJump (standardTJumpOf new args retVals [] SpaceType.None)
        (Stmt.IfStmt (nestJumps args retVals n ms after) :: stmts)
      = .ok (some (Stmt.IfStmt (nestJumps args retVals n (ms ++ [new]) after) :: stmts)) := by
  rw [nestTJump, findJumpPoint_nest]
  rfl

theorem nestTJump_fresh (tj : IfStmt) (stmts : List Stmt)
    (hFresh : startsWithAnchoredTJump stmts = false) : nestTJump tj stmts = .ok none := by
  cases stmts with
  | nil => rfl
  | cons s rest =>
    cases s <;> try rfl
    next i =>
      simp only [startsWithAnchoredTJump] at hFresh
      simp [nestTJump, findJumpPoint_unanchored _ i hFresh, pure, Except.pure]

theorem applyRulesLoop_nested (rands : Nat → Nat → String)
    (generateTrampoline : InstFuncRule → dst.FuncDecl → RuleProcessor →
      RuleProcessor × Option String)
    (ParseAstFromSnippet : String → Res (List dst.Stmt))
    (args retVals : List Expr) (stmts : List Stmt) (bdecs : NodeDecs) :
    ∀ (rules : List InstFuncRule) (i : Nat) (rp : RuleProcessor) (funcDecl : FuncDecl)
      (n : JumpNames) (ms : List JumpNames) (res : InsertResult),
      (∀ r ∈ rules, r.UseRaw = false) →
      funcDecl.Body = some (BlockStmt.mk
        (Stmt.IfStmt (nestJumps args retVals n ms SpaceType.EmptyLine) :: stmts) bdecs) →
      unnamedCount (resultFields funcDecl) = 0 →
      enterArgs funcDecl = args →
      (∀ rand, exitRetVals rand funcDecl = retVals) →
      applyRulesLoop rands generateTrampoline ParseAstFromSnippet rules i rp funcDecl = .ok res →
      res.err = none →
      res.funcDecl.Body = some (BlockStmt.mk
        (Stmt.IfStmt (nestJumps args retVals n (ms ++ laterNames rands rules i)
          SpaceType.EmptyLine) :: stmts) bdecs)
  | [], i, rp, funcDecl, n, ms, res, _, hBody, _, _, _, hRun, _ => by
    simp only [applyRulesLoop, pure, Except.pure, Except.ok.injEq] at hRun
    subst hRun
    simpa [laterNames] using hBody
  | rule :: rest, i, rp, funcDecl, n, ms, res, hT, hBody, hNamed, hArgs, hRets, hRun, hErr => by
    have hraw : rule.UseRaw = false := hT rule (List.mem_cons_self _ _)
    rw [applyRulesLoop] at hRun
    simp only [hraw, Bool.false_eq_true, if_false] at hRun
    cases hins : insertTJump (rands i) generateTrampoline rp rule funcDecl with
    | error e => simp [hins] at hRun
    | ok r =>
      simp only [hins] at hRun
      obtain ⟨hHook, hRecv⟩ := insertTJump_ok_inv _ _ _ _ _ _ hins
      have hN := nestTJump_nest args retVals (jumpNames rule (rands i 0)) n ms
        SpaceType.EmptyLine stmts
      obtain ⟨r', hr', hRecv', hParams', hRes', hBody'⟩ :=
        insertTJump_ok (rands i) generateTrampoline rp rule funcDecl _ bdecs _ hHook hRecv hBody
          (by rw [hNamed, hArgs, hRets]; exact hN)
      rw [hins] at hr'
      simp only [Except.ok.injEq] at hr'
      subst hr'
      by_cases herr : r.err.isSome = true
      · simp only [herr, if_true, pure, Except.pure, Except.ok.injEq] at hRun
        subst hRun
        rw [hErr] at herr
        simp at herr
      · simp only [herr, Bool.false_eq_true, if_false] at hRun
        have hprops := namedResults_props (rands i) (resultFields funcDecl) 0
        have := applyRulesLoop_nested rands generateTrampoline ParseAstFromSnippet args retVals
          stmts bdecs rest (i + 1) r.rp r.funcDecl n (ms ++ [jumpNames rule (rands i 0)]) res
          (fun x hx => hT x (List.mem_cons_of_mem _ hx))
          (by simpa using hBody')
          (by rw [hRes']; exact hprops.1)
          (by simp only [enterArgs, receiverAndParamNames, hRecv', hParams'] at hArgs ⊢
              exact hArgs)
          (by intro rand
              simp only [exitRetVals, hRes', hprops.2]
              exact hRets (rands i))
          hRun hErr
        simpa [laterNames, List.append_assoc] using this

theorem nestJumps_shape (args retVals : List Expr) (n : JumpNames) (ms : List JumpNames)
    (after : SpaceType) :
    ∃ nested, nestJumps args retVals n ms after = standardTJumpOf n args retVals nested after ∧
      (nested = [] ↔ ms = []) := by
  cases ms with
  | nil => exact ⟨[], rfl, by simp⟩
  | cons m ms => exact ⟨_, rfl, by simp⟩

theorem nestedAt_nestJumps (args retVals : List Expr) :
    ∀ (k : Nat) (n : JumpNames) (ms : List JumpNames) (after : SpaceType) (m : JumpNames),
      (n :: ms)[k]? = some m →
      ∃ nested after', nestedAt k (nestJumps args retVals n ms after)
          = some (standardTJumpOf m args retVals nested after') ∧
        (nested = [] ↔ k = ms.length)
  | 0, n, ms, after, m, h => by
    simp only [List.getElem?_cons_zero, Option.some.injEq] at h
    subst h
    obtain ⟨nested, hn, hiff⟩ := nestJumps_shape args retVals n ms after
    refine ⟨nested, after, by rw [nestedAt, hn], ?_⟩
    rw [hiff]
    constructor
    · intro h; simp [h]
    · intro h; exact List.length_eq_zero.mp h.symm
  | k + 1, n, [], after, m, h => by simp at h
  | k + 1, n, m' :: ms, after, m, h => by
    simp only [List.getElem?_cons_succ] at h
    obtain ⟨nested, after', hn, hiff⟩ :=
      nestedAt_nestJumps args retVals k m' ms SpaceType.None m h
    refine ⟨nested, after', ?_, ?_⟩
    · rw [nestedAt]
      simp only [nestJumps, standardTJumpOf, standardTJump, IfStmt.Else, BlockStmt.List]
      simp only [List.getLast?, List.getLast]
      simpa [standardTJumpOf, standardTJump] using hn
    · rw [hiff]; simp

theorem laterNames_getElem (rands : Nat → Nat → String) :
    ∀ (rules : List InstFuncRule) (i k : Nat) (rule : InstFuncRule),
      rules[k]? = some rule → (laterNames rands rules i)[k]? = some (jumpNames rule (rands (i + k) 0))
  | [], _, k, rule, h => by simp at h
  | r :: rs, i, 0, rule, h => by
    simp only [List.getElem?_cons_zero, Option.some.injEq] at h
    subst h; simp [laterNames]
  | r :: rs, i, k + 1, rule, h => by
    simp only [List.getElem?_cons_succ] at h
    have := laterNames_getElem rands rs (i + 1) k rule h
    simp only [laterNames, List.getElem?_cons_succ, this]
    congr 3; omega

theorem laterNames_length (rands : Nat → Nat → String) :
    ∀ (rules : List InstFuncRule) (i : Nat), (laterNames rands rules i).length = rules.length
  | [], _ => rfl
  | r :: rs, i => by simp [laterNames, laterNames_length rands rs (i + 1)]


theorem applyRulesLoop_returns_nested (rands : Nat → Nat → String)
    (generateTrampoline : InstFuncRule → dst.FuncDecl → RuleProcessor →
      RuleProcessor × Option String)
    (ParseAstFromSnippet : String → Res (List dst.Stmt))
    (args retVals : List Expr) (stmts : List Stmt) (bdecs : NodeDecs) :
    ∀ (rules : List InstFuncRule) (i : Nat) (rp : RuleProcessor) (funcDecl : FuncDecl)
      (n : JumpNames) (ms : List JumpNames),
      (∀ r ∈ rules, r.UseRaw = false ∧ (r.OnEnter ≠ "" ∨ r.OnExit ≠ "")) →
      receiverNamed funcDecl = true →
      funcDecl.Body = some (BlockStmt.mk
        (Stmt.IfStmt (nestJumps args retVals n ms SpaceType.EmptyLine) :: stmts) bdecs) →
      unnamedCount (resultFields funcDecl) = 0 →
      enterArgs funcDecl = args →
      (∀ rand, exitRetVals rand funcDecl = retVals) →
      ∃ res, applyRulesLoop rands generateTrampoline ParseAstFromSnippet rules i rp funcDecl
        = .ok res
  | [], i, rp, funcDecl, n, ms, _, _, _, _, _, _ => ⟨_, rfl⟩
  | rule :: rest, i, rp, funcDecl, n, ms, hT, hRecv, hBody, hNamed, hArgs, hRets => by
    obtain ⟨hraw, hHook⟩ := hT rule (List.mem_cons_self _ _)
    have hN := nestTJump_nest args retVals (jumpNames rule (rands i 0)) n ms
      SpaceType.EmptyLine stmts
    obtain ⟨r, hr, hRecv', hParams', hRes', hBody'⟩ :=
      insertTJump_ok (rands i) generateTrampoline rp rule funcDecl _ bdecs _ hHook hRecv hBody
        (by rw [hNamed, hArgs, hRets]; exact hN)
    rw [applyRulesLoop]
    simp only [hraw, Bool.false_eq_true, if_false, hr]
    by_cases herr : r.err.isSome = true
    · exact ⟨r, by simp [herr, pure, Except.pure]⟩
    · simp only [herr, Bool.false_eq_true, if_false]
      have hprops := namedResults_props (rands i) (resultFields funcDecl) 0
      exact applyRulesLoop_returns_nested rands generateTrampoline ParseAstFromSnippet args
        retVals stmts bdecs rest (i + 1) r.rp r.funcDecl n (ms ++ [jumpNames rule (rands i 0)])
        (fun x hx => hT x (List.mem_cons_of_mem _ hx))
        (by simpa [receiverNamed, hRecv'] using hRecv)
        (by simpa using hBody')
        (by rw [hRes']; exact hprops.1)
        (by simp only [enterArgs, receiverAndParamNames, hRecv', hParams'] at hArgs ⊢
            exact hArgs)
        (by intro rand
            simp only [exitRetVals, hRes', hprops.2]
            exact hRets (rands i))

theorem applyRulesLoop_returns (rands : Nat → Nat → String)
    (generateTrampoline : InstFuncRule → dst.FuncDecl → RuleProcessor →
      RuleProcessor × Option String)
    (ParseAstFromSnippet : String → Res (List dst.Stmt))
    (rules : List InstFuncRule) (rp : RuleProcessor) (funcDecl : FuncDecl)
    (stmts : List Stmt) (bdecs : NodeDecs)
    (hT : ∀ r ∈ rules, r.UseRaw = false ∧ (r.OnEnter ≠ "" ∨ r.OnExit ≠ ""))
    (hRecv : receiverNamed funcDecl = true)
    (hBody : funcDecl.Body = some (BlockStmt.mk stmts bdecs))
    (hFresh : startsWithAnchoredTJump stmts = false) :
    ∃ res, applyRulesLoop rands generateTrampoline ParseAstFromSnippet rules 0 rp funcDecl
      = .ok res := by
  cases rules with
  | nil => exact ⟨_, rfl⟩
  | cons rule1 rest =>
    obtain ⟨hraw, hHook⟩ := hT rule1 (List.mem_cons_self _ _)
    obtain ⟨r, hr, hRecv', hParams', hRes', hBody'⟩ :=
      insertTJump_ok (rands 0) generateTrampoline rp rule1 funcDecl stmts bdecs none hHook
        hRecv hBody (nestTJump_fresh _ _ hFresh)
    rw [applyRulesLoop]
    simp only [hraw, Bool.false_eq_true, if_false, hr]
    by_cases herr : r.err.isSome = true
    · exact ⟨r, by simp [herr, pure, Except.pure]⟩
    · simp only [herr, Bool.false_eq_true, if_false]
      have hprops := namedResults_props (rands 0) (resultFields funcDecl) 0
      exact applyRulesLoop_returns_nested rands generateTrampoline ParseAstFromSnippet
        (enterArgs funcDecl) (exitRetVals (rands 0) funcDecl) stmts bdecs rest 1 r.rp r.funcDecl
        (jumpNames rule1 (rands 0 (unnamedCount (resultFields funcDecl)))) []
        (fun x hx => hT x (List.mem_cons_of_mem _ hx))
        (by simpa [receiverNamed, hRecv'] using hRecv)
        (by simpa [nestJumps] using hBody')
        (by rw [hRes']; exact hprops.1)
        (by simp only [enterArgs, receiverAndParamNames, hRecv', hParams'])
        (by intro rand; simp only [exitRetVals, hRes', hprops.2])

/-- Claim C1, the code at the failing input: on the method
`func (*Svc) Do(x int) (int, error)`, whose receiver has no name, and a rule
with both hooks, `insertTJump` panics at `recv[0].Names[0]` instead of weaving
the trampoline-jump. -/
theorem insertTJump_unnamed_receiver_panics :
    receiverNamed unnamedReceiverMethod = false ∧
    (ruleA.OnEnter ≠ "" ∨ ruleA.OnExit ≠ "") ∧
    (∃ stmts bdecs, unnamedReceiverMethod.Body = some (BlockStmt.mk stmts bdecs) ∧
      startsWithAnchoredTJump stmts = false) ∧
    insertTJump sampleRand sampleGenerate emptyProcessor ruleA unnamedReceiverMethod
      = .error (Failure.fatal "index out of range [0] with length 0") :=
  ⟨rfl, Or.inl (by decide), ⟨_, _, rfl, rfl⟩, rfl⟩

/-- Claim C2: when K >= 2 trampoline rules have been applied in order by the
loop of `applyFuncRules` (every `insertTJump` returned and reported no error)
to a function whose body did not start with an anchored trampoline-jump, the
body is the trampoline-jump of the first rule followed by the original
statements, and for every k < K the if-statement k levels down (each level
being the last statement of the else-branch) is the standard trampoline-jump
of the k-th rule; only the innermost has nothing after its deferred exit
call.  The loop does return whenever the receiver, if any, is named and every
rule has a hook. -/
theorem applyRulesLoop_nests_in_order (rands : Nat → Nat → String)
    (generateTrampoline : InstFuncRule → dst.FuncDecl → RuleProcessor →
      RuleProcessor × Option String)
    (ParseAstFromSnippet : String → Res (List dst.Stmt))
    (rules : List InstFuncRule) (rp : RuleProcessor) (funcDecl : FuncDecl)
    (stmts : List Stmt) (bdecs : NodeDecs)
    (hK : 2 ≤ rules.length)
    (hT : ∀ r ∈ rules, r.UseRaw = false)
    (hBody : funcDecl.Body = some (BlockStmt.mk stmts bdecs))
    (hFresh : startsWithAnchoredTJump stmts = false) :
    (receiverNamed funcDecl = true → (∀ r ∈ rules, r.OnEnter ≠ "" ∨ r.OnExit ≠ "") →
      ∃ res, applyRulesLoop rands generateTrampoline ParseAstFromSnippet rules 0 rp funcDecl
        = .ok res) ∧
    (∀ res : InsertResult,
      applyRulesLoop rands generateTrampoline ParseAstFromSnippet rules 0 rp funcDecl = .ok res →
      res.err = none →
      ∃ first : IfStmt,
        res.funcDecl.Body = some (BlockStmt.mk (Stmt.IfStmt first :: stmts) bdecs) ∧
        ∀ (k : Nat) (rule : InstFuncRule), rules[k]? = some rule →
          ∃ (nested : List Stmt) (after : SpaceType),
            nestedAt k first = some (standardTJumpOf (jumpNames rule (suffixAt rands funcDecl k))
              (enterArgs funcDecl) (exitRetVals (rands 0) funcDecl) nested after) ∧
            (nested = [] ↔ k + 1 = rules.length)) := by
  refine ⟨fun hRecv hHooks => applyRulesLoop_returns rands generateTrampoline
    ParseAstFromSnippet rules rp funcDecl stmts bdecs (fun r hr => ⟨hT r hr, hHooks r hr⟩)
    hRecv hBody hFresh, ?_⟩
  intro res hRun hErr
  cases rules with
  | nil => simp at hK
  | cons rule1 rest =>
    have hraw : rule1.UseRaw = false := hT rule1 (List.mem_cons_self _ _)
    rw [applyRulesLoop] at hRun
    simp only [hraw, Bool.false_eq_true, if_false] at hRun
    cases hins : insertTJump (rands 0) generateTrampoline rp rule1 funcDecl with
    | error e => simp [hins] at hRun
    | ok r =>
      simp only [hins] at hRun
      obtain ⟨hHook, hRecv⟩ := insertTJump_ok_inv _ _ _ _ _ _ hins
      obtain ⟨r', hr', hRecv', hParams', hRes', hBody'⟩ :=
        insertTJump_ok (rands 0) generateTrampoline rp rule1 funcDecl stmts bdecs none hHook
          hRecv hBody (nestTJump_fresh _ _ hFresh)
      rw [hins] at hr'
      simp only [Except.ok.injEq] at hr'
      subst hr'
      have hrest : rest ≠ [] := by
        intro h; simp [h] at hK
      by_cases herr : r.err.isSome = true
      · exfalso
        simp only [herr, if_true, pure, Except.pure, Except.ok.injEq] at hRun
        subst hRun
        rw [hErr] at herr
        simp at herr
      · simp only [herr, Bool.false_eq_true, if_false] at hRun
        have hprops := namedResults_props (rands 0) (resultFields funcDecl) 0
        have hfinal := applyRulesLoop_nested rands generateTrampoline ParseAstFromSnippet
          (enterArgs funcDecl) (exitRetVals (rands 0) funcDecl) stmts bdecs rest 1 r.rp r.funcDecl
          (jumpNames rule1 (rands 0 (unnamedCount (resultFields funcDecl)))) [] res
          (fun x hx => hT x (List.mem_cons_of_mem _ hx))
          (by simpa [nestJumps] using hBody')
          (by rw [hRes']; exact hprops.1)
          (by simp only [enterArgs, receiverAndParamNames, hRecv', hParams'])
          (by intro rand; simp only [exitRetVals, hRes', hprops.2])
          hRun hErr
        refine ⟨_, hfinal, ?_⟩
        intro k rule hk
        have hname : (jumpNames rule1 (rands 0 (unnamedCount (resultFields funcDecl)))
            :: ([] ++ laterNames rands rest 1))[k]?
            = some (jumpNames rule (suffixAt rands funcDecl k)) := by
          cases k with
          | zero =>
            simp only [List.getElem?_cons_zero, Option.some.injEq] at hk
            subst hk
            simp [suffixAt]
          | succ k =>
            simp only [List.getElem?_cons_succ] at hk
            have := laterNames_getElem rands rest 1 k rule hk
            simp only [List.nil_append, List.getElem?_cons_succ, this, suffixAt]
            simp [Nat.add_comm]
        obtain ⟨nested, after, hn, hiff⟩ := nestedAt_nestJumps (enterArgs funcDecl)
          (exitRetVals (rands 0) funcDecl) k _ _ SpaceType.EmptyLine _ hname
        refine ⟨nested, after, hn, ?_⟩
        rw [hiff]
        simp [laterNames_length]

/-- Witness for C2: two rules applied to the sample method; the jump of the
second rule is the last statement of the else-branch of the jump of the
first. -/
theorem applyRulesLoop_nests_in_order_witness :
    2 ≤ [ruleA, ruleB].length ∧
    (∃ res, applyRulesLoop sampleRands sampleGenerate sampleParse [ruleA, ruleB] 0
        emptyProcessor namedReceiverMethod = .ok res ∧ res.err = none ∧
      ∃ first : IfStmt,
        res.funcDecl.Body = some (BlockStmt.mk (Stmt.IfStmt first ::
          [Stmt.ReturnStmt [Expr.Ident { Name := "x" }, Expr.Ident { Name := "nil" }] noDecs])
          noDecs) ∧
        ∃ (nested : List Stmt) (after : SpaceType),
          nestedAt 1 first = some (standardTJumpOf
            (jumpNames ruleB (suffixAt sampleRands namedReceiverMethod 1))
            (enterArgs namedReceiverMethod) (exitRetVals (sampleRands 0) namedReceiverMethod)
            nested after)) :=
  ⟨by decide, _, rfl, rfl,
    match (applyRulesLoop_nests_in_order sampleRands sampleGenerate sampleParse [ruleA, ruleB]
      emptyProcessor namedReceiverMethod _ _ (by decide)
      (by intro r hr; simp at hr; rcases hr with h | h <;> subst h <;> rfl) rfl rfl).2 _ rfl rfl
    with
    | ⟨first, hb, hk⟩ =>
      ⟨first, hb, match hk 1 ruleB rfl with | ⟨nested, after, h, _⟩ => ⟨nested, after, h⟩⟩⟩

/-! ## Observable behaviour of the flattened trampoline-jump -/

theorem skipName_ne_blank (s : String) : ("skip" ++ s == "_") = false := by
  rw [beq_eq_false_iff_ne]
  intro h
  have := congrArg String.data h
  simp [String.data_append] at this

theorem ctxName_ne_blank (s : String) : ("callContext" ++ s == "_") = false := by
  rw [beq_eq_false_iff_ne]
  intro h
  have := congrArg String.data h
  simp [String.data_append] at this

theorem skipName_ne_ctxName (s : String) : ("skip" ++ s == "callContext" ++ s) = false := by
  rw [beq_eq_false_iff_ne]
  intro h
  have := congrArg String.data h
  simp [String.data_append] at this


theorem exec_standardTJump (skip : CallExpr → Bool) (enterName exitName sfx : String)
    (args retVals : List Expr) (after : SpaceType) (st : Exec)
    (hskip : skip (standardEnterCall enterName args) = false) :
    execStmt skip (Stmt.IfStmt (standardTJump enterName exitName ("callContext" ++ sfx)
        ("skip" ++ sfx) args retVals [] after)) st
      = st.emitAll (standardEvents enterName exitName args retVals st.env) := by
  unfold standardEnterCall at hskip
  simp [standardTJump, standardEnterCall, standardExitCall, execStmt, execIf, execStmtOpt,
    execBlock, execList, evalExpr, lookupVar, bindVar, Exec.emit, ast.IdentIgnore,
    skipName_ne_blank, ctxName_ne_blank, skipName_ne_ctxName, standardEvents, hskip, Exec.emitAll,
    Function.comp_def]

theorem exec_flattened (skip : CallExpr → Bool) (enterName exitName sfx : String)
    (args retVals : List Expr) (after : SpaceType) (st : Exec) (target : FuncDecl)
    (rule : InstFuncRule) :
    ∃ tj', flattenTJump (TJump.mk target (standardTJump enterName exitName
        ("callContext" ++ sfx) ("skip" ++ sfx) args retVals [] after) rule) false = .ok tj' ∧
      execStmt skip (Stmt.IfStmt tj'.ifStmt) st
        = st.emitAll (standardEvents enterName exitName args retVals st.env) := by
  refine ⟨_, rfl, ?_⟩
  simp [standardTJump, standardEnterCall, standardExitCall, execStmt, execIf, execStmtOpt,
    execBlock, execList, evalExpr, lookupVar, bindVar, Exec.emit, ast.IdentIgnore,
    skipName_ne_blank, ctxName_ne_blank, skipName_ne_ctxName, standardEvents, Exec.emitAll,
    Function.comp_def, ast.MakeUnusedIdent, ast.BoolFalse, ast.IdentFalse]

/-- Claim C8: for the trampoline-jump that `insertTJump` puts in front of a
body not yet woven, and an entry trampoline that returns skip = false, running
the if-statement rewritten by `flattenTJump` followed by the original
statements gives the same execution state as running the standard if-statement
followed by them; both record exactly one call of the entry trampoline with
its arguments and one registration of the deferred exit trampoline with the
call context and the addresses of the return values, and then continue with
the original statements. -/
theorem flattenTJump_observably_equivalent (rand : Nat → String)
    (generateTrampoline : InstFuncRule → dst.FuncDecl → RuleProcessor →
      RuleProcessor × Option String)
    (rp : RuleProcessor) (t : InstFuncRule) (funcDecl : dst.FuncDecl)
    (stmts : List Stmt) (bdecs : NodeDecs) (skip : CallExpr → Bool) (st : Exec)
    (r : InsertResult)
    (hIns : insertTJump rand generateTrampoline rp t funcDecl = .ok r)
    (hBody : funcDecl.Body = some (BlockStmt.mk stmts bdecs))
    (hFresh : startsWithAnchoredTJump stmts = false)
    (hskip : ∀ call : CallExpr, skip call = false)
    (hst : st.returned = false) :
    ∃ (tjump : IfStmt) (flat : TJump),
      r.funcDecl.Body = some (BlockStmt.mk (Stmt.IfStmt tjump :: stmts) bdecs) ∧
      flattenTJump { target := r.funcDecl, ifStmt := tjump, rule := t } false = .ok flat ∧
      execList skip (Stmt.IfStmt flat.ifStmt :: stmts) st
        = execList skip (Stmt.IfStmt tjump :: stmts) st ∧
      execList skip (Stmt.IfStmt tjump :: stmts) st
        = execList skip stmts
            (st.emitAll (standardEvents
              (jumpNames t (rand (unnamedCount (resultFields funcDecl)))).enter
              (jumpNames t (rand (unnamedCount (resultFields funcDecl)))).exit
              (enterArgs funcDecl) (exitRetVals rand funcDecl) st.env)) := by
  obtain ⟨hHook, hRecv⟩ := insertTJump_ok_inv _ _ _ _ _ _ hIns
  obtain ⟨r', hr', _, _, _, hb⟩ := insertTJump_ok rand generateTrampoline rp t funcDecl stmts
    bdecs none hHook hRecv hBody (nestTJump_fresh _ _ hFresh)
  rw [hIns] at hr'
  simp only [Except.ok.injEq] at hr'
  subst hr'
  obtain ⟨flat, hflat, hexec⟩ := exec_flattened skip
    (jumpNames t (rand (unnamedCount (resultFields funcDecl)))).enter
    (jumpNames t (rand (unnamedCount (resultFields funcDecl)))).exit
    (rand (unnamedCount (resultFields funcDecl)))
    (enterArgs funcDecl) (exitRetVals rand funcDecl) SpaceType.EmptyLine st r.funcDecl t
  have hstd := exec_standardTJump skip
    (jumpNames t (rand (unnamedCount (resultFields funcDecl)))).enter
    (jumpNames t (rand (unnamedCount (resultFields funcDecl)))).exit
    (rand (unnamedCount (resultFields funcDecl)))
    (enterArgs funcDecl) (exitRetVals rand funcDecl) SpaceType.EmptyLine st (hskip _)
  refine ⟨_, flat, hb, hflat, ?_, ?_⟩
  · rw [execList, execList]
    rw [hexec]
    erw [hstd]
  · rw [execList]
    erw [hstd]
    simp [hst, Exec.emitAll]

/-- Witness for C8: the sample method woven by the rule with both hooks, run
from a fresh state. -/
theorem flattenTJump_observably_equivalent_witness :
    ∃ (r : InsertResult) (tjump : IfStmt) (flat : TJump),
      insertTJump sampleRand sampleGenerate emptyProcessor ruleA namedReceiverMethod = .ok r ∧
      flattenTJump { target := r.funcDecl, ifStmt := tjump, rule := ruleA } false = .ok flat ∧
      execList (fun _ => false) (Stmt.IfStmt flat.ifStmt ::
          [Stmt.ReturnStmt [Expr.Ident { Name := "x" }, Expr.Ident { Name := "nil" }] noDecs])
          freshRun
        = execList (fun _ => false) (Stmt.IfStmt tjump ::
          [Stmt.ReturnStmt [Expr.Ident { Name := "x" }, Expr.Ident { Name := "nil" }] noDecs])
          freshRun :=
  match flattenTJump_observably_equivalent sampleRand sampleGenerate emptyProcessor ruleA
      namedReceiverMethod _ _ (fun _ => false) freshRun _ rfl rfl rfl (fun _ => rfl) rfl with
  | ⟨tjump, flat, _, hflat, heq, _⟩ => ⟨_, tjump, flat, rfl, hflat, heq⟩

/-! ## Call-context generation -/

theorem desugarType_typed (f : Field) (h : typedField f = true) :
    ∃ t, f.Typ = some t ∧ desugarType f = .ok (slotType t) := by
  unfold typedField at h
  unfold desugarType
  cases hT : f.Typ with
  | none => simp [hT] at h
  | some t =>
    refine ⟨t, rfl, ?_⟩
    cases t with
    | Ellipsis elt =>
      cases elt with
      | none => simp [hT] at h
      | some e => simp [slotType, ast.ArrayType, pure, Except.pure]
    | _ => simp [slotType, pure, Except.pure]

theorem splitField_typed (f : Field) (h : typedField f = true) :
    ∃ fs, ast.splitField f = .ok fs ∧ (∀ g ∈ fs, typedField g = true) ∧
      fs.filterMap Field.Typ = declaredTypes [f] := by
  cases f with
  | mk names typ tag =>
    cases typ with
    | none => simp [typedField, Field.Typ] at h
    | some t =>
      by_cases hn : names.isEmpty = true
      · refine ⟨[dst.Field.mk [] (some t) none], ?_, ?_, ?_⟩
        · simp [ast.splitField, hn, pure, Except.pure]
        · intro g hg
          simp only [List.mem_singleton] at hg
          subst hg
          simpa [typedField, Field.Typ] using h
        · simp [declaredTypes, hn, Field.Typ]
      · refine ⟨names.map (fun name => dst.Field.mk [name] (some t) none), ?_, ?_, ?_⟩
        · simp [ast.splitField, hn, pure, Except.pure]
        · intro g hg
          simp only [List.mem_map] at hg
          obtain ⟨n, _, rfl⟩ := hg
          simpa [typedField, Field.Typ] using h
        · simp only [declaredTypes, hn, List.append_nil, Bool.false_eq_true, if_false]
          rw [List.filterMap_map]
          clear hn h
          induction names with
          | nil => rfl
          | cons n ns ih =>
            simp only [List.filterMap_cons, Function.comp, Field.Typ, List.length_cons,
              List.replicate_succ]
            rw [← ih]

theorem declaredTypes_cons (f : Field) (rest : List Field) :
    declaredTypes (f :: rest) = declaredTypes [f] ++ declaredTypes rest := by
  cases f with
  | mk names typ tag =>
    cases typ with
    | none => simp [declaredTypes]
    | some t => simp [declaredTypes]

theorem splitFields_typed : ∀ (l : List Field), typedFields l = true →
    ∃ fs, ast.splitFields l = .ok fs ∧ (∀ g ∈ fs, typedField g = true) ∧
      fs.filterMap Field.Typ = declaredTypes l
  | [], _ => ⟨[], rfl, by simp, rfl⟩
  | f :: rest, h => by
    simp only [typedFields, List.all_cons, Bool.and_eq_true] at h
    obtain ⟨fs1, h1, h1t, h1d⟩ := splitField_typed f h.1
    obtain ⟨fs2, h2, h2t, h2d⟩ := splitFields_typed rest h.2
    refine ⟨fs1 ++ fs2, ?_, ?_, ?_⟩
    · simp [ast.splitFields, h1, h2, pure, Except.pure]
    · intro g hg
      rcases List.mem_append.mp hg with hg | hg
      · exact h1t g hg
      · exact h2t g hg
    · rw [List.filterMap_append, h1d, h2d, declaredTypes_cons f rest]

theorem withClauses_cons (b : BlockStmt) (c : Stmt) (cs : List Stmt) :
    withClauses (BlockStmt.mk (b.List ++ [c]) b.Decs) cs = withClauses b (c :: cs) := by
  simp [withClauses, BlockStmt.List, BlockStmt.Decs]

theorem withClauses_nil (b : BlockStmt) : withClauses b [] = b := by
  cases b; simp [withClauses, BlockStmt.List, BlockStmt.Decs]

theorem rewriteParamsLoop_plain : ∀ (fs : List Field) (idx : Nat) (b g : BlockStmt),
    (∀ f ∈ fs, typedField f = true) →
    rewriteParamsLoop none fs idx (some b) g = .ok
      (some (withClauses b (numberedClauses
        (fun i t => setParamClause i (replaceTypeParamsWithAny t none))
        ((fs.filterMap Field.Typ).map slotType) idx)),
       withClauses g (numberedClauses
        (fun i t => getParamClause i (replaceTypeParamsWithAny t none))
        ((fs.filterMap Field.Typ).map slotType) idx))
  | [], idx, b, g, _ => by
    simp [rewriteParamsLoop, numberedClauses, withClauses_nil, pure, Except.pure]
  | f :: rest, idx, b, g, h => by
    obtain ⟨t, hT, hD⟩ := desugarType_typed f (h f (List.mem_cons_self _ _))
    have ih := rewriteParamsLoop_plain rest (idx + 1)
      (BlockStmt.mk (b.List ++ [setParamClause idx (replaceTypeParamsWithAny (slotType t) none)])
        b.Decs)
      (BlockStmt.mk (g.List ++ [getParamClause idx (replaceTypeParamsWithAny (slotType t) none)])
        g.Decs)
      (fun f' hf' => h f' (List.mem_cons_of_mem _ hf'))
    rw [rewriteParamsLoop, hD]
    cases b with
    | mk bl bd =>
      simp only [addParamClauses, Option.isSome_none, Bool.not_false, if_true, appendClause,
        bind, Except.bind, pure, Except.pure]
      simp only [BlockStmt.List, BlockStmt.Decs] at ih ⊢
      rw [ih]
      simp only [List.filterMap_cons, hT, List.map_cons, numberedClauses]
      simp [withClauses, BlockStmt.List, BlockStmt.Decs]

theorem rewriteParamsLoop_generic (tp : FieldList) : ∀ (fs : List Field) (idx : Nat)
    (s : Option BlockStmt) (g : BlockStmt),
    (∀ f ∈ fs, typedField f = true) →
    rewriteParamsLoop (some tp) fs idx s g = .ok
      (s, withClauses g (numberedClauses
        (fun i t => getParamClause i (replaceTypeParamsWithAny t (some tp)))
        ((fs.filterMap Field.Typ).map slotType) idx))
  | [], idx, s, g, _ => by
    simp [rewriteParamsLoop, numberedClauses, withClauses_nil, pure, Except.pure]
  | f :: rest, idx, s, g, h => by
    obtain ⟨t, hT, hD⟩ := desugarType_typed f (h f (List.mem_cons_self _ _))
    have ih := rewriteParamsLoop_generic tp rest (idx + 1) s
      (BlockStmt.mk (g.List ++ [getParamClause idx
        (replaceTypeParamsWithAny (slotType t) (some tp))]) g.Decs)
      (fun f' hf' => h f' (List.mem_cons_of_mem _ hf'))
    rw [rewriteParamsLoop, hD]
    simp only [addParamClauses, Option.isSome_some, Bool.not_true, Bool.false_eq_true, if_false,
      bind, Except.bind, pure, Except.pure]
    rw [ih]
    simp only [List.filterMap_cons, hT, List.map_cons, numberedClauses, withClauses_cons]

theorem rewriteResultsLoop_plain : ∀ (fs : List Field) (idx : Nat) (b g : BlockStmt),
    (∀ f ∈ fs, typedField f = true) →
    rewriteResultsLoop none fs idx (some b) g = .ok
      (some (withClauses b (numberedClauses
        (fun i t => setReturnValClause i (replaceTypeParamsWithAny t none))
        ((fs.filterMap Field.Typ).map slotType) idx)),
       withClauses g (numberedClauses
        (fun i t => getReturnValClause i (replaceTypeParamsWithAny t none))
        ((fs.filterMap Field.Typ).map slotType) idx))
  | [], idx, b, g, _ => by
    simp [rewriteResultsLoop, numberedClauses, withClauses_nil, pure, Except.pure]
  | f :: rest, idx, b, g, h => by
    obtain ⟨t, hT, hD⟩ := desugarType_typed f (h f (List.mem_cons_self _ _))
    have ih := rewriteResultsLoop_plain rest (idx + 1)
      (BlockStmt.mk (b.List ++ [setReturnValClause idx
        (replaceTypeParamsWithAny (slotType t) none)]) b.Decs)
      (BlockStmt.mk (g.List ++ [getReturnValClause idx
        (replaceTypeParamsWithAny (slotType t) none)]) g.Decs)
      (fun f' hf' => h f' (List.mem_cons_of_mem _ hf'))
    rw [rewriteResultsLoop, hD]
    cases b with
    | mk bl bd =>
      simp only [Option.isSome_none, Bool.not_false, if_true, appendClause, pure, Except.pure]
      simp only [BlockStmt.List, BlockStmt.Decs] at ih ⊢
      rw [ih]
      simp only [List.filterMap_cons, hT, List.map_cons, numberedClauses]
      simp [withClauses, BlockStmt.List, BlockStmt.Decs]

theorem rewriteResultsLoop_generic (tp : FieldList) : ∀ (fs : List Field) (idx : Nat)
    (s : Option BlockStmt) (g : BlockStmt),
    (∀ f ∈ fs, typedField f = true) →
    rewriteResultsLoop (some tp) fs idx s g = .ok
      (s, withClauses g (numberedClauses
        (fun i t => getReturnValClause i (replaceTypeParamsWithAny t (some tp)))
        ((fs.filterMap Field.Typ).map slotType) idx))
  | [], idx, s, g, _ => by
    simp [rewriteResultsLoop, numberedClauses, withClauses_nil, pure, Except.pure]
  | f :: rest, idx, s, g, h => by
    obtain ⟨t, hT, hD⟩ := desugarType_typed f (h f (List.mem_cons_self _ _))
    have ih := rewriteResultsLoop_generic tp rest (idx + 1) s
      (BlockStmt.mk (g.List ++ [getReturnValClause idx
        (replaceTypeParamsWithAny (slotType t) (some tp))]) g.Decs)
      (fun f' hf' => h f' (List.mem_cons_of_mem _ hf'))
    rw [rewriteResultsLoop, hD]
    simp only [Option.isSome_some, Bool.not_true, Bool.false_eq_true, if_false, pure, Except.pure]
    rw [ih]
    simp only [List.filterMap_cons, hT, List.map_cons, numberedClauses, withClauses_cons]

theorem SplitMultiNameFields_typed (l : FieldList) (h : typedFields l.List = true) :
    ∃ fs, splitNames (some l) = .ok fs ∧
      (∀ g ∈ fs, typedField g = true) ∧ fs.filterMap Field.Typ = declaredTypes l.List := by
  obtain ⟨fs, h1, h2, h3⟩ := splitFields_typed l.List h
  refine ⟨fs, ?_, h2, h3⟩
  unfold splitNames ast.SplitMultiNameFields
  simp only [h1, pure, Except.pure]
  rfl

theorem typedSignature_parts (targetFunc : FuncDecl) (h : typedSignature targetFunc = true) :
    (∀ l, targetFunc.Recv = some l → typedFields l.List = true) ∧
    typedFields targetFunc.Typ.Params.List = true ∧
    (∀ l, targetFunc.Typ.Results = some l → typedFields l.List = true) := by
  unfold typedSignature at h
  simp only [Bool.and_eq_true] at h
  refine ⟨?_, h.1.2, ?_⟩
  · intro l hl
    have := h.1.1
    rw [hl] at this
    exact this
  · intro l hl
    have := h.2
    rw [hl] at this
    exact this

/-- The receiver field after splitting. -/
theorem receiver_split (targetFunc : FuncDecl) (hT : typedSignature targetFunc = true)
    (hR : ast.HasReceiver targetFunc = true) :
    ∃ recv0 rest t, splitNames targetFunc.Recv = .ok (recv0 :: rest) ∧
      recv0.Typ = some t ∧ receiverSlot targetFunc = [t] := by
  unfold ast.HasReceiver at hR
  cases hRecv : targetFunc.Recv with
  | none => simp [hRecv] at hR
  | some l =>
    obtain ⟨fs, h1, h2, h3⟩ :=
      SplitMultiNameFields_typed l ((typedSignature_parts targetFunc hT).1 l hRecv)
    simp only [hRecv, decide_eq_true_eq] at hR
    cases hl : l.List with
    | nil => simp [hl] at hR
    | cons f0 fr =>
      cases fs with
      | nil =>
        exfalso
        rw [hl] at h3
        cases f0 with
        | mk names typ tag =>
          have hty := (typedSignature_parts targetFunc hT).1 l hRecv
          rw [hl] at hty
          simp only [typedFields, List.all_cons, Bool.and_eq_true] at hty
          cases typ with
          | none => simp [typedField, Field.Typ] at hty
          | some t =>
            simp only [List.filterMap_nil, declaredTypes] at h3
            by_cases hn : names.isEmpty = true
            · simp [hn] at h3
            · have : names ≠ [] := by simpa using hn
              cases names with
              | nil => exact this rfl
              | cons n ns => simp [List.replicate_succ] at h3
      | cons g0 gr =>
        obtain ⟨t, hgt, _⟩ := desugarType_typed g0 (h2 g0 (List.mem_cons_self _ _))
        refine ⟨g0, gr, t, h1, hgt, ?_⟩
        unfold receiverSlot ast.HasReceiver
        simp only [hRecv, hl, List.length_cons, gt_iff_lt, Nat.zero_lt_succ, decide_True, if_true]
        rw [← hl, ← h3]
        simp [List.filterMap_cons, hgt]

theorem rewriteHookContextParams_plain (targetFunc : FuncDecl)
    (hT : typedSignature targetFunc = true) (b g : BlockStmt) :
    rewriteHookContextParams targetFunc (some b) g none = .ok
      (some (withClauses b (numberedClauses
        (fun i t => setParamClause i (replaceTypeParamsWithAny t none))
        (paramSlots targetFunc) 0)),
       withClauses g (numberedClauses
        (fun i t => getParamClause i (replaceTypeParamsWithAny t none))
        (paramSlots targetFunc) 0)) := by
  obtain ⟨ps, hp1, hp2, hp3⟩ :=
    SplitMultiNameFields_typed targetFunc.Typ.Params (typedSignature_parts targetFunc hT).2.1
  unfold rewriteHookContextParams paramSlots fieldSlots
  by_cases hR : ast.HasReceiver targetFunc = true
  · obtain ⟨recv0, rest, t, hs, ht, hslot⟩ := receiver_split targetFunc hT hR
    cases b with
    | mk bl bd =>
      cases g with
      | mk gl gd =>
        simp only [hR, if_true, bind, Except.bind, hs, ht, addParamClauses, Option.isSome_none,
          Bool.not_false, appendClause, pure, Except.pure, hp1, hslot, BlockStmt.List,
          BlockStmt.Decs]
        rw [rewriteParamsLoop_plain ps 1 _ _ hp2, hp3]
        simp [numberedClauses, withClauses, BlockStmt.List, BlockStmt.Decs]
  · have hslot : receiverSlot targetFunc = [] := by simp [receiverSlot, hR]
    simp only [hR, Bool.false_eq_true, if_false, bind, Except.bind, pure, Except.pure, hp1, hslot,
      List.nil_append]
    rw [rewriteParamsLoop_plain ps 0 _ _ hp2, hp3]

theorem rewriteHookContextParams_generic (targetFunc : FuncDecl) (tp : FieldList)
    (hT : typedSignature targetFunc = true) (s : Option BlockStmt) (g : BlockStmt) :
    rewriteHookContextParams targetFunc s g (some tp) = .ok
      (s, withClauses g (numberedClauses
        (fun i t => getParamClause i (replaceTypeParamsWithAny t (some tp)))
        (paramSlots targetFunc) 0)) := by
  obtain ⟨ps, hp1, hp2, hp3⟩ :=
    SplitMultiNameFields_typed targetFunc.Typ.Params (typedSignature_parts targetFunc hT).2.1
  unfold rewriteHookContextParams paramSlots fieldSlots
  by_cases hR : ast.HasReceiver targetFunc = true
  · obtain ⟨recv0, rest, t, hs, ht, hslot⟩ := receiver_split targetFunc hT hR
    cases g with
    | mk gl gd =>
      simp only [hR, if_true, bind, Except.bind, hs, ht, addParamClauses, Option.isSome_some,
        Bool.not_true, Bool.false_eq_true, if_false, pure, Except.pure, hp1, hslot,
        BlockStmt.List, BlockStmt.Decs]
      rw [rewriteParamsLoop_generic tp ps 1 _ _ hp2, hp3]
      simp [numberedClauses, withClauses, BlockStmt.List, BlockStmt.Decs]
  · have hslot : receiverSlot targetFunc = [] := by simp [receiverSlot, hR]
    simp only [hR, Bool.false_eq_true, if_false, bind, Except.bind, pure, Except.pure, hp1, hslot,
      List.nil_append]
    rw [rewriteParamsLoop_generic tp ps 0 _ _ hp2, hp3]

theorem rewriteHookContextResults_plain (targetFunc : FuncDecl)
    (hT : typedSignature targetFunc = true) (b g : BlockStmt) :
    rewriteHookContextResults targetFunc (some b) g none = .ok
      (some (withClauses b (numberedClauses
        (fun i t => setReturnValClause i (replaceTypeParamsWithAny t none))
        (resultSlots targetFunc) 0)),
       withClauses g (numberedClauses
        (fun i t => getReturnValClause i (replaceTypeParamsWithAny t none))
        (resultSlots targetFunc) 0)) := by
  unfold rewriteHookContextResults resultSlots fieldSlots
  cases hRes : targetFunc.Typ.Results with
  | none => simp [numberedClauses, withClauses_nil, pure, Except.pure]
  | some l =>
    obtain ⟨rs, hr1, hr2, hr3⟩ :=
      SplitMultiNameFields_typed l ((typedSignature_parts targetFunc hT).2.2 l hRes)
    simp only [bind, Except.bind, hr1]
    rw [rewriteResultsLoop_plain rs 0 _ _ hr2, hr3]

theorem rewriteHookContextResults_generic (targetFunc : FuncDecl) (tp : FieldList)
    (hT : typedSignature targetFunc = true) (s : Option BlockStmt) (g : BlockStmt) :
    rewriteHookContextResults targetFunc s g (some tp) = .ok
      (s, withClauses g (numberedClauses
        (fun i t => getReturnValClause i (replaceTypeParamsWithAny t (some tp)))
        (resultSlots targetFunc) 0)) := by
  unfold rewriteHookContextResults resultSlots fieldSlots
  cases hRes : targetFunc.Typ.Results with
  | none => simp [numberedClauses, withClauses_nil, pure, Except.pure]
  | some l =>
    obtain ⟨rs, hr1, hr2, hr3⟩ :=
      SplitMultiNameFields_typed l ((typedSignature_parts targetFunc hT).2.2 l hRes)
    simp only [bind, Except.bind, hr1]
    rw [rewriteResultsLoop_generic tp rs 0 _ _ hr2, hr3]

theorem receiverTypeParamFields_length : ∀ (indices : List Expr),
    indices.all isIdentExpr = true → (receiverTypeParamFields indices).length = indices.length
  | [], _ => rfl
  | e :: rest, h => by
    simp only [List.all_cons, Bool.and_eq_true] at h
    have ih := receiverTypeParamFields_length rest h.2
    have h1 := h.1
    cases e <;> simp only [isIdentExpr, Bool.false_eq_true] at h1
    simp [receiverTypeParamFields, ih]

theorem extractReceiverTypeParams_isSome (t : Expr) (h : receiverForm t = true) :
    (extractReceiverTypeParams t).isSome = !(receiverTypeArgs t).isEmpty := by
  have hlist : ∀ (x : Expr) (indices : List Expr), indices.all isIdentExpr = true →
      (extractReceiverTypeParams (Expr.IndexListExpr x indices)).isSome
        = !indices.isEmpty := by
    intro x indices hi
    rw [extractReceiverTypeParams, receiverTypeParamFields_length indices hi]
    cases indices <;> simp
  cases t with
  | Ident i => rfl
  | StarExpr x =>
    cases x with
    | Ident i => rfl
    | IndexExpr a b =>
      cases a <;> simp [receiverForm] at h
      cases b <;> simp [receiverForm] at h
      rfl
    | IndexListExpr a indices =>
      cases a <;> simp [receiverForm] at h
      rw [extractReceiverTypeParams, hlist _ _ (by simpa using h)]
      rfl
    | _ => simp [receiverForm] at h
  | IndexExpr a b =>
    cases a <;> simp [receiverForm] at h
    cases b <;> simp [receiverForm] at h
    rfl
  | IndexListExpr a indices =>
    cases a <;> simp [receiverForm] at h
    rw [hlist _ _ (by simpa using h)]
    rfl
  | _ => simp [receiverForm] at h

theorem combineTypeParams_isSome (targetFunc : FuncDecl)
    (h : receiverWellFormed targetFunc = true) :
    (combineTypeParams targetFunc).isSome = isGenericTarget targetFunc := by
  unfold combineTypeParams isGenericTarget receiverWellFormed receiverType at *
  by_cases hR : ast.HasReceiver targetFunc = true
  · simp only [hR, if_true] at h ⊢
    cases hRecv : targetFunc.Recv with
    | none => simp [hRecv] at h
    | some l =>
      cases l with
      | mk o list c =>
        cases list with
        | nil => simp [hRecv] at h
        | cons f0 fr =>
          simp only [hRecv] at h ⊢
          cases hT : f0.Typ with
          | none => simp [hT] at h
          | some t =>
            simp only [hT] at h ⊢
            have he := extractReceiverTypeParams_isSome t h
            cases hTP : targetFunc.Typ.TypeParams with
            | none => simpa using he
            | some tp =>
              cases extractReceiverTypeParams t <;> simp
  · simp only [hR, Bool.false_eq_true, if_false, Bool.false_and, Bool.or_false]
    cases targetFunc.Typ.TypeParams <;> rfl

theorem setSwitchBody_get (b : BlockStmt) : ∀ (l : List Stmt) (idx : Nat) (init : Option Stmt)
    (tag : Option Expr) (blk : BlockStmt),
    l[idx]? = some (Stmt.SwitchStmt init tag blk) →
    (setSwitchBody b l idx)[idx]? = some (Stmt.SwitchStmt init tag b)
  | [], idx, _, _, _, h => by simp at h
  | s :: rest, 0, init, tag, blk, h => by
    simp only [List.getElem?_cons_zero, Option.some.injEq] at h
    subst h
    simp [setSwitchBody]
  | s :: rest, idx + 1, init, tag, blk, h => by
    simp only [List.getElem?_cons_succ] at h
    have ih := setSwitchBody_get b rest idx init tag blk h
    simp only [setSwitchBody, List.getElem?_cons_succ]
    exact ih

theorem findSwitchBlock_ok (f : FuncDecl) (idx : Nat) (h : (switchCases f idx).isSome = true) :
    ∃ decs, findSwitchBlock (some f) idx = .ok (BlockStmt.mk [] decs) ∧
      ∀ cs, switchCases (withSwitchBlock f idx (BlockStmt.mk cs decs)) idx = some cs := by
  unfold switchCases at h
  cases hB : f.Body with
  | none => simp [hB] at h
  | some body =>
    cases body with
    | mk list bdecs =>
      simp only [hB, BlockStmt.List] at h
      cases hS : list[idx]? with
      | none => simp [hS] at h
      | some s =>
        cases s <;> simp [hS] at h
        next init tag blk =>
          cases blk with
          | mk bl decs =>
            refine ⟨decs, ?_, ?_⟩
            · simp [findSwitchBlock, hB, BlockStmt.List, hS, pure, Except.pure]
            · intro cs
              simp only [withSwitchBlock, hB, switchCases, BlockStmt.List]
              rw [setSwitchBody_get _ list idx init tag _ hS]

theorem numberedClauses_length (clause : Nat → Expr → Stmt) :
    ∀ (ts : List Expr) (idx : Nat), (numberedClauses clause ts idx).length = ts.length
  | [], _ => rfl
  | t :: rest, idx => by simp [numberedClauses, numberedClauses_length clause rest (idx + 1)]

theorem numberedClauses_caseExprs (clause : Nat → Expr → Stmt)
    (hc : ∀ i t, caseExprs (clause i t) = [ast.IntLit i]) :
    ∀ (ts : List Expr) (idx : Nat),
      (numberedClauses clause ts idx).map caseExprs
        = (List.range' idx ts.length).map (fun i => [ast.IntLit i])
  | [], _ => rfl
  | t :: rest, idx => by
    simp [numberedClauses, hc, numberedClauses_caseExprs clause hc rest (idx + 1),
      List.range']

theorem getValue_caseExprs (field : String) (i : Nat) (t : Expr) :
    caseExprs (getValue field i t) = [ast.IntLit i] := rfl

theorem setValue_caseExprs (field : String) (i : Nat) (t : Expr) :
    caseExprs (setValue field i t) = [ast.IntLit i] := rfl

theorem getValue_isCaseClause (field : String) (i : Nat) (t : Expr) :
    isCaseClause (getValue field i t) = true := rfl

theorem setValue_isCaseClause (field : String) (i : Nat) (t : Expr) :
    isCaseClause (setValue field i t) = true := rfl

theorem declaredTypes_length : ∀ (l : List Field), typedFields l = true →
    (declaredTypes l).length = slotCount l
  | [], _ => rfl
  | (.mk names typ tag) :: rest, h => by
    simp only [typedFields, List.all_cons, Bool.and_eq_true] at h
    have ih := declaredTypes_length rest h.2
    cases typ with
    | none => simp [typedField, Field.Typ] at h
    | some t => simp [declaredTypes, slotCount, ih, Field.Names]

theorem paramSlots_length (targetFunc : FuncDecl) (hT : typedSignature targetFunc = true) :
    (paramSlots targetFunc).length
      = receiverCount targetFunc + slotCount targetFunc.Typ.Params.List := by
  unfold paramSlots fieldSlots receiverCount
  rw [List.length_append, List.length_map,
    declaredTypes_length _ (typedSignature_parts targetFunc hT).2.1]
  by_cases hR : ast.HasReceiver targetFunc = true
  · obtain ⟨_, _, t, _, _, hslot⟩ := receiver_split targetFunc hT hR
    simp [hslot, hR]
  · simp [receiverSlot, hR]

theorem resultSlots_length (targetFunc : FuncDecl) (hT : typedSignature targetFunc = true) :
    (resultSlots targetFunc).length = resultCount targetFunc := by
  unfold resultSlots resultCount fieldSlots
  cases hRes : targetFunc.Typ.Results with
  | none => rfl
  | some l =>
    simp only [List.length_map]
    exact declaredTypes_length _ ((typedSignature_parts targetFunc hT).2.2 l hRes)

theorem makeMethodPanic_ok (m : FuncDecl) (idx : Nat) (message : String)
    (h : (switchCases m idx).isSome = true) :
    ∃ m', makeMethodPanic (some m) message = .ok m' ∧ bodyList m' = [panicStmt message] := by
  unfold switchCases at h
  cases hB : m.Body with
  | none => simp [hB] at h
  | some body =>
    cases body with
    | mk list decs =>
      refine ⟨{ m with Body := some (BlockStmt.mk [panicStmt message] decs) }, ?_, ?_⟩
      · simp [makeMethodPanic, hB, pure, Except.pure]
      · simp [bodyList, BlockStmt.List]

theorem withClauses_empty (decs : NodeDecs) (cs : List Stmt) :
    withClauses (BlockStmt.mk [] decs) cs = BlockStmt.mk cs decs := by
  simp [withClauses, BlockStmt.List, BlockStmt.Decs]

/-- What `rewriteCallContext` returns for a target without type parameters. -/
theorem rewriteCallContext_plain (targetFunc : FuncDecl) (callCtxMethods : List FuncDecl)
    (setParam getParam getRetVal setRetVal : FuncDecl)
    (hLen : callCtxMethods.length > 4)
    (hSetParam : findMethod "SetParam" callCtxMethods = some setParam)
    (hGetParam : findMethod "GetParam" callCtxMethods = some getParam)
    (hGetRetVal : findMethod "GetReturnVal" callCtxMethods = some getRetVal)
    (hSetRetVal : findMethod "SetReturnVal" callCtxMethods = some setRetVal)
    (hSetParamSwitch : (switchCases setParam 1).isSome = true)
    (hGetParamSwitch : (switchCases getParam 0).isSome = true)
    (hGetRetValSwitch : (switchCases getRetVal 0).isSome = true)
    (hSetRetValSwitch : (switchCases setRetVal 1).isSome = true)
    (hTyped : typedSignature targetFunc = true)
    (hPlain : combineTypeParams targetFunc = none) :
    ∃ r, rewriteCallContext targetFunc callCtxMethods = .ok r ∧
      switchCases r.methodSetParam 1 = some (numberedClauses
        (fun i t => setParamClause i (replaceTypeParamsWithAny t none)) (paramSlots targetFunc) 0) ∧
      switchCases r.methodGetParam 0 = some (numberedClauses
        (fun i t => getParamClause i (replaceTypeParamsWithAny t none)) (paramSlots targetFunc) 0) ∧
      switchCases r.methodGetRetVal 0 = some (numberedClauses
        (fun i t => getReturnValClause i (replaceTypeParamsWithAny t none))
        (resultSlots targetFunc) 0) ∧
      switchCases r.methodSetRetVal 1 = some (numberedClauses
        (fun i t => setReturnValClause i (replaceTypeParamsWithAny t none))
        (resultSlots targetFunc) 0) := by
  obtain ⟨d1, h1, h1'⟩ := findSwitchBlock_ok setParam 1 hSetParamSwitch
  obtain ⟨d2, h2, h2'⟩ := findSwitchBlock_ok getParam 0 hGetParamSwitch
  obtain ⟨d3, h3, h3'⟩ := findSwitchBlock_ok getRetVal 0 hGetRetValSwitch
  obtain ⟨d4, h4, h4'⟩ := findSwitchBlock_ok setRetVal 1 hSetRetValSwitch
  have hSP : findMethod trampolineSetParamName callCtxMethods = some setParam := hSetParam
  have hGP : findMethod trampolineGetParamName callCtxMethods = some getParam := hGetParam
  have hGR : findMethod trampolineGetReturnValName callCtxMethods = some getRetVal := hGetRetVal
  have hSR : findMethod trampolineSetReturnValName callCtxMethods = some setRetVal := hSetRetVal
  unfold rewriteCallContext
  simp only [util.Assert, hLen, decide_True, if_true, bind, Except.bind, pure, Except.pure,
    hSP, hGP, hGR, hSR, hPlain, Option.isSome_none, Bool.false_eq_true, if_false,
    h1, h2, h3, h4, rewriteHookContextParams_plain targetFunc hTyped,
    rewriteHookContextResults_plain targetFunc hTyped, withClauses_empty]
  exact ⟨_, rfl, h1' _, h2' _, h3' _, h4' _⟩

/-- What `rewriteCallContext` returns for a target with type parameters. -/
theorem rewriteCallContext_generic (targetFunc : FuncDecl) (callCtxMethods : List FuncDecl)
    (setParam getParam getRetVal setRetVal : FuncDecl) (tp : FieldList)
    (hLen : callCtxMethods.length > 4)
    (hSetParam : findMethod "SetParam" callCtxMethods = some setParam)
    (hGetParam : findMethod "GetParam" callCtxMethods = some getParam)
    (hGetRetVal : findMethod "GetReturnVal" callCtxMethods = some getRetVal)
    (hSetRetVal : findMethod "SetReturnVal" callCtxMethods = some setRetVal)
    (hSetParamSwitch : (switchCases setParam 1).isSome = true)
    (hGetParamSwitch : (switchCases getParam 0).isSome = true)
    (hGetRetValSwitch : (switchCases getRetVal 0).isSome = true)
    (hSetRetValSwitch : (switchCases setRetVal 1).isSome = true)
    (hTyped : typedSignature targetFunc = true)
    (hGeneric : combineTypeParams targetFunc = some tp) :
    ∃ r, rewriteCallContext targetFunc callCtxMethods = .ok r ∧
      bodyList r.methodSetParam = [panicStmt "SetParam is unsupported for generic functions"] ∧
      bodyList r.methodSetRetVal
        = [panicStmt "SetReturnVal is unsupported for generic functions"] ∧
      switchCases r.methodGetParam 0 = some (numberedClauses
        (fun i t => getParamClause i (replaceTypeParamsWithAny t (some tp)))
        (paramSlots targetFunc) 0) ∧
      switchCases r.methodGetRetVal 0 = some (numberedClauses
        (fun i t => getReturnValClause i (replaceTypeParamsWithAny t (some tp)))
        (resultSlots targetFunc) 0) := by
  obtain ⟨sp, hsp, hsp'⟩ := makeMethodPanic_ok setParam 1
    "SetParam is unsupported for generic functions" hSetParamSwitch
  obtain ⟨sr, hsr, hsr'⟩ := makeMethodPanic_ok setRetVal 1
    "SetReturnVal is unsupported for generic functions" hSetRetValSwitch
  obtain ⟨d2, h2, h2'⟩ := findSwitchBlock_ok getParam 0 hGetParamSwitch
  obtain ⟨d3, h3, h3'⟩ := findSwitchBlock_ok getRetVal 0 hGetRetValSwitch
  have hSP : findMethod trampolineSetParamName callCtxMethods = some setParam := hSetParam
  have hGP : findMethod trampolineGetParamName callCtxMethods = some getParam := hGetParam
  have hGR : findMethod trampolineGetReturnValName callCtxMethods = some getRetVal := hGetRetVal
  have hSR : findMethod trampolineSetReturnValName callCtxMethods = some setRetVal := hSetRetVal
  unfold rewriteCallContext
  simp only [util.Assert, hLen, decide_True, if_true, bind, Except.bind, pure, Except.pure,
    hSP, hGP, hGR, hSR, hGeneric, Option.isSome_some,
    hsp, hsr, h2, h3, rewriteHookContextParams_generic targetFunc tp hTyped,
    rewriteHookContextResults_generic targetFunc tp hTyped, withClauses_empty]
  exact ⟨_, rfl, hsp', hsr', h2' _, h3' _⟩

/-! ## The generated call-context methods -/

theorem switchCases_panic (f : FuncDecl) (message : String)
    (h : bodyList f = [panicStmt message]) (k : Nat) : switchCases f k = none := by
  unfold bodyList at h
  unfold switchCases
  cases hB : f.Body with
  | none => rfl
  | some body =>
    rw [hB] at h
    simp only at h
    simp only [h]
    cases k <;> simp [panicStmt, ast.ExprStmt]

/-- Claim C14: for a target with type parameters of its own or a receiver type
with type arguments, `rewriteCallContext` leaves `SetParam` and `SetReturnVal`
with the single statement `panic("... is unsupported for generic functions")`
as body, so that running either fails whatever the value and the state of the
call context, and neither holds a switch, hence no setter clause; for a target
with neither, each setter keeps its switch, with one clause per slot. -/
theorem rewriteCallContext_generic_setters (targetFunc : FuncDecl)
    (callCtxMethods : List FuncDecl) (setParam getParam getRetVal setRetVal : FuncDecl)
    (hLen : callCtxMethods.length > 4)
    (hSetParam : findMethod "SetParam" callCtxMethods = some setParam)
    (hGetParam : findMethod "GetParam" callCtxMethods = some getParam)
    (hGetRetVal : findMethod "GetReturnVal" callCtxMethods = some getRetVal)
    (hSetRetVal : findMethod "SetReturnVal" callCtxMethods = some setRetVal)
    (hSetParamSwitch : (switchCases setParam 1).isSome = true)
    (hGetParamSwitch : (switchCases getParam 0).isSome = true)
    (hGetRetValSwitch : (switchCases getRetVal 0).isSome = true)
    (hSetRetValSwitch : (switchCases setRetVal 1).isSome = true)
    (hTyped : typedSignature targetFunc = true)
    (hRecv : receiverWellFormed targetFunc = true) :
    ∃ r, rewriteCallContext targetFunc callCtxMethods = .ok r ∧
      (isGenericTarget targetFunc = true →
        bodyList r.methodSetParam
          = [panicStmt "SetParam is unsupported for generic functions"] ∧
        bodyList r.methodSetRetVal
          = [panicStmt "SetReturnVal is unsupported for generic functions"] ∧
        (∀ (satisfies : Expr → Expr → Bool) (val : GoValue) (c : CallContextImpl),
          execClauseList satisfies val (bodyList r.methodSetParam) c
            = Run.panic "\"SetParam is unsupported for generic functions\"" ∧
          execClauseList satisfies val (bodyList r.methodSetRetVal) c
            = Run.panic "\"SetReturnVal is unsupported for generic functions\"") ∧
        (∀ k, switchCases r.methodSetParam k = none ∧ switchCases r.methodSetRetVal k = none)) ∧
      (isGenericTarget targetFunc = false →
        ∃ setParams setRetVals,
          switchCases r.methodSetParam 1 = some setParams ∧
          switchCases r.methodSetRetVal 1 = some setRetVals ∧
          setParams = numberedClauses
            (fun i t => setParamClause i (replaceTypeParamsWithAny t none))
            (paramSlots targetFunc) 0 ∧
          setRetVals = numberedClauses
            (fun i t => setReturnValClause i (replaceTypeParamsWithAny t none))
            (resultSlots targetFunc) 0 ∧
          setParams.length = (paramSlots targetFunc).length ∧
          setRetVals.length = (resultSlots targetFunc).length) := by
  have hgen := combineTypeParams_isSome targetFunc hRecv
  cases hC : combineTypeParams targetFunc with
  | none =>
    obtain ⟨r, hr, h1, _, _, h4⟩ := rewriteCallContext_plain targetFunc callCtxMethods setParam
      getParam getRetVal setRetVal hLen hSetParam hGetParam hGetRetVal hSetRetVal hSetParamSwitch
      hGetParamSwitch hGetRetValSwitch hSetRetValSwitch hTyped hC
    rw [hC] at hgen
    refine ⟨r, hr, ?_, ?_⟩
    · intro hg
      rw [hg] at hgen
      simp at hgen
    · intro _
      exact ⟨_, _, h1, h4, rfl, rfl, numberedClauses_length _ _ _, numberedClauses_length _ _ _⟩
  | some tp =>
    obtain ⟨r, hr, h1, h2, _, _⟩ := rewriteCallContext_generic targetFunc callCtxMethods setParam
      getParam getRetVal setRetVal tp hLen hSetParam hGetParam hGetRetVal hSetRetVal
      hSetParamSwitch hGetParamSwitch hGetRetValSwitch hSetRetValSwitch hTyped hC
    rw [hC] at hgen
    refine ⟨r, hr, ?_, ?_⟩
    · intro _
      refine ⟨h1, h2, ?_, ?_⟩
      · intro satisfies val c
        rw [h1, h2]
        exact ⟨rfl, rfl⟩
      · intro k
        exact ⟨switchCases_panic _ _ h1 k, switchCases_panic _ _ h2 k⟩
    · intro hg
      rw [hg] at hgen
      simp at hgen

/-- Witness for C14: the generic method `func (b *Box[T]) Put(x T)` and the
sample template. -/
theorem rewriteCallContext_generic_setters_witness :
    isGenericTarget genericMethod = true ∧
    (∃ r, rewriteCallContext genericMethod sampleMethods = .ok r ∧
      bodyList r.methodSetParam
        = [panicStmt "SetParam is unsupported for generic functions"]) :=
  ⟨rfl,
   match rewriteCallContext_generic_setters genericMethod sampleMethods
      (sampleSetter "SetParam") (sampleGetter "GetParam") (sampleGetter "GetReturnVal")
      (sampleSetter "SetReturnVal") (by decide) rfl rfl rfl rfl rfl rfl rfl rfl rfl rfl with
   | ⟨r, hr, hg, _⟩ => ⟨r, hr, (hg rfl).1⟩⟩

/-- Claim C17: the switch of `GetParam` that `rewriteCallContext` generates has
one clause per parameter slot, the receiver first when there is one and the
parameters after it in declaration order, every declared name being a slot;
its case expressions are the literals 0, 1, ... in order, as many as receivers
and parameter slots together.  The switch of `GetReturnVal` has one clause per
result slot with the literals 0, 1, ... .  For a target that is not generic the
switches of `SetParam` and `SetReturnVal` have the same case expressions. -/
theorem rewriteCallContext_case_indices (targetFunc : FuncDecl)
    (callCtxMethods : List FuncDecl) (setParam getParam getRetVal setRetVal : FuncDecl)
    (hLen : callCtxMethods.length > 4)
    (hSetParam : findMethod "SetParam" callCtxMethods = some setParam)
    (hGetParam : findMethod "GetParam" callCtxMethods = some getParam)
    (hGetRetVal : findMethod "GetReturnVal" callCtxMethods = some getRetVal)
    (hSetRetVal : findMethod "SetReturnVal" callCtxMethods = some setRetVal)
    (hSetParamSwitch : (switchCases setParam 1).isSome = true)
    (hGetParamSwitch : (switchCases getParam 0).isSome = true)
    (hGetRetValSwitch : (switchCases getRetVal 0).isSome = true)
    (hSetRetValSwitch : (switchCases setRetVal 1).isSome = true)
    (hTyped : typedSignature targetFunc = true)
    (hRecv : receiverWellFormed targetFunc = true) :
    ∃ (r : CallContextMethods) (getParams getRetVals : List Stmt),
      rewriteCallContext targetFunc callCtxMethods = .ok r ∧
      switchCases r.methodGetParam 0 = some getParams ∧
      switchCases r.methodGetRetVal 0 = some getRetVals ∧
      getParams = numberedClauses
        (fun i t => getParamClause i (replaceTypeParamsWithAny t (combineTypeParams targetFunc)))
        (receiverSlot targetFunc ++ fieldSlots targetFunc.Typ.Params.List) 0 ∧
      getParams.length = receiverCount targetFunc + slotCount targetFunc.Typ.Params.List ∧
      getParams.map caseExprs
        = (List.range (receiverCount targetFunc + slotCount targetFunc.Typ.Params.List)).map
            (fun i => [ast.IntLit i]) ∧
      getRetVals = numberedClauses
        (fun i t => getReturnValClause i
          (replaceTypeParamsWithAny t (combineTypeParams targetFunc)))
        (resultSlots targetFunc) 0 ∧
      getRetVals.length = resultCount targetFunc ∧
      getRetVals.map caseExprs
        = (List.range (resultCount targetFunc)).map (fun i => [ast.IntLit i]) ∧
      (isGenericTarget targetFunc = false →
        ∃ setParams setRetVals,
          switchCases r.methodSetParam 1 = some setParams ∧
          switchCases r.methodSetRetVal 1 = some setRetVals ∧
          setParams.map caseExprs = getParams.map caseExprs ∧
          setRetVals.map caseExprs = getRetVals.map caseExprs) := by
  have hgen := combineTypeParams_isSome targetFunc hRecv
  have hpl := paramSlots_length targetFunc hTyped
  have hrl := resultSlots_length targetFunc hTyped
  have hidx : ∀ (clause : Nat → Expr → Stmt), (∀ i t, caseExprs (clause i t) = [ast.IntLit i]) →
      ∀ ts : List Expr, (numberedClauses clause ts 0).map caseExprs
        = (List.range ts.length).map (fun i => [ast.IntLit i]) := by
    intro clause hc ts
    rw [numberedClauses_caseExprs clause hc ts 0, List.range_eq_range']
  have hgp := fun (tp : Option FieldList) => hidx
    (fun i t => getParamClause i (replaceTypeParamsWithAny t tp)) (fun _ _ => rfl)
  have hsp := fun (tp : Option FieldList) => hidx
    (fun i t => setParamClause i (replaceTypeParamsWithAny t tp)) (fun _ _ => rfl)
  have hgr := fun (tp : Option FieldList) => hidx
    (fun i t => getReturnValClause i (replaceTypeParamsWithAny t tp)) (fun _ _ => rfl)
  have hsr := fun (tp : Option FieldList) => hidx
    (fun i t => setReturnValClause i (replaceTypeParamsWithAny t tp)) (fun _ _ => rfl)
  cases hC : combineTypeParams targetFunc with
  | none =>
    obtain ⟨r, hr, h1, h2, h3, h4⟩ := rewriteCallContext_plain targetFunc callCtxMethods
      setParam getParam getRetVal setRetVal hLen hSetParam hGetParam hGetRetVal hSetRetVal
      hSetParamSwitch hGetParamSwitch hGetRetValSwitch hSetRetValSwitch hTyped hC
    refine ⟨r, _, _, hr, h2, h3, rfl, ?_, ?_, rfl, ?_, ?_, ?_⟩
    · rw [numberedClauses_length]; exact hpl
    · rw [hgp, ← hpl]
    · rw [numberedClauses_length]; exact hrl
    · rw [hgr, hrl]
    · intro _
      refine ⟨_, _, h1, h4, ?_, ?_⟩
      · rw [hsp, hgp]
      · rw [hsr, hgr]
  | some tp =>
    obtain ⟨r, hr, _, _, h2, h3⟩ := rewriteCallContext_generic targetFunc callCtxMethods
      setParam getParam getRetVal setRetVal tp hLen hSetParam hGetParam hGetRetVal hSetRetVal
      hSetParamSwitch hGetParamSwitch hGetRetValSwitch hSetRetValSwitch hTyped hC
    refine ⟨r, _, _, hr, h2, h3, rfl, ?_, ?_, rfl, ?_, ?_, ?_⟩
    · rw [numberedClauses_length]; exact hpl
    · rw [hgp, ← hpl]
    · rw [numberedClauses_length]; exact hrl
    · rw [hgr, hrl]
    · intro hg
      rw [hC, hg] at hgen
      simp at hgen

/-- Witness for C17: the method `func (s *Svc) Do(x int) (int, error)` and the
sample template: two parameter slots, two result slots. -/
theorem rewriteCallContext_case_indices_witness :
    ∃ (r : CallContextMethods) (getParams getRetVals : List Stmt),
      rewriteCallContext namedReceiverMethod sampleMethods = .ok r ∧
      switchCases r.methodGetParam 0 = some getParams ∧
      switchCases r.methodGetRetVal 0 = some getRetVals ∧
      getParams.map caseExprs = [[ast.IntLit 0], [ast.IntLit 1]] ∧
      getRetVals.map caseExprs = [[ast.IntLit 0], [ast.IntLit 1]] :=
  match rewriteCallContext_case_indices namedReceiverMethod sampleMethods
      (sampleSetter "SetParam") (sampleGetter "GetParam") (sampleGetter "GetReturnVal")
      (sampleSetter "SetReturnVal") (by decide) rfl rfl rfl rfl rfl rfl rfl rfl rfl rfl with
  | ⟨r, gp, gr, hr, h1, h2, _, _, h5, _, _, h8, _⟩ => ⟨r, gp, gr, hr, h1, h2, h5, h8⟩

/-- Claim C16, refuted on `func Sum(n int, a [4]int) int`: the clauses that
`rewriteCallContext` generates for slot 1, declared `[4]int`, assert the slot to
hold a `*[]int`, which is not a pointer to the declared type:
`replaceTypeParamsWithAny` rebuilds every array type as a slice type and so
drops the length. -/
theorem array_slot_asserted_as_slice :
    ∃ (r : CallContextMethods) (getCase setCase : Stmt),
      rewriteCallContext arrayParamFunc sampleMethods = .ok r ∧
      isGenericTarget arrayParamFunc = false ∧
      paramSlots arrayParamFunc = [intType, int4Type] ∧
      (switchCases r.methodGetParam 0).bind (fun cs => cs[1]?) = some getCase ∧
      (switchCases r.methodSetParam 1).bind (fun cs => cs[1]?) = some setCase ∧
      assertedType getCase = some (Expr.StarExpr intSliceType) ∧
      assertedType setCase = some (Expr.StarExpr intSliceType) ∧
      Expr.StarExpr intSliceType ≠ Expr.StarExpr int4Type ∧
      sameType (Expr.StarExpr intSliceType) (Expr.StarExpr int4Type) = false :=
  ⟨_, _, _, rfl, rfl, rfl, rfl, rfl, rfl, rfl, by simp [intSliceType, int4Type], rfl⟩

/-- Claim C15, refuted on `func Sum(n int, a [4]int) int` with the call context
as the trampoline fills it: for slot 0, declared `int`, the generated `SetParam`
clause followed by the generated `GetParam` clause returns the value set; for
slot 1, declared `[4]int`, the generated `SetParam` clause run with a value of
type `[4]int` panics in its type assertion, so nothing is set and nothing can
be read back. -/
theorem set_clause_panics_on_array_slot (satisfies : Expr → Expr → Bool) :
    ∃ (r : CallContextMethods) (set0 get0 set1 : Stmt),
      rewriteCallContext arrayParamFunc sampleMethods = .ok r ∧
      switchCases r.methodSetParam 1 = some [set0, set1] ∧
      (switchCases r.methodGetParam 0).bind (fun cs => cs[0]?) = some get0 ∧
      (∃ c, execClause satisfies (GoValue.data intType 9) set0 sampleContext = Run.ok (c, none) ∧
        execClause satisfies GoValue.nil get0 c = Run.ok (c, some (GoValue.data intType 9))) ∧
      sampleContext.Params[1]? = some (GoValue.pointer 1 int4Type) ∧
      execClause satisfies (GoValue.data int4Type 9) set1 sampleContext
        = Run.panic "interface conversion: interface holds another type" :=
  ⟨_, _, _, _, rfl, rfl, rfl, ⟨_, rfl, rfl⟩, rfl, rfl⟩


/-! ## Degrading of type parameters -/

theorem isTypeParameter_names (i : Ident) (tp : Option FieldList) :
    isTypeParameter (Expr.Ident i) tp = (typeParamNames tp).contains i.Name := by
  cases tp with
  | none => rfl
  | some l =>
    rw [Bool.eq_iff_iff]
    simp only [isTypeParameter, typeParamNames, List.any_eq_true, List.contains_iff_exists_mem_beq,
      List.mem_flatMap, List.mem_map, beq_iff_eq]
    constructor
    · rintro ⟨f, hf, n, hn, h⟩
      exact ⟨n.Name, ⟨f, hf, n, hn, rfl⟩, h.symm⟩
    · rintro ⟨a, ⟨f, hf, n, hn, rfl⟩, h⟩
      exact ⟨f, hf, n, hn, h.symm⟩

theorem mentionsTypeParam_ident (tp : Option FieldList) (i : Ident) :
    mentionsTypeParam tp (Expr.Ident i) = isTypeParameter (Expr.Ident i) tp := by
  rw [isTypeParameter_names]
  simp [mentionsTypeParam, reachExpr, reachNode, Node.isIdentWith]

theorem mentionsTypeParam_interface (tp : Option FieldList) :
    mentionsTypeParam tp ast.InterfaceType = false := by
  simp [mentionsTypeParam, ast.InterfaceType, reachExpr, reachNode, reachFieldList, reachFields,
    Node.isQualified, Node.isIdentWith]

theorem mentionsTypeParam_star (tp : Option FieldList) (x : Expr) :
    mentionsTypeParam tp (Expr.StarExpr x) = mentionsTypeParam tp x := by
  simp [mentionsTypeParam, reachExpr, reachNode, Node.isQualified, Node.isIdentWith]

theorem mentionsTypeParam_slice (tp : Option FieldList) (x : Expr) :
    mentionsTypeParam tp (Expr.ArrayType none x) = mentionsTypeParam tp x := by
  simp [mentionsTypeParam, reachExpr, reachNode, reachExprOpt, Node.isQualified,
    Node.isIdentWith]

theorem mentionsTypeParam_map (tp : Option FieldList) (k v : Expr) :
    mentionsTypeParam tp (Expr.MapType k v)
      = (mentionsTypeParam tp k || mentionsTypeParam tp v) := by
  simp [mentionsTypeParam, reachExpr, reachNode, Node.isQualified, Node.isIdentWith]

theorem mentionsTypeParam_chan (tp : Option FieldList) (d : Nat) (v : Expr) :
    mentionsTypeParam tp (Expr.ChanType d v) = mentionsTypeParam tp v := by
  simp [mentionsTypeParam, reachExpr, reachNode, Node.isQualified, Node.isIdentWith]

theorem mentionsTypeParam_selector (tp : Option FieldList) (x : Expr) (sel : Ident) :
    mentionsTypeParam tp (Expr.SelectorExpr x sel) = false := by
  simp [mentionsTypeParam, reachExpr, reachNode, Node.isQualified, Node.isIdentWith]

theorem mentionsTypeParam_ellipsis (tp : Option FieldList) (elt : Option Expr) :
    mentionsTypeParam tp (Expr.Ellipsis elt)
      = (match elt with
         | some e => mentionsTypeParam tp e
         | none => false) := by
  cases elt <;>
    simp [mentionsTypeParam, reachExpr, reachNode, reachExprOpt, Node.isQualified,
      Node.isIdentWith]

/-- Counterexample for C18: with the type parameter `T`, the function type
`func(T) T` is returned as it is, and it contains `T`. -/
theorem replaceTypeParamsWithAny_keeps_func_type :
    typeParamNames sampleTypeParams = ["T"] ∧
    replaceTypeParamsWithAny funcOfT sampleTypeParams = funcOfT ∧
    mentionsTypeParam sampleTypeParams (replaceTypeParamsWithAny funcOfT sampleTypeParams)
      = true :=
  ⟨rfl, rfl, rfl⟩

mutual
theorem replaceTypeParamsWithAny_degrades (tp : Option FieldList) :
    ∀ (t : Expr), treatedType t = true →
      mentionsTypeParam tp (replaceTypeParamsWithAny t tp) = false
  | .Ident i, _ => by
    rw [replaceTypeParamsWithAny]
    by_cases h : isTypeParameter (Expr.Ident i) tp = true
    · rw [if_pos h]
      exact mentionsTypeParam_interface tp
    · rw [if_neg h, mentionsTypeParam_ident]
      simpa using h
  | .StarExpr x, h => by
    rw [treatedType] at h
    rw [replaceTypeParamsWithAny, ast.DereferenceOf, mentionsTypeParam_star]
    exact replaceTypeParamsWithAny_degrades tp x h
  | .ArrayType len elt, h => by
    rw [treatedType] at h
    rw [replaceTypeParamsWithAny, ast.ArrayType, mentionsTypeParam_slice]
    exact replaceTypeParamsWithAny_degrades tp elt h
  | .MapType key value, h => by
    rw [treatedType, Bool.and_eq_true] at h
    rw [replaceTypeParamsWithAny, mentionsTypeParam_map,
      replaceTypeParamsWithAny_degrades tp key h.1, replaceTypeParamsWithAny_degrades tp value h.2]
    rfl
  | .ChanType dir value, h => by
    rw [treatedType] at h
    rw [replaceTypeParamsWithAny, mentionsTypeParam_chan]
    exact replaceTypeParamsWithAny_degrades tp value h
  | .IndexExpr _ _, _ => by
    rw [replaceTypeParamsWithAny]
    exact mentionsTypeParam_interface tp
  | .IndexListExpr _ _, _ => by
    rw [replaceTypeParamsWithAny]
    exact mentionsTypeParam_interface tp
  | .Ellipsis elt, h => by
    rw [treatedType] at h
    rw [replaceTypeParamsWithAny, ast.Ellipsis, mentionsTypeParam_ellipsis]
    exact replaceTypeParamsWithAnyOpt_degrades tp elt h
  | .SelectorExpr x sel, _ => by
    change mentionsTypeParam tp (Expr.SelectorExpr x sel) = false
    exact mentionsTypeParam_selector tp x sel
  | .InterfaceType (.mk o list c), h => by
    rw [treatedType] at h
    change mentionsTypeParam tp (Expr.InterfaceType (.mk o list c)) = false
    have hl : list = [] := by simpa using h
    subst hl
    simp [mentionsTypeParam, reachExpr, reachNode, reachFieldList, reachFields,
      Node.isQualified, Node.isIdentWith]
  | .BasicLit _, h => by simp [treatedType] at h
  | .FuncLit _ _, h => by simp [treatedType] at h
  | .CompositeLit _ _, h => by simp [treatedType] at h
  | .ParenExpr _, h => by simp [treatedType] at h
  | .SliceExpr _ _ _ _, h => by simp [treatedType] at h
  | .TypeAssertExpr _ _, h => by simp [treatedType] at h
  | .CallExpr _, h => by simp [treatedType] at h
  | .UnaryExpr _ _, h => by simp [treatedType] at h
  | .BinaryExpr _ _ _, h => by simp [treatedType] at h
  | .KeyValueExpr _ _, h => by simp [treatedType] at h
  | .StructType _, h => by simp [treatedType] at h
  | .FuncType _, h => by simp [treatedType] at h
theorem replaceTypeParamsWithAnyOpt_degrades (tp : Option FieldList) :
    ∀ (elt : Option Expr), treatedTypeOpt elt = true →
      (match replaceTypeParamsWithAnyOpt elt tp with
       | some e => mentionsTypeParam tp e
       | none => false) = false
  | none, _ => by rw [replaceTypeParamsWithAnyOpt]
  | some t, h => by
    rw [treatedTypeOpt] at h
    rw [replaceTypeParamsWithAnyOpt]
    exact replaceTypeParamsWithAny_degrades tp t h
end

theorem replaceTypeParamsWithAny_as_is (tp : Option FieldList) (u : Expr)
    (hr : rebuiltType u = false) (hp : isTypeParameter u tp = false) :
    replaceTypeParamsWithAny u tp = u := by
  cases u <;> first
    | (simp [rebuiltType] at hr; done)
    | (rw [replaceTypeParamsWithAny, if_neg (by simp [hp])])
    | rfl

theorem isTypeParameter_not_ident (tp : Option FieldList) (u : Expr)
    (hu : ∀ i, u ≠ Expr.Ident i) : isTypeParameter u tp = false := by
  unfold isTypeParameter
  cases tp with
  | none => rfl
  | some l =>
    cases u <;> first
      | rfl
      | exact absurd rfl (hu _)

/-- Claim C18, amended: for a type expression built from identifiers, qualified
identifiers, instantiated generic types and the empty interface by pointer,
array, slice, map, channel and variadic types, the type that
`replaceTypeParamsWithAny` returns contains no identifier naming one of the
type parameters, and an identifier that names a type parameter is returned as
the empty interface; every other type expression, one that is not a type
parameter and for which the switch builds no new node, is returned unchanged,
in particular every function type, struct type and interface type, with or
without methods. -/
theorem replaceTypeParamsWithAny_clean (tp : Option FieldList) (t : Expr)
    (h : treatedType t = true) :
    mentionsTypeParam tp (replaceTypeParamsWithAny t tp) = false ∧
    (∀ i : Ident, isTypeParameter (Expr.Ident i) tp = true →
      replaceTypeParamsWithAny (Expr.Ident i) tp = ast.InterfaceType) ∧
    (∀ u : Expr, rebuiltType u = false → isTypeParameter u tp = false →
      replaceTypeParamsWithAny u tp = u) ∧
    (∀ ft : FuncType, replaceTypeParamsWithAny (Expr.FuncType ft) tp = Expr.FuncType ft) ∧
    (∀ fields : FieldList,
      replaceTypeParamsWithAny (Expr.StructType fields) tp = Expr.StructType fields) ∧
    (∀ methods : FieldList,
      replaceTypeParamsWithAny (Expr.InterfaceType methods) tp = Expr.InterfaceType methods) :=
  ⟨replaceTypeParamsWithAny_degrades tp t h,
    fun i hi => by rw [replaceTypeParamsWithAny, if_pos hi],
    fun u hr hp => replaceTypeParamsWithAny_as_is tp u hr hp,
    fun ft => replaceTypeParamsWithAny_as_is tp _ rfl
      (isTypeParameter_not_ident tp _ (fun i e => by cases e)),
    fun fields => replaceTypeParamsWithAny_as_is tp _ rfl
      (isTypeParameter_not_ident tp _ (fun i e => by cases e)),
    fun methods => replaceTypeParamsWithAny_as_is tp _ rfl
      (isTypeParameter_not_ident tp _ (fun i e => by cases e))⟩

/-- Witness for C18: the type `map[string][]*T` with the type parameter `T`
mentions `T` before the replacement and not after it; the function type
`func(T) T`, for which no new node is built, is returned as it is. -/
theorem replaceTypeParamsWithAny_clean_witness :
    treatedType mapOfT = true ∧ mentionsTypeParam sampleTypeParams mapOfT = true ∧
    mentionsTypeParam sampleTypeParams (replaceTypeParamsWithAny mapOfT sampleTypeParams)
      = false ∧
    rebuiltType funcOfT = false ∧
    replaceTypeParamsWithAny funcOfT sampleTypeParams = funcOfT :=
  ⟨rfl, rfl, (replaceTypeParamsWithAny_clean sampleTypeParams mapOfT rfl).1, rfl,
    (replaceTypeParamsWithAny_clean sampleTypeParams mapOfT rfl).2.2.1 funcOfT rfl rfl⟩


/-! ## Arguments of the trampolines and slots of the context -/

/-- Claim C11, refuted by evaluation: for the exit-only rule woven into the
method `func (s *Svc) Do(x int) (int, error)`, `insertTJump` passes `&s, &x`
to the entry trampoline, while the context literal of `newCallContextImpl` has
as parameter slots the hook arguments of the name `x` alone, with the sample
helpers the single slot `&x`: the receiver is missing, and the first parameter
stands in slot 0.  The return-value slots are the addresses passed to the exit
trampoline after the call context. -/
theorem newCallContextImpl_omits_receiver (h : Helpers) :
    ∃ (res : InsertResult) (tj : TJump),
      insertTJump sampleRand sampleGenerate emptyProcessor ruleExitOnly namedReceiverMethod
        = .ok res ∧
      res.rp.trampolineJumps = [tj] ∧
      enterCallArgs tj.ifStmt = some [ast.AddressOf "s", ast.AddressOf "x"] ∧
      contextSlots "Params" (newCallContextImpl h tj) = some (h.createHookArgs ["x"]) ∧
      contextSlots "Params" (newCallContextImpl (sampleHelpers hookUsingReceiverOnly) tj)
        = some [ast.AddressOf "x"] ∧
      exitCallArgs tj.ifStmt = some [Expr.Ident { Name := "callContextxxx" },
        ast.AddressOf "retValx", ast.AddressOf "retValxx"] ∧
      contextSlots "ReturnVals" (newCallContextImpl (sampleHelpers hookUsingReceiverOnly) tj)
        = some [ast.AddressOf "retValx", ast.AddressOf "retValxx"] :=
  ⟨_, _, rfl, rfl, rfl, rfl, rfl, rfl, rfl⟩

/-- Claim C19, refuted by evaluation: for `func Close(int) error`, whose
parameter has no name, `insertTJump` passes no argument to the entry
trampoline, while the entry trampoline declaration that `buildTrampolineTypes`
builds has one parameter.  The exit call has two arguments and the exit
trampoline two parameters. -/
theorem unnamed_parameter_argument_mismatch :
    ∃ (res : InsertResult) (tj : TJump) (t : Trampolines),
      insertTJump sampleRand sampleGenerate emptyProcessor ruleA unnamedParamFunc = .ok res ∧
      res.rp.trampolineJumps = [tj] ∧
      buildTrampolineTypes res.funcDecl sampleTrampolines = .ok t ∧
      enterCallArgs tj.ifStmt = some [] ∧
      t.onEnterHookFunc.Typ.Params.List.length = 1 ∧
      (exitCallArgs tj.ifStmt).map List.length = some 2 ∧
      t.onExitHookFunc.Typ.Params.List.length = 2 :=
  ⟨_, _, _, rfl, rfl, rfl, rfl, rfl, rfl, rfl⟩


/-! ## Stacking of trampoline-jumps -/

/-- Counterexample for C20: the sample method woven with the first rule starts
with an anchored trampoline-jump whose else-branch holds the deferred exit call
and no nested trampoline-jump; after `insertTJump` for the second rule the
else-branch holds three statements, the deferred exit call, an empty statement
and the new trampoline-jump, which is not its sole content. -/
theorem nested_tjump_not_sole_content :
    ∃ (r1 r2 : InsertResult) (first1 first2 : IfStmt) (tj1 tj2 : TJump),
      insertTJump (sampleRands 0) sampleGenerate emptyProcessor ruleA namedReceiverMethod
        = .ok r1 ∧
      firstIfStmt r1.funcDecl = some first1 ∧ isAnchored first1 = true ∧
      (elseList first1).length = 1 ∧ nestedAt 1 first1 = none ∧
      insertTJump (sampleRands 1) sampleGenerate r1.rp ruleB r1.funcDecl = .ok r2 ∧
      r2.rp.trampolineJumps = [tj1, tj2] ∧
      firstIfStmt r2.funcDecl = some first2 ∧
      elseList first2 = elseList first1 ++ [ast.EmptyStmt, Stmt.IfStmt tj2.ifStmt] ∧
      (elseList first2).length = 3 ∧
      elseList first2 ≠ [Stmt.IfStmt tj2.ifStmt] :=
  ⟨_, _, _, _, _, _, rfl, rfl, rfl, rfl, rfl, rfl, rfl, rfl, rfl, rfl, by
    intro h
    have := congrArg List.length h
    revert this
    decide⟩

theorem hasAnchor_of_label (decs : IfStmtDecorations) (h : decs.If = [TrampolineJumpIfDesc]) :
    hasAnchor decs = true := by
  simp [hasAnchor, h]

/-- Claim C20, amended: when `insertTJump` is applied to a function with a
named or no receiver whose body starts with an anchored trampoline-jump whose
else-branch holds at most one statement, it returns without error and the new
trampoline-jump, in standard form, becomes the last statement of that
else-branch, after the statements already there and one empty statement; the
rest of the body and of the first trampoline-jump is unchanged. -/
theorem insertTJump_appends_to_else (rand : Nat → String)
    (generateTrampoline : InstFuncRule → dst.FuncDecl → RuleProcessor →
      RuleProcessor × Option String)
    (rp : RuleProcessor) (t : InstFuncRule) (funcDecl : dst.FuncDecl)
    (init : Option Stmt) (cond : Expr) (body : BlockStmt) (list : List Stmt)
    (edecs : NodeDecs) (decs : IfStmtDecorations) (rest : List Stmt) (bdecs : NodeDecs)
    (hHook : t.OnEnter ≠ "" ∨ t.OnExit ≠ "")
    (hRecv : receiverNamed funcDecl = true)
    (hBody : funcDecl.Body = some (BlockStmt.mk
      (Stmt.IfStmt (IfStmt.mk init cond body
        (some (Stmt.BlockStmt (BlockStmt.mk list edecs))) decs) :: rest) bdecs))
    (hAnchor : decs.If = [TrampolineJumpIfDesc])
    (hNoNested : list.length ≤ 1) :
    ∃ r, insertTJump rand generateTrampoline rp t funcDecl = .ok r ∧
      r.funcDecl.Body = some (BlockStmt.mk
        (Stmt.IfStmt (IfStmt.mk init cond body
          (some (Stmt.BlockStmt (BlockStmt.mk
            (list ++ [ast.EmptyStmt, Stmt.IfStmt (standardTJumpOf
              (jumpNames t (rand (unnamedCount (resultFields funcDecl))))
              (enterArgs funcDecl) (exitRetVals rand funcDecl) [] SpaceType.None)]) edecs)))
          decs) :: rest) bdecs) := by
  have hNest : nestTJump (standardTJumpOf
        (jumpNames t (rand (unnamedCount (resultFields funcDecl))))
        (enterArgs funcDecl) (exitRetVals rand funcDecl) [] SpaceType.None)
      (Stmt.IfStmt (IfStmt.mk init cond body
        (some (Stmt.BlockStmt (BlockStmt.mk list edecs))) decs) :: rest)
      = .ok (some (Stmt.IfStmt (IfStmt.mk init cond body
          (some (Stmt.BlockStmt (BlockStmt.mk
            (list ++ [ast.EmptyStmt, Stmt.IfStmt (standardTJumpOf
              (jumpNames t (rand (unnamedCount (resultFields funcDecl))))
              (enterArgs funcDecl) (exitRetVals rand funcDecl) [] SpaceType.None)]) edecs)))
          decs) :: rest)) := by
    rw [nestTJump, findJumpPoint.eq_def]
    have hlen : ¬ (list.length > 1) := by omega
    simp [hasAnchor_of_label decs hAnchor, hlen, BlockStmt.List, BlockStmt.Decs, pure,
      Except.pure]
  obtain ⟨r, hr, _, _, _, hb⟩ := insertTJump_ok rand generateTrampoline rp t funcDecl _ bdecs
    _ hHook hRecv hBody hNest
  exact ⟨r, hr, hb⟩

/-- Witness for C20: the sample method woven with the first rule, and the
second rule. -/
theorem insertTJump_appends_to_else_witness :
    receiverNamed wovenOnce.funcDecl = true ∧
    (∃ first1, firstIfStmt wovenOnce.funcDecl = some first1 ∧ isAnchored first1 = true ∧
      (elseList first1).length ≤ 1) ∧
    (∃ r, insertTJump (sampleRands 1) sampleGenerate wovenOnce.rp ruleB wovenOnce.funcDecl
        = .ok r ∧
      (firstIfStmt r.funcDecl).map (fun first2 => (elseList first2).length) = some 3) :=
  ⟨rfl, ⟨_, rfl, rfl, by decide⟩,
   match insertTJump_appends_to_else (sampleRands 1) sampleGenerate wovenOnce.rp ruleB
      wovenOnce.funcDecl _ _ _ _ _ _ _ _ (Or.inl (by decide)) rfl rfl rfl (by decide) with
   | ⟨r, hr, hb⟩ => ⟨r, hr, by rw [firstIfStmt, hb]; rfl⟩⟩


/-! ## A trampoline-jump left as a run-time branch -/

/-- Claim C12: for a trampoline-jump that carries the anchor label, of a rule
with both hooks whose entry hook is found and fails the escape analysis, the
iteration of the loop of `optimizeTJumps` for it returns without error, changes
neither the processor nor the target nor the rule, and leaves the init
statement, the condition, the then-branch and the else-branch of the
if-statement as they were; of its decorations only the anchor label is removed. -/
theorem optimizeTJump_keeps_branch (h : Helpers) (rp : RuleProcessor) (tjump : TJump)
    (hookFunc : FuncDecl)
    (hLabel : tjump.ifStmt.Decs.If = [TJumpLabel])
    (hEnter : tjump.rule.OnEnter ≠ "") (hExit : tjump.rule.OnExit ≠ "")
    (hHook : h.getHookFunc tjump.rule true = .ok hookFunc)
    (hEscape : canFlattenTJump hookFunc = .ok false) :
    ∃ t, optimizeTJump h rp tjump = .ok (rp, t) ∧
      t.target = tjump.target ∧ t.rule = tjump.rule ∧
      t.ifStmt.Init = tjump.ifStmt.Init ∧ t.ifStmt.Cond = tjump.ifStmt.Cond ∧
      t.ifStmt.Body = tjump.ifStmt.Body ∧ t.ifStmt.Else = tjump.ifStmt.Else ∧
      t.ifStmt.Decs.Node = tjump.ifStmt.Decs.Node ∧ t.ifStmt.Decs.If = [] := by
  obtain ⟨target, ifStmt, rule⟩ := tjump
  cases ifStmt with
  | mk init cond body els decs =>
    simp only [IfStmt.Decs] at hLabel
    simp only at hEnter hExit hHook
    refine ⟨{ target := target, rule := rule,
              ifStmt := IfStmt.mk init cond body els { decs with If := [] } }, ?_, rfl, rfl, rfl,
            rfl, rfl, rfl, rfl, rfl⟩
    have hE : (rule.OnEnter == "") = false := by simpa using hEnter
    have hX : (rule.OnExit == "") = false := by simpa using hExit
    have hE2 : (rule.OnEnter != "") = true := by simpa using hEnter
    simp only [optimizeTJump, mustTJump, IfStmt.Decs, hLabel, util.Assert, stripTJumpLabel, hE, hX,
      hE2, hHook, hEscape, bind, Except.bind, pure, Except.pure, List.length_singleton,
      decide_True, if_true, Bool.false_eq_true, if_false]

/-- Witness for C12: the sample trampoline-jump of the rule with both hooks,
with an entry hook that passes its call context to another function. -/
theorem optimizeTJump_keeps_branch_witness :
    (sampleTJump ruleA).ifStmt.Decs.If = [TJumpLabel] ∧
    canFlattenTJump hookPassingContext = .ok false ∧
    ∃ t, optimizeTJump (sampleHelpers hookPassingContext) sampleProcessor (sampleTJump ruleA)
        = .ok (sampleProcessor, t) ∧
      t.target = (sampleTJump ruleA).target ∧ t.rule = (sampleTJump ruleA).rule ∧
      t.ifStmt.Init = (sampleTJump ruleA).ifStmt.Init ∧
      t.ifStmt.Cond = (sampleTJump ruleA).ifStmt.Cond ∧
      t.ifStmt.Body = (sampleTJump ruleA).ifStmt.Body ∧
      t.ifStmt.Else = (sampleTJump ruleA).ifStmt.Else ∧
      t.ifStmt.Decs.Node = (sampleTJump ruleA).ifStmt.Decs.Node ∧ t.ifStmt.Decs.If = [] :=
  ⟨rfl, rfl, optimizeTJump_keeps_branch (sampleHelpers hookPassingContext) sampleProcessor
    (sampleTJump ruleA) hookPassingContext rfl (by decide) (by decide) rfl rfl⟩

/-! ## Order of the optimisation pass: rewriting at a position -/

theorem modifyAt_getElem {α : Type} (g : α → α) :
    ∀ (n m : Nat) (l : List α),
      (modifyAt g n l)[m]? = if n = m then l[m]?.map g else l[m]?
  | _, m, [] => by simp [modifyAt]
  | 0, 0, a :: l => by simp [modifyAt]
  | 0, m + 1, a :: l => by simp [modifyAt]
  | n + 1, 0, a :: l => by simp [modifyAt]
  | n + 1, m + 1, a :: l => by
    simp only [modifyAt, List.getElem?_cons_succ, modifyAt_getElem g n m l, Nat.add_right_cancel_iff]

theorem modifyAt_modifyAt {α : Type} (g g2 : α → α) :
    ∀ (n : Nat) (l : List α), modifyAt g n (modifyAt g2 n l) = modifyAt (fun a => g (g2 a)) n l
  | _, [] => by simp [modifyAt]
  | 0, a :: l => by simp [modifyAt]
  | n + 1, a :: l => by simp [modifyAt, modifyAt_modifyAt g g2 n l]

theorem modifyAt_comm {α : Type} (g g2 : α → α) :
    ∀ (n m : Nat) (l : List α), n ≠ m →
      modifyAt g n (modifyAt g2 m l) = modifyAt g2 m (modifyAt g n l)
  | _, _, [], _ => by simp [modifyAt]
  | 0, 0, a :: l, h => absurd rfl h
  | 0, m + 1, a :: l, _ => by simp [modifyAt]
  | n + 1, 0, a :: l, _ => by simp [modifyAt]
  | n + 1, m + 1, a :: l, h => by
    simp only [modifyAt]
    rw [modifyAt_comm g g2 n m l (fun e => h (by rw [e]))]

theorem modifyAt_congr {α : Type} (g g2 : α → α) :
    ∀ (n : Nat) (l : List α), (∀ a, l[n]? = some a → g a = g2 a) →
      modifyAt g n l = modifyAt g2 n l
  | _, [], _ => by simp [modifyAt]
  | 0, a :: l, h => by simp [modifyAt, h a (by simp)]
  | n + 1, a :: l, h => by
    simp only [modifyAt]
    rw [modifyAt_congr g g2 n l (fun x hx => h x (by simpa using hx))]

theorem modifyAt_map {α β : Type} (k : α → β) (g : α → α) (hk : ∀ a, k (g a) = k a) :
    ∀ (n : Nat) (l : List α), (modifyAt g n l).map k = l.map k
  | _, [] => by simp [modifyAt]
  | 0, a :: l => by simp [modifyAt, hk]
  | n + 1, a :: l => by simp [modifyAt, modifyAt_map k g hk n l]

theorem mapIf_mapIf (g g2 : IfStmt → IfStmt) (s : Stmt) :
    mapIf g (mapIf g2 s) = mapIf (fun i => g (g2 i)) s := by
  cases s <;> rfl

theorem mapLast_mapLast (g g2 : IfStmt → IfStmt) :
    ∀ l : List Stmt, mapLast g (mapLast g2 l) = mapLast (fun i => g (g2 i)) l
  | [] => rfl
  | s :: rest => by
    cases rest with
    | nil => simp [mapLast, mapIf_mapIf]
    | cons t ts =>
      have ih := mapLast_mapLast g g2 (t :: ts)
      have hne : (mapLast g2 (t :: ts)).isEmpty = false := by
        simp only [mapLast]
        split <;> simp
      simp only [mapLast, List.isEmpty_cons, Bool.false_eq_true, if_false] at ih ⊢
      simp only [mapLast, List.isEmpty_cons, Bool.false_eq_true, if_false] at hne
      rw [hne]
      simp only [Bool.false_eq_true, if_false, List.cons.injEq, true_and]
      exact ih

theorem getLast_mapLast (g : IfStmt → IfStmt) :
    ∀ l : List Stmt, (mapLast g l).getLast? = l.getLast?.map (mapIf g)
  | [] => rfl
  | s :: rest => by
    cases rest with
    | nil => simp [mapLast]
    | cons t ts =>
      have ih := getLast_mapLast g (t :: ts)
      simp only [mapLast, List.isEmpty_cons, Bool.false_eq_true, if_false] at ih ⊢
      rw [List.getLast?_cons_cons] 
      cases hm : (if ts.isEmpty = true then [mapIf g t] else t :: mapLast g ts) with
      | nil => split at hm <;> simp at hm
      | cons u us =>
        rw [List.getLast?_cons_cons, ← hm]
        exact ih

theorem mapLast_congr (g g2 : IfStmt → IfStmt) :
    ∀ l : List Stmt, (∀ j, l.getLast? = some (Stmt.IfStmt j) → g j = g2 j) →
      mapLast g l = mapLast g2 l
  | [], _ => rfl
  | s :: rest, h => by
    cases rest with
    | nil =>
      simp only [mapLast, List.isEmpty_nil, if_true, List.cons.injEq, and_true]
      cases s <;> try rfl
      next j => simp only [mapIf]; rw [h j (by simp)]
    | cons t ts =>
      have ih := mapLast_congr g g2 (t :: ts) (fun j hj => h j (by
        rw [List.getLast?_cons_cons]; exact hj))
      simp only [mapLast, List.isEmpty_cons, Bool.false_eq_true, if_false] at ih ⊢
      rw [ih]

theorem mapLast_id : ∀ l : List Stmt, mapLast (fun j => j) l = l
  | [] => rfl
  | s :: rest => by
    cases rest with
    | nil =>
      simp only [mapLast, List.isEmpty_nil, if_true, List.cons.injEq, and_true]
      cases s <;> rfl
    | cons t ts =>
      have ih := mapLast_id (t :: ts)
      simp only [mapLast, List.isEmpty_cons, Bool.false_eq_true, if_false] at ih ⊢
      rw [ih]

/-! ## Order of the optimisation pass: nested if-statements -/

theorem nestedAt_one_if (init : Option Stmt) (cond : Expr) (body : BlockStmt) (list : List Stmt)
    (bdecs : NodeDecs) (decs : IfStmtDecorations) (d : Nat) (j : IfStmt)
    (h : list.getLast? = some (Stmt.IfStmt j)) :
    nestedAt (d + 1) (IfStmt.mk init cond body (some (Stmt.BlockStmt (BlockStmt.mk list bdecs))) decs)
      = nestedAt d j := by
  rw [nestedAt]
  simp only [IfStmt.Else, BlockStmt.List, h]

theorem nestedAt_one_none (init : Option Stmt) (cond : Expr) (body : BlockStmt) (list : List Stmt)
    (bdecs : NodeDecs) (decs : IfStmtDecorations) (d : Nat)
    (h : ∀ j, list.getLast? = some (Stmt.IfStmt j) → False) :
    nestedAt (d + 1) (IfStmt.mk init cond body (some (Stmt.BlockStmt (BlockStmt.mk list bdecs))) decs)
      = none := by
  rw [nestedAt]
  simp only [IfStmt.Else, BlockStmt.List]

theorem getLast_if_cases (list : List Stmt) :
    (∃ j, list.getLast? = some (Stmt.IfStmt j)) ∨ (∀ j, list.getLast? = some (Stmt.IfStmt j) → False) := by
  by_cases h : ∃ j, list.getLast? = some (Stmt.IfStmt j)
  · exact Or.inl h
  · exact Or.inr (fun j e => h ⟨j, e⟩)

theorem nestedAt_no_else (i : IfStmt)
    (h : ∀ init cond body list bdecs decs,
      i = IfStmt.mk init cond body (some (Stmt.BlockStmt (BlockStmt.mk list bdecs))) decs → False)
    (d : Nat) : nestedAt (d + 1) i = none := by
  cases i with
  | mk init cond body els decs =>
    rw [nestedAt]
    simp only [IfStmt.Else]
    cases els with
    | none => rfl
    | some s =>
      cases s <;> try rfl
      next b =>
        cases b with
        | mk list bdecs => exact absurd rfl (fun e => h init cond body list bdecs decs e)

theorem mapChild_no_else (g : IfStmt → IfStmt) (i : IfStmt)
    (h : ∀ init cond body list bdecs decs,
      i = IfStmt.mk init cond body (some (Stmt.BlockStmt (BlockStmt.mk list bdecs))) decs → False) :
    mapChild g i = i := by
  cases i with
  | mk init cond body els decs =>
    cases els with
    | none => rfl
    | some s =>
      cases s <;> try rfl
      next b =>
        cases b with
        | mk list bdecs => exact absurd rfl (h init cond body list bdecs decs)

theorem ifStmt_else_cases (i : IfStmt) :
    (∃ init cond body list bdecs decs,
      i = IfStmt.mk init cond body (some (Stmt.BlockStmt (BlockStmt.mk list bdecs))) decs) ∨
    (∀ init cond body list bdecs decs,
      i = IfStmt.mk init cond body (some (Stmt.BlockStmt (BlockStmt.mk list bdecs))) decs → False) := by
  by_cases h : ∃ init cond body list bdecs decs,
      i = IfStmt.mk init cond body (some (Stmt.BlockStmt (BlockStmt.mk list bdecs))) decs
  · exact Or.inl h
  · exact Or.inr (fun init cond body list bdecs decs e => h ⟨init, cond, body, list, bdecs, decs, e⟩)

theorem nestedAt_succ (d : Nat) (i : IfStmt) :
    nestedAt (d + 1) i = (nestedAt 1 i).bind (nestedAt d) := by
  rcases ifStmt_else_cases i with ⟨init, cond, body, list, bdecs, decs, rfl⟩ | h
  · rcases getLast_if_cases list with ⟨j, hj⟩ | hn
    · rw [nestedAt_one_if _ _ _ _ _ _ _ j hj, nestedAt_one_if _ _ _ _ _ _ _ j hj]
      rfl
    · rw [nestedAt_one_none _ _ _ _ _ _ _ hn, nestedAt_one_none _ _ _ _ _ _ _ hn]
      rfl
  · rw [nestedAt_no_else i h, nestedAt_no_else i h]
    rfl

theorem nestedAt_add : ∀ (d e : Nat) (i : IfStmt),
    nestedAt (d + e) i = (nestedAt d i).bind (nestedAt e)
  | 0, e, i => by simp [nestedAt]
  | d + 1, e, i => by
    rw [Nat.add_right_comm, nestedAt_succ, nestedAt_succ d]
    cases h1 : nestedAt 1 i with
    | none => rfl
    | some j => simp only [Option.some_bind, Option.bind_eq_bind]; exact nestedAt_add d e j

theorem nestedAt_one_mapChild (g : IfStmt → IfStmt) (i : IfStmt) :
    nestedAt 1 (mapChild g i) = (nestedAt 1 i).map g := by
  rcases ifStmt_else_cases i with ⟨init, cond, body, list, bdecs, decs, rfl⟩ | h
  · simp only [mapChild, mapElse]
    rcases getLast_if_cases list with ⟨j, hj⟩ | hn
    · rw [nestedAt_one_if _ _ _ _ _ _ _ (g j) (by rw [getLast_mapLast, hj]; rfl),
        nestedAt_one_if _ _ _ _ _ _ _ j hj]
      rfl
    · rw [nestedAt_one_none _ _ _ _ _ _ _ hn, nestedAt_one_none]
      · rfl
      · intro j hj
        rw [getLast_mapLast] at hj
        cases hl : list.getLast? with
        | none => rw [hl] at hj; simp at hj
        | some s =>
          rw [hl] at hj
          cases s <;> simp [mapIf] at hj
          next k => exact hn k hl
  · rw [mapChild_no_else g i h, nestedAt_no_else i h]
    rfl

theorem mapChild_mapChild (g g2 : IfStmt → IfStmt) (i : IfStmt) :
    mapChild g (mapChild g2 i) = mapChild (fun j => g (g2 j)) i := by
  rcases ifStmt_else_cases i with ⟨init, cond, body, list, bdecs, decs, rfl⟩ | h
  · simp only [mapChild, mapElse, mapLast_mapLast]
  · rw [mapChild_no_else g2 i h, mapChild_no_else g i h, mapChild_no_else _ i h]

theorem mapChild_congr (g g2 : IfStmt → IfStmt) (i : IfStmt)
    (hg : ∀ j, nestedAt 1 i = some j → g j = g2 j) : mapChild g i = mapChild g2 i := by
  rcases ifStmt_else_cases i with ⟨init, cond, body, list, bdecs, decs, rfl⟩ | h
  · simp only [mapChild, mapElse]
    rw [mapLast_congr g g2 list]
    intro j hj
    apply hg
    rw [nestedAt_one_if _ _ _ _ _ _ _ j hj]
    rfl
  · rw [mapChild_no_else g i h, mapChild_no_else g2 i h]

theorem mapChild_id (i : IfStmt) : mapChild (fun j => j) i = i := by
  rcases ifStmt_else_cases i with ⟨init, cond, body, list, bdecs, decs, rfl⟩ | h
  · simp only [mapChild, mapElse, mapLast_id]
  · exact mapChild_no_else _ i h

theorem mapChild_self (g : IfStmt → IfStmt) (i : IfStmt)
    (hg : ∀ j, nestedAt 1 i = some j → g j = j) : mapChild g i = i := by
  rw [mapChild_congr g (fun j => j) i hg, mapChild_id]

/-- Reading at depth `d` after writing at depth `d + e`. -/
theorem nestedAt_setNested (x : IfStmt) : ∀ (d e : Nat) (i : IfStmt),
    nestedAt d (setNested x (d + e) i) = (nestedAt d i).map (setNested x e)
  | 0, e, i => by simp [nestedAt]
  | d + 1, e, i => by
    rw [Nat.add_right_comm, setNested, nestedAt_succ, nestedAt_succ d, nestedAt_one_mapChild]
    cases h1 : nestedAt 1 i with
    | none => rfl
    | some j =>
      simp only [Option.map_some', Option.some_bind, Option.bind_eq_bind]
      exact nestedAt_setNested x d e j

/-- Reading at the depth that was written. -/
theorem nestedAt_setNested_same (x : IfStmt) (d : Nat) (i : IfStmt) :
    nestedAt d (setNested x d i) = (nestedAt d i).map (fun _ => x) := by
  have h := nestedAt_setNested x d 0 i
  simp only [Nat.add_zero] at h
  rw [h]
  rfl

/-- Reading below the depth that was written. -/
theorem nestedAt_setNested_below (x : IfStmt) (d e : Nat) (i : IfStmt) :
    nestedAt (d + e) (setNested x d i) = (nestedAt d i).bind (fun _ => nestedAt e x) := by
  rw [nestedAt_add, nestedAt_setNested_same]
  cases nestedAt d i <;> rfl

/-- Writing at depth `d` after writing at depth `d + e`. -/
theorem setNested_setNested_above (x y : IfStmt) : ∀ (d e : Nat) (i : IfStmt),
    setNested x d (setNested y (d + e) i) = setNested x d i
  | 0, _, _ => rfl
  | d + 1, e, i => by
    rw [Nat.add_right_comm, setNested, setNested, mapChild_mapChild]
    exact mapChild_congr _ _ i (fun j _ => setNested_setNested_above x y d e j)

/-- Writing at depth `d + e` after writing at depth `d`. -/
theorem setNested_setNested_below (x y : IfStmt) : ∀ (d e : Nat) (i : IfStmt),
    setNested y (d + e) (setNested x d i) = setNested (setNested y e x) d i
  | 0, e, i => by simp [setNested]
  | d + 1, e, i => by
    rw [Nat.add_right_comm, setNested, setNested, setNested, mapChild_mapChild]
    exact mapChild_congr _ _ i (fun j _ => setNested_setNested_below x y d e j)

/-- Writing what is there. -/
theorem setNested_self : ∀ (d : Nat) (i x : IfStmt),
    nestedAt d i = some x → setNested x d i = i
  | 0, i, x, h => by
    simp only [nestedAt, Option.some.injEq] at h
    rw [setNested, h]
  | d + 1, i, x, h => by
    rw [nestedAt_succ] at h
    rw [setNested]
    apply mapChild_self
    intro j hj
    rw [hj] at h
    exact setNested_self d j x h

/-! ## Order of the optimisation pass: the rewrites and the nested if-statement -/

theorem mapLast_singleton (g : IfStmt → IfStmt) (s : Stmt) : mapLast g [s] = [mapIf g s] := rfl

theorem mapLast_cons_of_ne (g : IfStmt → IfStmt) (s : Stmt) (rest : List Stmt)
    (h : rest.isEmpty = false) : mapLast g (s :: rest) = s :: mapLast g rest := by
  rw [mapLast, h]
  rfl

theorem mapLast_isEmpty (g : IfStmt → IfStmt) (l : List Stmt) :
    (mapLast g l).isEmpty = l.isEmpty := by
  cases l with
  | nil => rfl
  | cons s rest =>
    rw [mapLast]
    split <;> rfl

theorem removeFirstDefer_isEmpty : ∀ (l l1 : List Stmt),
    removeFirstDefer l = .ok l1 → l1.isEmpty = l.isEmpty
  | [], l1, h => by
    simp only [removeFirstDefer, pure, Except.pure, Except.ok.injEq] at h
    rw [← h]
  | s :: rest, l1, h => by
    cases s
    case DeferStmt c dd =>
      simp only [removeFirstDefer, pure, Except.pure, Except.ok.injEq] at h
      rw [← h]; rfl
    case IfStmt i =>
      simp only [removeFirstDefer] at h
      cases hr : removeFirstDefer rest with
      | error e => rw [hr] at h; simp at h
      | ok r =>
        rw [hr] at h
        simp only [pure, Except.pure, Except.ok.injEq] at h
        rw [← h]; rfl
    all_goals simp [removeFirstDefer, fatal] at h

theorem removeFirstDefer_mapLast (g : IfStmt → IfStmt) : ∀ (l l1 : List Stmt),
    removeFirstDefer l = .ok l1 → removeFirstDefer (mapLast g l) = .ok (mapLast g l1)
  | [], l1, h => by
    simp only [removeFirstDefer, pure, Except.pure, Except.ok.injEq] at h
    rw [← h]; rfl
  | s :: rest, l1, h => by
    cases s
    case DeferStmt c dd =>
      simp only [removeFirstDefer, pure, Except.pure, Except.ok.injEq] at h
      rw [← h]
      cases rest with
      | nil => rfl
      | cons t ts =>
        rw [mapLast_cons_of_ne g (Stmt.DeferStmt c dd) (t :: ts) rfl,
          mapLast_cons_of_ne g ast.EmptyStmt (t :: ts) rfl]
        rfl
    case IfStmt i =>
      simp only [removeFirstDefer] at h
      cases hr : removeFirstDefer rest with
      | error e => rw [hr] at h; simp at h
      | ok r =>
        rw [hr] at h
        simp only [pure, Except.pure, Except.ok.injEq] at h
        rw [← h]
        have he := removeFirstDefer_isEmpty rest r hr
        cases rest with
        | nil =>
          simp only [removeFirstDefer, pure, Except.pure, Except.ok.injEq] at hr
          rw [← hr]
          rfl
        | cons t ts =>
          rw [mapLast_cons_of_ne g (Stmt.IfStmt i) (t :: ts) rfl,
            mapLast_cons_of_ne g (Stmt.IfStmt i) r he]
          simp only [removeFirstDefer]
          rw [removeFirstDefer_mapLast g (t :: ts) r hr]
          rfl
    all_goals simp [removeFirstDefer, fatal] at h

theorem getLast_cons_of_ne (s : Stmt) (rest : List Stmt) (h : rest.isEmpty = false) :
    (s :: rest).getLast? = rest.getLast? := by
  cases rest with
  | nil => simp at h
  | cons t ts => rw [List.getLast?_cons_cons]

theorem removeFirstDefer_getLast : ∀ (l l1 : List Stmt),
    removeFirstDefer l = .ok l1 →
      ∀ j, l1.getLast? = some (Stmt.IfStmt j) ↔ l.getLast? = some (Stmt.IfStmt j)
  | [], l1, h => by
    simp only [removeFirstDefer, pure, Except.pure, Except.ok.injEq] at h
    rw [← h]; simp
  | s :: rest, l1, h => by
    cases s
    case DeferStmt c dd =>
      simp only [removeFirstDefer, pure, Except.pure, Except.ok.injEq] at h
      rw [← h]
      intro j
      cases rest with
      | nil => simp [ast.EmptyStmt]
      | cons t ts => rw [List.getLast?_cons_cons, List.getLast?_cons_cons]
    case IfStmt i =>
      simp only [removeFirstDefer] at h
      cases hr : removeFirstDefer rest with
      | error e => rw [hr] at h; simp at h
      | ok r =>
        rw [hr] at h
        simp only [pure, Except.pure, Except.ok.injEq] at h
        rw [← h]
        have he := removeFirstDefer_isEmpty rest r hr
        intro j
        cases rest with
        | nil =>
          simp only [removeFirstDefer, pure, Except.pure, Except.ok.injEq] at hr
          rw [← hr]
        | cons t ts =>
          rw [getLast_cons_of_ne _ r he, getLast_cons_of_ne _ (t :: ts) rfl]
          exact removeFirstDefer_getLast (t :: ts) r hr j
    all_goals simp [removeFirstDefer, fatal] at h

theorem replaceCallContext_cons (e : Expr) (s : Stmt) (rest : List Stmt)
    (hs : ∀ c dd, s = Stmt.DeferStmt c dd → False) :
    replaceCallContext e (s :: rest)
      = (replaceCallContext e rest).map (fun o => o.map (fun r => s :: r)) := by
  rw [replaceCallContext]
  · cases hr : replaceCallContext e rest with
    | error x => rfl
    | ok o => cases o <;> rfl
  · intro fn args ell d hd
    exact hs _ _ hd

theorem replaceCallContext_defer (e : Expr) (c : CallExpr) (dd : NodeDecs) (rest l1 : List Stmt)
    (h : replaceCallContext e (Stmt.DeferStmt c dd :: rest) = .ok (some l1)) :
    ∃ c2, l1 = Stmt.DeferStmt c2 dd :: rest ∧
      ∀ rest2, replaceCallContext e (Stmt.DeferStmt c dd :: rest2)
        = .ok (some (Stmt.DeferStmt c2 dd :: rest2)) := by
  cases c with
  | mk fn args ell =>
    cases args with
    | nil => simp [replaceCallContext, fatal] at h
    | cons a args2 =>
      simp only [replaceCallContext, pure, Except.pure, Except.ok.injEq, Option.some.injEq] at h
      exact ⟨_, h.symm, fun rest2 => rfl⟩

theorem replaceCallContext_other (e : Expr) (s : Stmt) (rest l1 : List Stmt)
    (hs : ∀ c dd, s = Stmt.DeferStmt c dd → False)
    (h : replaceCallContext e (s :: rest) = .ok (some l1)) :
    ∃ r, replaceCallContext e rest = .ok (some r) ∧ l1 = s :: r := by
  rw [replaceCallContext_cons e s rest hs] at h
  cases hr : replaceCallContext e rest with
  | error x => rw [hr] at h; simp [Except.map] at h
  | ok o =>
    rw [hr] at h
    cases o with
    | none => simp [Except.map] at h
    | some r =>
      simp only [Except.map, Option.map_some', Except.ok.injEq, Option.some.injEq] at h
      exact ⟨r, rfl, h.symm⟩

theorem replaceCallContext_isEmpty (e : Expr) (l l1 : List Stmt)
    (h : replaceCallContext e l = .ok (some l1)) : l1.isEmpty = false ∧ l.isEmpty = false := by
  cases l with
  | nil => simp [replaceCallContext, pure, Except.pure] at h
  | cons s rest =>
    by_cases hd : ∃ c dd, s = Stmt.DeferStmt c dd
    · obtain ⟨c, dd, rfl⟩ := hd
      obtain ⟨c2, h1, _⟩ := replaceCallContext_defer e c dd rest l1 h
      rw [h1]
      exact ⟨rfl, rfl⟩
    · obtain ⟨r, _, h1⟩ := replaceCallContext_other e s rest l1 (fun c dd hc => hd ⟨c, dd, hc⟩) h
      rw [h1]
      exact ⟨rfl, rfl⟩

theorem mapIf_defer (g : IfStmt → IfStmt) (c : CallExpr) (dd : NodeDecs) :
    mapIf g (Stmt.DeferStmt c dd) = Stmt.DeferStmt c dd := rfl

theorem mapLast_defer_cons (g : IfStmt → IfStmt) (c : CallExpr) (dd : NodeDecs)
    (rest : List Stmt) :
    mapLast g (Stmt.DeferStmt c dd :: rest) = Stmt.DeferStmt c dd :: mapLast g rest := by
  cases rest with
  | nil => rfl
  | cons t ts => exact mapLast_cons_of_ne g _ (t :: ts) rfl

theorem replaceCallContext_mapLast (e : Expr) (g : IfStmt → IfStmt) :
    ∀ (l l1 : List Stmt), replaceCallContext e l = .ok (some l1) →
      replaceCallContext e (mapLast g l) = .ok (some (mapLast g l1))
  | [], l1, h => by simp [replaceCallContext, pure, Except.pure] at h
  | s :: rest, l1, h => by
    by_cases hd : ∃ c dd, s = Stmt.DeferStmt c dd
    · obtain ⟨c, dd, rfl⟩ := hd
      obtain ⟨c2, h1, h2⟩ := replaceCallContext_defer e c dd rest l1 h
      rw [h1, mapLast_defer_cons, mapLast_defer_cons]
      exact h2 _
    · have hs : ∀ c dd, s = Stmt.DeferStmt c dd → False := fun c dd hc => hd ⟨c, dd, hc⟩
      obtain ⟨r, hr, h1⟩ := replaceCallContext_other e s rest l1 hs h
      have he := replaceCallContext_isEmpty e rest r hr
      rw [h1, mapLast_cons_of_ne g s rest he.2, mapLast_cons_of_ne g s r he.1,
        replaceCallContext_cons e s _ hs, replaceCallContext_mapLast e g rest r hr]
      rfl

theorem replaceCallContext_getLast (e : Expr) :
    ∀ (l l1 : List Stmt), replaceCallContext e l = .ok (some l1) →
      ∀ j, l1.getLast? = some (Stmt.IfStmt j) ↔ l.getLast? = some (Stmt.IfStmt j)
  | [], l1, h => by simp [replaceCallContext, pure, Except.pure] at h
  | s :: rest, l1, h => by
    by_cases hd : ∃ c dd, s = Stmt.DeferStmt c dd
    · obtain ⟨c, dd, rfl⟩ := hd
      obtain ⟨c2, h1, _⟩ := replaceCallContext_defer e c dd rest l1 h
      rw [h1]
      intro j
      cases rest with
      | nil => simp
      | cons t ts => rw [List.getLast?_cons_cons, List.getLast?_cons_cons]
    · have hs : ∀ c dd, s = Stmt.DeferStmt c dd → False := fun c dd hc => hd ⟨c, dd, hc⟩
      obtain ⟨r, hr, h1⟩ := replaceCallContext_other e s rest l1 hs h
      have he := replaceCallContext_isEmpty e rest r hr
      rw [h1]
      intro j
      rw [getLast_cons_of_ne s r he.1, getLast_cons_of_ne s rest he.2]
      exact replaceCallContext_getLast e rest r hr j

theorem nestedAt_one_congr (init init2 : Option Stmt) (cond cond2 : Expr) (body body2 : BlockStmt)
    (list list2 : List Stmt) (bdecs bdecs2 : NodeDecs) (decs decs2 : IfStmtDecorations)
    (h : ∀ j, list2.getLast? = some (Stmt.IfStmt j) ↔ list.getLast? = some (Stmt.IfStmt j)) :
    nestedAt 1 (IfStmt.mk init2 cond2 body2 (some (Stmt.BlockStmt (BlockStmt.mk list2 bdecs2)))
        decs2)
      = nestedAt 1 (IfStmt.mk init cond body (some (Stmt.BlockStmt (BlockStmt.mk list bdecs)))
        decs) := by
  rcases getLast_if_cases list with ⟨j, hj⟩ | hn
  · rw [nestedAt_one_if _ _ _ _ _ _ _ j hj, nestedAt_one_if _ _ _ _ _ _ _ j ((h j).2 hj)]
  · rw [nestedAt_one_none _ _ _ _ _ _ _ hn,
      nestedAt_one_none _ _ _ _ _ _ _ (fun j hj => hn j ((h j).1 hj))]

theorem nestedAt_one_else (init init2 : Option Stmt) (cond cond2 : Expr) (body body2 : BlockStmt)
    (els : Option Stmt) (decs decs2 : IfStmtDecorations) :
    nestedAt 1 (IfStmt.mk init2 cond2 body2 els decs2)
      = nestedAt 1 (IfStmt.mk init cond body els decs) := by
  rw [nestedAt, nestedAt]
  rfl

theorem mapChild_decs (g : IfStmt → IfStmt) (i : IfStmt) : (mapChild g i).Decs = i.Decs := by
  cases i; rfl

theorem mustTJump_mapChild (g : IfStmt → IfStmt) (i : IfStmt) :
    mustTJump (mapChild g i) = mustTJump i := by
  unfold mustTJump
  rw [mapChild_decs]

theorem mustTJump_label (i : IfStmt) (u : Unit) (h : mustTJump i = .ok u) :
    i.Decs.If = [TJumpLabel] := by
  unfold mustTJump at h
  cases hl : i.Decs.If with
  | nil => rw [hl] at h; simp [util.Assert, fatal, bind, Except.bind, pure, Except.pure] at h
  | cons desc rest =>
    rw [hl] at h
    cases rest with
    | nil =>
      by_cases hd : desc = TJumpLabel
      · rw [hd]
      · simp [util.Assert, fatal, bind, Except.bind, pure, Except.pure, hd] at h
    | cons x xs => simp [util.Assert, fatal, bind, Except.bind, pure, Except.pure] at h

theorem stripTJumpLabel_mapChild (g : IfStmt → IfStmt) (d d2 : FuncDecl) (i : IfStmt)
    (r : InstFuncRule) :
    stripTJumpLabel { target := d2, ifStmt := mapChild g i, rule := r }
      = { target := d2,
          ifStmt := mapChild g (stripTJumpLabel { target := d, ifStmt := i, rule := r }).ifStmt,
          rule := r } := by
  cases i; rfl

theorem stripTJumpLabel_props (d : FuncDecl) (i : IfStmt) (r : InstFuncRule) :
    (stripTJumpLabel { target := d, ifStmt := i, rule := r }).target = d ∧
    (stripTJumpLabel { target := d, ifStmt := i, rule := r }).rule = r ∧
    (stripTJumpLabel { target := d, ifStmt := i, rule := r }).ifStmt.Decs.If = [] ∧
    nestedAt 1 (stripTJumpLabel { target := d, ifStmt := i, rule := r }).ifStmt = nestedAt 1 i := by
  cases i with
  | mk init cond body els decs =>
    refine ⟨rfl, rfl, rfl, ?_⟩
    simp only [stripTJumpLabel]
    rw [nestedAt, nestedAt]
    rfl

theorem removeOnExitTrampolineCall_mapChild (g : IfStmt → IfStmt) (d d2 : FuncDecl) (i : IfStmt)
    (r : InstFuncRule) (t1 : TJump)
    (h : removeOnExitTrampolineCall { target := d, ifStmt := i, rule := r } = .ok t1) :
    removeOnExitTrampolineCall { target := d2, ifStmt := mapChild g i, rule := r }
      = .ok { target := d2, ifStmt := mapChild g t1.ifStmt, rule := r } ∧
    nestedAt 1 t1.ifStmt = nestedAt 1 i ∧ t1.ifStmt.Decs = i.Decs ∧ t1.rule = r ∧
    t1.target = d := by
  rcases ifStmt_else_cases i with ⟨init, cond, body, list, bdecs, decs, rfl⟩ | hno
  · simp only [removeOnExitTrampolineCall] at h
    cases hr : removeFirstDefer list with
    | error e => rw [hr] at h; simp at h
    | ok l1 =>
      rw [hr] at h
      simp only [pure, Except.pure, Except.ok.injEq] at h
      subst h
      refine ⟨?_, ?_, rfl, rfl, rfl⟩
      · simp only [mapChild, mapElse, removeOnExitTrampolineCall,
          removeFirstDefer_mapLast g list l1 hr]
        rfl
      · exact nestedAt_one_congr _ _ _ _ _ _ _ _ _ _ _ _ (removeFirstDefer_getLast list l1 hr)
  · unfold removeOnExitTrampolineCall at h
    split at h
    · next init cond body list bdecs decs heq => exact absurd heq (hno _ _ _ _ _ _)
    · simp [fatal] at h

theorem newCallContextImpl_typ (h : Helpers) (d d2 : FuncDecl) (i i2 : IfStmt) (r : InstFuncRule)
    (hTyp : d2.Typ = d.Typ) :
    newCallContextImpl h { target := d2, ifStmt := i2, rule := r }
      = newCallContextImpl h { target := d, ifStmt := i, rule := r } := by
  simp only [newCallContextImpl, hTyp]

theorem removeOnEnterTrampolineCall_mapChild (h : Helpers) (rp rp2 : RuleProcessor)
    (g : IfStmt → IfStmt) (d d2 : FuncDecl) (i : IfStmt) (r : InstFuncRule)
    (res : RuleProcessor × TJump) (hTyp : d2.Typ = d.Typ)
    (hr : removeOnEnterTrampolineCall h rp { target := d, ifStmt := i, rule := r } = .ok res)
    (hfound : (removeDeclWhen (isFuncDeclNamed (h.makeName r d2 true)) rp2.target.Decls).isSome
      = true) :
    (∃ rp3, removeOnEnterTrampolineCall h rp2 { target := d2, ifStmt := mapChild g i, rule := r }
      = .ok (rp3, { target := d2, ifStmt := mapChild g res.2.ifStmt, rule := r })) ∧
    nestedAt 1 res.2.ifStmt = nestedAt 1 i ∧ res.2.ifStmt.Decs = i.Decs ∧ res.2.rule = r ∧
    res.2.target = d ∧
    (removeDeclWhen (isFuncDeclNamed (h.makeName r d true)) rp.target.Decls).isSome = true := by
  rcases ifStmt_else_cases i with ⟨init, cond, body, list, bdecs, decs, rfl⟩ | hno
  · simp only [removeOnEnterTrampolineCall] at hr
    cases hc : replaceCallContext (newCallContextImpl h
        { target := d, ifStmt := IfStmt.mk init cond body
            (some (Stmt.BlockStmt (BlockStmt.mk list bdecs))) decs, rule := r }) list with
    | error e => rw [hc] at hr; simp at hr
    | ok o =>
      rw [hc] at hr
      cases o with
      | none => simp [fatal] at hr
      | some l1 =>
        simp only at hr
        cases hd : removeDeclWhen (isFuncDeclNamed (h.makeName r d true)) rp.target.Decls with
        | none => rw [hd] at hr; simp [failWith] at hr
        | some x =>
          rw [hd] at hr
          simp only [pure, Except.pure, Except.ok.injEq] at hr
          subst hr
          cases hd2 : removeDeclWhen (isFuncDeclNamed (h.makeName r d2 true)) rp2.target.Decls with
          | none => rw [hd2] at hfound; simp at hfound
          | some y =>
            refine ⟨⟨{ rp2 with target := { rp2.target with Decls := y.2 } }, ?_⟩, ?_, rfl, rfl,
              rfl, rfl⟩
            · simp only [mapChild, mapElse, removeOnEnterTrampolineCall]
              rw [newCallContextImpl_typ h d d2 (IfStmt.mk init cond body
                (some (Stmt.BlockStmt (BlockStmt.mk list bdecs))) decs) _ r hTyp,
                replaceCallContext_mapLast _ g list l1 hc]
              simp only [hd2, pure, Except.pure]
            · exact nestedAt_one_congr _ _ _ _ _ _ _ _ _ _ _ _
                (replaceCallContext_getLast _ list l1 hc)
  · unfold removeOnEnterTrampolineCall at hr
    simp only at hr
    simp [fatal] at hr

theorem flattenTJump_mapChild (g : IfStmt → IfStmt) (d d2 : FuncDecl) (i : IfStmt)
    (r : InstFuncRule) (b : Bool) (t1 : TJump)
    (h : flattenTJump { target := d, ifStmt := i, rule := r } b = .ok t1) :
    flattenTJump { target := d2, ifStmt := mapChild g i, rule := r } b
      = .ok { target := d2, ifStmt := mapChild g t1.ifStmt, rule := r } ∧
    nestedAt 1 t1.ifStmt = nestedAt 1 i ∧ t1.ifStmt.Decs = i.Decs ∧ t1.rule = r ∧
    t1.target = d := by
  unfold flattenTJump at h
  simp only at h
  split at h
  · next _ lhs tok rhs cond body els decs =>
    split at h
    · next l0 l1 =>
      split at h
      · next hb =>
        split at h
        · next r0 rs =>
          simp only [pure, Except.pure, Except.ok.injEq] at h
          subst h
          subst hb
          exact ⟨rfl, nestedAt_one_else _ _ _ _ _ _ _ _ _, rfl, rfl, rfl⟩
        · simp [fatal] at h
      · next hb =>
        split at h
        · next skipCallIdent =>
          simp only [pure, Except.pure, Except.ok.injEq] at h
          subst h
          have hb2 : b = false := by simpa using hb
          subst hb2
          exact ⟨rfl, nestedAt_one_else _ _ _ _ _ _ _ _ _, rfl, rfl, rfl⟩
        · simp [fatal] at h
    · simp [fatal] at h
  · simp [fatal] at h

/-- The iteration of the loop for a trampoline-jump, run on the same
if-statement with another nested if-statement, for a target with the same type
and another processor in which the entry trampoline is found: it succeeds as
well and rewrites the if-statement in the same way, the nested if-statement
staying as it is. -/
theorem optimizeTJump_mapChild (h : Helpers) (rp rp2 : RuleProcessor) (g : IfStmt → IfStmt)
    (d d2 : FuncDecl) (i : IfStmt) (r : InstFuncRule) (res : RuleProcessor × TJump)
    (hTyp : d2.Typ = d.Typ)
    (hopt : optimizeTJump h rp { target := d, ifStmt := i, rule := r } = .ok res)
    (hfound : r.OnEnter = "" →
      (removeDeclWhen (isFuncDeclNamed (h.makeName r d2 true)) rp2.target.Decls).isSome = true) :
    (∃ rp3, optimizeTJump h rp2 { target := d2, ifStmt := mapChild g i, rule := r }
      = .ok (rp3, { target := d2, ifStmt := mapChild g res.2.ifStmt, rule := r })) ∧
    nestedAt 1 res.2.ifStmt = nestedAt 1 i ∧ res.2.ifStmt.Decs.If = [] ∧
    i.Decs.If = [TJumpLabel] ∧
    (r.OnEnter = "" →
      (removeDeclWhen (isFuncDeclNamed (h.makeName r d true)) rp.target.Decls).isSome = true) := by
  unfold optimizeTJump at hopt ⊢
  simp only at hopt ⊢
  rw [mustTJump_mapChild]
  cases hm : mustTJump i with
  | error e => simp [hm, bind, Except.bind] at hopt
  | ok u =>
    have hlabel := mustTJump_label i u hm
    obtain ⟨hS1, hS2, hS3, hS4⟩ := stripTJumpLabel_props d i r
    rw [stripTJumpLabel_mapChild g d d2 i r]
    generalize hS : stripTJumpLabel { target := d, ifStmt := i, rule := r } = S at *
    obtain ⟨dS, iS, rS⟩ := S
    simp only at hS1 hS2 hS3 hS4
    subst hS1 hS2
    simp only [hm, bind, Except.bind] at hopt ⊢
    by_cases hX : rS.OnExit = ""
    · simp only [hX, beq_self_eq_true, if_true] at hopt ⊢
      cases hr1 : removeOnExitTrampolineCall { target := dS, ifStmt := iS, rule := rS } with
      | error e => rw [hr1] at hopt; simp at hopt
      | ok t1 =>
        obtain ⟨hA1, hA2, hA3, hA4, hA5⟩ :=
          removeOnExitTrampolineCall_mapChild g dS d2 iS rS t1 hr1
        obtain ⟨d1, i1, r1⟩ := t1
        simp only at hA1 hA2 hA3 hA4 hA5
        subst hA4 hA5
        rw [hr1] at hopt
        rw [hA1]
        simp only [pure, Except.pure] at hopt ⊢
        by_cases hE : r1.OnEnter = ""
        · have hE2 : (r1.OnEnter != "") = false := by simp [hE]
          simp only [hE, beq_self_eq_true, if_true] at hopt ⊢
          cases hr2 : removeOnEnterTrampolineCall h rp
              { target := d1, ifStmt := i1, rule := r1 } with
          | error e => rw [hr2] at hopt; simp at hopt
          | ok res2 =>
            obtain ⟨⟨rp3, hB1⟩, hB2, hB3, hB4, hB5, hB6⟩ :=
              removeOnEnterTrampolineCall_mapChild h rp rp2 g d1 d2 i1 r1 res2 hTyp hr2
                (hfound hE)
            rw [hr2] at hopt
            rw [hB1]
            simp only [bne_self_eq_false, Bool.false_eq_true, if_false, Except.ok.injEq] at hopt ⊢
            subst hopt
            refine ⟨⟨rp3, rfl⟩, ?_, ?_, hlabel, fun _ => hB6⟩
            · rw [hB2, hA2, hS4]
            · rw [hB3, hA3, hS3]
        · have hE1 : (r1.OnEnter == "") = false := by simpa using hE
          have hE2 : (r1.OnEnter != "") = true := by simpa using hE
          simp only [hE1, hE2, Bool.false_eq_true, if_false, if_true] at hopt ⊢
          cases hh : h.getHookFunc r1 true with
          | error e => rw [hh] at hopt; simp at hopt
          | ok hook =>
            rw [hh] at hopt
            simp only at hopt ⊢
            cases hc : canFlattenTJump hook with
            | error e => rw [hc] at hopt; simp at hopt
            | ok c =>
              rw [hc] at hopt
              simp only at hopt ⊢
              cases c with
              | true =>
                simp only [if_true] at hopt ⊢
                cases hf : flattenTJump { target := d1, ifStmt := i1, rule := r1 } true with
                | error e => rw [hf] at hopt; simp at hopt
                | ok t2 =>
                  obtain ⟨hC1, hC2, hC3, hC4, hC5⟩ := flattenTJump_mapChild g d1 d2 i1 r1 true t2 hf
                  rw [hf] at hopt
                  rw [hC1]
                  simp only [Except.ok.injEq] at hopt ⊢
                  subst hopt
                  refine ⟨⟨rp2, rfl⟩, ?_, ?_, hlabel, fun e => absurd e hE⟩
                  · rw [hC2, hA2, hS4]
                  · rw [hC3, hA3, hS3]
              | false =>
                simp only [Bool.false_eq_true, if_false, Except.ok.injEq] at hopt ⊢
                subst hopt
                refine ⟨⟨rp2, rfl⟩, ?_, ?_, hlabel, fun e => absurd e hE⟩
                · rw [hA2, hS4]
                · rw [hA3, hS3]
    · have hX1 : (rS.OnExit == "") = false := by simpa using hX
      simp only [hX1, Bool.false_eq_true, if_false, pure, Except.pure] at hopt ⊢
      by_cases hE : rS.OnEnter = ""
      · have hE2 : (rS.OnEnter != "") = false := by simp [hE]
        simp only [hE, beq_self_eq_true, if_true] at hopt ⊢
        cases hr2 : removeOnEnterTrampolineCall h rp
            { target := dS, ifStmt := iS, rule := rS } with
        | error e => rw [hr2] at hopt; simp at hopt
        | ok res2 =>
          obtain ⟨⟨rp3, hB1⟩, hB2, hB3, hB4, hB5, hB6⟩ :=
            removeOnEnterTrampolineCall_mapChild h rp rp2 g dS d2 iS rS res2 hTyp hr2
              (hfound hE)
          rw [hr2] at hopt
          rw [hB1]
          simp only [bne_self_eq_false, Bool.false_eq_true, if_false, Except.ok.injEq] at hopt ⊢
          subst hopt
          refine ⟨⟨rp3, rfl⟩, ?_, ?_, hlabel, fun _ => hB6⟩
          · rw [hB2, hS4]
          · rw [hB3, hS3]
      · have hE1 : (rS.OnEnter == "") = false := by simpa using hE
        have hE2 : (rS.OnEnter != "") = true := by simpa using hE
        simp only [hE1, hE2, Bool.false_eq_true, if_false, if_true] at hopt ⊢
        cases hh : h.getHookFunc rS true with
        | error e => rw [hh] at hopt; simp at hopt
        | ok hook =>
          rw [hh] at hopt
          simp only at hopt ⊢
          cases hc : canFlattenTJump hook with
          | error e => rw [hc] at hopt; simp at hopt
          | ok c =>
            rw [hc] at hopt
            simp only at hopt ⊢
            cases c with
            | true =>
              simp only [if_true] at hopt ⊢
              cases hf : flattenTJump { target := dS, ifStmt := iS, rule := rS } false with
              | error e => rw [hf] at hopt; simp at hopt
              | ok t2 =>
                obtain ⟨hC1, hC2, hC3, hC4, hC5⟩ := flattenTJump_mapChild g dS d2 iS rS false t2 hf
                rw [hf] at hopt
                rw [hC1]
                simp only [Except.ok.injEq] at hopt ⊢
                subst hopt
                refine ⟨⟨rp2, rfl⟩, ?_, ?_, hlabel, fun e => absurd e hE⟩
                · rw [hC2, hS4]
                · rw [hC3, hS3]
            | false =>
              simp only [Bool.false_eq_true, if_false, Except.ok.injEq] at hopt ⊢
              subst hopt
              refine ⟨⟨rp2, rfl⟩, ?_, ?_, hlabel, fun e => absurd e hE⟩
              · exact hS4
              · exact hS3

/-! ## Order of the optimisation pass: the store -/

theorem withStmts_signature (G : List Stmt → List Stmt) (d : FuncDecl) :
    signature (withStmts G d) = signature d := by
  unfold withStmts
  split <;> rfl

theorem withStmts_withStmts (G G2 : List Stmt → List Stmt) (d : FuncDecl) :
    withStmts G (withStmts G2 d) = withStmts (fun l => G (G2 l)) d := by
  obtain ⟨recv, name, typ, body⟩ := d
  cases body with
  | none => rfl
  | some b => cases b; rfl

theorem withStmts_body (G : List Stmt → List Stmt) (d : FuncDecl) (l : List Stmt)
    (decs : NodeDecs) (h : d.Body = some (BlockStmt.mk l decs)) :
    (withStmts G d).Body = some (BlockStmt.mk (G l) decs) := by
  obtain ⟨recv, name, typ, body⟩ := d
  simp only at h
  subst h
  rfl

theorem withStmts_body_none (G : List Stmt → List Stmt) (d : FuncDecl) (h : d.Body = none) :
    (withStmts G d).Body = none := by
  obtain ⟨recv, name, typ, body⟩ := d
  simp only at h
  subst h
  rfl

theorem funcs_mapRoot (st : FileStore) (f s : Nat) (g : IfStmt → IfStmt) (k : Nat) :
    (st.mapRoot f s g).funcs[k]?
      = if f = k then (st.funcs[k]?).map (withStmts (modifyAt (mapIf g) s)) else st.funcs[k]? := by
  simp only [FileStore.mapRoot, modifyAt_getElem]

theorem mapRoot_signature (st : FileStore) (f s : Nat) (g : IfStmt → IfStmt) :
    (st.mapRoot f s g).funcs.map signature = st.funcs.map signature := by
  simp only [FileStore.mapRoot]
  exact modifyAt_map signature _ (withStmts_signature _) f st.funcs

theorem rootAt_congr (st st2 : FileStore) (h : st2.funcs = st.funcs) (f s : Nat) :
    st2.rootAt f s = st.rootAt f s := by
  simp only [FileStore.rootAt, h]

theorem rootAt_eq_some (st : FileStore) (f s : Nat) (root : IfStmt) :
    st.rootAt f s = some root ↔
      ∃ d l decs, st.funcs[f]? = some d ∧ d.Body = some (BlockStmt.mk l decs) ∧
        l[s]? = some (Stmt.IfStmt root) := by
  unfold FileStore.rootAt
  cases hf : st.funcs[f]? with
  | none => simp
  | some d =>
    obtain ⟨recv, name, typ, body⟩ := d
    cases body with
    | none => simp
    | some b =>
      cases b with
      | mk l decs =>
        simp only [BlockStmt.List]
        constructor
        · intro e
          refine ⟨_, l, decs, rfl, rfl, ?_⟩
          cases hs : l[s]? with
          | none => rw [hs] at e; simp at e
          | some x =>
            rw [hs] at e
            cases x <;> simp at e
            next j => rw [e]
        · rintro ⟨d2, l2, decs2, hd, hb, hl⟩
          simp only [Option.some.injEq] at hd
          subst hd
          simp only [Option.some.injEq, BlockStmt.mk.injEq] at hb
          obtain ⟨rfl, rfl⟩ := hb
          rw [hl]

theorem rootAt_mapRoot_same (st : FileStore) (f s : Nat) (g : IfStmt → IfStmt) :
    (st.mapRoot f s g).rootAt f s = (st.rootAt f s).map g := by
  apply Option.ext
  intro root
  simp only [Option.mem_def]
  rw [rootAt_eq_some]
  simp only [funcs_mapRoot, if_true, Option.map_eq_some']
  constructor
  · rintro ⟨d2, l2, decs2, ⟨d, hd, rfl⟩, hb, hl⟩
    cases hbd : d.Body with
    | none => rw [withStmts_body_none _ d hbd] at hb; simp at hb
    | some b =>
      cases b with
      | mk l decs =>
        rw [withStmts_body _ d l decs hbd] at hb
        simp only [Option.some.injEq, BlockStmt.mk.injEq] at hb
        obtain ⟨rfl, rfl⟩ := hb
        rw [modifyAt_getElem] at hl
        simp only [if_true, Option.map_eq_some'] at hl
        obtain ⟨x, hx, hxe⟩ := hl
        cases x <;> simp [mapIf] at hxe
        next j =>
          exact ⟨j, (rootAt_eq_some st f s j).2 ⟨d, l, decs, hd, hbd, hx⟩, hxe⟩
  · rintro ⟨j, hj, rfl⟩
    obtain ⟨d, l, decs, hd, hbd, hx⟩ := (rootAt_eq_some st f s j).1 hj
    refine ⟨_, _, decs, ⟨d, hd, rfl⟩, withStmts_body _ d l decs hbd, ?_⟩
    rw [modifyAt_getElem, if_pos rfl, hx]
    rfl

theorem rootAt_mapRoot_ne (st : FileStore) (f s f2 s2 : Nat) (g : IfStmt → IfStmt)
    (hne : f ≠ f2 ∨ s ≠ s2) :
    (st.mapRoot f s g).rootAt f2 s2 = st.rootAt f2 s2 := by
  by_cases hf : f = f2
  · subst hf
    have hs : s ≠ s2 := by
      rcases hne with h | h
      · exact absurd rfl h
      · exact h
    apply Option.ext
    intro root
    simp only [Option.mem_def]
    rw [rootAt_eq_some, rootAt_eq_some]
    simp only [funcs_mapRoot, if_true, Option.map_eq_some']
    constructor
    · rintro ⟨d2, l2, decs2, ⟨d, hd, rfl⟩, hb, hl⟩
      cases hbd : d.Body with
      | none => rw [withStmts_body_none _ d hbd] at hb; simp at hb
      | some b =>
        cases b with
        | mk l decs =>
          rw [withStmts_body _ d l decs hbd] at hb
          simp only [Option.some.injEq, BlockStmt.mk.injEq] at hb
          obtain ⟨rfl, rfl⟩ := hb
          rw [modifyAt_getElem, if_neg hs] at hl
          exact ⟨d, l, decs, hd, hbd, hl⟩
    · rintro ⟨d, l, decs, hd, hbd, hl⟩
      refine ⟨_, _, decs, ⟨d, hd, rfl⟩, withStmts_body _ d l decs hbd, ?_⟩
      rw [modifyAt_getElem, if_neg hs]
      exact hl
  · simp only [FileStore.rootAt, funcs_mapRoot, if_neg hf]

theorem mapRoot_mapRoot (st : FileStore) (f s : Nat) (g g2 : IfStmt → IfStmt) :
    (st.mapRoot f s g2).mapRoot f s g = st.mapRoot f s (fun i => g (g2 i)) := by
  simp only [FileStore.mapRoot, modifyAt_modifyAt]
  congr 2
  funext d
  rw [withStmts_withStmts]
  congr 1
  funext l
  rw [modifyAt_modifyAt]
  congr 1
  funext x
  exact mapIf_mapIf g g2 x

theorem mapRoot_comm (st : FileStore) (f s f2 s2 : Nat) (g g2 : IfStmt → IfStmt)
    (hne : f ≠ f2 ∨ s ≠ s2) :
    (st.mapRoot f s g).mapRoot f2 s2 g2 = (st.mapRoot f2 s2 g2).mapRoot f s g := by
  by_cases hf : f = f2
  · subst hf
    have hs : s ≠ s2 := by
      rcases hne with h | h
      · exact absurd rfl h
      · exact h
    simp only [FileStore.mapRoot, modifyAt_modifyAt]
    congr 2
    funext d
    rw [withStmts_withStmts, withStmts_withStmts]
    congr 1
    funext l
    exact modifyAt_comm _ _ s2 s l (fun e => hs e.symm)
  · simp only [FileStore.mapRoot]
    rw [modifyAt_comm _ _ f2 f st.funcs (fun e => hf e.symm)]

theorem mapRoot_congr (st : FileStore) (f s : Nat) (g g2 : IfStmt → IfStmt)
    (h : ∀ i, g i = g2 i) : st.mapRoot f s g = st.mapRoot f s g2 := by
  have : g = g2 := funext h
  rw [this]

theorem ptrNamed_congr (funcs funcs2 : List FuncDecl)
    (h : funcs2.map signature = funcs.map signature) (name : String) :
    ptrNamed funcs2 name = ptrNamed funcs name := by
  funext ptr
  cases ptr with
  | GenDecl d => rfl
  | FuncDecl addr =>
    have h1 : (funcs2[addr]?).map signature = (funcs[addr]?).map signature := by
      rw [← List.getElem?_map, ← List.getElem?_map, h]
    simp only [ptrNamed]
    cases h2 : funcs2[addr]? with
    | none =>
      rw [h2] at h1
      cases h3 : funcs[addr]? with
      | none => rfl
      | some d => rw [h3] at h1; simp at h1
    | some d2 =>
      rw [h2] at h1
      cases h3 : funcs[addr]? with
      | none => rw [h3] at h1; simp at h1
      | some d =>
        rw [h3] at h1
        simp only [Option.map_some', Option.some.injEq, signature, Prod.mk.injEq] at h1
        simp only [h1.2.1]

theorem found_iff (st : FileStore) (name : String) :
    (removeDeclWhen (isFuncDeclNamed name) st.processor.target.Decls).isSome
      = st.Decls.any (ptrNamed st.funcs name) := by
  simp only [FileStore.processor, FileStore.file]
  generalize st.Decls = l
  induction l with
  | nil => rfl
  | cons ptr rest ih =>
    cases ptr with
    | GenDecl d =>
      simp only [List.filterMap_cons, FileStore.decl, removeDeclWhen, isFuncDeclNamed,
        Bool.false_eq_true, if_false, List.any_cons, ptrNamed, Bool.false_or]
      rw [← ih]
      cases removeDeclWhen (isFuncDeclNamed name) (List.filterMap st.decl rest) <;> rfl
    | FuncDecl addr =>
      cases hd : st.funcs[addr]? with
      | none =>
        simp only [List.filterMap_cons, FileStore.decl, hd, List.any_cons, ptrNamed,
          Bool.false_or]
        exact ih
      | some d =>
        simp only [List.filterMap_cons, FileStore.decl, hd, removeDeclWhen, isFuncDeclNamed,
          List.any_cons, ptrNamed]
        by_cases hn : (d.Name.Name == name) = true
        · simp [hn]
        · simp only [hn, Bool.false_eq_true, if_false, Bool.false_or]
          rw [← ih]
          cases removeDeclWhen (isFuncDeclNamed name) (List.filterMap st.decl rest) <;> rfl

theorem lookup_mapRoot (st : FileStore) (f s : Nat) (g : IfStmt → IfStmt) (k : Nat)
    (d : FuncDecl) (h : st.funcs[k]? = some d) :
    ∃ d2, (st.mapRoot f s g).funcs[k]? = some d2 ∧ signature d2 = signature d := by
  rw [funcs_mapRoot, h]
  by_cases hf : f = k
  · rw [if_pos hf]
    exact ⟨_, rfl, withStmts_signature _ d⟩
  · rw [if_neg hf]
    exact ⟨d, rfl, rfl⟩

theorem lookup_of_mapRoot (st : FileStore) (f s : Nat) (g : IfStmt → IfStmt) (k : Nat)
    (d2 : FuncDecl) (h : (st.mapRoot f s g).funcs[k]? = some d2) :
    ∃ d, st.funcs[k]? = some d ∧ signature d = signature d2 := by
  rw [funcs_mapRoot] at h
  by_cases hf : f = k
  · rw [if_pos hf] at h
    cases hd : st.funcs[k]? with
    | none => rw [hd] at h; simp at h
    | some d =>
      rw [hd] at h
      simp only [Option.map_some', Option.some.injEq] at h
      exact ⟨d, rfl, by rw [← h, withStmts_signature]⟩
  · rw [if_neg hf] at h
    exact ⟨d2, h, rfl⟩

theorem nestedAt_succ_congr (x y : IfStmt) (h : nestedAt 1 x = nestedAt 1 y) (e : Nat) :
    nestedAt (e + 1) x = nestedAt (e + 1) y := by
  rw [nestedAt_succ, nestedAt_succ e, h]

/-- Two trampoline-jumps at different places of one file, handled one after the
other: where the second is found before the first is handled, where the first
is found after the second is handled, and that the writes give the same file
in both orders. -/
theorem swap_places (st : FileStore) (fa sa da fb sb db : Nat) (dA dB1 : FuncDecl)
    (RA RB1 iA iB1 A2 B2 : IfStmt)
    (hdA : st.funcs[fa]? = some dA) (hRA : st.rootAt fa sa = some RA)
    (hiA : nestedAt da RA = some iA)
    (hcA : nestedAt 1 A2 = nestedAt 1 iA) (hdecA : A2.Decs.If = [])
    (hdB1 : (st.mapRoot fa sa (setNested A2 da)).funcs[fb]? = some dB1)
    (hRB1 : (st.mapRoot fa sa (setNested A2 da)).rootAt fb sb = some RB1)
    (hiB1 : nestedAt db RB1 = some iB1)
    (hcB : nestedAt 1 B2 = nestedAt 1 iB1) (hlabB : iB1.Decs.If = [TJumpLabel]) :
    ∃ (dB dA2 : FuncDecl) (RB RA2 : IfStmt) (g1 g2 : IfStmt → IfStmt),
      st.funcs[fb]? = some dB ∧ signature dB = signature dB1 ∧
      st.rootAt fb sb = some RB ∧ nestedAt db RB = some (mapChild g1 iB1) ∧
      (st.mapRoot fb sb (setNested (mapChild g1 B2) db)).funcs[fa]? = some dA2 ∧
      signature dA2 = signature dA ∧
      (st.mapRoot fb sb (setNested (mapChild g1 B2) db)).rootAt fa sa = some RA2 ∧
      nestedAt da RA2 = some (mapChild g2 iA) ∧
      (st.mapRoot fa sa (setNested A2 da)).mapRoot fb sb (setNested B2 db)
        = (st.mapRoot fb sb (setNested (mapChild g1 B2) db)).mapRoot fa sa
            (setNested (mapChild g2 A2) da) := by
  obtain ⟨dB, hdB, hsB⟩ := lookup_of_mapRoot st fa sa _ fb dB1 hdB1
  by_cases hroot : fa = fb ∧ sa = sb
  · obtain ⟨rfl, rfl⟩ := hroot
    rw [rootAt_mapRoot_same, hRA] at hRB1
    simp only [Option.map_some', Option.some.injEq] at hRB1
    subst hRB1
    rcases Nat.lt_trichotomy da db with hlt | heq | hgt
    · -- the first is an ancestor of the second
      obtain ⟨e, rfl⟩ : ∃ e, db = da + (e + 1) := ⟨db - da - 1, by omega⟩
      rw [nestedAt_setNested_below, hiA] at hiB1
      simp only [Option.some_bind, Option.bind_eq_bind] at hiB1
      rw [nestedAt_succ_congr A2 iA hcA] at hiB1
      obtain ⟨dA2, hdA2, hsA2⟩ := lookup_mapRoot st fa sa
        (setNested (mapChild (fun j => j) B2) (da + (e + 1))) fa dA hdA
      refine ⟨dB, dA2, RA, setNested (mapChild (fun j => j) B2) (da + (e + 1)) RA,
        fun j => j, setNested B2 e, hdB, hsB, hRA, ?_, hdA2, hsA2, ?_, ?_, ?_⟩
      · rw [mapChild_id, nestedAt_add, hiA]
        exact hiB1
      · rw [rootAt_mapRoot_same, hRA]
        rfl
      · rw [mapChild_id, nestedAt_setNested, hiA]
        rfl
      · rw [mapRoot_mapRoot, mapRoot_mapRoot, mapChild_id]
        apply mapRoot_congr
        intro R
        rw [setNested_setNested_below]
        exact (setNested_setNested_above _ B2 da (e + 1) R).symm
    · -- the same place: the label is gone after the first
      subst heq
      rw [nestedAt_setNested_same, hiA] at hiB1
      simp only [Option.map_some', Option.some.injEq] at hiB1
      subst hiB1
      rw [hdecA] at hlabB
      simp at hlabB
    · -- the second is an ancestor of the first
      obtain ⟨e, rfl⟩ : ∃ e, da = db + (e + 1) := ⟨da - db - 1, by omega⟩
      rw [nestedAt_setNested] at hiB1
      cases hiB : nestedAt db RA with
      | none => rw [hiB] at hiB1; simp at hiB1
      | some iB =>
        rw [hiB] at hiB1
        simp only [Option.map_some', Option.some.injEq] at hiB1
        rw [nestedAt_add, hiB] at hiA
        simp only [Option.some_bind, Option.bind_eq_bind] at hiA
        have h1 : mapChild (setNested iA e) iB1 = iB := by
          rw [← hiB1]
          have h2 := setNested_setNested_above iA A2 (e + 1) 0 iB
          simp only [Nat.add_zero] at h2
          have h3 : mapChild (setNested iA e) (setNested A2 (e + 1) iB)
              = setNested iA (e + 1) (setNested A2 (e + 1) iB) := rfl
          rw [h3, h2]
          exact setNested_self (e + 1) iB iA hiA
        have h4 : nestedAt (e + 1) B2 = some A2 := by
          rw [nestedAt_succ_congr B2 iB1 hcB, ← hiB1, nestedAt_setNested_same, hiA]
          rfl
        have h5 : mapChild (setNested iA e) B2 = setNested iA (e + 1) B2 := rfl
        obtain ⟨dA2, hdA2, hsA2⟩ := lookup_mapRoot st fa sa
          (setNested (mapChild (setNested iA e) B2) db) fa dA
          (by
            have := lookup_of_mapRoot st fa sa (setNested A2 (db + (e + 1))) fa dB1 hdB1
            exact hdA)
        refine ⟨dB, dA2, RA, setNested (mapChild (setNested iA e) B2) db RA,
          setNested iA e, fun j => j, hdB, hsB, hRA, ?_, hdA2, hsA2, ?_, ?_, ?_⟩
        · rw [h1]; exact hiB
        · rw [rootAt_mapRoot_same, hRA]
          rfl
        · rw [mapChild_id, nestedAt_setNested_below, hiB, h5]
          simp only [Option.some_bind, Option.bind_eq_bind]
          rw [nestedAt_setNested_same, h4]
          rfl
        · rw [mapRoot_mapRoot, mapRoot_mapRoot, mapChild_id]
          apply mapRoot_congr
          intro R
          rw [setNested_setNested_above, setNested_setNested_below, h5]
          have h6 := setNested_setNested_above A2 iA (e + 1) 0 B2
          simp only [Nat.add_zero] at h6
          rw [h6, setNested_self (e + 1) B2 A2 h4]
  · have hne : fa ≠ fb ∨ sa ≠ sb := by
      by_cases hf : fa = fb
      · exact Or.inr (fun hs => hroot ⟨hf, hs⟩)
      · exact Or.inl hf
    have hne2 : fb ≠ fa ∨ sb ≠ sa := by
      rcases hne with h | h
      · exact Or.inl (fun e => h e.symm)
      · exact Or.inr (fun e => h e.symm)
    rw [rootAt_mapRoot_ne st fa sa fb sb _ hne] at hRB1
    obtain ⟨dA2, hdA2, hsA2⟩ := lookup_mapRoot st fb sb
      (setNested (mapChild (fun j => j) B2) db) fa dA hdA
    refine ⟨dB, dA2, RB1, RA, fun j => j, fun j => j, hdB, hsB, hRB1, ?_, hdA2, hsA2, ?_, ?_, ?_⟩
    · rw [mapChild_id]; exact hiB1
    · rw [rootAt_mapRoot_ne st fb sb fa sa _ hne2]; exact hRA
    · rw [mapChild_id]; exact hiA
    · rw [mapChild_id, mapChild_id]
      exact mapRoot_comm st fa sa fb sb _ _ hne

/-! ## Order of the optimisation pass: one iteration on the store -/

theorem load_eq_some (st : FileStore) (p : TJumpPtr) (t : TJump) :
    st.load p = some t ↔
      ∃ d root i, st.funcs[p.target]? = some d ∧ st.rootAt p.target p.stmt = some root ∧
        nestedAt p.depth root = some i ∧ t = { target := d, ifStmt := i, rule := p.rule } := by
  unfold FileStore.load
  constructor
  · intro e
    cases hd : st.funcs[p.target]? with
    | none => rw [hd] at e; simp at e
    | some d =>
      cases hr : st.rootAt p.target p.stmt with
      | none => rw [hd, hr] at e; simp at e
      | some root =>
        rw [hd, hr] at e
        simp only at e
        cases hi : nestedAt p.depth root with
        | none => rw [hi] at e; simp at e
        | some i =>
          rw [hi] at e
          simp only [Option.some.injEq] at e
          exact ⟨d, root, i, rfl, rfl, hi, e.symm⟩
  · rintro ⟨d, root, i, hd, hr, hi, rfl⟩
    rw [hd, hr]
    simp only
    rw [hi]

theorem optimizeTJumpAt_ok (h : Helpers) (st st2 : FileStore) (p : TJumpPtr)
    (hs : optimizeTJumpAt h st p = .ok st2) :
    ∃ d root i res, st.funcs[p.target]? = some d ∧ st.rootAt p.target p.stmt = some root ∧
      nestedAt p.depth root = some i ∧
      optimizeTJump h st.processor { target := d, ifStmt := i, rule := p.rule } = .ok res ∧
      st2 = (if (p.rule.OnEnter == "") = true then
          (st.store p res.2.ifStmt).removeDecl (h.makeName p.rule d true)
        else st.store p res.2.ifStmt) := by
  unfold optimizeTJumpAt at hs
  cases hl : st.load p with
  | none => rw [hl] at hs; simp [fatal] at hs
  | some t =>
    rw [hl] at hs
    obtain ⟨d, root, i, hd, hr, hi, rfl⟩ := (load_eq_some st p t).1 hl
    simp only at hs
    cases ho : optimizeTJump h st.processor { target := d, ifStmt := i, rule := p.rule } with
    | error e => rw [ho] at hs; simp at hs
    | ok res =>
      rw [ho] at hs
      refine ⟨d, root, i, res, hd, hr, hi, ho, ?_⟩
      simp only at hs
      split at hs
      · next hc =>
        simp only [pure, Except.pure, Except.ok.injEq] at hs
        rw [if_pos hc, ← hs]
      · next hc =>
        simp only [pure, Except.pure, Except.ok.injEq] at hs
        rw [if_neg hc, ← hs]

theorem optimizeTJumpAt_of (h : Helpers) (st : FileStore) (p : TJumpPtr) (d : FuncDecl)
    (root i : IfStmt) (res : RuleProcessor × TJump)
    (hd : st.funcs[p.target]? = some d) (hr : st.rootAt p.target p.stmt = some root)
    (hi : nestedAt p.depth root = some i)
    (ho : optimizeTJump h st.processor { target := d, ifStmt := i, rule := p.rule } = .ok res) :
    optimizeTJumpAt h st p
      = .ok (if (p.rule.OnEnter == "") = true then
          (st.store p res.2.ifStmt).removeDecl (h.makeName p.rule d true)
        else st.store p res.2.ifStmt) := by
  have hl : st.load p = some { target := d, ifStmt := i, rule := p.rule } :=
    (load_eq_some st p _).2 ⟨d, root, i, hd, hr, hi, rfl⟩
  unfold optimizeTJumpAt
  rw [hl]
  simp only
  rw [ho]
  simp only
  split <;> rfl

theorem optimizeTJump_facts (h : Helpers) (rp : RuleProcessor) (d : FuncDecl) (i : IfStmt)
    (r : InstFuncRule) (res : RuleProcessor × TJump)
    (hopt : optimizeTJump h rp { target := d, ifStmt := i, rule := r } = .ok res) :
    nestedAt 1 res.2.ifStmt = nestedAt 1 i ∧ res.2.ifStmt.Decs.If = [] ∧
    i.Decs.If = [TJumpLabel] ∧
    (r.OnEnter = "" →
      (removeDeclWhen (isFuncDeclNamed (h.makeName r d true)) rp.target.Decls).isSome = true) :=
  (optimizeTJump_mapChild h rp
    { target := { Name := d.Name,
                  Decls := [Decl.FuncDecl { d with Name := { Name := h.makeName r d true } }] },
      trampolineJumps := [], rule2Suffix := [] }
    (fun j => j) d d i r res rfl hopt
    (fun _ => by simp [removeDeclWhen, isFuncDeclNamed])).2

theorem signature_typ (d d2 : FuncDecl) (h : signature d2 = signature d) : d2.Typ = d.Typ := by
  simp only [signature, Prod.mk.injEq] at h
  exact h.2.2

/-- The iteration of the loop carried over to another store in which the same
trampoline-jump is found with another nested if-statement. -/
theorem optimizeTJumpAt_transfer (h : Helpers) (rp : RuleProcessor) (dX : FuncDecl)
    (iX : IfStmt) (res : RuleProcessor × TJump) (st : FileStore) (p : TJumpPtr)
    (d : FuncDecl) (root : IfStmt) (g : IfStmt → IfStmt)
    (hopt : optimizeTJump h rp { target := dX, ifStmt := iX, rule := p.rule } = .ok res)
    (hd : st.funcs[p.target]? = some d) (hsig : signature d = signature dX)
    (hr : st.rootAt p.target p.stmt = some root)
    (hi : nestedAt p.depth root = some (mapChild g iX))
    (hfound : p.rule.OnEnter = "" →
      st.Decls.any (ptrNamed st.funcs (h.makeName p.rule d true)) = true) :
    optimizeTJumpAt h st p
      = .ok (if (p.rule.OnEnter == "") = true then
          (st.store p (mapChild g res.2.ifStmt)).removeDecl (h.makeName p.rule d true)
        else st.store p (mapChild g res.2.ifStmt)) := by
  obtain ⟨⟨rp3, h1⟩, _⟩ := optimizeTJump_mapChild h rp st.processor g dX d iX p.rule res
    (signature_typ dX d hsig) hopt (fun e => by rw [found_iff]; exact hfound e)
  exact optimizeTJumpAt_of h st p d root (mapChild g iX) _ hd hr hi h1

/-! ## Order of the optimisation pass: the declaration list -/

theorem any_of_any_eraseP {α : Type} (p q : α → Bool) (l : List α)
    (h : (l.eraseP p).any q = true) : l.any q = true := by
  rw [List.any_eq_true] at h ⊢
  obtain ⟨x, hx, hq⟩ := h
  exact ⟨x, (List.eraseP_sublist l).subset hx, hq⟩

theorem eraseP_swap {α : Type} (p q : α → Bool)
    (hpq : ∀ x, p x = true → q x = true → False) :
    ∀ l : List α, l.any p = true → (l.eraseP p).any q = true →
      (l.eraseP q).any p = true ∧ (l.eraseP q).eraseP p = (l.eraseP p).eraseP q
  | [], h, _ => by simp at h
  | x :: xs, hp, hq => by
    by_cases hpx : p x = true
    · have hqx : q x = false := by
        cases hq2 : q x with
        | false => rfl
        | true => exact absurd hq2 (fun e => hpq x hpx e)
      simp only [List.eraseP_cons, hpx, hqx, cond_true, cond_false, List.any_cons, Bool.true_or,
        true_and]
    · have hpx2 : p x = false := by simpa using hpx
      by_cases hqx : q x = true
      · simp only [List.eraseP_cons, hpx2, hqx, cond_true, cond_false, and_true]
        simpa [hpx2] using hp
      · have hqx2 : q x = false := by simpa using hqx
        have hp2 : xs.any p = true := by simpa [hpx2] using hp
        have hq3 : (xs.eraseP p).any q = true := by
          simpa [List.eraseP_cons, hpx2, hqx2] using hq
        obtain ⟨h1, h2⟩ := eraseP_swap p q hpq xs hp2 hq3
        simp only [List.eraseP_cons, hpx2, hqx2, cond_false, List.any_cons, Bool.false_or, h1, h2,
          and_self]

/-- The declaration list after two iterations: the two removals can be done
in either order, and each is found in either order. -/
theorem erase_order {α : Type} (p q : α → Bool)
    (hpq : p = q ∨ ∀ x, p x = true → q x = true → False) (cA cB : Prop)
    [Decidable cA] [Decidable cB] (l : List α)
    (hA : cA → l.any p = true)
    (hB : cB → (if cA then l.eraseP p else l).any q = true) :
    (cB → l.any q = true) ∧ (cA → (if cB then l.eraseP q else l).any p = true) ∧
    (if cB then (if cA then l.eraseP p else l).eraseP q else (if cA then l.eraseP p else l))
      = (if cA then (if cB then l.eraseP q else l).eraseP p else (if cB then l.eraseP q else l)) := by
  by_cases ha : cA
  · by_cases hb : cB
    · simp only [ha, hb, if_true, forall_const] at hA hB ⊢
      rcases hpq with rfl | hdis
      · exact ⟨hA, hB, rfl⟩
      · obtain ⟨h1, h2⟩ := eraseP_swap p q hdis l hA hB
        exact ⟨any_of_any_eraseP p q l hB, h1, h2.symm⟩
    · simp only [ha, hb, if_true, if_false, forall_const, false_implies, true_and] at hA hB ⊢
      exact ⟨hA, trivial⟩
  · by_cases hb : cB
    · simp only [ha, hb, if_true, if_false, forall_const, false_implies, true_and, and_true]
        at hA hB ⊢
      exact hB
    · simp only [ha, hb, if_false, false_implies, true_and, and_self]

theorem ptrNamed_disjoint (funcs : List FuncDecl) (n1 n2 : String) :
    ptrNamed funcs n1 = ptrNamed funcs n2 ∨
      ∀ x, ptrNamed funcs n1 x = true → ptrNamed funcs n2 x = true → False := by
  by_cases hn : n1 = n2
  · exact Or.inl (by rw [hn])
  · refine Or.inr ?_
    intro x h1 h2
    cases x with
    | GenDecl d => simp [ptrNamed] at h1
    | FuncDecl addr =>
      simp only [ptrNamed] at h1 h2
      cases hd : funcs[addr]? with
      | none => rw [hd] at h1; simp at h1
      | some d =>
        rw [hd] at h1 h2
        simp only [beq_iff_eq] at h1 h2
        exact hn (h1.symm.trans h2)

/-! ## Order of the optimisation pass: two iterations -/

theorem FileStore.eq_of_fields (x y : FileStore) (h1 : x.Name = y.Name)
    (h2 : x.funcs = y.funcs) (h3 : x.Decls = y.Decls) : x = y := by
  cases x
  cases y
  simp only at h1 h2 h3
  rw [h1, h2, h3]

theorem mapRoot_funcs_congr (st st2 : FileStore) (h : st2.funcs = st.funcs) (f s : Nat)
    (g : IfStmt → IfStmt) : (st2.mapRoot f s g).funcs = (st.mapRoot f s g).funcs := by
  simp only [FileStore.mapRoot, h]

theorem ptrNamed_of_funcs (st st2 : FileStore) (f s : Nat) (g : IfStmt → IfStmt)
    (h : st2.funcs = (st.mapRoot f s g).funcs) (n : String) :
    ptrNamed st2.funcs n = ptrNamed st.funcs n :=
  ptrNamed_congr st.funcs st2.funcs (by rw [h]; exact mapRoot_signature st f s g) n

/-- The store an iteration leaves, field by field. -/
theorem step_components (st : FileStore) (p : TJumpPtr) (x : IfStmt) (n : String) (c : Prop)
    [Decidable c] :
    (if c then (st.store p x).removeDecl n else st.store p x).Name = st.Name ∧
    (if c then (st.store p x).removeDecl n else st.store p x).funcs
      = (st.mapRoot p.target p.stmt (setNested x p.depth)).funcs ∧
    (if c then (st.store p x).removeDecl n else st.store p x).Decls
      = (if c then st.Decls.eraseP (ptrNamed st.funcs n) else st.Decls) := by
  by_cases hc : c
  · simp only [hc, if_true]
    refine ⟨rfl, rfl, ?_⟩
    simp only [FileStore.removeDecl, FileStore.store]
    rw [ptrNamed_of_funcs st _ p.target p.stmt (setNested x p.depth) rfl n]
    rfl
  · simp only [hc, if_false]
    exact ⟨rfl, rfl, rfl⟩

/-- Two successive iterations of the loop of `optimizeTJumps` can be run in
the other order, with the same store as result. -/
theorem optimizeTJumpAt_swap (h : Helpers)
    (hName : ∀ r d d2, signature d2 = signature d → h.makeName r d2 true = h.makeName r d true)
    (st s1 s2 : FileStore) (a b : TJumpPtr)
    (hA : optimizeTJumpAt h st a = .ok s1) (hB : optimizeTJumpAt h s1 b = .ok s2) :
    ∃ s3, optimizeTJumpAt h st b = .ok s3 ∧ optimizeTJumpAt h s3 a = .ok s2 := by
  obtain ⟨dA, RA, iA, resA, hdA, hRA, hiA, hoptA, hs1⟩ := optimizeTJumpAt_ok h st s1 a hA
  obtain ⟨dB1, RB1, iB1, resB1, hdB1, hRB1, hiB1, hoptB1, hs2⟩ :=
    optimizeTJumpAt_ok h s1 s2 b hB
  obtain ⟨hcA, hdecA, _, needA⟩ := optimizeTJump_facts h _ dA iA a.rule resA hoptA
  obtain ⟨hcB, _, hlabB, needB⟩ := optimizeTJump_facts h _ dB1 iB1 b.rule resB1 hoptB1
  obtain ⟨hN1, hF1, hD1⟩ := step_components st a resA.2.ifStmt (h.makeName a.rule dA true)
    ((a.rule.OnEnter == "") = true)
  rw [← hs1] at hN1 hF1 hD1
  have hdB1m : (st.mapRoot a.target a.stmt (setNested resA.2.ifStmt a.depth)).funcs[b.target]?
      = some dB1 := by rw [← hF1]; exact hdB1
  have hRB1m : (st.mapRoot a.target a.stmt (setNested resA.2.ifStmt a.depth)).rootAt
      b.target b.stmt = some RB1 := by
    rw [← rootAt_congr _ s1 hF1]; exact hRB1
  obtain ⟨dB, dA2, RB, RA2, g1, g2, hdB, hsB, hRB, hiB, hdA2, hsA2, hRA2, hiA2, hfin⟩ :=
    swap_places st a.target a.stmt a.depth b.target b.stmt b.depth dA dB1 RA RB1 iA iB1
      resA.2.ifStmt resB1.2.ifStmt hdA hRA hiA hcA hdecA hdB1m hRB1m hiB1 hcB hlabB
  have hnB : h.makeName b.rule dB1 true = h.makeName b.rule dB true := hName _ _ _ hsB.symm
  have hnA : h.makeName a.rule dA2 true = h.makeName a.rule dA true := hName _ _ _ hsA2
  have hP1 : ∀ n, ptrNamed s1.funcs n = ptrNamed st.funcs n :=
    ptrNamed_of_funcs st s1 _ _ _ hF1
  have needA2 : (a.rule.OnEnter == "") = true →
      st.Decls.any (ptrNamed st.funcs (h.makeName a.rule dA true)) = true := by
    intro e
    rw [← found_iff]
    exact needA (by simpa using e)
  have needB2 : (b.rule.OnEnter == "") = true →
      (if (a.rule.OnEnter == "") = true then
          st.Decls.eraseP (ptrNamed st.funcs (h.makeName a.rule dA true))
        else st.Decls).any (ptrNamed st.funcs (h.makeName b.rule dB true)) = true := by
    intro e
    have := needB (by simpa using e)
    rw [found_iff, hD1, hP1, hnB] at this
    exact this
  obtain ⟨fB, fA, hDecls⟩ := erase_order (ptrNamed st.funcs (h.makeName a.rule dA true))
    (ptrNamed st.funcs (h.makeName b.rule dB true)) (ptrNamed_disjoint st.funcs _ _)
    ((a.rule.OnEnter == "") = true) ((b.rule.OnEnter == "") = true) st.Decls needA2 needB2
  have hstepB := optimizeTJumpAt_transfer h s1.processor dB1 iB1 resB1 st b dB RB g1 hoptB1 hdB
    hsB hRB hiB (fun e => fB (by simpa using e))
  obtain ⟨hN3, hF3, hD3⟩ := step_components st b (mapChild g1 resB1.2.ifStmt)
    (h.makeName b.rule dB true) ((b.rule.OnEnter == "") = true)
  generalize hs3 : (if (b.rule.OnEnter == "") = true then
      (st.store b (mapChild g1 resB1.2.ifStmt)).removeDecl (h.makeName b.rule dB true)
    else st.store b (mapChild g1 resB1.2.ifStmt)) = s3 at hstepB hN3 hF3 hD3
  have hP3 : ∀ n, ptrNamed s3.funcs n = ptrNamed st.funcs n :=
    ptrNamed_of_funcs st s3 _ _ _ hF3
  have hstepA := optimizeTJumpAt_transfer h st.processor dA iA resA s3 a dA2 RA2 g2 hoptA
    (by rw [hF3]; exact hdA2) hsA2 (by rw [rootAt_congr _ s3 hF3]; exact hRA2) hiA2
    (fun e => by
      rw [hP3, hnA, hD3]
      exact fA (by simpa using e))
  refine ⟨s3, hstepB, ?_⟩
  rw [hstepA, hs2]
  congr 1
  obtain ⟨hN4, hF4, hD4⟩ := step_components s3 a (mapChild g2 resA.2.ifStmt)
    (h.makeName a.rule dA2 true) ((a.rule.OnEnter == "") = true)
  obtain ⟨hN2, hF2, hD2⟩ := step_components s1 b resB1.2.ifStmt
    (h.makeName b.rule dB1 true) ((b.rule.OnEnter == "") = true)
  apply FileStore.eq_of_fields
  · rw [hN4, hN3, hN2, hN1]
  · rw [hF4, hF2, mapRoot_funcs_congr _ s3 hF3, mapRoot_funcs_congr _ s1 hF1, hfin]
  · rw [hD4, hD2, hD3, hD1, hP3, hP1, hnA, hnB]
    exact hDecls.symm

/-! ## Order of the optimisation pass: permutations -/

theorem optimizeTJumps_perm_ok (h : Helpers)
    (hName : ∀ r d d2, signature d2 = signature d → h.makeName r d2 true = h.makeName r d true)
    {l l2 : List TJumpPtr} (hp : l.Perm l2) :
    ∀ st st2, optimizeTJumps h l st = .ok st2 → optimizeTJumps h l2 st = .ok st2 := by
  induction hp with
  | nil => intro st st2 hs; exact hs
  | cons x _ ih =>
    intro st st2 hs
    simp only [optimizeTJumps] at hs ⊢
    cases hx : optimizeTJumpAt h st x with
    | error e =>
      try rw [hx] at hs
      simp at hs
    | ok s1 =>
      try rw [hx] at hs
      try rw [hx]
      exact ih s1 st2 hs
  | swap x y l =>
    intro st st2 hs
    simp only [optimizeTJumps] at hs ⊢
    cases hy : optimizeTJumpAt h st y with
    | error e =>
      try rw [hy] at hs
      simp at hs
    | ok s1 =>
      try rw [hy] at hs
      simp only at hs
      cases hx : optimizeTJumpAt h s1 x with
      | error e =>
        try rw [hx] at hs
        simp at hs
      | ok s2 =>
        try rw [hx] at hs
        simp only at hs
        obtain ⟨s3, h1, h2⟩ := optimizeTJumpAt_swap h hName st s1 s2 y x hy hx
        rw [h1]
        simp only
        rw [h2]
        exact hs
  | trans _ _ ih1 ih2 =>
    intro st st2 hs
    exact ih2 st st2 (ih1 st st2 hs)

/-- Claim C13: for the trampoline-jumps registered for one file, nested ones
in the same function included, the loop of `optimizeTJumps` run over any
permutation of the list returns without error exactly when it does for the
list itself, and then leaves the same syntax tree: the same function
declarations and the same declaration list of the file.  The name of a
trampoline is taken not to depend on the body of the target declaration. -/
theorem optimizeTJumps_order_independent (h : Helpers)
    (hName : ∀ r d d2, signature d2 = signature d → h.makeName r d2 true = h.makeName r d true)
    (st : FileStore) (l l2 : List TJumpPtr) (hp : l.Perm l2) (st2 : FileStore) :
    optimizeTJumps h l st = .ok st2 ↔ optimizeTJumps h l2 st = .ok st2 :=
  ⟨optimizeTJumps_perm_ok h hName hp st st2, optimizeTJumps_perm_ok h hName hp.symm st st2⟩

/-- Witness for C13: the sample method with two nested trampoline-jumps, the
outer of an exit-only rule and the nested of a rule with both hooks whose
entry hook uses the call context as receiver only.  In both orders the pass
returns the same file, from whose declaration list the entry trampoline of
the exit-only rule is gone. -/
theorem optimizeTJumps_order_independent_witness :
    sampleJumps.Perm sampleJumpsReversed ∧
    ∃ st2, optimizeTJumps (sampleHelpers hookUsingReceiverOnly) sampleJumps sampleStore
        = .ok st2 ∧
      optimizeTJumps (sampleHelpers hookUsingReceiverOnly) sampleJumpsReversed sampleStore
        = .ok st2 ∧
      st2.Decls = [DeclPtr.FuncDecl 0] ∧
      (st2.rootAt 0 0).map IfStmt.Cond = some ast.BoolFalse ∧
      ((st2.rootAt 0 0).bind (nestedAt 1)).map IfStmt.Cond = some ast.BoolFalse :=
  ⟨List.Perm.swap _ _ [], _, rfl,
    (optimizeTJumps_order_independent (sampleHelpers hookUsingReceiverOnly)
      (fun _ _ _ _ => rfl) sampleStore sampleJumps sampleJumpsReversed
      (List.Perm.swap _ _ []) _).1 rfl, rfl, rfl, rfl⟩

/-! ## The escape analysis on a discarded or unnamed parameter -/

/-- Claim C21: for an entry hook whose call-context parameter is named `_` and
none of whose identifiers has a name containing "SetSkipCall",
`canFlattenTJump` returns true, whatever the body of the hook is, also when it
has none. -/
theorem canFlattenTJump_ignored_context (hookFunc : FuncDecl)
    (hParam : firstParamName hookFunc = .ok "_")
    (hSkip : (allNodes hookFunc).any
      (Node.isIdentWith (fun name => strings.Contains name "SetSkipCall")) = false) :
    canFlattenTJump hookFunc = .ok true := by
  rw [canFlattenTJump_eq]
  have hs : (allNodes hookFunc).any
      (Node.isIdentWith (fun name => strings.Contains name trampolineSetSkipCallName)) = false :=
    hSkip
  rw [hs, hParam]
  rfl

/-- Witness for C21: the hook `func onEnterDoA(_ HookContext)` whose body
passes an identifier `ictx` to another function. -/
theorem canFlattenTJump_ignored_context_witness :
    firstParamName hookIgnoringContext = .ok "_" ∧
    hookIgnoringContext.Body = some escapingBody ∧
    canFlattenTJump hookIgnoringContext = .ok true :=
  ⟨rfl, rfl, canFlattenTJump_ignored_context hookIgnoringContext rfl rfl⟩

/-- Claim C29, the code at the failing input: for the hook
`func onEnterDoA(HookContext)`, whose parameter list has one field, declared
without a name, and whose body is present and empty, `canFlattenTJump` does
not return a boolean: the expression `Params.List[0].Names[0]` is out of
range. -/
theorem canFlattenTJump_unnamed_param_panics :
    hookUnnamedParam.Typ.Params.List.length = 1 ∧
    hookUnnamedParam.Body = some (BlockStmt.mk [] noDecs) ∧
    (allNodes hookUnnamedParam).any
      (Node.isIdentWith (fun name => strings.Contains name "SetSkipCall")) = false ∧
    canFlattenTJump hookUnnamedParam = fatal "index out of range [0] with length 0" :=
  ⟨rfl, rfl, rfl, rfl⟩

/-! ## The anchor check of the optimisation pass -/

theorem mustTJump_fails (i : IfStmt) (h : i.Decs.If ≠ [TJumpLabel]) :
    mustTJump i = fatal "Assertion failed: must be a trampoline-jump-if" := by
  unfold mustTJump
  cases hl : i.Decs.If with
  | nil => rfl
  | cons desc rest =>
    cases rest with
    | nil =>
      have hd : desc ≠ TJumpLabel := by
        intro e
        apply h
        rw [hl, e]
      simp [util.Assert, fatal, bind, Except.bind, pure, Except.pure, hd]
    | cons x xs => simp [util.Assert, fatal, bind, Except.bind]

theorem mustTJump_holds (i : IfStmt) (h : i.Decs.If = [TJumpLabel]) : mustTJump i = .ok () := by
  unfold mustTJump
  rw [h]
  rfl

theorem load_store_same (st : FileStore) (p : TJumpPtr) (t : TJump) (x : IfStmt)
    (hl : st.load p = some t) :
    ∃ d, (st.store p x).load p = some { target := d, ifStmt := x, rule := p.rule } := by
  obtain ⟨d, root, i, hd, hr, hi, _⟩ := (load_eq_some st p t).1 hl
  obtain ⟨d2, hd2, _⟩ := lookup_mapRoot st p.target p.stmt (setNested x p.depth) p.target d hd
  refine ⟨d2, (load_eq_some _ p _).2 ⟨d2, setNested x p.depth root, x, hd2, ?_, ?_, rfl⟩⟩
  · simp only [FileStore.store]
    rw [rootAt_mapRoot_same, hr]
    rfl
  · rw [nestedAt_setNested_same, hi]
    rfl

/-- Claim C26: for a registered trampoline-jump whose if-statement does not
carry exactly the anchor label as its if-decorations, the iteration of
`optimizeTJumps` for it, and with it the pass, stops with the fatal failure of
the anchor check, the first thing the iteration does, and no rewritten file is
returned; for one that carries it the check passes, `stripTJumpLabel` removes
the label, and after an iteration that returns, the if-statement read through
the same pointers has no if-decoration. -/
theorem optimizeTJumps_anchor_check (h : Helpers) (st : FileStore) (p : TJumpPtr)
    (rest : List TJumpPtr) (tjump : TJump) (hLoad : st.load p = some tjump) :
    (tjump.ifStmt.Decs.If ≠ [TJumpLabel] →
      mustTJump tjump.ifStmt = fatal "Assertion failed: must be a trampoline-jump-if" ∧
      optimizeTJump h st.processor tjump
        = fatal "Assertion failed: must be a trampoline-jump-if" ∧
      optimizeTJumps h (p :: rest) st
        = fatal "Assertion failed: must be a trampoline-jump-if") ∧
    (tjump.ifStmt.Decs.If = [TJumpLabel] →
      mustTJump tjump.ifStmt = .ok () ∧
      (stripTJumpLabel tjump).ifStmt.Decs.If = [] ∧
      (∀ res, optimizeTJump h st.processor tjump = .ok res → res.2.ifStmt.Decs.If = []) ∧
      (∀ st2, optimizeTJumpAt h st p = .ok st2 →
        (st2.load p).map (fun t => t.ifStmt.Decs.If) = some [])) := by
  obtain ⟨target, ifStmt, rule⟩ := tjump
  constructor
  · intro hne
    have hm := mustTJump_fails ifStmt hne
    have ho : optimizeTJump h st.processor { target := target, ifStmt := ifStmt, rule := rule }
        = fatal "Assertion failed: must be a trampoline-jump-if" := by
      unfold optimizeTJump
      simp only [hm, fatal, bind, Except.bind]
    refine ⟨hm, ho, ?_⟩
    simp only [optimizeTJumps, optimizeTJumpAt, hLoad, ho, fatal]
  · intro hl
    refine ⟨mustTJump_holds ifStmt hl, ?_, ?_, ?_⟩
    · cases ifStmt; rfl
    · intro res hres
      exact (optimizeTJump_facts h _ target ifStmt rule res hres).2.1
    · intro st2 hst2
      obtain ⟨d, root, i, res, hd, hr, hi, hopt, hs2⟩ := optimizeTJumpAt_ok h st st2 p hst2
      have hdec := (optimizeTJump_facts h _ d i p.rule res hopt).2.1
      obtain ⟨d2, hl2⟩ := load_store_same st p _ res.2.ifStmt hLoad
      have hl3 : st2.load p = some { target := d2, ifStmt := res.2.ifStmt, rule := p.rule } := by
        rw [hs2]
        split
        · exact hl2
        · exact hl2
      rw [hl3]
      simp only [Option.map_some', hdec]

/-- Witness for C26: in the sample file the outer trampoline-jump carries the
label, and after its iteration it does not; the iteration run again then
stops at the anchor check. -/
theorem optimizeTJumps_anchor_check_witness :
    (optimizeTJumpAt (sampleHelpers hookUsingReceiverOnly) sampleStore
        { target := 0, stmt := 0, depth := 0, rule := ruleExitOnly } = .ok sampleStoreOptimized ∧
      (sampleStoreOptimized.load { target := 0, stmt := 0, depth := 0, rule := ruleExitOnly }).map
        (fun t => t.ifStmt.Decs.If) = some []) ∧
    optimizeTJumps (sampleHelpers hookUsingReceiverOnly)
        [{ target := 0, stmt := 0, depth := 0, rule := ruleExitOnly }] sampleStoreOptimized
        = fatal "Assertion failed: must be a trampoline-jump-if" :=
  ⟨⟨rfl, ((optimizeTJumps_anchor_check (sampleHelpers hookUsingReceiverOnly) sampleStore
      { target := 0, stmt := 0, depth := 0, rule := ruleExitOnly } [] _ rfl).2 rfl).2.2.2 _ rfl⟩,
    ((optimizeTJumps_anchor_check (sampleHelpers hookUsingReceiverOnly) sampleStoreOptimized
      { target := 0, stmt := 0, depth := 0, rule := ruleExitOnly } [] _ rfl).1
      (by decide)).2.2⟩

/-! ## Listing of the rule files -/

/-- Claim C30, the code at the failing input: in the directory `rules` with
the hidden file `.gitignore` and the file `hook.go`, no directory being
hidden, `ListFiles` lists nothing, although both files are non-directory files
that lie under no hidden directory: the walk function answers `SkipDir` for
the hidden file, and the walk then skips the rest of `rules`.  After a hidden
directory the sibling is listed. -/
theorem ListFiles_skips_siblings_of_hidden_file :
    ListFiles "rules" sampleRuleDir = .ok [] ∧
    visibleFiles "rules" sampleRuleDir = ["rules/.gitignore", "rules/hook.go"] ∧
    ListFiles "rules" sampleRuleDirHidden = .ok ["rules/hook.go"] ∧
    visibleFiles "rules" sampleRuleDirHidden = ["rules/hook.go"] :=
  ⟨rfl, rfl, rfl, rfl⟩

/-! ## Hook discovery -/

theorem FindFuncDeclWithoutRecv_isNone (root : File) (name : String) :
    (ast.FindFuncDeclWithoutRecv root name).isNone = !declaresHook root name := by
  unfold ast.FindFuncDeclWithoutRecv ast.findFuncDecls ast.ListFuncDecls declaresHook
  induction root.Decls with
  | nil => rfl
  | cons decl rest ih =>
    cases decl with
    | FuncDecl f =>
      simp only [List.filterMap_cons, List.any_cons]
      by_cases hf : (f.Name.Name == name && !ast.HasReceiver f) = true
      · simp [List.filter_cons, hf]
      · have hf2 : (f.Name.Name == name && !ast.HasReceiver f) = false := by
          simpa using hf
        simp only [List.filter_cons, hf2, Bool.false_or]
        exact ih
    | GenDecl g =>
      simp only [List.filterMap_cons, List.any_cons, Bool.false_or]
      exact ih

theorem isHookDefined_eq (root : File) (rule : InstFuncRule)
    (hHook : rule.OnEnter ≠ "" ∨ rule.OnExit ≠ "") :
    isHookDefined root rule = .ok (declaresHooks root rule) := by
  have ha : (rule.OnEnter != "" || rule.OnExit != "") = true := by
    rcases hHook with h | h <;> simp [h]
  unfold isHookDefined declaresHooks
  simp only [util.Assert, ha, if_true, FindFuncDeclWithoutRecv_isNone, bind, Except.bind, pure,
    Except.pure]
  by_cases h1 : rule.OnEnter = "" <;> by_cases h2 : rule.OnExit = "" <;>
    cases h3 : declaresHook root rule.OnEnter <;> cases h4 : declaresHook root rule.OnExit <;>
    simp [h1, h2, h3, h4]

theorem findHookLoop_eq (IsGoFile : String → Bool) (ParseFileFast : String → Res File)
    (roots : String → File) (rule : InstFuncRule)
    (hHook : rule.OnEnter ≠ "" ∨ rule.OnExit ≠ "") (files : List String)
    (hParse : ∀ f ∈ files, IsGoFile f = true → ParseFileFast f = .ok (roots f)) :
    findHookLoop IsGoFile ParseFileFast rule files
      = .ok (files.find? (fun f => IsGoFile f && declaresHooks (roots f) rule)) := by
  induction files with
  | nil => rfl
  | cons f rest ih =>
    have ih2 := ih (fun g hg => hParse g (List.mem_cons_of_mem _ hg))
    unfold findHookLoop
    cases hg : IsGoFile f with
    | false => simp [ih2, List.find?_cons, hg]
    | true =>
      have hp := hParse f (List.mem_cons_self _ _) hg
      simp only [hp, isHookDefined_eq _ _ hHook, Bool.not_true, Bool.false_eq_true, if_false]
      cases hd : declaresHooks (roots f) rule with
      | false => simp [ih2, List.find?_cons, hg, hd]
      | true => simp [List.find?_cons, hg, hd, pure, Except.pure]

/-- Claim C22, counterexample: the rule names the entry hook `onEnterDoA` and
the exit hook `onExitDoA`; the file `enter.go` declares the first and
`exit.go` the second, both without receiver, and both files parse.  Every hook
of the rule is declared in one of the files, and `findHookFile` returns an
error. -/
theorem findHookFile_hooks_in_separate_files :
    ruleA.OnEnter = "onEnterDoA" ∧ ruleA.OnExit = "onExitDoA" ∧
    sampleParseFile "enter.go" = .ok (hookFile "onEnterDoA") ∧
    sampleParseFile "exit.go" = .ok (hookFile "onExitDoA") ∧
    declaresHook (hookFile "onEnterDoA") ruleA.OnEnter = true ∧
    declaresHook (hookFile "onExitDoA") ruleA.OnExit = true ∧
    findHookFile (fun _ => .ok ["enter.go", "exit.go"]) (fun _ => true) sampleParseFile ruleA
      = failWith "no hook onEnterDoA/onExitDoA found for Do from [enter.go exit.go]" :=
  ⟨rfl, rfl, rfl, rfl, rfl, rfl, rfl⟩

/-- Claim C22, amended: for a rule that names a hook and a list of files whose
Go files all parse, `findHookFile` returns the first Go file that declares
every hook the rule names as a function without receiver, and it returns an
error, which names the hooks, the function and the files, if and only if no Go
file of the list declares all of them. -/
theorem findHookFile_first_declaring_file
    (listRuleFiles : InstFuncRule → Res (List String)) (IsGoFile : String → Bool)
    (ParseFileFast : String → Res File) (roots : String → File) (rule : InstFuncRule)
    (files : List String)
    (hList : listRuleFiles rule = .ok files)
    (hHook : rule.OnEnter ≠ "" ∨ rule.OnExit ≠ "")
    (hParse : ∀ f ∈ files, IsGoFile f = true → ParseFileFast f = .ok (roots f)) :
    (∀ file, files.find? (fun f => IsGoFile f && declaresHooks (roots f) rule) = some file →
      findHookFile listRuleFiles IsGoFile ParseFileFast rule = .ok file) ∧
    (∀ file, findHookFile listRuleFiles IsGoFile ParseFileFast rule = .ok file →
      file ∈ files ∧ IsGoFile file = true ∧ declaresHooks (roots file) rule = true ∧
      isHookDefined (roots file) rule = .ok true) ∧
    ((∃ e, findHookFile listRuleFiles IsGoFile ParseFileFast rule = .error e) ↔
      ∀ f ∈ files, IsGoFile f = true → declaresHooks (roots f) rule = false) ∧
    ((∀ f ∈ files, IsGoFile f = true → declaresHooks (roots f) rule = false) →
      findHookFile listRuleFiles IsGoFile ParseFileFast rule
        = failWith ("no hook " ++ rule.OnEnter ++ "/" ++ rule.OnExit ++ " found for "
            ++ rule.Function ++ " from " ++ formatStrings files)) := by
  have hloop := findHookLoop_eq IsGoFile ParseFileFast roots rule hHook files hParse
  have hnone : (∀ f ∈ files, IsGoFile f = true → declaresHooks (roots f) rule = false) ↔
      files.find? (fun f => IsGoFile f && declaresHooks (roots f) rule) = none := by
    rw [List.find?_eq_none]
    constructor
    · intro h f hf
      cases hg : IsGoFile f with
      | false => simp
      | true => simp [h f hf hg]
    · intro h f hf hg
      have := h f hf
      simpa [hg] using this
  have hsome : ∀ file,
      files.find? (fun f => IsGoFile f && declaresHooks (roots f) rule) = some file →
      findHookFile listRuleFiles IsGoFile ParseFileFast rule = .ok file := by
    intro file hfile
    unfold findHookFile
    simp only [hList, hloop, hfile]
    rfl
  have hfail : files.find? (fun f => IsGoFile f && declaresHooks (roots f) rule) = none →
      findHookFile listRuleFiles IsGoFile ParseFileFast rule
        = failWith ("no hook " ++ rule.OnEnter ++ "/" ++ rule.OnExit ++ " found for "
            ++ rule.Function ++ " from " ++ formatStrings files) := by
    intro hn
    unfold findHookFile
    simp only [hList, hloop, hn]
  refine ⟨hsome, ?_, ?_, fun h => hfail (hnone.1 h)⟩
  · intro file hfile
    cases hf : files.find? (fun f => IsGoFile f && declaresHooks (roots f) rule) with
    | none =>
      rw [hfail hf] at hfile
      simp [failWith] at hfile
    | some g =>
      rw [hsome g hf] at hfile
      have hg : g = file := by
        injection hfile
      subst hg
      have hm := List.mem_of_find?_eq_some hf
      have hp := List.find?_some hf
      simp only [Bool.and_eq_true] at hp
      exact ⟨hm, hp.1, hp.2, by rw [isHookDefined_eq _ _ hHook, hp.2]⟩
  · constructor
    · rintro ⟨e, he⟩
      apply hnone.2
      cases hf : files.find? (fun f => IsGoFile f && declaresHooks (roots f) rule) with
      | none => rfl
      | some g =>
        rw [hsome g hf] at he
        simp at he
    · intro h
      exact ⟨_, hfail (hnone.1 h)⟩

/-- Witness for C22: with both hooks declared in `enter.go` the file is
found. -/
theorem findHookFile_first_declaring_file_witness :
    findHookFile (fun _ => .ok ["readme.md", "exit.go", "enter.go"])
      (fun f => f != "readme.md")
      (fun f => if f == "enter.go" then
          .ok { Name := { Name := "rules" },
                Decls := (hookFile "onEnterDoA").Decls ++ (hookFile "onExitDoA").Decls }
        else sampleParseFile f) ruleA = .ok "enter.go" :=
  (findHookFile_first_declaring_file (fun _ => .ok ["readme.md", "exit.go", "enter.go"])
    (fun f => f != "readme.md")
    (fun f => if f == "enter.go" then
          .ok { Name := { Name := "rules" },
                Decls := (hookFile "onEnterDoA").Decls ++ (hookFile "onExitDoA").Decls }
        else sampleParseFile f)
    (fun f => if f == "enter.go" then
          { Name := { Name := "rules" },
            Decls := (hookFile "onEnterDoA").Decls ++ (hookFile "onExitDoA").Decls }
        else hookFile "onExitDoA")
    ruleA ["readme.md", "exit.go", "enter.go"] rfl (Or.inl (by decide))
    (by
      intro f hf hg
      simp only [List.mem_cons, List.mem_singleton, List.not_mem_nil, or_false] at hf
      rcases hf with rfl | rfl | rfl
      · simp at hg
      · rfl
      · rfl)).1 "enter.go" rfl

/-! ## Naming of the call-context type -/

theorem renameMethodReceivers_ok (suffix : String) (methods : List FuncDecl)
    (hRecv : ∀ m ∈ methods, (receiverTypeName m).isSome = true) :
    ∃ ms, renameMethodReceivers suffix methods = .ok ms ∧
      ms.map receiverTypeName
        = methods.map (fun m => (receiverTypeName m).map (fun x => x ++ suffix)) := by
  induction methods with
  | nil => exact ⟨[], rfl, rfl⟩
  | cons m rest ih =>
    obtain ⟨ms, hms, hmap⟩ := ih (fun x hx => hRecv x (List.mem_cons_of_mem _ hx))
    have hm := hRecv m (List.mem_cons_self _ _)
    obtain ⟨recv, name, typ, body⟩ := m
    have hone : ∃ m2, renameMethodReceiver suffix
          { Recv := recv, Name := name, Typ := typ, Body := body } = .ok m2 ∧
        receiverTypeName m2 = (receiverTypeName
          { Recv := recv, Name := name, Typ := typ, Body := body }).map
            (fun x => x ++ suffix) := by
      cases recv with
      | none => simp [receiverTypeName] at hm
      | some fl =>
        obtain ⟨o, l, c⟩ := fl
        cases l with
        | nil => simp [receiverTypeName] at hm
        | cons f fs =>
          obtain ⟨names, ty, tag⟩ := f
          cases ty with
          | none => simp [receiverTypeName] at hm
          | some e =>
            cases e <;> try (simp [receiverTypeName] at hm; done)
            next x =>
              cases x <;> try (simp [receiverTypeName] at hm; done)
              next i => exact ⟨_, rfl, rfl⟩
    obtain ⟨m2, hm2, hn2⟩ := hone
    refine ⟨m2 :: ms, ?_, ?_⟩
    · simp only [renameMethodReceivers, hm2, hms]
      rfl
    · simp only [List.map_cons, hn2, hmap]

set_option maxRecDepth 100000 in
/-- Claim C23, counterexample: the string forms "example.com/svc.plumless" and
"example.com/svc.buckeroo" of two rules differ, and the call-context types
generated for the two rules have the same name, `CallContextImpl2540913744`:
the checksum of the two strings is the same. -/
theorem callContextTypeName_collision :
    (sampleHelpers hookUsingReceiverOnly).ruleString rulePlumless = "example.com/svc.plumless" ∧
    (sampleHelpers hookUsingReceiverOnly).ruleString ruleBuckeroo = "example.com/svc.buckeroo" ∧
    (sampleHelpers hookUsingReceiverOnly).ruleString rulePlumless
      ≠ (sampleHelpers hookUsingReceiverOnly).ruleString ruleBuckeroo ∧
    callContextTypeName (sampleHelpers hookUsingReceiverOnly) rulePlumless
      = "CallContextImpl2540913744" ∧
    callContextTypeName (sampleHelpers hookUsingReceiverOnly) ruleBuckeroo
      = "CallContextImpl2540913744" :=
  ⟨rfl, rfl, by decide, rfl, rfl⟩

theorem string_append_left_cancel (s a b : String) : s ++ a = s ++ b ↔ a = b := by
  constructor
  · intro h
    have hd := congrArg String.data h
    simp only [String.data_append, List.append_cancel_left_eq] at hd
    exact String.ext hd
  · intro h
    rw [h]

/-- Claim C23, amended: the names of the call-context types generated for two
rules are equal exactly when the checksums of the string forms of the rules
are equal; the type named by the context literal of `newCallContextImpl` for a
rule is the type `implementCallContext` declares for that rule from the
template, whose methods it moves to that type. -/
theorem callContextTypeName_agrees (h : Helpers) (tjump : TJump) (t2 : InstFuncRule)
    (tok : Token) (name : Ident) (typeParams : Option FieldList) (typ : Expr)
    (specs : List Spec) (methods : List FuncDecl)
    (hName : name.Name = trampolineCallContextImplType)
    (hRecv : ∀ m ∈ methods, (receiverTypeName m).isSome = true) :
    (callContextTypeName h tjump.rule = callContextTypeName h t2 ↔
      util.Crc32 (h.ruleString tjump.rule) = util.Crc32 (h.ruleString t2)) ∧
    literalTypeName (newCallContextImpl h tjump) = some (callContextTypeName h tjump.rule) ∧
    ∃ decl ms,
      implementCallContext h (GenDecl.mk tok (Spec.TypeSpec name typeParams typ :: specs))
        methods tjump.rule = .ok (decl, ms) ∧
      declaredTypeName decl = some (callContextTypeName h tjump.rule) ∧
      ms.map receiverTypeName = methods.map (fun m =>
        (receiverTypeName m).map (fun x => x ++ util.Crc32 (h.ruleString tjump.rule))) := by
  refine ⟨string_append_left_cancel _ _ _, rfl, ?_⟩
  obtain ⟨ms, hms, hmap⟩ :=
    renameMethodReceivers_ok (util.Crc32 (h.ruleString tjump.rule)) methods hRecv
  refine ⟨GenDecl.mk tok (Spec.TypeSpec
      { Name := name.Name ++ util.Crc32 (h.ruleString tjump.rule) } typeParams typ :: specs),
    ms, ?_, ?_, hmap⟩
  · unfold implementCallContext
    simp only [hName, util.Assert, beq_self_eq_true, if_true, pure, Except.pure, hms]
  · simp only [declaredTypeName, callContextTypeName, hName]

/-- Witness for C23: the template type and one method of it, for the sample
rule. -/
theorem callContextTypeName_agrees_witness :
    literalTypeName (newCallContextImpl (sampleHelpers hookUsingReceiverOnly) (sampleTJump ruleA))
      = some (callContextTypeName (sampleHelpers hookUsingReceiverOnly) ruleA) ∧
    ∃ decl ms,
      implementCallContext (sampleHelpers hookUsingReceiverOnly) sampleCallCtxDecl
        [sampleCallCtxMethod] ruleA = .ok (decl, ms) ∧
      declaredTypeName decl
        = some (callContextTypeName (sampleHelpers hookUsingReceiverOnly) ruleA) ∧
      ms.map receiverTypeName = [sampleCallCtxMethod].map (fun m =>
        (receiverTypeName m).map (fun x => x ++
          util.Crc32 ((sampleHelpers hookUsingReceiverOnly).ruleString ruleA))) :=
  (callContextTypeName_agrees (sampleHelpers hookUsingReceiverOnly) (sampleTJump ruleA) ruleB
    Token.TYPE { Name := "CallContextImpl" } none (Expr.StructType (FieldList.mk true [] true))
    [] [sampleCallCtxMethod] rfl (by decide)).2

/-! ## Raw injection -/

/-- Claim C24: for a raw-injection rule with a hook, whose entry snippet parses
to the statements `enter` and whose exit snippet, wrapped in the text of a
deferred anonymous function call, parses to the statements `exit`, and for a
target function with body B, `insertRaw` returns the function with the body
`exit`, `enter`, B in this order, the statements of B as they were; the weaving
loop leaves the rule processor, and with it the registered trampoline-jumps,
as it was. -/
theorem insertRaw_prepends_snippets (rands : Nat → Nat → String)
    (generateTrampoline : InstFuncRule → FuncDecl → RuleProcessor → RuleProcessor × Option String)
    (ParseAstFromSnippet : String → Res (List Stmt)) (r : InstFuncRule) (decl : FuncDecl)
    (b : BlockStmt) (enter exit : List Stmt) (i : Nat) (rp : RuleProcessor)
    (hRaw : r.UseRaw = true)
    (hBody : decl.Body = some b)
    (hHook : r.OnEnter ≠ "" ∨ r.OnExit ≠ "")
    (hEnter : if r.OnEnter = "" then enter = []
      else ParseAstFromSnippet r.OnEnter = .ok enter)
    (hExit : if r.OnExit = "" then exit = []
      else ParseAstFromSnippet ("defer func()\x7b " ++ r.OnExit ++ " \x7d()") = .ok exit) :
    insertRaw ParseAstFromSnippet r decl
      = .ok { decl with Body := some (BlockStmt.mk (exit ++ (enter ++ b.List)) b.Decs) } ∧
    applyRulesLoop rands generateTrampoline ParseAstFromSnippet [r] i rp decl
      = .ok { funcDecl :=
                { decl with Body := some (BlockStmt.mk (exit ++ (enter ++ b.List)) b.Decs) },
              rp := rp, err := none } := by
  have ha : (r.OnEnter != "" || r.OnExit != "") = true := by
    rcases hHook with h | h <;> simp [h]
  have h1 : insertRaw ParseAstFromSnippet r decl
      = .ok { decl with Body := some (BlockStmt.mk (exit ++ (enter ++ b.List)) b.Decs) } := by
    obtain ⟨recv, name, typ, body⟩ := decl
    simp only at hBody
    subst hBody
    obtain ⟨bl, bd⟩ := b
    by_cases he : r.OnEnter = "" <;> by_cases hx : r.OnExit = ""
    · simp [he, hx] at ha
    · simp only [he, if_true] at hEnter
      simp only [hx, if_false] at hExit
      subst hEnter
      simp [insertRaw, util.Assert, ha, he, hx, hExit, prependToBody, bind, Except.bind, pure,
        Except.pure]
    · simp only [he, if_false] at hEnter
      simp only [hx, if_true] at hExit
      subst hExit
      simp [insertRaw, util.Assert, ha, he, hx, hEnter, prependToBody, bind, Except.bind, pure,
        Except.pure]
    · simp only [he, if_false] at hEnter
      simp only [hx, if_false] at hExit
      simp [insertRaw, util.Assert, ha, he, hx, hEnter, hExit, prependToBody, bind, Except.bind,
        pure, Except.pure, BlockStmt.List, BlockStmt.Decs]
  refine ⟨h1, ?_⟩
  simp only [applyRulesLoop, hRaw, if_true, h1]
  rfl

/-- Witness for C24: the entry snippet `println(1)` and the exit snippet
`println(2)` woven into the named-receiver method: the body starts with one
deferred call of an anonymous function that holds the exit snippet, followed
by the entry snippet and the statements the body had. -/
theorem insertRaw_prepends_snippets_witness :
    (insertRaw sampleSnippetParse ruleRaw namedReceiverMethod).map
        (fun d => d.Body.map (fun body => body.List))
      = .ok (namedReceiverMethod.Body.map (fun body =>
          [ast.DeferStmt (CallExpr.mk
              (Expr.FuncLit (FuncType.mk true none (FieldList.mk true [] true) none)
                (BlockStmt.mk [ast.ExprStmt (Expr.CallExpr (util.CallTo "println"
                  [Expr.BasicLit { Kind := Token.INT, Value := "2" }]))] noDecs)) [] false),
           ast.ExprStmt (Expr.CallExpr (util.CallTo "println"
              [Expr.BasicLit { Kind := Token.INT, Value := "1" }]))] ++ body.List)) ∧
    (applyRulesLoop sampleRands sampleGenerate sampleSnippetParse [ruleRaw] 0 emptyProcessor
        namedReceiverMethod).map (fun res => res.rp.trampolineJumps.length) = .ok 0 := by
  obtain ⟨h1, h2⟩ := insertRaw_prepends_snippets sampleRands sampleGenerate sampleSnippetParse
    ruleRaw namedReceiverMethod
    (match namedReceiverMethod.Body with
      | some body => body
      | none => BlockStmt.mk [] noDecs)
    [ast.ExprStmt (Expr.CallExpr (util.CallTo "println"
      [Expr.BasicLit { Kind := Token.INT, Value := "1" }]))]
    [ast.DeferStmt (CallExpr.mk
      (Expr.FuncLit (FuncType.mk true none (FieldList.mk true [] true) none)
        (BlockStmt.mk [ast.ExprStmt (Expr.CallExpr (util.CallTo "println"
          [Expr.BasicLit { Kind := Token.INT, Value := "2" }]))] noDecs)) [] false)]
    0 emptyProcessor rfl rfl (Or.inl (by decide)) rfl rfl
  rw [h1, h2]
  exact ⟨rfl, rfl⟩

/-! ## Inlining of the trampoline-jump -/

theorem replaceAllChars_skip (old new : List Char) (s : List Char) (n : Nat) :
    replaceAllChars old new s n = replaceAllChars old new (s.drop n) 0 := by
  induction s generalizing n with
  | nil => cases n <;> rfl
  | cons c cs ih =>
    cases n with
    | zero => rfl
    | succ n =>
      rw [replaceAllChars, ih n]
      rfl

theorem replaceAllChars_absent (old new : List Char) (s : List Char)
    (h : containsChars old s = false) : replaceAllChars old new s 0 = s := by
  induction s with
  | nil => rfl
  | cons c cs ih =>
    simp only [containsChars, Bool.or_eq_false_iff] at h
    rw [replaceAllChars]
    simp only [h.1, Bool.false_eq_true, if_false, ih h.2]

theorem firstMatch_none (old : List Char) (s : List Char) (h : firstMatch old s = none) :
    replaceAllChars old [] s 0 = s ∧ ∀ new, replaceAllChars old new s 0 = s := by
  have key : ∀ new, replaceAllChars old new s 0 = s := by
    intro new
    induction s with
    | nil => rfl
    | cons c cs ih =>
      simp only [firstMatch] at h
      split at h
      · simp at h
      · next hp =>
        simp only [Option.map_eq_none'] at h
        rw [replaceAllChars]
        simp only [hp, Bool.false_eq_true, if_false, ih h]
  exact ⟨key [], key⟩

theorem firstMatch_some (old new : List Char) (hold : old ≠ []) (s : List Char) (k : Nat)
    (h : firstMatch old s = some k) :
    replaceAllChars old new s 0
      = s.take k ++ new ++ replaceAllChars old new (s.drop (k + old.length)) 0 ∧
    (s.drop (k + old.length)).length < s.length := by
  induction s generalizing k with
  | nil => simp [firstMatch] at h
  | cons c cs ih =>
    simp only [firstMatch] at h
    split at h
    · next hp =>
      have hk : k = 0 := by
        injection h with h
        exact h.symm
      subst hk
      obtain ⟨o, os, rfl⟩ := List.exists_cons_of_ne_nil hold
      constructor
      · rw [replaceAllChars]
        simp only [hp, if_true, List.length_cons, Nat.add_sub_cancel, List.take_zero,
          List.nil_append, Nat.zero_add, List.drop_succ_cons]
        rw [replaceAllChars_skip]
      · simp only [List.length_cons, Nat.zero_add, List.drop_succ_cons, List.length_drop]
        omega
    · next hp =>
      cases hj : firstMatch old cs with
      | none => simp [hj] at h
      | some j =>
        simp only [hj, Option.map_some', Option.some.injEq] at h
        subst h
        obtain ⟨h1, h2⟩ := ih j hj
        constructor
        · rw [replaceAllChars]
          simp only [hp, Bool.false_eq_true, if_false, h1]
          have e : j + 1 + old.length = (j + old.length) + 1 := by omega
          simp only [e, List.take_succ_cons, List.drop_succ_cons, List.cons_append]
        · have e : j + 1 + old.length = (j + old.length) + 1 := by omega
          simp only [e, List.drop_succ_cons, List.length_cons]
          omega

theorem replaceAllChars_eq_replaceEachMatch (old new : List Char) (hold : old ≠ [])
    (fuel : Nat) (s : List Char) (hf : s.length < fuel) :
    replaceAllChars old new s 0 = replaceEachMatch old new fuel s := by
  induction fuel generalizing s with
  | zero => omega
  | succ fuel ih =>
    rw [replaceEachMatch]
    cases hm : firstMatch old s with
    | none => exact (firstMatch_none old s hm).2 new
    | some k =>
      obtain ⟨h1, h2⟩ := firstMatch_some old new hold s k hm
      rw [h1, ih _ (by omega)]

theorem ReplaceAllString_eq (pattern src repl old : String)
    (hlit : regexp.literal pattern.data = old.data) (hold : old.data ≠ []) :
    regexp.ReplaceAllString pattern src repl = replaceAllLiteral src old repl := by
  unfold regexp.ReplaceAllString replaceAllLiteral
  rw [hlit, replaceAllChars_eq_replaceEachMatch _ _ hold _ _ (Nat.lt_succ_self _)]

theorem ReplaceAllString_absent (pattern src repl old : String)
    (hlit : regexp.literal pattern.data = old.data)
    (h : strings.Contains src old = false) :
    regexp.ReplaceAllString pattern src repl = src := by
  unfold regexp.ReplaceAllString
  rw [hlit, replaceAllChars_absent _ _ _ h]

/-- Claim C25: the text `inliningTJump` writes is the text read after three
replace-all substitutions in this order: the no-newline marker followed by a
line break becomes a space, the semicolon marker followed by a line break
becomes ";", and the anchor label is deleted; a text that contains none of the
three is written as it was read. -/
theorem inliningTJump_substitutions (ReadFile : String → Res String) (filePath text : String)
    (hRead : ReadFile filePath = .ok text) :
    inliningTJump ReadFile filePath
      = .ok (replaceAllLiteral
          (replaceAllLiteral
            (replaceAllLiteral text (TrampolineNoNewlinePlaceholder ++ "\n") " ")
            (TrampolineSemicolonPlaceholder ++ "\n") ";")
          TrampolineJumpIfDesc "") ∧
    (strings.Contains text (TrampolineNoNewlinePlaceholder ++ "\n") = false →
      strings.Contains text (TrampolineSemicolonPlaceholder ++ "\n") = false →
      strings.Contains text TrampolineJumpIfDesc = false →
      inliningTJump ReadFile filePath = .ok text) := by
  have l1 : regexp.literal TrampolineNoNewlinePlaceholderRegexp.data
      = (TrampolineNoNewlinePlaceholder ++ "\n").data := by decide
  have l2 : regexp.literal TrampolineSemicolonPlaceholderRegexp.data
      = (TrampolineSemicolonPlaceholder ++ "\n").data := by decide
  have l3 : regexp.literal TrampolineJumpIfDescRegexp.data = TrampolineJumpIfDesc.data := by
    decide
  have hrun : inliningTJump ReadFile filePath
      = .ok (regexp.ReplaceAllString TrampolineJumpIfDescRegexp
          (regexp.ReplaceAllString TrampolineSemicolonPlaceholderRegexp
            (regexp.ReplaceAllString TrampolineNoNewlinePlaceholderRegexp text " ") ";") "") := by
    simp only [inliningTJump, hRead, bind, Except.bind, pure, Except.pure]
  constructor
  · rw [hrun, ReplaceAllString_eq _ _ _ _ l1 (by decide),
      ReplaceAllString_eq _ _ _ _ l2 (by decide), ReplaceAllString_eq _ _ _ _ l3 (by decide)]
  · intro h1 h2 h3
    rw [hrun, ReplaceAllString_absent _ _ _ _ l1 h1, ReplaceAllString_absent _ _ _ _ l2 h2,
      ReplaceAllString_absent _ _ _ _ l3 h3]

set_option maxRecDepth 100000 in
/-- Witness for C25: a woven if-statement with the three markers is joined to
one line. -/
theorem inliningTJump_substitutions_witness :
    inliningTJump sampleReadFile "svc.go"
      = .ok "if a, b := f(); b  \x7b\ng() ; return\x7d /* SEMICOLON_PLACEHOLDER */" :=
  ((inliningTJump_substitutions sampleReadFile "svc.go" _ rfl).1).trans rfl

/-! ## The trampoline-jump registered by `insertTJump` in the optimisation pass -/

theorem insertTJump_registers (rand : Nat → String)
    (generateTrampoline : InstFuncRule → FuncDecl → RuleProcessor → RuleProcessor × Option String)
    (rp : RuleProcessor) (t : InstFuncRule) (funcDecl : FuncDecl) (r : InsertResult)
    (h : insertTJump rand generateTrampoline rp t funcDecl = .ok r) :
    ∃ rp2 after, r.rp = (generateTrampoline t r.funcDecl rp2).1 ∧
      rp2.trampolineJumps = rp.trampolineJumps ++
        [registeredTJump rand t funcDecl r.funcDecl [] after] := by
  obtain ⟨hHook, hRecv⟩ := insertTJump_ok_inv rand generateTrampoline rp t funcDecl r h
  have hA : (t.OnEnter != "" || t.OnExit != "") = true := by
    rcases hHook with h | h <;> simp [h]
  obtain ⟨l, hl, hargs⟩ : ∃ l, recvArgs funcDecl = .ok l ∧
      l ++ paramArgs funcDecl.Typ.Params.List = enterArgs funcDecl :=
    ⟨_, recvArgs_eq funcDecl hRecv, by
      simp only [paramArgs_eq, enterArgs, receiverAndParamNames, List.map_append]⟩
  unfold insertTJump at h
  cases hb : funcDecl.Body with
  | none =>
    simp [util.Assert, hA, bind, Except.bind, pure, Except.pure, hl, hb,
      fatal] at h
  | some b =>
    obtain ⟨stmts, bdecs⟩ := b
    simp only [util.Assert, hA, if_true, bind, Except.bind, pure, Except.pure,
      hl, hb, BlockStmt.List,
      (makeName_cons rp t _).1, (makeName_cons rp t _).2,
      (nameReturnVals_eq rand funcDecl).1, (nameReturnVals_eq rand funcDecl).2, hargs,
      (buildTJump_eq_of _ _ _ _).1, (buildTJump_eq_of _ _ _ _).2] at h
    split at h
    · simp at h
    · next nested hn =>
      simp only [Except.ok.injEq] at h
      subst h
      cases nested with
      | none =>
        refine ⟨_, SpaceType.EmptyLine, rfl, ?_⟩
        simp only [registeredTJump, exitRetVals]
        rfl
      | some list =>
        refine ⟨_, SpaceType.None, rfl, ?_⟩
        simp only [registeredTJump, exitRetVals]

/-! ## Identifiers referenced inside a trampoline-jump -/

theorem mentions_addr (v : String) (r : Expr) :
    mentions v (Expr.UnaryExpr Token.AND r) = mentions v r := by
  unfold mentions
  rw [reachExpr]
  simp [reachNode, Node.isIdentNamed]

theorem any_reachExprList (v : String) (l : List Expr) :
    (reachExprList (fun _ => false) l).any (Node.isIdentNamed v) = l.any (mentions v) := by
  induction l with
  | nil => rw [reachExprList]; rfl
  | cons e es ih =>
    rw [reachExprList]
    simp only [List.any_append, ih, List.any_cons, mentions]

theorem any_reachExprList_addr (v : String) (l : List Expr) :
    (reachExprList (fun _ => false) (l.map (fun r => Expr.UnaryExpr Token.AND r))).any
      (Node.isIdentNamed v) = l.any (mentions v) := by
  rw [any_reachExprList, List.any_map]
  congr 1

theorem any_reachCall (v : String) (fn : Expr) (args : List Expr) (ell : Bool) :
    (reachCall (fun _ => false) (CallExpr.mk fn args ell)).any (Node.isIdentNamed v)
      = (mentions v fn || args.any (mentions v)) := by
  rw [reachCall]
  simp [reachNode, Node.isIdentNamed, List.any_append, any_reachExprList, mentions]

theorem mentions_ident (v name : String) :
    mentions v (Expr.Ident { Name := name }) = (name == v) := by
  unfold mentions
  rw [reachExpr]
  simp [reachNode, Node.isIdentNamed]

theorem any_exitCall (v exitName ctx : String) (retVals : List Expr) :
    (reachCall (fun _ => false) (standardExitCall exitName ctx retVals)).any
      (Node.isIdentNamed v)
      = (exitName == v || (ctx == v || retVals.any (mentions v))) := by
  unfold standardExitCall
  rw [any_reachCall, List.any_cons, mentions_ident, mentions_ident, List.any_map]
  congr 2

theorem canFlattenTJump_total (hookFunc : FuncDecl) (paramName : String) (body : BlockStmt)
    (hParam : firstParamName hookFunc = .ok paramName) (hBody : hookFunc.Body = some body) :
    ∃ b, canFlattenTJump hookFunc = .ok b := by
  rw [canFlattenTJump_eq, hParam, hBody]
  simp only
  split
  · exact ⟨_, rfl⟩
  · split
    · exact ⟨_, rfl⟩
    · exact ⟨_, rfl⟩

theorem newCallContextImpl_congr (h : Helpers) (t1 t2 : TJump)
    (hT : t1.target = t2.target) (hR : t1.rule = t2.rule) :
    newCallContextImpl h t1 = newCallContextImpl h t2 := by
  unfold newCallContextImpl
  rw [hT, hR]

theorem any_block_empty (v : String) :
    (reachBlock (fun _ => false) (ast.Block ast.EmptyStmt)).any (Node.isIdentNamed v) = false := by
  rfl

theorem any_boolFalse (v : String) :
    (reachExpr (fun _ => false) ast.BoolFalse).any (Node.isIdentNamed v) = false := by
  rfl

theorem any_ident (v name : String) :
    (reachExpr (fun _ => false) (Expr.Ident { Name := name })).any (Node.isIdentNamed v)
      = (name == v) := mentions_ident v name

theorem any_thenBranch (v ex ctx : String) (retVals : List Expr) (d1 d2 d3 : NodeDecs) :
    (reachBlock (fun _ => false) (BlockStmt.mk
      [Stmt.ExprStmt (Expr.CallExpr (standardExitCall ex ctx retVals)) d1,
       Stmt.ReturnStmt retVals d2] d3)).any (Node.isIdentNamed v)
      = (ex == v || (ctx == v || retVals.any (mentions v)) || retVals.any (mentions v)) := by
  rw [reachBlock, reachStmtList, reachStmtList, reachStmtList, reachStmt, reachStmt, reachExpr]
  simp only [reachNode, Bool.false_eq_true, if_false, List.any_cons, List.any_append,
    List.append_nil, Node.isIdentNamed, Bool.false_or, any_exitCall, any_reachExprList]

theorem deferredCallNodes_defer (call : CallExpr) (d : NodeDecs) (rest : List Stmt) :
    deferredCallNodes (Stmt.DeferStmt call d :: rest)
      = reachCall (fun _ => false) call ++ deferredCallNodes rest := rfl

theorem deferredCallNodes_empty (rest : List Stmt) :
    deferredCallNodes (ast.EmptyStmt :: rest) = deferredCallNodes rest := rfl

theorem wellScoped_standard (h : Helpers) (rp : RuleProcessor) (target : FuncDecl)
    (t : InstFuncRule) (en ex ctx skip : String) (args retVals : List Expr)
    (nested : List Stmt) (after : SpaceType) (res : RuleProcessor × TJump)
    (hHook : t.OnEnter ≠ "" ∨ t.OnExit ≠ "")
    (hxc : (ex == ctx) = false) (hxs : (ex == skip) = false) (hcs : (ctx == skip) = false)
    (hRetC : retVals.any (mentions ctx) = false) (hRetS : retVals.any (mentions skip) = false)
    (hLitC : t.OnEnter = "" → ∀ i, mentions ctx (newCallContextImpl h
      { target := target, ifStmt := i, rule := t }) = false)
    (hLitS : t.OnEnter = "" → ∀ i, mentions skip (newCallContextImpl h
      { target := target, ifStmt := i, rule := t }) = false)
    (hNested : deferredCallNodes nested = [])
    (hopt : optimizeTJump h rp
      { target := target, ifStmt := standardTJump en ex ctx skip args retVals nested after,
        rule := t } = .ok res) :
    wellScoped ctx skip res.2.ifStmt := by
  have haddr : ∀ v, (mentions v ∘ fun r => Expr.UnaryExpr Token.AND r) = mentions v := by
    intro v
    funext r
    exact mentions_addr v r
  have hcc : (ctx == ctx) = true := beq_self_eq_true ctx
  have hss : (skip == skip) = true := beq_self_eq_true skip
  by_cases hE : t.OnEnter = ""
  · have hX : t.OnExit ≠ "" := by
      rcases hHook with h1 | h1
      · exact absurd hE h1
      · exact h1
    have hX1 : (t.OnExit == "") = false := by simpa using hX
    have hLitC := hLitC hE
    have hLitS := hLitS hE
    simp only [optimizeTJump, mustTJump, standardTJump, stripTJumpLabel, IfStmt.Decs, util.Assert,
      List.length_singleton, decide_True, if_true, TJumpLabel, TrampolineJumpIfDesc, bind,
      Except.bind, pure,
      Except.pure, hE, hX1, beq_self_eq_true, Bool.false_eq_true, if_false,
      removeOnEnterTrampolineCall, replaceCallContext, standardExitCall, bne_self_eq_false] at hopt
    cases hd : removeDeclWhen (isFuncDeclNamed (h.makeName t target true)) rp.target.Decls with
    | none => simp [hd, failWith] at hopt
    | some p =>
      obtain ⟨x, decls⟩ := p
      simp only [hd, Except.ok.injEq] at hopt
      subst hopt
      simp only [wellScoped, references, scopeNodes, declaredNames, elseList, IfStmt.Init,
        BlockStmt.List,
        IfStmt.Cond, IfStmt.Body, List.any_append, any_block_empty, any_boolFalse,
        deferredCallNodes_defer, hNested, List.any_nil, Bool.or_false, Bool.false_or,
        any_reachCall, List.any_cons, mentions_ident, List.any_map, hxc, hxs, hLitC, hLitS,
        haddr, hRetC, hRetS]
      simp
  · have hE1 : (t.OnEnter == "") = false := by simpa using hE
    have hE2 : (t.OnEnter != "") = true := by simpa using hE
    cases hH : h.getHookFunc t true with
    | error e =>
      by_cases hX : t.OnExit = ""
      · simp [optimizeTJump, mustTJump, standardTJump, stripTJumpLabel, IfStmt.Decs,
            util.Assert, TJumpLabel,
          TrampolineJumpIfDesc, bind, Except.bind, pure, Except.pure, hE1, hE2, hX, hH,
          removeOnExitTrampolineCall, removeFirstDefer] at hopt
      · have hX1 : (t.OnExit == "") = false := by simpa using hX
        simp [optimizeTJump, mustTJump, standardTJump, stripTJumpLabel, IfStmt.Decs,
            util.Assert, TJumpLabel,
          TrampolineJumpIfDesc, bind, Except.bind, pure, Except.pure, hE1, hE2, hX1, hH] at hopt
    | ok hook =>
      cases hC : canFlattenTJump hook with
      | error e =>
        by_cases hX : t.OnExit = ""
        · simp [optimizeTJump, mustTJump, standardTJump, stripTJumpLabel, IfStmt.Decs,
            util.Assert, TJumpLabel,
            TrampolineJumpIfDesc, bind, Except.bind, pure, Except.pure, hE1, hE2, hX, hH, hC,
            removeOnExitTrampolineCall, removeFirstDefer] at hopt
        · have hX1 : (t.OnExit == "") = false := by simpa using hX
          simp [optimizeTJump, mustTJump, standardTJump, stripTJumpLabel, IfStmt.Decs,
            util.Assert,
            TJumpLabel, TrampolineJumpIfDesc, bind, Except.bind, pure, Except.pure, hE1, hE2,
            hX1, hH, hC] at hopt
      | ok b =>
        by_cases hX : t.OnExit = ""
        · cases b with
          | false =>
            simp only [optimizeTJump, mustTJump, standardTJump, stripTJumpLabel, IfStmt.Decs,
              util.Assert, List.length_singleton, decide_True, if_true, TJumpLabel,
              TrampolineJumpIfDesc, bind, Except.bind, pure, Except.pure, hE1, hE2, hX, hH, hC,
              beq_self_eq_true, Bool.false_eq_true, if_false, removeOnExitTrampolineCall,
              removeFirstDefer, Except.ok.injEq] at hopt
            subst hopt
            simp only [wellScoped, references, scopeNodes, declaredNames, elseList, IfStmt.Init,
              BlockStmt.List, IfStmt.Cond, IfStmt.Body, List.any_append, any_ident,
              any_thenBranch, deferredCallNodes_empty, hNested, List.any_nil, Bool.or_false,
              List.filterMap_cons, List.filterMap_nil, identName, hcc, hss]
            simp
          | true =>
            simp only [optimizeTJump, mustTJump, standardTJump, stripTJumpLabel, IfStmt.Decs,
              util.Assert, List.length_singleton, decide_True, if_true, TJumpLabel,
              TrampolineJumpIfDesc, bind, Except.bind, pure, Except.pure, hE1, hE2, hX, hH, hC,
              beq_self_eq_true, Bool.false_eq_true, if_false, removeOnExitTrampolineCall,
              removeFirstDefer, flattenTJump, Except.ok.injEq] at hopt
            subst hopt
            simp only [wellScoped, references, scopeNodes, declaredNames, elseList, IfStmt.Init,
              BlockStmt.List, IfStmt.Cond, IfStmt.Body, List.any_append, any_boolFalse,
              any_block_empty, deferredCallNodes_empty, hNested, List.any_nil, Bool.or_false]
            simp [ast.ExprStmt]
        · have hX1 : (t.OnExit == "") = false := by simpa using hX
          cases b with
          | false =>
            simp only [optimizeTJump, mustTJump, standardTJump, stripTJumpLabel, IfStmt.Decs,
              util.Assert, List.length_singleton, decide_True, if_true, TJumpLabel,
              TrampolineJumpIfDesc, bind, Except.bind, pure, Except.pure, hE1, hE2, hX1, hH, hC,
              beq_self_eq_true, Bool.false_eq_true, if_false, Except.ok.injEq] at hopt
            subst hopt
            simp only [wellScoped, references, scopeNodes, declaredNames, elseList, IfStmt.Init,
              BlockStmt.List, IfStmt.Cond, IfStmt.Body, List.any_append, any_ident,
              any_thenBranch, deferredCallNodes_defer, any_exitCall, hNested, List.any_nil,
              Bool.or_false, List.filterMap_cons, List.filterMap_nil, identName, hcc, hss]
            simp
          | true =>
            simp only [optimizeTJump, mustTJump, standardTJump, stripTJumpLabel, IfStmt.Decs,
              util.Assert, List.length_singleton, decide_True, if_true, TJumpLabel,
              TrampolineJumpIfDesc, bind, Except.bind, pure, Except.pure, hE1, hE2, hX1, hH, hC,
              beq_self_eq_true, Bool.false_eq_true, if_false, flattenTJump,
              Except.ok.injEq] at hopt
            subst hopt
            simp only [wellScoped, references, scopeNodes, declaredNames, elseList, IfStmt.Init,
              BlockStmt.List, IfStmt.Cond, IfStmt.Body, List.any_append, any_boolFalse,
              any_block_empty, deferredCallNodes_defer, any_exitCall, hNested, List.any_nil,
              Bool.or_false, Bool.false_or, List.filterMap_cons, List.filterMap_nil, identName,
              ast.MakeUnusedIdent, ast.IdentIgnore, hcc, hxs, hcs, hRetS]
            simp

theorem optimizeTJump_standard_total (h : Helpers) (rp : RuleProcessor) (target : FuncDecl)
    (t : InstFuncRule) (en ex ctx skip : String) (args retVals : List Expr)
    (nested : List Stmt) (after : SpaceType)
    (hHook : t.OnEnter ≠ "" ∨ t.OnExit ≠ "")
    (hHookFn : t.OnEnter ≠ "" → ∃ hookFunc paramName body,
      h.getHookFunc t true = .ok hookFunc ∧ firstParamName hookFunc = .ok paramName ∧
      hookFunc.Body = some body) :
    (∃ res, optimizeTJump h rp
      { target := target, ifStmt := standardTJump en ex ctx skip args retVals nested after,
        rule := t } = .ok res) ∨
    (t.OnEnter = "" ∧
      removeDeclWhen (isFuncDeclNamed (h.makeName t target true)) rp.target.Decls = none ∧
      optimizeTJump h rp
        { target := target, ifStmt := standardTJump en ex ctx skip args retVals nested after,
          rule := t } = failWith "onEnter trampoline not found") := by
  by_cases hE : t.OnEnter = ""
  · have hX : t.OnExit ≠ "" := by
      rcases hHook with h1 | h1
      · exact absurd hE h1
      · exact h1
    have hX1 : (t.OnExit == "") = false := by simpa using hX
    simp only [optimizeTJump, mustTJump, standardTJump, stripTJumpLabel, IfStmt.Decs, util.Assert,
      List.length_singleton, decide_True, if_true, TJumpLabel, TrampolineJumpIfDesc, bind,
      Except.bind, pure,
      Except.pure, hE, hX1, beq_self_eq_true, Bool.false_eq_true, if_false,
      removeOnEnterTrampolineCall, replaceCallContext, standardExitCall, bne_self_eq_false]
    cases hd : removeDeclWhen (isFuncDeclNamed (h.makeName t target true)) rp.target.Decls with
    | none => exact Or.inr ⟨trivial, rfl, rfl⟩
    | some p => exact Or.inl ⟨_, rfl⟩
  · obtain ⟨hook, paramName, body, hH, hP, hB⟩ := hHookFn hE
    obtain ⟨b, hC⟩ := canFlattenTJump_total hook paramName body hP hB
    have hE1 : (t.OnEnter == "") = false := by simpa using hE
    have hE2 : (t.OnEnter != "") = true := by simpa using hE
    left
    by_cases hX : t.OnExit = ""
    · cases b with
      | false =>
        simp only [optimizeTJump, mustTJump, standardTJump, stripTJumpLabel, IfStmt.Decs,
          util.Assert, List.length_singleton, decide_True, if_true, TJumpLabel,
          TrampolineJumpIfDesc, bind, Except.bind, pure, Except.pure, hE1, hE2, hX, hH, hC,
          beq_self_eq_true, Bool.false_eq_true, if_false, removeOnExitTrampolineCall,
          removeFirstDefer]
        exact ⟨_, rfl⟩
      | true =>
        simp only [optimizeTJump, mustTJump, standardTJump, stripTJumpLabel, IfStmt.Decs,
          util.Assert, List.length_singleton, decide_True, if_true, TJumpLabel,
          TrampolineJumpIfDesc, bind, Except.bind, pure, Except.pure, hE1, hE2, hX, hH, hC,
          beq_self_eq_true, Bool.false_eq_true, if_false, removeOnExitTrampolineCall,
          removeFirstDefer, flattenTJump]
        exact ⟨_, rfl⟩
    · have hX1 : (t.OnExit == "") = false := by simpa using hX
      cases b with
      | false =>
        simp only [optimizeTJump, mustTJump, standardTJump, stripTJumpLabel, IfStmt.Decs,
          util.Assert, List.length_singleton, decide_True, if_true, TJumpLabel,
          TrampolineJumpIfDesc, bind, Except.bind, pure, Except.pure, hE1, hE2, hX1, hH, hC,
          beq_self_eq_true, Bool.false_eq_true, if_false]
        exact ⟨_, rfl⟩
      | true =>
        simp only [optimizeTJump, mustTJump, standardTJump, stripTJumpLabel, IfStmt.Decs,
          util.Assert, List.length_singleton, decide_True, if_true, TJumpLabel,
          TrampolineJumpIfDesc, bind, Except.bind, pure, Except.pure, hE1, hE2, hX1, hH, hC,
          beq_self_eq_true, Bool.false_eq_true, if_false, flattenTJump]
        exact ⟨_, rfl⟩

theorem standardTJump_checks (target : FuncDecl) (t : InstFuncRule) (en ex ctx skip : String)
    (args retVals : List Expr) (nested : List Stmt) (after : SpaceType) :
    mustTJump (standardTJump en ex ctx skip args retVals nested after) = .ok () ∧
    removeFirstDefer (elseList (standardTJump en ex ctx skip args retVals nested after))
      = .ok (ast.EmptyStmt :: nested) ∧
    (∀ c, ∃ call decs,
      replaceCallContext c (elseList (standardTJump en ex ctx skip args retVals nested after))
        = .ok (some (Stmt.DeferStmt call decs :: nested)) ∧
      call.Args = c :: retVals.map (fun r => Expr.UnaryExpr Token.AND r)) ∧
    (∃ t1 t2, removeOnExitTrampolineCall (stripTJumpLabel
        { target := target, ifStmt := standardTJump en ex ctx skip args retVals nested after,
          rule := t }) = .ok t1 ∧
      elseList t1.ifStmt = ast.EmptyStmt :: nested ∧
      flattenTJump t1 true = .ok t2) ∧
    (∃ t2, flattenTJump (stripTJumpLabel
        { target := target, ifStmt := standardTJump en ex ctx skip args retVals nested after,
          rule := t }) false = .ok t2) := by
  refine ⟨?_, rfl, fun c => ⟨_, _, rfl, rfl⟩, ⟨_, _, rfl, rfl, rfl⟩, ⟨_, rfl⟩⟩
  simp [mustTJump, standardTJump, IfStmt.Decs, util.Assert, TJumpLabel, TrampolineJumpIfDesc,
    bind, Except.bind, pure, Except.pure]

theorem jumpNames_distinct (t : InstFuncRule) (sfx : String) :
    ((jumpNames t sfx).exit == (jumpNames t sfx).ctx) = false ∧
    ((jumpNames t sfx).exit == (jumpNames t sfx).skip) = false ∧
    ((jumpNames t sfx).ctx == (jumpNames t sfx).skip) = false := by
  refine ⟨?_, ?_, ?_⟩ <;>
  · rw [beq_eq_false_iff_ne]
    intro h
    have := congrArg String.data h
    simp [jumpNames, String.data_append] at this

/-- Claim C27: for the trampoline-jump `insertTJump` registers for a rule and
a target function, found by the optimisation pass with any statements nested
after its deferred exit call, and for an entry hook with a named first
parameter and a body, no invariant check of the pass fails: the anchor check
passes, `removeOnExitTrampolineCall` meets the defer statement first,
`removeOnEnterTrampolineCall` finds the defer statement with its arguments,
`flattenTJump` finds the assignment with two left-hand sides, and the
iteration returns a result or the error that the entry trampoline is not in
the file. -/
theorem optimizeTJump_invariants_hold (h : Helpers) (rand : Nat → String)
    (generateTrampoline : InstFuncRule → FuncDecl → RuleProcessor → RuleProcessor × Option String)
    (rp0 rp : RuleProcessor) (t : InstFuncRule) (funcDecl target : FuncDecl)
    (r : InsertResult) (nested : List Stmt)
    (hInsert : insertTJump rand generateTrampoline rp0 t funcDecl = .ok r)
    (hHookFn : t.OnEnter ≠ "" → ∃ hookFunc paramName body,
      h.getHookFunc t true = .ok hookFunc ∧ firstParamName hookFunc = .ok paramName ∧
      hookFunc.Body = some body) :
    ∃ (rp2 : RuleProcessor) (after : SpaceType),
      r.rp = (generateTrampoline t r.funcDecl rp2).1 ∧
      rp2.trampolineJumps = rp0.trampolineJumps ++
        [registeredTJump rand t funcDecl r.funcDecl [] after] ∧
      mustTJump (registeredTJump rand t funcDecl target nested after).ifStmt = .ok () ∧
      removeFirstDefer (elseList (registeredTJump rand t funcDecl target nested after).ifStmt)
        = .ok (ast.EmptyStmt :: nested) ∧
      (∀ c, ∃ call decs,
        replaceCallContext c
            (elseList (registeredTJump rand t funcDecl target nested after).ifStmt)
          = .ok (some (Stmt.DeferStmt call decs :: nested)) ∧
        call.Args = c :: (exitRetVals rand funcDecl).map (fun x => Expr.UnaryExpr Token.AND x)) ∧
      (∃ t1 t2, removeOnExitTrampolineCall
            (stripTJumpLabel (registeredTJump rand t funcDecl target nested after)) = .ok t1 ∧
        elseList t1.ifStmt = ast.EmptyStmt :: nested ∧
        flattenTJump t1 true = .ok t2) ∧
      (∃ t2, flattenTJump
        (stripTJumpLabel (registeredTJump rand t funcDecl target nested after)) false = .ok t2) ∧
      ((∃ res, optimizeTJump h rp (registeredTJump rand t funcDecl target nested after)
          = .ok res) ∨
        (t.OnEnter = "" ∧
          removeDeclWhen (isFuncDeclNamed (h.makeName t target true)) rp.target.Decls = none ∧
          optimizeTJump h rp (registeredTJump rand t funcDecl target nested after)
            = failWith "onEnter trampoline not found")) := by
  obtain ⟨rp2, after, h1, h2⟩ :=
    insertTJump_registers rand generateTrampoline rp0 t funcDecl r hInsert
  obtain ⟨hHook, _⟩ := insertTJump_ok_inv rand generateTrampoline rp0 t funcDecl r hInsert
  obtain ⟨c1, c2, c3, c4, c5⟩ := standardTJump_checks target t
    (jumpNames t (rand (unnamedCount (resultFields funcDecl)))).enter
    (jumpNames t (rand (unnamedCount (resultFields funcDecl)))).exit
    (jumpNames t (rand (unnamedCount (resultFields funcDecl)))).ctx
    (jumpNames t (rand (unnamedCount (resultFields funcDecl)))).skip
    (enterArgs funcDecl) (exitRetVals rand funcDecl) nested after
  exact ⟨rp2, after, h1, h2, c1, c2, c3, c4, c5,
    optimizeTJump_standard_total h rp target t _ _ _ _ _ _ nested after hHook hHookFn⟩

/-- Witness for C27: the sample rule with both hooks woven into the sample
method, and an entry hook that only calls a method of its call context. -/
theorem optimizeTJump_invariants_hold_witness :
    insertTJump (sampleRands 0) sampleGenerate emptyProcessor ruleA namedReceiverMethod
      = .ok wovenOnce ∧
    ∃ (rp2 : RuleProcessor) (after : SpaceType),
      rp2.trampolineJumps = emptyProcessor.trampolineJumps ++
        [registeredTJump (sampleRands 0) ruleA namedReceiverMethod wovenOnce.funcDecl []
          after] ∧
      mustTJump (registeredTJump (sampleRands 0) ruleA namedReceiverMethod wovenOnce.funcDecl
        [] after).ifStmt = .ok () ∧
      ∃ res, optimizeTJump (sampleHelpers hookUsingReceiverOnly) sampleProcessor
        (registeredTJump (sampleRands 0) ruleA namedReceiverMethod wovenOnce.funcDecl []
          after) = .ok res := by
  obtain ⟨rp2, after, _, h2, h3, _, _, _, _, h8⟩ := optimizeTJump_invariants_hold
    (sampleHelpers hookUsingReceiverOnly) (sampleRands 0) sampleGenerate emptyProcessor
    sampleProcessor ruleA namedReceiverMethod wovenOnce.funcDecl wovenOnce []
    rfl (fun _ => ⟨hookUsingReceiverOnly, "ictx", receiverOnlyBody, rfl, rfl, rfl⟩)
  refine ⟨rfl, rp2, after, h2, h3, ?_⟩
  rcases h8 with h8 | ⟨hE, _⟩
  · exact h8
  · exact absurd hE (by decide)

/-- Claim C28: after the iteration of the optimisation pass for a
trampoline-jump registered by `insertTJump`, whatever hooks the rule names and
whatever the escape analysis answers, the if-statement is well scoped: the
call-context variable and the skip variable are referenced in the condition,
the then-branch or the deferred exit call only if the init statement declares
them, and every variable the init statement declares under a name other than
`_` is referenced there.  The two variables are assumed to be fresh: no return
value and, for a rule without entry hook, no part of the context literal has
their name. -/
theorem optimizeTJump_well_scoped (h : Helpers) (rp : RuleProcessor) (rand : Nat → String)
    (t : InstFuncRule) (funcDecl target : FuncDecl) (nested : List Stmt) (after : SpaceType)
    (res : RuleProcessor × TJump)
    (hHook : t.OnEnter ≠ "" ∨ t.OnExit ≠ "")
    (hRetCtx : (exitRetVals rand funcDecl).any
      (mentions (jumpNames t (rand (unnamedCount (resultFields funcDecl)))).ctx) = false)
    (hRetSkip : (exitRetVals rand funcDecl).any
      (mentions (jumpNames t (rand (unnamedCount (resultFields funcDecl)))).skip) = false)
    (hLitCtx : t.OnEnter = "" →
      mentions (jumpNames t (rand (unnamedCount (resultFields funcDecl)))).ctx
        (newCallContextImpl h (registeredTJump rand t funcDecl target nested after)) = false)
    (hLitSkip : t.OnEnter = "" →
      mentions (jumpNames t (rand (unnamedCount (resultFields funcDecl)))).skip
        (newCallContextImpl h (registeredTJump rand t funcDecl target nested after)) = false)
    (hNested : deferredCallNodes nested = [])
    (hOpt : optimizeTJump h rp (registeredTJump rand t funcDecl target nested after) = .ok res) :
    wellScoped (jumpNames t (rand (unnamedCount (resultFields funcDecl)))).ctx
      (jumpNames t (rand (unnamedCount (resultFields funcDecl)))).skip res.2.ifStmt := by
  obtain ⟨d1, d2, d3⟩ := jumpNames_distinct t (rand (unnamedCount (resultFields funcDecl)))
  refine wellScoped_standard h rp target t
    (jumpNames t (rand (unnamedCount (resultFields funcDecl)))).enter
    (jumpNames t (rand (unnamedCount (resultFields funcDecl)))).exit _ _
    (enterArgs funcDecl) (exitRetVals rand funcDecl) nested after res hHook d1 d2 d3
    hRetCtx hRetSkip ?_ ?_ hNested hOpt
  · intro hE i
    rw [newCallContextImpl_congr h { target := target, ifStmt := i, rule := t }
      (registeredTJump rand t funcDecl target nested after) rfl rfl]
    exact hLitCtx hE
  · intro hE i
    rw [newCallContextImpl_congr h { target := target, ifStmt := i, rule := t }
      (registeredTJump rand t funcDecl target nested after) rfl rfl]
    exact hLitSkip hE

set_option maxRecDepth 100000 in
/-- Witness for C28: the sample method woven for the rule with both hooks and
an entry hook whose call context does not escape, and woven for the rule
with an exit hook only. -/
theorem optimizeTJump_well_scoped_witness :
    (∃ res, optimizeTJump (sampleHelpers hookUsingReceiverOnly) sampleProcessor
        (registeredTJump (sampleRands 0) ruleA namedReceiverMethod wovenOnce.funcDecl []
          SpaceType.EmptyLine) = .ok res ∧
      declaredNames res.2.ifStmt = ["callContextrxxx", "_"] ∧
      wellScoped "callContextrxxx" "skiprxxx" res.2.ifStmt) ∧
    (∃ res, optimizeTJump (sampleHelpers hookUsingReceiverOnly) sampleProcessor
        (registeredTJump (sampleRands 0) ruleExitOnly namedReceiverMethod wovenOnce.funcDecl []
          SpaceType.EmptyLine) = .ok res ∧
      declaredNames res.2.ifStmt = [] ∧
      wellScoped "callContextrxxx" "skiprxxx" res.2.ifStmt) := by
  constructor
  · refine ⟨_, rfl, rfl, ?_⟩
    exact optimizeTJump_well_scoped (sampleHelpers hookUsingReceiverOnly) sampleProcessor
      (sampleRands 0) ruleA namedReceiverMethod wovenOnce.funcDecl [] SpaceType.EmptyLine _
      (Or.inl (by decide)) rfl rfl (fun e => absurd e (by decide))
      (fun e => absurd e (by decide)) rfl rfl
  · refine ⟨_, rfl, rfl, ?_⟩
    exact optimizeTJump_well_scoped (sampleHelpers hookUsingReceiverOnly) sampleProcessor
      (sampleRands 0) ruleExitOnly namedReceiverMethod wovenOnce.funcDecl [] SpaceType.EmptyLine _
      (Or.inr (by decide)) rfl rfl (fun _ => rfl) (fun _ => rfl) rfl rfl
